import Mathlib

/-!
# Inox mutable containers: Object, Dictionary, List

A shallow embedding of `internal/core/mutable_data_structures.go` (and the parts of
`internal/core/parse_json_representation.go` it relies on), followed by theorems about
property ordering, rollback on failed writes, dictionary bookkeeping and mutation emission.

Conventions of the embedding:
* Go slices are Lean lists; an index that is out of range makes the operation panic.
* A Go `string` is a Lean `String`; Go compares strings bytewise, which for valid UTF-8
  coincides with the code-point order used by `String`.
* A slot of interface type that was never assigned holds Go's nil; it is `none` in a
  list of `Option` values.
* Panics, returned errors and emitted notifications are explicit in the result of each
  operation.
-/

namespace Inox

/-! ## Standard library pieces used by `sortProps` -/

/-- Loop of Go's `sort.Search`: the invariant is `f (i-1) = false` and `f j = true`;
each iteration halves `j - i`, so `fuel = j - i` iterations always suffice. -/
def searchLoop (f : Nat → Bool) : Nat → Nat → Nat → Nat
  | 0, i, _ => i
  | fuel + 1, i, j =>
    if i < j then
      let h := (i + j) / 2
      if !f h then searchLoop f fuel (h + 1) j else searchLoop f fuel i h
    else i

/-- Go's `sort.Search(n, f)`: binary search for the smallest index in `[0, n)` at which
`f` is true (`n` if there is none), assuming `f` is false then true. -/
def Search (n : Nat) (f : Nat → Bool) : Nat :=
  searchLoop f n 0 n

/-- Go's `a <= b` on strings (lexicographic), as a computable test. -/
def strLE (a b : String) : Bool := decide (a.toList ≤ b.toList)

/-- Go's `a < b` on strings (lexicographic), as a computable test. -/
def strLT (a b : String) : Bool := decide (a.toList < b.toList)

/-- The relation `a <= b` on strings used for sorting. -/
def keyLE (a b : String) : Prop := strLE a b = true

instance keyLE.decidable : DecidableRel keyLE :=
  fun a b => inferInstanceAs (Decidable (strLE a b = true))

/-- Go's `sort.SearchStrings(a, x)`: `Search(len(a), func(i) { return a[i] >= x })`. -/
def SearchStrings (a : List String) (x : String) : Nat :=
  Search a.length (fun i => strLE x (a.getD i ""))

/-- Go's `sort.Strings`: the slice sorted in increasing order. The order on strings is
linear, so the sorted arrangement is unique and any sorting algorithm gives this list. -/
def sortStrings (a : List String) : List String :=
  a.insertionSort keyLE

/-! ## sortProps -/

/-- The `for i := 0; i < len(keys); i++` loop of `sortProps`; the first argument is
`keys[i:]`. `none` is an index-out-of-range panic. -/
def sortPropsLoop {V : Type} (newKeys : List String) (values : List V) :
    List String → Nat → List V → List Nat → Option (List V × List Nat)
  | [], _, newValues, newIndexes => some (newValues, newIndexes)
  | k :: rest, i, newValues, newIndexes =>
    let newIndex := SearchStrings newKeys k
    match values[i]? with
    | none => none
    | some v =>
      if newIndex < newValues.length ∧ i < newIndexes.length then
        sortPropsLoop newKeys values rest (i + 1) (newValues.set newIndex v)
          (newIndexes.set i newIndex)
      else none

/-- Generic `sortProps[V Value](keys []string, values []V) ([]string, []V, []int)`.
`default` is Go's zero value of `V`, with which `make([]V, len(values))` fills the new
slice. The result is `none` when the Go code panics (index out of range). -/
def sortProps {V : Type} [Inhabited V] (keys : List String) (values : List V) :
    Option (List String × List V × List Nat) :=
  if keys.length = 0 then some ([], [], [])
  else
    let newKeys := sortStrings keys
    let newValues : List V := List.replicate values.length default
    let newIndexes : List Nat := List.replicate values.length 0
    match sortPropsLoop newKeys values keys 0 newValues newIndexes with
    | none => none
    | some (nv, ni) => some (newKeys, nv, ni)

/-- The value found for `k` by the scan `for i, key := range keys { if key == k ... }`
used by `Object.prop`, `HasProp` and `SetProp`: the value at the first index holding `k`,
`none` when no key equals `k`. -/
def propValue {V : Type} (keys : List String) (values : List V) (k : String) : Option V :=
  values[keys.indexOf k]?

/-! ## Values, errors, notifications -/

/-- Serializable Inox values (the kinds the development needs): `Nil`, `Bool`, `Int`,
`Str` and `Path`. -/
inductive Serializable where
  | nil
  | bool (b : Bool)
  | int (i : Int)
  | str (s : String)
  | path (s : String)
  deriving DecidableEq, Repr

/-- Go values of interface type `Value`: the serializable ones and the others, for which
the type assertion `value.(Serializable)` fails. -/
inductive Value where
  | serializable (s : Serializable)
  | notSerializable (tag : Nat)
  deriving DecidableEq, Repr

/-- Errors that are returned or used as panic values. Sentinel errors keep their Go name;
`wrapped` is `fmt.Errorf("...: %w", err)`; `indexOutOfRange` and `typeAssertion` are the
runtime panics of Go. -/
inductive Error where
  | notSerializable
  | ErrConstraintViolation
  | ErrCannotSetValOfIndexKeyProp
  | ErrCannotPopFromEmptyList
  | ErrCannotDequeueFromEmptyList
  | ErrUnreachable
  | indexOutOfRange
  | typeAssertion
  | unknownKey (k : String)
  | invalidKeyRepresentation (repr : String)
  | impossibleToDetermineType
  | assignmentToNilMap
  | wrongLength
  | ErrValueDoesMatchElementPattern
  | ErrValueWithSameKeyAlreadyPresent
  | ErrFailedGetUniqueKeyNoURL
  | ErrOwnerStateNotSet
  | ErrOwnerStateAlreadySet
  | ErrNameCollisionWithInitialDatabasePropertyName
  | ErrDatabaseSchemaOnlyUpdatableByOwnerState
  | ErrNoneDatabaseSchemaUpdateExpected
  | ErrDatabaseSchemaAlreadyUpdatedOrNotAllowed
  | ErrInvalidAccessSchemaNotUpdatedYet
  | ErrNoLoadInstanceFnRegistered
  | ErrNotImplemented
  | ErrURLAlreadySet
  | ErrTestedStringTooLarge
  | ErrTestedPathTooLarge
  | ErrTestedURLTooLarge
  | ErrInvalidDirPath
  | ErrInvalidNonDirPath
  | propertyDoesNotExist (name : String)
  | message (text : String)
  | wrapped (text : String) (inner : Error)
  deriving DecidableEq, Repr

/-- How a call ends: it returns normally with a result, returns a non-nil error, or
panics. -/
inductive Outcome (α : Type) where
  | ok (a : α)
  | error (e : Error)
  | panic (e : Error)
  deriving DecidableEq, Repr

abbrev CallbackHandle := Int

/-- Modelled from the spec: the declaration of `FIRST_VALID_CALLBACK_HANDLE` is not in the
sources; handles are plain integers and `FIRST_VALID_CALLBACK_HANDLE - 1` is the handle
that is not valid. No theorem depends on the number. -/
def FIRST_VALID_CALLBACK_HANDLE : CallbackHandle := 1

/-- Inclusive-or-exclusive integer range `IntRange` (fields as used by the list code and
by the tests: start, end, inclusiveEnd; the step plays no role here). -/
structure IntRange where
  start : Int
  «end» : Int
  inclusiveEnd : Bool
  deriving DecidableEq, Repr

/-- A `Mutation`: one structural change. The constructors are the `New...Mutation`
functions called by the containers; every mutation here is built with depth
`ShallowWatching`, and its path is determined by the name or position, so neither is
stored. -/
inductive Mutation where
  | UpdateProp (name : String) (value : Serializable)
  | AddProp (name : String) (value : Serializable)
  | UpdateEntry (key value : Serializable)
  | AddEntry (key value : Serializable)
  | SetElemAtIndex (i : Int) (value : Serializable)
  | SetSliceAtRange (r : IntRange) (seq : List Serializable)
  | InsertElemAtIndex (i : Int) (value : Serializable)
  | InsertSequenceAtIndex (i : Int) (seq : List Serializable)
  | RemovePosition (i : Int)
  | RemovePositionRange (r : IntRange)
  deriving DecidableEq, Repr

/-- Observable steps of an operation, in program order. -/
inductive Event where
  | lock
  | unlock
  | sysgraphEvent (text : String)
  | newMutation (m : Mutation)
  | informWatchers (m : Mutation)
  | callMicrotasks (m : Mutation)
  | removeMutationCallback (handle : CallbackHandle) (of : Serializable)
  | addMutationCallback (handle : CallbackHandle) (of : Serializable)
  deriving DecidableEq, Repr

/-! ## Patterns used as object constraints -/

/-- Patterns for property values (the default type patterns). -/
inductive Pattern where
  | INT_PATTERN
  | STR_PATTERN
  | BOOL_PATTERN
  | PATH_PATTERN
  | NIL_PATTERN
  | SERIALIZABLE_PATTERN
  deriving DecidableEq, Repr

/-- Modelled from the spec: `Pattern.Test` of the type patterns is not in the sources; a
type pattern accepts exactly the values of its kind. -/
def Pattern.Test : Pattern → Serializable → Bool
  | .INT_PATTERN, .int _ => true
  | .STR_PATTERN, .str _ => true
  | .BOOL_PATTERN, .bool _ => true
  | .PATH_PATTERN, .path _ => true
  | .NIL_PATTERN, .nil => true
  | .SERIALIZABLE_PATTERN, _ => true
  | _, _ => false

/-- An `ObjectPattern`: declared entries, the names of the optional ones, and whether
undeclared properties are tolerated. -/
structure ObjectPattern where
  entryPatterns : List (String × Pattern)
  optionalEntries : List String
  inexact : Bool
  deriving DecidableEq, Repr

/-- Modelled from the spec: `ObjectPattern.Test` is not in the sources (only its tests
are). An object is accepted iff every declared entry is either present with a value that
matches its pattern, or absent and optional, and, when the pattern is exact, every
property of the object is declared. The object is given by its keys and values. -/
def ObjectPattern.Test (patt : ObjectPattern) (keys : List String)
    (values : List (Option Serializable)) : Bool :=
  patt.entryPatterns.all (fun entry =>
    if entry.1 ∈ keys then
      match propValue keys values entry.1 with
      | some (some v) => entry.2.Test v
      | _ => false
    else decide (entry.1 ∈ patt.optionalEntries))
  && (patt.inexact || keys.all (fun k => decide (k ∈ patt.entryPatterns.map Prod.fst)))

/-- What `GetConstraint` returns for a registered id: a `Pattern` that `SetProp` asserts
to be an `*ObjectPattern`. -/
inductive Constraint where
  | object (patt : ObjectPattern)
  | other (patt : Pattern)
  deriving DecidableEq, Repr

abbrev ConstraintId := Nat

/-- Modelled from the spec: `ConstraintId.HasConstraint` is not in the sources; the
constraint reference is optional and the zero id means that there is none. -/
def ConstraintId.HasConstraint (id : ConstraintId) : Bool := id != 0

/-- The write permission checked by `SetProp`; its entity is
`url.ToDirURL().AppendRelativePath("./" + name)`, given here by the two parts. -/
structure DatabasePermission where
  write : Bool
  url : String
  propName : String
  deriving DecidableEq, Repr

/-! ## Schema patterns and migration operations -/

/-- Identity of a `*GlobalState`. -/
abbrev StateId := Nat

/-- Modelled from the spec: the package `containers_common` is not in the sources. The
kinds of uniqueness are the three that `NewSet` assigns: by representation, by URL, by
the value of a property. -/
inductive UniquenessConstraintType where
  | UniqueRepr
  | UniqueURL
  | UniquePropertyValue
  deriving DecidableEq, Repr

/-- Modelled from the spec: the declaration of `UniquenessConstraint` is not in the
sources; it is a comparable struct (`SetPattern.GetMigrationOperations` compares two of
them with `!=`) of the kind and, for `UniquePropertyValue`, the property name. -/
structure UniquenessConstraint where
  «Type» : UniquenessConstraintType
  PropertyName : String := ""
  deriving DecidableEq, Repr

/-- Patterns as they occur in database schemas: a type pattern, an object pattern whose
entries are schema patterns again, or a Set pattern (its `config`: element pattern and
uniqueness). -/
inductive SchemaPattern where
  | type (patt : Pattern)
  | object (entryPatterns : List (String × SchemaPattern)) (optionalEntries : List String)
      (inexact : Bool)
  | set (element : SchemaPattern) (uniqueness : UniquenessConstraint)
  deriving Repr

/-- An `*ObjectPattern` used as a database schema, with the fields that
`TestObjectPattern` sets. -/
structure SchemaObjectPattern where
  entryPatterns : List (String × SchemaPattern)
  optionalEntries : List String := []
  inexact : Bool := false
  deriving Repr

/-- The object pattern as a `Pattern` value. -/
def SchemaObjectPattern.toPattern (patt : SchemaObjectPattern) : SchemaPattern :=
  .object patt.entryPatterns patt.optionalEntries patt.inexact

/-- Modelled from the spec: the declaration of `EMPTY_INEXACT_OBJECT_PATTERN` is not in
the sources; it is the inexact object pattern without entries. -/
def EMPTY_INEXACT_OBJECT_PATTERN : SchemaObjectPattern :=
  { entryPatterns := [], optionalEntries := [], inexact := true }

/-- Modelled from the spec: `ObjectPattern.ForEachEntry` is not in the sources; it
enumerates the declared properties, calls `visit(name, pattern, isOptional)` on each and
stops at the first error, which it returns. -/
def SchemaObjectPattern.ForEachEntry (patt : SchemaObjectPattern)
    (visit : String → SchemaPattern → Bool → Option Error) : Option Error :=
  patt.entryPatterns.findSome? (fun entry =>
    visit entry.1 entry.2 (decide (entry.1 ∈ patt.optionalEntries)))

/-- The `SetConfig` of a Set and of a Set pattern; `Element` may be nil in a Set that was
built from a configuration without element pattern. -/
structure SetConfig where
  Element : Option SchemaPattern
  Uniqueness : UniquenessConstraint
  deriving Repr

/-- A `SetPattern`; `NewSetPattern` replaces a nil element pattern by
`SERIALIZABLE_PATTERN`, so that the element pattern is never nil. -/
structure SetPattern where
  Element : SchemaPattern
  Uniqueness : UniquenessConstraint
  deriving Repr

/-- The constructor `NewSetPattern`. -/
def NewSetPattern (config : SetConfig) : SetPattern :=
  { Element := config.Element.getD (.type .SERIALIZABLE_PATTERN)
    Uniqueness := config.Uniqueness }

/-- The Set pattern as a `Pattern` value. -/
def SetPattern.toPattern (p : SetPattern) : SchemaPattern :=
  .set p.Element p.Uniqueness

/-- The type assertion `next.(*SetPattern)`. -/
def SchemaPattern.asSetPattern : SchemaPattern → Option SetPattern
  | .set element uniqueness => some { Element := element, Uniqueness := uniqueness }
  | _ => none

/-- Modelled from the spec: the declarations of the migration operations are not in the
sources. An operation is a replacement (built with these fields by
`SetPattern.GetMigrationOperations`), a removal or an inclusion (addition) of an entry,
at a pseudo-path. -/
inductive MigrationOp where
  | ReplacementMigrationOp (Current Next : SchemaPattern) (PseudoPath : String)
  | RemovalMigrationOp (Value : SchemaPattern) (PseudoPath : String)
  | InclusionMigrationOp (Value : SchemaPattern) (Optional : Bool) (PseudoPath : String)
  deriving Repr

/-- The elements of a path between its slashes (`strings.Split(path, "/")`). -/
def splitSlash (path : String) : List String :=
  (path.toList.foldr (fun c acc =>
    if c = '/' then [] :: acc
    else match acc with
      | current :: rest => (c :: current) :: rest
      | [] => [[c]]) [[]]).map String.mk

/-- Go's `filepath.Clean` on a slash-separated path: empty and "." elements are dropped,
an inner ".." removes the element before it, a ".." at the root is dropped, and the
empty result is ".". -/
def filepathClean (path : String) : String :=
  let rooted := path.toList.head? = some '/'
  let elements := (splitSlash path).filter (fun s => s != "" && s != ".")
  let kept := elements.foldl (fun (stack : List String) s =>
    if s = ".." then
      match stack.getLast? with
      | some top => if top = ".." then stack ++ [s] else stack.dropLast
      | none => if rooted then stack else stack ++ [s]
    else stack ++ [s]) []
  let out := (if rooted then "/" else "") ++ "/".intercalate kept
  if out = "" then "." else out

/-- Go's `filepath.Join` of two elements: the non-empty elements are joined with a slash
and the result is cleaned; the join of empty elements is empty. -/
def filepathJoin (a b : String) : String :=
  match [a, b].filter (fun s => s != "") with
  | [] => ""
  | elements => filepathClean ("/".intercalate elements)

/-- The method `SetPattern.GetMigrationOperations`, with `core.GetMigrationOperations`
(which it calls on the element patterns) as a parameter: one replacement if the next
pattern is not a Set pattern or has another uniqueness constraint. -/
def SetPattern.GetMigrationOperations
    (coreGetMigrationOperations :
      SchemaPattern → SchemaPattern → String → Except Error (List MigrationOp))
    (p : SetPattern) (next : SchemaPattern) (pseudoPath : String) :
    Except Error (List MigrationOp) :=
  match next.asSetPattern with
  | none => .ok [.ReplacementMigrationOp p.toPattern next pseudoPath]
  | some nextSet =>
    if nextSet.Uniqueness ≠ p.Uniqueness then
      .ok [.ReplacementMigrationOp p.toPattern next pseudoPath]
    else
      coreGetMigrationOperations p.Element nextSet.Element (filepathJoin pseudoPath "*")

/-- The entry of a name among the entries of an object pattern. -/
def entryPattern (entries : List (String × SchemaPattern)) (name : String) :
    Option SchemaPattern :=
  entries.lookup name

mutual
/-- Modelled from the spec: `core.GetMigrationOperations` is not in the sources. Two
object patterns are walked entry by entry (`entryMigrationOperations`), followed by one
inclusion for each entry that only the next pattern declares; a Set pattern answers with
its own method (`SetPattern.GetMigrationOperations`, unfolded here); patterns that are
not diffable give no operation if they are equal and one replacement otherwise. -/
def GetMigrationOperations :
    SchemaPattern → SchemaPattern → String → Except Error (List MigrationOp)
  | .type patt, next, pseudoPath =>
    match next with
    | .type nextPatt =>
      if patt = nextPatt then .ok []
      else .ok [.ReplacementMigrationOp (.type patt) next pseudoPath]
    | _ => .ok [.ReplacementMigrationOp (.type patt) next pseudoPath]
  | .object entries optionalEntries inexact, next, pseudoPath =>
    match next with
    | .object nextEntries nextOptional _ =>
      match entryMigrationOperations entries nextEntries pseudoPath with
      | .error err => .error err
      | .ok ops =>
        .ok (ops ++ (nextEntries.filter (fun entry =>
              (entries.lookup entry.1).isNone)).map (fun entry =>
            .InclusionMigrationOp entry.2 (decide (entry.1 ∈ nextOptional))
              (filepathJoin pseudoPath entry.1)))
    | _ => .ok [.ReplacementMigrationOp (.object entries optionalEntries inexact) next
          pseudoPath]
  | .set element uniqueness, next, pseudoPath =>
    match next with
    | .set nextElement nextUniqueness =>
      if nextUniqueness ≠ uniqueness then
        .ok [.ReplacementMigrationOp (.set element uniqueness) next pseudoPath]
      else GetMigrationOperations element nextElement (filepathJoin pseudoPath "*")
    | _ => .ok [.ReplacementMigrationOp (.set element uniqueness) next pseudoPath]
/-- Modelled from the spec: the walk over the entries of the current object pattern, in
entry order: a removal at `pseudoPath/name` for a name that the next pattern does not
declare, otherwise the operations between the two patterns of the name. -/
def entryMigrationOperations :
    List (String × SchemaPattern) → List (String × SchemaPattern) → String →
      Except Error (List MigrationOp)
  | [], _, _ => .ok []
  | (name, patt) :: rest, nextEntries, pseudoPath =>
    match nextEntries.lookup name with
    | none =>
      match entryMigrationOperations rest nextEntries pseudoPath with
      | .error err => .error err
      | .ok ops => .ok (.RemovalMigrationOp patt (filepathJoin pseudoPath name) :: ops)
    | some nextPatt =>
      match GetMigrationOperations patt nextPatt (filepathJoin pseudoPath name) with
      | .error err => .error err
      | .ok first =>
        match entryMigrationOperations rest nextEntries pseudoPath with
        | .error err => .error err
        | .ok ops => .ok (first ++ ops)
end

mutual
/-- The entry names of an object pattern are pairwise distinct at every level, as the
keys of the Go map that holds the entries are. -/
def SchemaPattern.WellFormed : SchemaPattern → Bool
  | .type _ => true
  | .object entries _ _ => entriesWellFormed entries
  | .set element _ => element.WellFormed
/-- Distinct names and well-formed patterns in a list of entries. -/
def entriesWellFormed : List (String × SchemaPattern) → Bool
  | [] => true
  | (name, patt) :: rest =>
    (rest.lookup name).isNone && patt.WellFormed && entriesWellFormed rest
end

/-- Everything an operation consults outside the container itself: the execution context
(transaction, permissions), the constraint registry and the watchable values. -/
structure Context where
  /-- Result of `txIsolator.WaitIfOtherTransaction(ctx, readOnly)`. -/
  WaitIfOtherTransaction : Bool → Option Error
  /-- Result of `ShareOrClone(value, state)`. -/
  ShareOrClone : Value → Except Error Value
  /-- Registry behind `GetConstraint`. -/
  GetConstraint : ConstraintId → Option Constraint
  /-- Result of `ctx.CheckHasPermission(perm)`. -/
  CheckHasPermission : DatabasePermission → Option Error
  /-- Registration of a mutation callback on a value: `none` if the value is not
  watchable, otherwise the new handle or the error of `OnMutation`. -/
  OnMutation : Serializable → Option (Except Error CallbackHandle)
  /-- Canonical JSON representation of a dictionary key
  (`MustGetJSONRepresentationWithConfig`). -/
  GetJSONRepresentation : Serializable → String
  /-- The string that the JSON library decodes from a JSON string literal. -/
  ReadJSONString : String → String
  /-- Result of parsing a JSON object `{"<typename>__value": ...}` without expected
  pattern (it depends on the registry of named patterns). -/
  ParseTypedJSONObject : String → Except Error Serializable
  /-- Result of `ctx.GetClosestState()` (`none` is a nil pointer). -/
  GetClosestState : Option StateId
  /-- Result of `hasTypeLoadingFunction(pattern)`: whether a loading function is
  registered for the pattern (the registry is not in the sources). -/
  hasTypeLoadingFunction : SchemaPattern → Bool
  /-- Result of `GetMigrationOperations(ctx, current, next, pseudoPath)`. -/
  GetMigrationOperations : SchemaPattern → SchemaPattern → String →
    Except Error (List MigrationOp)
  /-- Result of `CheckSharedOrClone(v, ...)` on a property value (the function is not in
  the sources). -/
  CheckSharedOrClone : Option Serializable → Except Error (Option Serializable)

/-- Modelled from the spec: `IsIndexKey` is not in the sources; index keys are the names
"0", "1", ...: non-empty strings of decimal digits. -/
def IsIndexKey (key : String) : Bool :=
  !key.toList.isEmpty && key.toList.all Char.isDigit

/-- Go's `strconv.Atoi` on a string of decimal digits. -/
def Atoi (s : String) : Int :=
  Int.ofNat (s.toList.foldl (fun n c => 10 * n + (c.toNat - 48)) 0)

/-! ## Object -/

/-- The fields of `Object` that the write path reads or writes. -/
structure Object where
  constraintId : ConstraintId := 0
  implicitPropCount : Int := 0
  /-- The value of `lock.IsValueShared()`. -/
  shared : Bool := false
  url : String := ""
  /-- Whether `mutationCallbacks` is non-nil. -/
  hasMutationCallbacks : Bool := false
  /-- The slice `propMutationCallbacks`: `none` is a nil slice. -/
  propMutationCallbacks : Option (List CallbackHandle) := none
  keys : List String := []
  values : List (Option Serializable) := []
  deriving DecidableEq, Repr

/-- `NewObject()`: the empty object. -/
def NewObject : Object := {}

/-- The loop of `Object.sortProps` that fills the permuted handle slice
(`newPropMutationCallbacks[newIndex] = obj.propMutationCallbacks[i]`); `none` is an
index-out-of-range panic. -/
def remapHandlesLoop (handles : List CallbackHandle) :
    List Nat → Nat → List CallbackHandle → Option (List CallbackHandle)
  | [], _, acc => some acc
  | newIndex :: rest, i, acc =>
    match handles[i]? with
    | none => none
    | some h =>
      if newIndex < acc.length then remapHandlesLoop handles rest (i + 1) (acc.set newIndex h)
      else none

/-- The method `Object.sortProps`: pads the handle slice, sorts keys and values with the
generic `sortProps`, and builds a permuted handle slice, which it does not store. `none` is
a panic. -/
def Object.sortProps (obj : Object) : Option Object :=
  let padded := obj.propMutationCallbacks.map (fun handles =>
    handles ++ List.replicate (obj.keys.length - handles.length) (FIRST_VALID_CALLBACK_HANDLE - 1))
  match Inox.sortProps obj.keys obj.values with
  | none => none
  | some (keys, values, newIndexes) =>
    match padded with
    | none => some { obj with keys := keys, values := values }
    | some handles =>
      match remapHandlesLoop handles newIndexes 0 (List.replicate handles.length 0) with
      | none => none
      | some _ =>
        some { obj with keys := keys, values := values, propMutationCallbacks := some handles }

/-- The loop of `objFrom` that tracks the largest index key. -/
def maxKeyIndex (entryMap : List (String × Serializable)) : Int :=
  entryMap.foldl (fun m kv => if IsIndexKey kv.1 then max m (Atoi kv.1) else m) (-1)

/-- The function `objFrom(entryMap)`. A Go map is given by its entries in the order in
which `range` visits them (any order; the keys of a map are pairwise distinct). `none` is a
panic. -/
def objFrom (entryMap : List (String × Serializable)) : Option Object :=
  Object.sortProps
    { keys := entryMap.map Prod.fst
      values := entryMap.map (fun kv => some kv.2)
      implicitPropCount := maxKeyIndex entryMap + 1 }

/-- The function `objFromLists(keys, values)`. -/
def objFromLists (keys : List String) (values : List (Option Serializable)) : Option Object :=
  Object.sortProps { keys := keys, values := values }

/-- Modelled from the spec: `removePropMutationCallbackNoLock` (and its twins for list
elements and dictionary entries) is not in the sources. Handles are stable per slot: if the
previous value is watchable its callback is removed and the slot is marked as not valid;
the number of slots does not change. `none` is an index-out-of-range panic. -/
def removeMutationCallbackNoLock (ctx : Context) (handles : List CallbackHandle) (index : Nat)
    (previousValue : Option Serializable) : Option (List CallbackHandle × List Event) :=
  match previousValue with
  | none => some (handles, [])
  | some prev =>
    match ctx.OnMutation prev with
    | none => some (handles, [])
    | some _ =>
      match handles[index]? with
      | none => none
      | some h =>
        some (handles.set index (FIRST_VALID_CALLBACK_HANDLE - 1), [.removeMutationCallback h prev])

/-- Modelled from the spec: `addPropMutationCallbackNoLock` (and its twins) is not in the
sources. If the value is watchable a callback is registered on it and its handle is stored
in the slot; a failed registration is returned as an error and leaves the slots as they
were; the number of slots does not change. -/
def addMutationCallbackNoLock (ctx : Context) (handles : List CallbackHandle) (index : Nat)
    (value : Serializable) : Outcome (List CallbackHandle × List Event) :=
  match ctx.OnMutation value with
  | none => .ok (handles, [])
  | some (.error err) => .error err
  | some (.ok h) =>
    if index < handles.length then .ok (handles.set index h, [.addMutationCallback h value])
    else .panic .indexOutOfRange

/-- Result of the part of `SetProp` that runs after `obj.Lock`: the object, how the call
ends, what was emitted, and the value of the variable `unlock` read by the deferred
function. -/
structure LockedResult where
  obj : Object
  outcome : Outcome Unit
  events : List Event
  unlock : Bool
  deriving DecidableEq, Repr

/-- Result of `SetProp`: the object after the call, how the call ended, what it emitted. -/
structure SetPropResult where
  obj : Object
  outcome : Outcome Unit
  events : List Event
  deriving DecidableEq, Repr

/-- The expression `constraint != nil && !constraint.(*ObjectPattern).Test(ctx, obj)`:
`some true` when the test fails, `none` when the type assertion panics. -/
def constraintViolated (constraint : Option Constraint) (keys : List String)
    (values : List (Option Serializable)) : Option Bool :=
  match constraint with
  | none => some false
  | some (.object patt) => some (!patt.Test keys values)
  | some (.other _) => none

/-- The end of both branches of `SetProp`: the mutation is built, the system graph and the
watchers are informed, and, if there are mutation callbacks, the object is unlocked before
the microtasks are called. -/
def Object.informAboutMutation (obj : Object) (mutation : Mutation) (text : String) :
    LockedResult :=
  { obj := obj
    outcome := .ok ()
    events := [.newMutation mutation, .sysgraphEvent text, .informWatchers mutation] ++
      (if obj.hasMutationCallbacks then [.unlock, .callMicrotasks mutation] else [])
    unlock := !obj.hasMutationCallbacks }

/-- The statements of the update branch that follow `obj.sortProps()`: the handle of the
property is renewed when there is a handle slice, then the mutation is announced. -/
def Object.afterUpdate (ctx : Context) (obj2 : Object) (name : String)
    (prevValue : Option Serializable) (serializableVal : Serializable) : LockedResult :=
  match obj2.propMutationCallbacks with
  | none => obj2.informAboutMutation (.UpdateProp name serializableVal) ("prop updated: " ++ name)
  | some handles =>
    if obj2.keys.indexOf name < obj2.keys.length then
      match removeMutationCallbackNoLock ctx handles (obj2.keys.indexOf name) prevValue with
      | none => ⟨obj2, .panic .indexOutOfRange, [], true⟩
      | some (handles1, ev1) =>
        let obj3 := { obj2 with propMutationCallbacks := some handles1 }
        match addMutationCallbackNoLock ctx handles1 (obj2.keys.indexOf name) serializableVal with
        | .panic e => ⟨obj3, .panic e, ev1, true⟩
        | .error e =>
          ⟨obj3, .error (.wrapped
            ("failed to add mutation callback for updated object property " ++ name) e),
            ev1, true⟩
        | .ok (handles2, ev2) =>
          let r := Object.informAboutMutation { obj3 with propMutationCallbacks := some handles2 }
            (.UpdateProp name serializableVal) ("prop updated: " ++ name)
          { r with events := ev1 ++ ev2 ++ r.events }
    else ⟨obj2, .panic (.unknownKey name), [], true⟩

/-- Branch of `SetProp` for a property that is already present at index `i`. -/
def Object.updateProp (ctx : Context) (obj : Object) (constraint : Option Constraint)
    (name : String) (i : Nat) (serializableVal : Serializable) : LockedResult :=
  match obj.values[i]? with
  | none => ⟨obj, .panic .indexOutOfRange, [], true⟩
  | some prevValue =>
    let obj1 := { obj with values := obj.values.set i (some serializableVal) }
    match constraintViolated constraint obj1.keys obj1.values with
    | none => ⟨obj1, .panic .typeAssertion, [], true⟩
    | some true =>
      ⟨{ obj1 with values := obj1.values.set i prevValue }, .error .ErrConstraintViolation, [], true⟩
    | some false =>
      match obj1.sortProps with
      | none => ⟨obj1, .panic .indexOutOfRange, [], true⟩
      | some obj2 => Object.afterUpdate ctx obj2 name prevValue serializableVal

/-- The statements of the addition branch that follow `obj.sortProps()`: a handle is stored
at index `len(obj.keys)-1` when there is a handle slice, then the mutation is announced. -/
def Object.afterAdd (ctx : Context) (obj2 : Object) (name : String)
    (serializableVal : Serializable) : LockedResult :=
  match obj2.propMutationCallbacks with
  | none => obj2.informAboutMutation (.AddProp name serializableVal) ("new prop: " ++ name)
  | some handles =>
    match addMutationCallbackNoLock ctx handles (obj2.keys.length - 1) serializableVal with
    | .panic e => ⟨obj2, .panic e, [], true⟩
    | .error e =>
      ⟨obj2, .error (.wrapped
        ("failed to add mutation callback for new object property " ++ name) e), [], true⟩
    | .ok (handles2, ev2) =>
      let r := Object.informAboutMutation { obj2 with propMutationCallbacks := some handles2 }
        (.AddProp name serializableVal) ("new prop: " ++ name)
      { r with events := ev2 ++ r.events }

/-- Branch of `SetProp` that adds a new property. -/
def Object.addProp (ctx : Context) (obj : Object) (constraint : Option Constraint)
    (name : String) (serializableVal : Serializable) : LockedResult :=
  let obj1 := { obj with keys := obj.keys ++ [name], values := obj.values ++ [some serializableVal] }
  match constraintViolated constraint obj1.keys obj1.values with
  | none => ⟨obj1, .panic .typeAssertion, [], true⟩
  | some true =>
    ⟨{ obj1 with keys := obj1.keys.take (obj1.keys.length - 1),
                 values := obj1.values.take (obj1.values.length - 1) },
      .error .ErrConstraintViolation, [], true⟩
  | some false =>
    match obj1.sortProps with
    | none => ⟨obj1, .panic .indexOutOfRange, [], true⟩
    | some obj2 => Object.afterAdd ctx obj2 name serializableVal

/-- The lookup `if obj.constraintId.HasConstraint() { constraint, _ = GetConstraint(...) }`:
`none` is the nil pattern. -/
def Object.constraint (ctx : Context) (obj : Object) : Option Constraint :=
  if obj.constraintId.HasConstraint then ctx.GetConstraint obj.constraintId else none

/-- The permission check `if obj.url != "" { ... ctx.CheckHasPermission(perm) }` for
writing the property `name`: the error, if any. -/
def Object.writePermissionError (ctx : Context) (obj : Object) (name : String) : Option Error :=
  if obj.url != "" then ctx.CheckHasPermission ⟨true, obj.url, name⟩ else none

/-- The statement `if obj.IsShared() { newVal, err := ShareOrClone(value, closestState) ... }`:
the value of the variable `value` afterwards, or the error. -/
def Object.shareValue (ctx : Context) (obj : Object) (value : Value) : Except Error Value :=
  if obj.shared then ctx.ShareOrClone value else .ok value

/-- The part of `SetProp` between `obj.Lock(closestState)` and the return. -/
def Object.setPropLocked (ctx : Context) (obj : Object) (name : String)
    (serializableVal : Serializable) : LockedResult :=
  if IsIndexKey name then ⟨obj, .panic .ErrCannotSetValOfIndexKeyProp, [], true⟩
  else
    match obj.writePermissionError ctx name with
    | some err => ⟨obj, .error err, [], true⟩
    | none =>
      if name ∈ obj.keys then
        obj.updateProp ctx (obj.constraint ctx) name (obj.keys.indexOf name) serializableVal
      else obj.addProp ctx (obj.constraint ctx) name serializableVal

/-- The method `Object.SetProp(ctx, name, value)`. The shared or cloned value is assigned
to the variable `value`, which is not read again: the stored value is `serializableVal`. -/
def Object.SetProp (ctx : Context) (obj : Object) (name : String) (value : Value) :
    SetPropResult :=
  match value with
  | .notSerializable _ => ⟨obj, .error .notSerializable, []⟩
  | .serializable serializableVal =>
    match ctx.WaitIfOtherTransaction false with
    | some err => ⟨obj, .error err, []⟩
    | none =>
      match obj.shareValue ctx value with
      | .error err =>
        ⟨obj, .error (.wrapped ("failed to share/clone value when setting property " ++ name) err), []⟩
      | .ok _ =>
        let r := obj.setPropLocked ctx name serializableVal
        ⟨r.obj, r.outcome, [Event.lock] ++ r.events ++ (if r.unlock then [Event.unlock] else [])⟩

/-- The keys and values on which `SetProp` evaluates the constraint: the slot of `name`
overwritten if the property is present, the new pair appended (not yet sorted) if not. -/
def Object.withProp (obj : Object) (name : String) (v : Serializable) :
    List String × List (Option Serializable) :=
  if name ∈ obj.keys then (obj.keys, obj.values.set (obj.keys.indexOf name) (some v))
  else (obj.keys ++ [name], obj.values ++ [some v])

/-- A representation function for examples: strings are quoted (as in the tests, where the
key `"a"` has the representation `"\"a\""`), the other kinds are wrapped with their type
name. -/
def exampleJSONRepresentation : Serializable → String
  | .str s => "\"" ++ s ++ "\""
  | .path s => "\x7b\"path__value\":\"" ++ s ++ "\"\x7d"
  | .bool true => "true"
  | .bool false => "false"
  | .nil => "null"
  | .int i => "\x7b\"int__value\":\"" ++ toString i ++ "\"\x7d"

/-- A context in which nothing interferes: no transaction to wait for, sharing succeeds,
no constraint is registered, every permission is granted, no value is watchable. -/
def Context.permissive : Context :=
  { WaitIfOtherTransaction := fun _ => none
    ShareOrClone := fun v => .ok v
    GetConstraint := fun _ => none
    CheckHasPermission := fun _ => none
    OnMutation := fun _ => none
    GetJSONRepresentation := exampleJSONRepresentation
    ReadJSONString := fun s => String.mk ((s.toList.drop 1).takeWhile (fun c => c != '"'))
    ParseTypedJSONObject := fun _ => .error .impossibleToDetermineType
    GetClosestState := some 1
    hasTypeLoadingFunction := fun _ => true
    GetMigrationOperations := Inox.GetMigrationOperations
    CheckSharedOrClone := fun v => .ok v }

/-- The keys are strictly ascending in the lexicographic order of strings. -/
def keysAscending (keys : List String) : Prop :=
  keys.Sorted (fun a b => strLT a b = true)

instance keysAscending.decidable (keys : List String) : Decidable (keysAscending keys) :=
  inferInstanceAs (Decidable (List.Pairwise (fun a b => strLT a b = true) keys))

/-- The object stores exactly the bindings `bound`: as many values as keys, keys strictly
ascending, and the property scan finds for every name the value bound to it (nothing for
an unbound name). -/
def Object.Holds (obj : Object) (bound : String → Option Serializable) : Prop :=
  obj.values.length = obj.keys.length ∧ keysAscending obj.keys ∧
    ∀ k, propValue obj.keys obj.values k = (bound k).map some

/-- Objects obtained from `objFrom` by successful `SetProp` calls (in any contexts),
together with the bindings made so far: those of the map, overridden by each call. -/
inductive Object.Built : Object → (String → Option Serializable) → Prop where
  | objFrom (entryMap : List (String × Serializable)) (obj : Object) :
      (entryMap.map Prod.fst).Nodup → Inox.objFrom entryMap = some obj →
      Object.Built obj (fun k => entryMap.lookup k)
  | SetProp {obj : Object} {bound : String → Option Serializable} (ctx : Context)
      (name : String) (v : Serializable) :
      Object.Built obj bound →
      (obj.SetProp ctx name (.serializable v)).outcome = .ok () →
      Object.Built (obj.SetProp ctx name (.serializable v)).obj
        (Function.update bound name (some v))

/-- A context in which the constraint with id 1 is the exact object pattern `{a: int}`. -/
def Context.withIntConstraint : Context :=
  { Context.permissive with
    GetConstraint := fun id =>
      if id = 1 then some (.object ⟨[("a", .INT_PATTERN)], [], false⟩) else none }

/-- Successive `SetProp` calls for the given bindings, in list order, in one context;
`none` as soon as a call does not return nil. -/
def Object.setProps (ctx : Context) (obj : Object) : List (String × Serializable) → Option Object
  | [] => some obj
  | kv :: rest =>
    if (obj.SetProp ctx kv.1 (.serializable kv.2)).outcome = .ok () then
      Object.setProps ctx (obj.SetProp ctx kv.1 (.serializable kv.2)).obj rest
    else none

/-- The bindings after binding each pair of the list in turn. -/
def bindAll (bound : String → Option Serializable) (bindings : List (String × Serializable)) :
    String → Option Serializable :=
  bindings.foldl (fun b kv => Function.update b kv.1 (some kv.2)) bound

/-- An object without identity URL, constraint or handle slice that is not shared, as
`NewObject()` and `objFrom` make them. -/
def Object.Plain (obj : Object) : Prop :=
  obj.propMutationCallbacks = none ∧ obj.constraintId = 0 ∧ obj.url = "" ∧ obj.shared = false

/-- The keys slice and the values slice of the object an operation returned, if it
returned one. -/
def slicesOf (result : Option Object) : Option (List String × List (Option Serializable)) :=
  result.map (fun obj => (obj.keys, obj.values))

/-- A context whose mutation-callback registration fails for every value. -/
def Context.failingRegistration : Context :=
  { Context.permissive with
    OnMutation := fun _ => some (.error (.message "cannot register callback")) }

/-! ## Dictionary -/

/-- Kinds of JSON values as the JSON library reports them (`jsoniter.ValueType`). -/
inductive ValueType where
  | InvalidValue
  | StringValue
  | NumberValue
  | NilValue
  | BoolValue
  | ArrayValue
  | ObjectValue
  deriving DecidableEq, Repr

/-- The kind that the JSON library announces for a text (`Iterator.WhatIsNext`): it skips
white space and classifies the next byte. -/
def WhatIsNext (s : String) : ValueType :=
  match s.toList.dropWhile (fun c => c == ' ' || c == '\n' || c == '\t' || c == '\r') with
  | [] => .InvalidValue
  | c :: _ =>
    if c == '"' then .StringValue
    else if c == '-' || c.isDigit then .NumberValue
    else if c == 't' || c == 'f' then .BoolValue
    else if c == 'n' then .NilValue
    else if c == '[' then .ArrayValue
    else if c == '\x7b' then .ObjectValue
    else .InvalidValue

/-- The function `ParseJSONRepresentation(ctx, s, nil)`, that is `parseJSONRepresentation`
with a nil pattern: an object is parsed as a typed value; of the other kinds only booleans,
strings and null are accepted, everything else ends with "impossible to determine type". -/
def ParseJSONRepresentation (ctx : Context) (s : String) : Except Error Serializable :=
  match WhatIsNext s with
  | .ObjectValue => ctx.ParseTypedJSONObject s
  | .BoolValue =>
    .ok (.bool ((s.toList.dropWhile (fun c => c == ' ' || c == '\n' || c == '\t' || c == '\r')).head?
      == some 't'))
  | .StringValue => .ok (.str (ctx.ReadJSONString s))
  | .NilValue => .ok .nil
  | _ => .error .impossibleToDetermineType

/-- Go's `m[k]` on a map given by its entries. -/
def mapGet {β : Type} (m : List (String × β)) (k : String) : Option β :=
  m.lookup k

/-- Go's `m[k] = v` on a map given by its entries: the entry of `k` is replaced, or added
if there is none. -/
def mapSet {β : Type} (m : List (String × β)) (k : String) (v : β) : List (String × β) :=
  if (m.lookup k).isSome then m.map (fun kv => if kv.1 = k then (k, v) else kv)
  else m ++ [(k, v)]

/-- The fields of `Dictionary`: the two maps (by key representation), whether there are
mutation callbacks, and the handles of the entries (`none` is a nil map). -/
structure Dictionary where
  entries : List (String × Serializable) := []
  keys : List (String × Serializable) := []
  hasMutationCallbacks : Bool := false
  entryMutationCallbacks : Option (List (String × CallbackHandle)) := none
  deriving DecidableEq, Repr

/-- The loop of `NewDictionary` over the entries of the map, in iteration order; the error
is the panic value. -/
def NewDictionaryLoop (ctx : Context) :
    List (String × Serializable) → Dictionary → Except Error Dictionary
  | [], dict => .ok dict
  | (keyRepresentation, v) :: rest, dict =>
    match ParseJSONRepresentation ctx keyRepresentation with
    | .error _ => .error (.invalidKeyRepresentation keyRepresentation)
    | .ok key =>
      NewDictionaryLoop ctx rest
        { dict with entries := mapSet dict.entries keyRepresentation v,
                    keys := mapSet dict.keys keyRepresentation key }

/-- The function `NewDictionary(entries)`; the error is the panic value. -/
def NewDictionary (ctx : Context) (entries : List (String × Serializable)) :
    Except Error Dictionary :=
  NewDictionaryLoop ctx entries {}

/-- The method `getKeyRepr`. -/
def Dictionary.getKeyRepr (ctx : Context) (key : Serializable) : String :=
  ctx.GetJSONRepresentation key

/-- The loop of `NewDictionaryFromKeyValueLists`; `none` is an index-out-of-range panic. -/
def NewDictionaryFromKeyValueListsLoop (ctx : Context) (values : List Serializable) :
    List Serializable → Nat → Dictionary → Option Dictionary
  | [], _, dict => some dict
  | key :: rest, i, dict =>
    match values[i]? with
    | none => none
    | some v =>
      NewDictionaryFromKeyValueListsLoop ctx values rest (i + 1)
        { dict with entries := mapSet dict.entries (Dictionary.getKeyRepr ctx key) v,
                    keys := mapSet dict.keys (Dictionary.getKeyRepr ctx key) key }

/-- The function `NewDictionaryFromKeyValueLists(keys, values, ctx)`; the error is the
panic value. -/
def NewDictionaryFromKeyValueLists (ctx : Context) (keys values : List Serializable) :
    Except Error Dictionary :=
  if keys.length != values.length then .error .wrongLength
  else
    match NewDictionaryFromKeyValueListsLoop ctx values keys 0 {} with
    | none => .error .indexOutOfRange
    | some dict => .ok dict

/-- The method `Dictionary.Value(ctx, key)`: the value (`none` is the nil `Value`) and
whether an entry was found. -/
def Dictionary.Value (ctx : Context) (d : Dictionary) (key : Serializable) :
    Option Serializable × Bool :=
  match mapGet d.entries (Dictionary.getKeyRepr ctx key) with
  | some v => (some v, true)
  | none => (none, false)

/-- Modelled from the spec: `removeEntryMutationCallbackNoLock` is not in the sources. If
the previous value is watchable its callback is removed and its handle is dropped from the
map of handles. -/
def removeEntryMutationCallbackNoLock (ctx : Context) (handles : List (String × CallbackHandle))
    (keyRepr : String) (previousValue : Serializable) :
    List (String × CallbackHandle) × List Event :=
  match ctx.OnMutation previousValue, mapGet handles keyRepr with
  | some _, some h =>
    (handles.filter (fun kv => kv.1 != keyRepr), [.removeMutationCallback h previousValue])
  | _, _ => (handles, [])

/-- Modelled from the spec: `addEntryMutationCallbackNoLock` is not in the sources. If the
value is watchable a callback is registered on it and its handle is stored under the key
representation; a failed registration is returned as an error; a nil map of handles cannot
be written. -/
def addEntryMutationCallbackNoLock (ctx : Context)
    (handles : Option (List (String × CallbackHandle))) (keyRepr : String) (value : Serializable) :
    Outcome (Option (List (String × CallbackHandle)) × List Event) :=
  match ctx.OnMutation value with
  | none => .ok (handles, [])
  | some (.error err) => .error err
  | some (.ok h) =>
    match handles with
    | none => .panic .assignmentToNilMap
    | some m => .ok (some (mapSet m keyRepr h), [.addMutationCallback h value])

/-- Result of `SetValue`: the dictionary after the call, how the call ended (it returns
nothing or panics), what it emitted. -/
structure SetValueResult where
  dict : Dictionary
  outcome : Outcome Unit
  events : List Event
  deriving DecidableEq, Repr

/-- The notification at the end of both branches of `SetValue`. -/
def Dictionary.informAboutMutation (d : Dictionary) (mutation : Mutation) (before : List Event) :
    SetValueResult :=
  ⟨d, .ok (), before ++ [.newMutation mutation, .informWatchers mutation] ++
    (if d.hasMutationCallbacks then [.callMicrotasks mutation] else [])⟩

/-- The method `Dictionary.SetValue(ctx, key, value)`. Only the map `entries` is
written. -/
def Dictionary.SetValue (ctx : Context) (d : Dictionary) (key value : Serializable) :
    SetValueResult :=
  let keyRepr := Dictionary.getKeyRepr ctx key
  let d1 := { d with entries := mapSet d.entries keyRepr value }
  match mapGet d.entries keyRepr with
  | some prevValue =>
    match d1.entryMutationCallbacks with
    | none => d1.informAboutMutation (.UpdateEntry key value) []
    | some handles =>
      match removeEntryMutationCallbackNoLock ctx handles keyRepr prevValue with
      | (handles1, ev1) =>
        let d2 := { d1 with entryMutationCallbacks := some handles1 }
        match addEntryMutationCallbackNoLock ctx (some handles1) keyRepr value with
        | .panic e => ⟨d2, .panic e, ev1⟩
        | .error e =>
          ⟨d2, .panic (.wrapped
            ("failed to add mutation callback for updated dictionary entry " ++ keyRepr) e), ev1⟩
        | .ok (handles2, ev2) =>
          Dictionary.informAboutMutation { d2 with entryMutationCallbacks := handles2 }
            (.UpdateEntry key value) (ev1 ++ ev2)
  | none =>
    match addEntryMutationCallbackNoLock ctx d1.entryMutationCallbacks keyRepr value with
    | .panic e => ⟨d1, .panic e, []⟩
    | .error e =>
      ⟨d1, .panic (.wrapped
        ("failed to add mutation callback for added dictionary entry " ++ keyRepr) e), []⟩
    | .ok (handles2, ev2) =>
      Dictionary.informAboutMutation { d1 with entryMutationCallbacks := handles2 }
        (.AddEntry key value) ev2

/-- Whether the two maps of a dictionary have the same set of key representations. -/
def Dictionary.sameReprs (d : Dictionary) : Bool :=
  d.entries.all (fun kv => (mapGet d.keys kv.1).isSome) &&
    d.keys.all (fun kv => (mapGet d.entries kv.1).isSome)

/-- The pairs (key representation, value) of parallel key and value lists. -/
def reprPairs (ctx : Context) (keys values : List Serializable) : List (String × Serializable) :=
  (keys.zip values).map (fun kv => (Dictionary.getKeyRepr ctx kv.1, kv.2))

/-- Dictionaries made by a constructor and then changed by `SetValue` calls, together with
the value stored last under each key representation. -/
inductive Dictionary.Built (ctx : Context) : Dictionary → (String → Option Serializable) → Prop where
  | NewDictionary (entries : List (String × Serializable)) (d : Dictionary) :
      (entries.map Prod.fst).Nodup → Inox.NewDictionary ctx entries = .ok d →
      Dictionary.Built ctx d (fun r => entries.lookup r)
  | NewDictionaryFromKeyValueLists (keys values : List Serializable) (d : Dictionary) :
      Inox.NewDictionaryFromKeyValueLists ctx keys values = .ok d →
      Dictionary.Built ctx d (bindAll (fun _ => none) (reprPairs ctx keys values))
  | SetValue {d : Dictionary} {stored : String → Option Serializable} (key value : Serializable) :
      Dictionary.Built ctx d stored →
      Dictionary.Built ctx (d.SetValue ctx key value).dict
        (Function.update stored (Dictionary.getKeyRepr ctx key) (some value))

/-! ## List -/

/-- Modelled from the spec: `IntRange.InclusiveEnd` is not in the sources; it is the last
integer of the range. -/
def IntRange.InclusiveEnd (r : IntRange) : Int :=
  if r.inclusiveEnd then r.end else r.end - 1

/-- The function `NewIncludedEndIntRange(start, end)`. -/
def NewIncludedEndIntRange (start stop : Int) : IntRange :=
  ⟨start, stop, true⟩

/-- Modelled from the spec: the implementations of `underlyingList` are not in the sources;
the spec allows a single generic backing store, so the elements are a plain sequence and
the operations have their usual meaning. `At` panics (`none`) when the index is out of
bounds. -/
def underlyingList.At (elements : List Serializable) (i : Int) : Option Serializable :=
  if 0 ≤ i then elements[i.toNat]? else none

/-- Modelled from the spec: `underlyingList.set`, see `underlyingList.At`. -/
def underlyingList.set (elements : List Serializable) (i : Int) (v : Serializable) :
    Option (List Serializable) :=
  if 0 ≤ i ∧ i.toNat < elements.length then some (elements.set i.toNat v) else none

/-- Modelled from the spec: `underlyingList.SetSlice`, see `underlyingList.At`; the
sequence must have the length of the slice. -/
def underlyingList.SetSlice (elements : List Serializable) (start stop : Int)
    (seq : List Serializable) : Option (List Serializable) :=
  if 0 ≤ start ∧ start ≤ stop ∧ stop.toNat ≤ elements.length ∧
      seq.length = (stop - start).toNat then
    some (elements.take start.toNat ++ seq ++ elements.drop stop.toNat)
  else none

/-- Modelled from the spec: `underlyingList.insertSequence`, see `underlyingList.At`. -/
def underlyingList.insertSequence (elements : List Serializable) (seq : List Serializable)
    (i : Int) : Option (List Serializable) :=
  if 0 ≤ i ∧ i.toNat ≤ elements.length then
    some (elements.take i.toNat ++ seq ++ elements.drop i.toNat)
  else none

/-- Modelled from the spec: `underlyingList.insertElement`, see `underlyingList.At`. -/
def underlyingList.insertElement (elements : List Serializable) (v : Serializable) (i : Int) :
    Option (List Serializable) :=
  underlyingList.insertSequence elements [v] i

/-- Modelled from the spec: `underlyingList.removePosition`, see `underlyingList.At`. -/
def underlyingList.removePosition (elements : List Serializable) (i : Int) :
    Option (List Serializable) :=
  if 0 ≤ i ∧ i.toNat < elements.length then some (elements.eraseIdx i.toNat) else none

/-- Modelled from the spec: `underlyingList.removePositionRange`, see `underlyingList.At`;
the positions from the start of the range to its last integer are removed. -/
def underlyingList.removePositionRange (elements : List Serializable) (r : IntRange) :
    Option (List Serializable) :=
  if 0 ≤ r.start ∧ r.start ≤ r.InclusiveEnd ∧ r.InclusiveEnd.toNat < elements.length then
    some (elements.take r.start.toNat ++ elements.drop (r.InclusiveEnd.toNat + 1))
  else none

/-- Go's `slices.Insert(s, i, vs...)`; `none` is its panic for `i > len(s)`. -/
def slicesInsert {α : Type} (s : List α) (i : Int) (vs : List α) : Option (List α) :=
  if 0 ≤ i ∧ i.toNat ≤ s.length then some (s.take i.toNat ++ vs ++ s.drop i.toNat) else none

/-- Go's `slices.Replace(s, i, j)` without replacement values: `s[i:j]` is removed; `none`
is its panic for bounds out of range. -/
def slicesReplace {α : Type} (s : List α) (i j : Int) : Option (List α) :=
  if 0 ≤ i ∧ i ≤ j ∧ j.toNat ≤ s.length then some (s.take i.toNat ++ s.drop j.toNat) else none

/-- Modelled from the spec: `makeMutationCallbackHandles(n)` is not in the sources; it makes
`n` handles that are not valid yet. -/
def makeMutationCallbackHandles (n : Nat) : List CallbackHandle :=
  List.replicate n (FIRST_VALID_CALLBACK_HANDLE - 1)

/-- The integers `lo, lo+1, ..., hi-1` visited by `for i := lo; i < hi; i++`. -/
def intRange (lo hi : Int) : List Int :=
  (List.range (hi - lo).toNat).map (fun k => lo + (k : Int))

/-- The fields of `List`: the elements of the underlying list and the handle slice
`elementMutationCallbacks` (`none` is a nil slice). -/
structure InoxList where
  elements : List Serializable := []
  elementMutationCallbacks : Option (List CallbackHandle) := none
  deriving DecidableEq, Repr

/-- Result of a method of `List`: the list after the call, how the call ended (with the
returned value, if any), what it emitted. -/
structure ListResult (α : Type) where
  list : InoxList
  outcome : Outcome α
  events : List Event

/-- The method `Len()`. -/
def InoxList.Len (l : InoxList) : Int := l.elements.length

/-- A loop `for ... { l.removeElementMutationCallbackNoLock(ctx, i, l.underlyingList.At(ctx,
i)) }` over the given positions; `none` is an index-out-of-range panic. -/
def removeCallbacksLoop (ctx : Context) (elements : List Serializable) :
    List Int → List CallbackHandle → List Event → Option (List CallbackHandle × List Event)
  | [], handles, events => some (handles, events)
  | i :: rest, handles, events =>
    match underlyingList.At elements i with
    | none => none
    | some prev =>
      match removeMutationCallbackNoLock ctx handles i.toNat (some prev) with
      | none => none
      | some (handles1, ev1) => removeCallbacksLoop ctx elements rest handles1 (events ++ ev1)

/-- The call `l.addElementMutationCallbackNoLock(ctx, i, v)`, which returns nothing: a
failed registration is a panic. -/
def addElementMutationCallbackNoLock (ctx : Context) (handles : List CallbackHandle) (i : Int)
    (v : Serializable) : Except Error (List CallbackHandle × List Event) :=
  match addMutationCallbackNoLock ctx handles i.toNat v with
  | .ok r => .ok r
  | .error e => .error e
  | .panic e => .error e

/-- A loop `for ... { l.addElementMutationCallbackNoLock(ctx, i, <value at i>) }` over the
given positions, the values being read with `valueAt`; the error is the panic value. -/
def addCallbacksLoop (ctx : Context) (valueAt : Int → Option Serializable) :
    List Int → List CallbackHandle → List Event → Except Error (List CallbackHandle × List Event)
  | [], handles, events => .ok (handles, events)
  | i :: rest, handles, events =>
    match valueAt i with
    | none => .error .indexOutOfRange
    | some v =>
      match addElementMutationCallbackNoLock ctx handles i v with
      | .error e => .error e
      | .ok (handles1, ev1) => addCallbacksLoop ctx valueAt rest handles1 (events ++ ev1)

/-- The end of the list methods: the mutation is built, then the watchers are informed and
the microtasks called (`SetSlice` calls the microtasks first). -/
def InoxList.informAboutMutation (l : InoxList) (mutation : Mutation) (before : List Event)
    (microtasksFirst : Bool) : ListResult Unit :=
  ⟨l, .ok (), before ++ [.newMutation mutation] ++
    (if microtasksFirst then [.callMicrotasks mutation, .informWatchers mutation]
     else [.informWatchers mutation, .callMicrotasks mutation])⟩

/-- The method `List.set(ctx, i, v)` (with a serializable `v`). -/
def InoxList.set (ctx : Context) (l : InoxList) (i : Int) (v : Serializable) : ListResult Unit :=
  match underlyingList.At l.elements i with
  | none => ⟨l, .panic .indexOutOfRange, []⟩
  | some prevElement =>
    match underlyingList.set l.elements i v with
    | none => ⟨l, .panic .indexOutOfRange, []⟩
    | some elements =>
      match l.elementMutationCallbacks with
      | none => InoxList.informAboutMutation { l with elements := elements }
          (.SetElemAtIndex i v) [] false
      | some handles =>
        match removeMutationCallbackNoLock ctx handles i.toNat (some prevElement) with
        | none => ⟨{ l with elements := elements }, .panic .indexOutOfRange, []⟩
        | some (handles1, ev1) =>
          match addElementMutationCallbackNoLock ctx handles1 i v with
          | .error e => ⟨⟨elements, some handles1⟩, .panic e, ev1⟩
          | .ok (handles2, ev2) =>
            InoxList.informAboutMutation ⟨elements, some handles2⟩ (.SetElemAtIndex i v)
              (ev1 ++ ev2) false

/-- The method `List.SetSlice(ctx, start, end, seq)`. -/
def InoxList.SetSlice (ctx : Context) (l : InoxList) (start stop : Int)
    (seq : List Serializable) : ListResult Unit :=
  match l.elementMutationCallbacks with
  | none =>
    match underlyingList.SetSlice l.elements start stop seq with
    | none => ⟨l, .panic .indexOutOfRange, []⟩
    | some elements =>
      InoxList.informAboutMutation { l with elements := elements }
        (.SetSliceAtRange (NewIncludedEndIntRange start (stop - 1)) seq) [] true
  | some handles =>
    match removeCallbacksLoop ctx l.elements (intRange start stop) handles [] with
    | none => ⟨l, .panic .indexOutOfRange, []⟩
    | some (handles1, ev1) =>
      match underlyingList.SetSlice l.elements start stop seq with
      | none => ⟨⟨l.elements, some handles1⟩, .panic .indexOutOfRange, ev1⟩
      | some elements =>
        match addCallbacksLoop ctx (underlyingList.At elements) (intRange start stop) handles1 ev1 with
        | .error e => ⟨⟨elements, some handles1⟩, .panic e, ev1⟩
        | .ok (handles2, ev2) =>
          InoxList.informAboutMutation ⟨elements, some handles2⟩
            (.SetSliceAtRange (NewIncludedEndIntRange start (stop - 1)) seq) ev2 true

/-- The common body of `insertSequence` and `append`: the sequence is inserted in the
underlying list at `i`, as many fresh handles are inserted in the handle slice, and a
callback is registered for each new element. -/
def InoxList.insertWithHandles (ctx : Context) (l : InoxList) (elements : List Serializable)
    (seq : List Serializable) (i : Int) (mutation : Mutation) : ListResult Unit :=
  match l.elementMutationCallbacks with
  | none => InoxList.informAboutMutation { l with elements := elements } mutation [] false
  | some handles =>
    match slicesInsert handles i (makeMutationCallbackHandles seq.length) with
    | none => ⟨{ l with elements := elements }, .panic .indexOutOfRange, []⟩
    | some handles1 =>
      match addCallbacksLoop ctx (fun index => underlyingList.At seq (index - i))
          (intRange i (i + seq.length)) handles1 [] with
      | .error e => ⟨⟨elements, some handles1⟩, .panic e, []⟩
      | .ok (handles2, ev2) =>
        InoxList.informAboutMutation ⟨elements, some handles2⟩ mutation ev2 false

/-- The method `List.insertElement(ctx, v, i)` (with a serializable `v`). -/
def InoxList.insertElement (ctx : Context) (l : InoxList) (v : Serializable) (i : Int) :
    ListResult Unit :=
  match underlyingList.insertElement l.elements v i with
  | none => ⟨l, .panic .indexOutOfRange, []⟩
  | some elements =>
    InoxList.insertWithHandles ctx l elements [v] i (.InsertElemAtIndex i v)

/-- The method `List.insertSequence(ctx, seq, i)`. -/
def InoxList.insertSequence (ctx : Context) (l : InoxList) (seq : List Serializable) (i : Int) :
    ListResult Unit :=
  match underlyingList.insertSequence l.elements seq i with
  | none => ⟨l, .panic .indexOutOfRange, []⟩
  | some elements =>
    InoxList.insertWithHandles ctx l elements seq i (.InsertSequenceAtIndex i seq)

/-- The method `List.append(ctx, elements...)`. -/
def InoxList.append (ctx : Context) (l : InoxList) (elements : List Serializable) :
    ListResult Unit :=
  InoxList.insertWithHandles ctx l (l.elements ++ elements) elements l.Len
    (.InsertSequenceAtIndex l.Len elements)

/-- The method `List.removePosition(ctx, i)`: the element is removed from the underlying
list first; with a handle slice, the callback is then removed for the element that
`l.underlyingList.At(ctx, i)` returns after the removal, and the handle is dropped. -/
def InoxList.removePosition (ctx : Context) (l : InoxList) (i : Int) : ListResult Unit :=
  match underlyingList.removePosition l.elements i with
  | none => ⟨l, .panic .indexOutOfRange, []⟩
  | some elements =>
    match l.elementMutationCallbacks with
    | none => InoxList.informAboutMutation { l with elements := elements } (.RemovePosition i)
        [] false
    | some handles =>
      match removeCallbacksLoop ctx elements [i] handles [] with
      | none => ⟨⟨elements, some handles⟩, .panic .indexOutOfRange, []⟩
      | some (handles1, ev1) =>
        match slicesReplace handles1 i (i + 1) with
        | none => ⟨⟨elements, some handles1⟩, .panic .indexOutOfRange, ev1⟩
        | some handles2 =>
          InoxList.informAboutMutation ⟨elements, some handles2⟩ (.RemovePosition i) ev1 false

/-- The method `List.removePositionRange(ctx, r)`. -/
def InoxList.removePositionRange (ctx : Context) (l : InoxList) (r : IntRange) :
    ListResult Unit :=
  match underlyingList.removePositionRange l.elements r with
  | none => ⟨l, .panic .indexOutOfRange, []⟩
  | some elements =>
    match l.elementMutationCallbacks with
    | none => InoxList.informAboutMutation { l with elements := elements }
        (.RemovePositionRange r) [] false
    | some handles =>
      match removeCallbacksLoop ctx elements (intRange r.start r.end) handles [] with
      | none => ⟨⟨elements, some handles⟩, .panic .indexOutOfRange, []⟩
      | some (handles1, ev1) =>
        match slicesReplace handles1 r.start r.end with
        | none => ⟨⟨elements, some handles1⟩, .panic .indexOutOfRange, ev1⟩
        | some handles2 =>
          InoxList.informAboutMutation ⟨elements, some handles2⟩ (.RemovePositionRange r) ev1
            false

/-- The methods `Dequeue` and `Pop` after their emptiness check: the element at `i` is
read, then removed with `removePosition`, then returned. -/
def InoxList.takeAt (ctx : Context) (l : InoxList) (i : Int) : ListResult Serializable :=
  match underlyingList.At l.elements i with
  | none => ⟨l, .panic .indexOutOfRange, []⟩
  | some elem =>
    match (l.removePosition ctx i).outcome with
    | .ok _ => ⟨(l.removePosition ctx i).list, .ok elem, (l.removePosition ctx i).events⟩
    | .error e => ⟨(l.removePosition ctx i).list, .error e, (l.removePosition ctx i).events⟩
    | .panic e => ⟨(l.removePosition ctx i).list, .panic e, (l.removePosition ctx i).events⟩

/-- The method `List.Dequeue(ctx)`. -/
def InoxList.Dequeue (ctx : Context) (l : InoxList) : ListResult Serializable :=
  if l.Len = 0 then ⟨l, .panic .ErrCannotDequeueFromEmptyList, []⟩
  else l.takeAt ctx 0

/-- The method `List.Pop(ctx)`. -/
def InoxList.Pop (ctx : Context) (l : InoxList) : ListResult Serializable :=
  if l.Len - 1 < 0 then ⟨l, .panic .ErrCannotPopFromEmptyList, []⟩
  else l.takeAt ctx (l.Len - 1)

/-! ## Reading the emitted events -/

/-- The mutations constructed during an operation, in order. -/
def mutationsBuilt (events : List Event) : List Mutation :=
  events.filterMap (fun e => match e with | .newMutation m => some m | _ => none)

/-- The mutations passed to the watchers (`InformAboutAsync`), in order. -/
def watchersInformed (events : List Event) : List Mutation :=
  events.filterMap (fun e => match e with | .informWatchers m => some m | _ => none)

/-- The mutations passed to the microtask callbacks (`CallMicrotasks`), in order. -/
def microtasksCalled (events : List Event) : List Mutation :=
  events.filterMap (fun e => match e with | .callMicrotasks m => some m | _ => none)

/-- Exactly one mutation is constructed, it is passed to the watchers exactly once and to
the microtask callbacks at most once, and no other mutation is passed to anyone. -/
def emitsOneMutation (events : List Event) : Prop :=
  ∃ m, mutationsBuilt events = [m] ∧ watchersInformed events = [m] ∧
    (microtasksCalled events = [] ∨ microtasksCalled events = [m])

/-- No mutation is constructed or passed on. -/
def quiet (events : List Event) : Prop :=
  mutationsBuilt events = [] ∧ watchersInformed events = [] ∧ microtasksCalled events = []

/-! ## Set -/

/-- An element of a Set as the interface value that `==` compares: a scalar is compared
by value, a container (a pointer) by its address. Values of a dynamic type that Go cannot
compare are not represented. -/
inductive SetElem where
  | scalar (v : Serializable)
  | ref (addr : Nat)
  deriving DecidableEq, Repr

/-- What `addNoPersist` asks about an element; these functions are not in the sources of
the Set. -/
structure ElementWorld where
  /-- Result of `pattern.Test(ctx, elem)` for the element pattern of the Set. -/
  Test : SchemaPattern → SetElem → Bool
  /-- Whether the type assertion `elem.(core.UrlHolder)` succeeds. -/
  IsUrlHolder : SetElem → Bool
  /-- Error of `holder.SetURLOnce(ctx, url)`; without error the holder has the URL. -/
  SetURLOnce : SetElem → String → Option Error
  /-- The URL `set.url.ToDirURL().AppendAbsolutePath("/" + id)`, or the value of the
  panic of these calls. -/
  elementURL : String → String → Except Error String
  /-- Result of `containers_common.GetUniqueKey(ctx, elem, uniqueness)`, given the URLs
  that the holders have: the key, or the value of the panic. -/
  GetUniqueKey : List (SetElem × String) → SetElem → UniquenessConstraint →
    Except Error String

/-- The fields of `Set`: the elements by unique key, the configuration, whether there is
a storage, and the URL of the Set in the storage. -/
structure Set where
  elements : List (String × SetElem) := []
  config : SetConfig
  storage : Bool := false
  url : String := ""
  deriving Repr

/-- What a call of `Add` leaves: the Set, the URLs of the holders, whether the call
returned or panicked, and how often the Set was written to its storage. -/
structure AddResult where
  set : Set
  urls : List (SetElem × String)
  outcome : Outcome Unit
  persisted : Nat := 0

/-- The first part of `addNoPersist`, up to the unique key of the element: the element
pattern is tested, an element of a Set that is unique by URL gets a URL if it has none
(`id` is the text of the ULID drawn by `ulid.Make()`), and the key is computed. The
result is the key, or the value of the panic, with the URLs of the holders. -/
def Set.uniqueKey (world : ElementWorld) (set : Set) (urls : List (SetElem × String))
    (id : String) (elem : SetElem) : List (SetElem × String) × Except Error String :=
  if (match set.config.Element with
      | some patt => !world.Test patt elem
      | none => false) then
    (urls, .error .ErrValueDoesMatchElementPattern)
  else
    let withURL : List (SetElem × String) × Option Error :=
      if set.config.Uniqueness.«Type» = .UniqueURL then
        if !world.IsUrlHolder elem then
          (urls, some (.message "elements should be URL holders"))
        else if (urls.lookup elem).isSome then (urls, none)
        else if !set.storage then (urls, some .ErrFailedGetUniqueKeyNoURL)
        else
          match world.elementURL set.url id with
          | .ok url =>
            match world.SetURLOnce elem url with
            | some err => (urls, some err)
            | none => ((elem, url) :: urls, none)
          | .error err => (urls, some err)
      else (urls, none)
    match withURL.2 with
    | some err => (withURL.1, .error err)
    | none => (withURL.1, world.GetUniqueKey withURL.1 elem set.config.Uniqueness)

/-- The method `Set.addNoPersist`: after the key is known, an element that is stored
under the key and is not the new element makes the call panic; otherwise the element is
stored under the key. -/
def Set.addNoPersist (world : ElementWorld) (set : Set) (urls : List (SetElem × String))
    (id : String) (elem : SetElem) : AddResult :=
  match set.uniqueKey world urls id elem with
  | (urls1, .error err) => { set := set, urls := urls1, outcome := .panic err }
  | (urls1, .ok key) =>
    match mapGet set.elements key with
    | some curr =>
      if elem ≠ curr then
        { set := set, urls := urls1, outcome := .panic .ErrValueWithSameKeyAlreadyPresent }
      else
        { set := { set with elements := mapSet set.elements key elem }, urls := urls1,
          outcome := .ok () }
    | none =>
      { set := { set with elements := mapSet set.elements key elem }, urls := urls1,
        outcome := .ok () }

/-- The method `Set.Add`: `addNoPersist`, then the Set is written to its storage if it
has one (`persistSet` returns no error). -/
def Set.Add (world : ElementWorld) (set : Set) (urls : List (SetElem × String))
    (id : String) (elem : SetElem) : AddResult :=
  let r := set.addNoPersist world urls id elem
  match r.outcome with
  | .ok _ => if r.set.storage then { r with persisted := r.persisted + 1 } else r
  | _ => r

/-- The method `Set.Has`. -/
def Set.Has (world : ElementWorld) (set : Set) (urls : List (SetElem × String))
    (elem : SetElem) : Outcome Bool :=
  if (match set.config.Element with
      | some patt => !world.Test patt elem
      | none => false) then .panic .ErrValueDoesMatchElementPattern
  else
    match world.GetUniqueKey urls elem set.config.Uniqueness with
    | .ok key => .ok (mapGet set.elements key).isSome
    | .error err => .panic err

/-- The method `Set.Get`. -/
def Set.Get (set : Set) (key : String) : Option SetElem :=
  mapGet set.elements key

/-- The Set that `NewSetWithConfig` makes before it adds the elements. -/
def Set.empty (config : SetConfig) : Set :=
  { elements := [], config := config }

/-- An element world for examples: every element matches the element pattern, the
containers hold URLs, and the unique key of an element is given by `keyOf`. -/
def ElementWorld.keyed (keyOf : SetElem → String) : ElementWorld :=
  { Test := fun _ _ => true
    IsUrlHolder := fun elem => match elem with
      | .ref _ => true
      | .scalar _ => false
    SetURLOnce := fun _ _ => none
    elementURL := fun url id => .ok (url ++ id)
    GetUniqueKey := fun _ elem _ => .ok (keyOf elem) }

/-! ## DatabaseIL -/

/-- The names `DATABASE_PROPNAMES`. -/
def DATABASE_PROPNAMES : List String := ["update_schema", "close", "schema"]

/-- The handlers of a migration, `MigrationHandlers`: four maps from a path pattern to an
Inox function (given by its number). -/
structure MigrationHandlers where
  deletions : List (String × Nat) := []
  inclusions : List (String × Nat) := []
  replacements : List (String × Nat) := []
  initializations : List (String × Nat) := []
  deriving DecidableEq, Repr

/-- A key of a dictionary of a migration object, as far as the type assertion
`key.(PathPattern)` tells keys apart. -/
inductive MigrationKey where
  | pathPattern (patt : String)
  | other
  deriving DecidableEq, Repr

/-- A value of a dictionary of a migration object, as far as the type assertion
`v.(*InoxFunction)` tells values apart. -/
inductive MigrationHandlerValue where
  | function (fn : Nat)
  | other
  deriving DecidableEq, Repr

/-- A property value of a migration object, as far as the type assertion
`v.(*Dictionary)` tells values apart; the entries of a dictionary are in the order in
which `Dictionary.ForEachEntry` visits them. -/
inductive MigrationValue where
  | dictionary (entries : List (MigrationKey × MigrationHandlerValue))
  | other
  deriving DecidableEq, Repr

/-- A migration object (an `*Object` argument of `UpdateSchema`): whether it is shared,
and its properties in the order of `Object.ForEachEntry`. -/
structure MigrationObject where
  shared : Bool := false
  entries : List (String × MigrationValue)
  deriving DecidableEq, Repr

/-- The interface `Database` over the states `σ` of an implementation. -/
structure Database (σ : Type) where
  /-- The method `Schema`. -/
  Schema : σ → SchemaObjectPattern
  /-- The method `UpdateSchema`: the state that the call leaves, and the value of the
  panic if it panicked. -/
  UpdateSchema : Context → σ → SchemaObjectPattern → MigrationHandlers → σ × Option Error
  /-- The method `TopLevelEntities`: the state that the call leaves, and the map (`none`
  is a nil map) or the value of the panic. -/
  TopLevelEntities : Context → σ → σ × Except Error (Option (List (String × Serializable)))
  /-- The method `Close`: the state that the call leaves and the error. -/
  Close : Context → σ → σ × Option Error

/-- The fields of `DatabaseIL`; `inner` is the state of the inner database. -/
structure DatabaseIL (σ : Type) where
  inner : σ
  initialSchema : SchemaObjectPattern
  schemaUpdateExpected : Bool
  schemaUpdated : Bool := false
  ownerState : Option StateId := none
  propertyNames : List String
  topLevelEntities : Option (List (String × Serializable)) := none

/-- The arguments `DatabaseWrappingArgs`. -/
structure DatabaseWrappingArgs (σ : Type) where
  Inner : σ
  OwnerState : Option StateId := none
  ExpectedSchemaUpdate : Bool := false

/-- A call on the inner database or a step of `UpdateSchema` that the claims refer to. -/
inductive DbEvent where
  | lockSchemaUpdate
  | unlockSchemaUpdate
  | storeSchemaUpdated
  | GetMigrationOperations
  | innerUpdateSchema (handlers : MigrationHandlers)
  | innerTopLevelEntities
  | innerClose
  deriving DecidableEq, Repr

/-- What a call on a `DatabaseIL` leaves: the wrapper, how the call ended, and the events
in their order. -/
structure DbResult (σ : Type) (α : Type) where
  db : DatabaseIL σ
  outcome : Outcome α
  trace : List DbEvent := []

/-- The panic of the callback that `WrapDatabase` passes to `schema.ForEachEntry`: the
first property name of the schema that is among `DATABASE_PROPNAMES` gives an error that
wraps `ErrNameCollisionWithInitialDatabasePropertyName`. -/
def nameCollisionError (schema : SchemaObjectPattern) : Option Error :=
  schema.ForEachEntry (fun propName _ _ =>
    if propName ∈ DATABASE_PROPNAMES then
      some (.wrapped propName .ErrNameCollisionWithInitialDatabasePropertyName)
    else none)

/-- The function `WrapDatabase`: the names of the initial schema must not collide with
`DATABASE_PROPNAMES`; the top-level entities are loaded unless a schema update is
expected. The result is the wrapper or the value of the panic. -/
def WrapDatabase {σ : Type} (impl : Database σ) (ctx : Context)
    (args : DatabaseWrappingArgs σ) : Except Error (DatabaseIL σ) :=
  match nameCollisionError (impl.Schema args.Inner) with
  | some err => .error err
  | none =>
    if args.ExpectedSchemaUpdate then
      .ok { inner := args.Inner
            initialSchema := impl.Schema args.Inner
            schemaUpdateExpected := args.ExpectedSchemaUpdate
            schemaUpdated := false
            ownerState := args.OwnerState
            propertyNames :=
              DATABASE_PROPNAMES ++ (impl.Schema args.Inner).entryPatterns.map Prod.fst
            topLevelEntities := none }
    else
      match impl.TopLevelEntities ctx args.Inner with
      | (inner, .ok entities) =>
        .ok { inner := inner
              initialSchema := impl.Schema args.Inner
              schemaUpdateExpected := args.ExpectedSchemaUpdate
              schemaUpdated := false
              ownerState := args.OwnerState
              propertyNames :=
                DATABASE_PROPNAMES ++ (impl.Schema args.Inner).entryPatterns.map Prod.fst
              topLevelEntities := entities }
      | (_, .error err) => .error err

/-- The method `DatabaseIL.SetOwnerStateOnce` (the state may be a nil pointer). -/
def DatabaseIL.SetOwnerStateOnce {σ : Type} (db : DatabaseIL σ) (state : Option StateId) :
    DbResult σ Unit :=
  if db.ownerState ≠ none then { db := db, outcome := .panic .ErrOwnerStateAlreadySet }
  else { db := { db with ownerState := state }, outcome := .ok () }

/-- The inner function of the handler extraction for one dictionary of the migration
object, which fills a map: every key must be a path pattern and every value an Inox
function, otherwise the type assertion panics. -/
def dictionaryHandlers :
    List (MigrationKey × MigrationHandlerValue) → List (String × Nat) →
      Except Error (List (String × Nat))
  | [], handlers => .ok handlers
  | (.pathPattern patt, .function fn) :: rest, handlers =>
    dictionaryHandlers rest (mapSet handlers patt fn)
  | _ :: _, _ => .error .typeAssertion

/-- The callback that `UpdateSchema` passes to `migrationObject.ForEachEntry`, applied to
the properties in order: the value must be a dictionary (otherwise the type assertion
panics, which is the `Except` error here); the handlers of a known name are put into a
new map; an unexpected name ends the iteration with an error, which is the second
component. -/
def extractHandlers :
    List (String × MigrationValue) → MigrationHandlers →
      Except Error (MigrationHandlers × Option Error)
  | [], handlers => .ok (handlers, none)
  | (_, .other) :: _, _ => .error .typeAssertion
  | (k, .dictionary entries) :: rest, handlers =>
    if k = "deletions" then
      match dictionaryHandlers entries [] with
      | .error err => .error err
      | .ok m => extractHandlers rest { handlers with deletions := m }
    else if k = "replacements" then
      match dictionaryHandlers entries [] with
      | .error err => .error err
      | .ok m => extractHandlers rest { handlers with replacements := m }
    else if k = "inclusions" then
      match dictionaryHandlers entries [] with
      | .error err => .error err
      | .ok m => extractHandlers rest { handlers with inclusions := m }
    else if k = "initializations" then
      match dictionaryHandlers entries [] with
      | .error err => .error err
      | .ok m => extractHandlers rest { handlers with initializations := m }
    else
      .ok (handlers, some (.message ("unexpected property '" ++ k ++ "' in migration object")))

/-- The handlers that `UpdateSchema` passes to the inner database, or the value of the
panic: without migration operations the handlers are empty; otherwise there must be
exactly one migration object, which must not be shared (`Object.ForEachEntry`), and the
error that `ForEachEntry` returns is dropped. -/
def migrationHandlersOf (migrationOps : List MigrationOp) (migrations : List MigrationObject) :
    Except Error MigrationHandlers :=
  if migrationOps.length > 0 then
    match migrations with
    | [migrationObject] =>
      if migrationObject.shared then
        .error (.message "Object.ForEachEntry() can only be called on objects that are not shared")
      else
        match extractHandlers migrationObject.entries {} with
        | .error err => .error err
        | .ok (handlers, _) => .ok handlers
    | _ => .error .ErrUnreachable
  else .ok {}

/-- The error of the first step of the body of `UpdateSchema`: the first entry of the next
schema whose pattern has no loading function gives an error that wraps
`ErrNoLoadInstanceFnRegistered`. -/
def loadingFunctionError (ctx : Context) (nextSchema : SchemaObjectPattern) : Option Error :=
  nextSchema.ForEachEntry (fun propName propPattern _ =>
    if !ctx.hasTypeLoadingFunction propPattern then
      some (.wrapped ("failed to update schema: pattern of ." ++ propName ++
        " has no loading function") .ErrNoLoadInstanceFnRegistered)
    else none)

/-- The part of `UpdateSchema` that runs after the four checks, between the two deferred
calls: the loading functions of the entries of the next schema are checked, the
migration operations are computed, the handlers are extracted, the inner database
updates its schema and the top-level entities are read again. -/
def DatabaseIL.updateSchemaBody {σ : Type} (impl : Database σ) (ctx : Context)
    (db : DatabaseIL σ) (nextSchema : SchemaObjectPattern) (migrations : List MigrationObject) :
    DbResult σ Unit :=
  match loadingFunctionError ctx nextSchema with
  | some err => { db := db, outcome := .panic err }
  | none =>
    match ctx.GetMigrationOperations db.initialSchema.toPattern nextSchema.toPattern "/" with
    | .error err => { db := db, outcome := .panic err, trace := [.GetMigrationOperations] }
    | .ok migrationOps =>
      match migrationHandlersOf migrationOps migrations with
      | .error err => { db := db, outcome := .panic err, trace := [.GetMigrationOperations] }
      | .ok migrationHandlers =>
        match impl.UpdateSchema ctx db.inner nextSchema migrationHandlers with
        | (inner, some err) =>
          { db := { db with inner := inner }, outcome := .panic err,
            trace := [.GetMigrationOperations, .innerUpdateSchema migrationHandlers] }
        | (inner, none) =>
          match impl.TopLevelEntities ctx inner with
          | (inner1, .error err) =>
            { db := { db with inner := inner1 }, outcome := .panic err,
              trace := [.GetMigrationOperations, .innerUpdateSchema migrationHandlers,
                .innerTopLevelEntities] }
          | (inner1, .ok entities) =>
            { db := { db with inner := inner1, topLevelEntities := entities },
              outcome := .ok (),
              trace := [.GetMigrationOperations, .innerUpdateSchema migrationHandlers,
                .innerTopLevelEntities] }

/-- The method `DatabaseIL.UpdateSchema`: the four checks in their order (the last one
under the lock), then the body; the deferred calls store the flag and release the lock
however the body ends. -/
def DatabaseIL.UpdateSchema {σ : Type} (impl : Database σ) (ctx : Context)
    (db : DatabaseIL σ) (nextSchema : SchemaObjectPattern) (migrations : List MigrationObject) :
    DbResult σ Unit :=
  if db.ownerState = none then { db := db, outcome := .panic .ErrOwnerStateNotSet }
  else if !db.schemaUpdateExpected then
    { db := db, outcome := .panic .ErrNoneDatabaseSchemaUpdateExpected }
  else if ctx.GetClosestState ≠ db.ownerState then
    { db := db, outcome := .panic .ErrDatabaseSchemaOnlyUpdatableByOwnerState }
  else if db.schemaUpdated then
    { db := db, outcome := .panic .ErrDatabaseSchemaAlreadyUpdatedOrNotAllowed,
      trace := [.lockSchemaUpdate, .unlockSchemaUpdate] }
  else
    let r := db.updateSchemaBody impl ctx nextSchema migrations
    { db := { r.db with schemaUpdated := true }, outcome := r.outcome,
      trace := [.lockSchemaUpdate] ++ r.trace ++ [.storeSchemaUpdated, .unlockSchemaUpdate] }

/-- The method `DatabaseIL.Close`. -/
def DatabaseIL.Close {σ : Type} (impl : Database σ) (ctx : Context) (db : DatabaseIL σ) :
    DbResult σ (Option Error) :=
  if db.ownerState = none then { db := db, outcome := .panic .ErrOwnerStateNotSet }
  else
    let r := impl.Close ctx db.inner
    { db := { db with inner := r.1 }, outcome := .ok r.2, trace := [.innerClose] }

/-- What `Prop` returns: the initial schema, a top-level entity, or a bound method. -/
inductive DbPropValue where
  | schema (patt : SchemaObjectPattern)
  | entity (value : Serializable)
  | method (name : String)
  deriving Repr

/-- The method `DatabaseIL.GetGoMethod`. -/
def DatabaseIL.GetGoMethod (name : String) : Option DbPropValue :=
  if name = "update_schema" then some (.method "update_schema")
  else if name = "close" then some (.method "close")
  else none

/-- The method `DatabaseIL.Prop`: the value, or the value of the panic. -/
def DatabaseIL.Prop {σ : Type} (db : DatabaseIL σ) (name : String) :
    Except Error DbPropValue :=
  if db.ownerState = none then .error .ErrOwnerStateNotSet
  else if name = "schema" then .ok (.schema db.initialSchema)
  else
    let fromMethods : Except Error DbPropValue :=
      match DatabaseIL.GetGoMethod name with
      | some method => .ok method
      | none => .error (.propertyDoesNotExist name)
    if name = "update_schema" ∨ name = "close" then fromMethods
    else if db.schemaUpdateExpected && !db.schemaUpdated then
      .error .ErrInvalidAccessSchemaNotUpdatedYet
    else
      match (match db.topLevelEntities with
        | some entities => mapGet entities name
        | none => none) with
      | some val => .ok (.entity val)
      | none => fromMethods

/-- The state of a `dummyDatabase`. -/
structure dummyDatabase where
  schemaUpdated : Bool := false
  topLevelEntities : Option (List (String × Serializable)) := some []
  deriving DecidableEq, Repr

/-- The loop of `dummyDatabase.UpdateSchema` over the inclusion handlers: a handler for a
pattern with one slash is called and its result is stored under the pattern without its
first character. -/
def dummyDatabase.includeAll (call : Nat → Except Error Serializable) :
    List (String × Nat) → dummyDatabase → dummyDatabase × Option Error
  | [], db => (db, none)
  | (pattern, handler) :: rest, db =>
    if pattern.toList.count '/' ≠ 1 then
      (db, some (.message "only shallow inclusion handlers are supported"))
    else
      match call handler with
      | .error err => (db, some err)
      | .ok result =>
        match db.topLevelEntities with
        | none => (db, some .assignmentToNilMap)
        | some entities =>
          dummyDatabase.includeAll call rest
            { db with
              topLevelEntities := some (mapSet entities (String.mk (pattern.toList.drop 1))
                result) }

/-- The type `dummyDatabase` as a `Database`; `call` gives the result of calling an Inox
function (`handler.Call`). -/
def dummyDatabase.impl (call : Nat → Except Error Serializable) : Database dummyDatabase :=
  { Schema := fun _ => EMPTY_INEXACT_OBJECT_PATTERN
    UpdateSchema := fun _ db _ handlers =>
      if db.schemaUpdated then (db, some (.message "schema already updated"))
      else
        let db1 := { db with schemaUpdated := true }
        if handlers.deletions.length + handlers.initializations.length +
            handlers.replacements.length > 0 then
          (db1, some (.message "only inclusion handlers are supported"))
        else dummyDatabase.includeAll call handlers.inclusions db1
    TopLevelEntities := fun _ db => (db, .ok db.topLevelEntities)
    Close := fun _ db => (db, some .ErrNotImplemented) }

/-- Whether an event is a call on the inner database. -/
def DbEvent.isInnerCall : DbEvent → Bool
  | .innerUpdateSchema _ => true
  | .innerTopLevelEntities => true
  | .innerClose => true
  | _ => false

/-- The calls on the inner database in a trace. -/
def innerCalls (trace : List DbEvent) : List DbEvent :=
  trace.filter DbEvent.isInnerCall

/-- The wrapper after a sequence of `SetOwnerStateOnce` calls, whether they panic or
not. -/
def DatabaseIL.setOwnerStates {σ : Type} (db : DatabaseIL σ) :
    List (Option StateId) → DatabaseIL σ
  | [] => db
  | state :: rest => DatabaseIL.setOwnerStates (db.SetOwnerStateOnce state).db rest

/-- The wrappers that calls of `SetOwnerStateOnce`, `UpdateSchema` and `Close` lead to,
starting from `db0`, whether the calls panic or not. -/
inductive DatabaseIL.Reachable {σ : Type} (impl : Database σ) (db0 : DatabaseIL σ) :
    DatabaseIL σ → Prop where
  | start : DatabaseIL.Reachable impl db0 db0
  | setOwnerStateOnce (db : DatabaseIL σ) (state : Option StateId) :
    DatabaseIL.Reachable impl db0 db →
      DatabaseIL.Reachable impl db0 (db.SetOwnerStateOnce state).db
  | updateSchema (db : DatabaseIL σ) (ctx : Context) (nextSchema : SchemaObjectPattern)
      (migrations : List MigrationObject) :
    DatabaseIL.Reachable impl db0 db →
      DatabaseIL.Reachable impl db0 (db.UpdateSchema impl ctx nextSchema migrations).db
  | close (db : DatabaseIL σ) (ctx : Context) :
    DatabaseIL.Reachable impl db0 db →
      DatabaseIL.Reachable impl db0 (db.Close impl ctx).db

/-- Example: the Inox functions of a migration; function 0 returns the integer 1. -/
def exampleCall : Nat → Except Error Serializable
  | 0 => .ok (.int 1)
  | _ => .error (.message "no such function")

/-- Example: the arguments that wrap a new `dummyDatabase` for the owner state 1, with
an expected schema update. -/
def dummyDatabase.wrappingArgs : DatabaseWrappingArgs dummyDatabase :=
  { Inner := {}, OwnerState := some 1, ExpectedSchemaUpdate := true }

/-- Example: the wrapper that `WrapDatabase` returns for `dummyDatabase.wrappingArgs`. -/
def dummyDatabase.wrapped : DatabaseIL dummyDatabase :=
  { inner := {}
    initialSchema := EMPTY_INEXACT_OBJECT_PATTERN
    schemaUpdateExpected := true
    schemaUpdated := false
    ownerState := some 1
    propertyNames := DATABASE_PROPNAMES
    topLevelEntities := none }

/-- Example: a migration object with one inclusion handler, function 0, for the path
pattern of the entity `name`. -/
def inclusionMigration (name : String) : MigrationObject :=
  { entries := [("inclusions", .dictionary [(.pathPattern ("/" ++ name), .function 0)])] }

/-! ## The symbolic object test -/

/-- The fields of a symbolic `Object` that `test` reads, over the symbolic values `V` of
the entries: the entries (`none` is the nil map of the object that matches any object),
the names of the optional entries, and the flags (`shared` is read by `Share`). The
model covers objects without property dependencies, for which the loops over
`dependencies` do nothing. -/
structure symbolic.Object (V : Type) where
  entries : Option (List (String × V))
  optionalEntries : List String := []
  exact : Bool
  readonly : Bool := false
  shared : Bool := false

/-- The method `IsInexact` of a symbolic object. -/
def symbolic.Object.IsInexact {V : Type} (o : symbolic.Object V) : Bool := !o.exact

/-- The method `test` of a symbolic object; `testValue` is `propPattern.Test(other,
state)` on the entry values and `v` is the result of the type assertion `v.(*Object)`.
The loop over the entries returns false at the first entry that fails, so that its result
is the conjunction over the entries. -/
def symbolic.Object.test {V : Type} (testValue : V → V → Bool) (obj : symbolic.Object V)
    (v : Option (symbolic.Object V)) (exact : Bool) : Bool :=
  match v with
  | none => false
  | some otherObj =>
    if obj.readonly != otherObj.readonly then false
    else
      match obj.entries with
      | none => true
      | some entries =>
        if obj.exact && otherObj.IsInexact then false
        else
          match otherObj.entries with
          | none => false
          | some otherEntries =>
            if exact && obj.optionalEntries.length == 0 &&
                entries.length != otherEntries.length then false
            else
              entries.all (fun entry =>
                match mapGet otherEntries entry.1 with
                | some other =>
                  if !decide (entry.1 ∈ obj.optionalEntries) &&
                      decide (entry.1 ∈ otherObj.optionalEntries) then false
                  else testValue entry.2 other
                | none => decide (entry.1 ∈ obj.optionalEntries))
              && (!exact ||
                otherEntries.all (fun other => (mapGet entries other.1).isSome))

/-- The method `Test` of a symbolic object. -/
def symbolic.Object.Test {V : Type} (testValue : V → V → Bool) (obj : symbolic.Object V)
    (v : Option (symbolic.Object V)) : Bool :=
  obj.test testValue v obj.exact

/-! ## Parsing JSON representations -/

/-- Inox values with their containers, as far as the representation functions tell them
apart. The values of an object or record are in the order of its keys; `none` is a nil
interface value. -/
inductive InoxValue where
  | nil
  | bool (b : Bool)
  | int (i : Int)
  | str (s : String)
  | path (p : String)
  | list (elements : List InoxValue)
  | tuple (elements : List InoxValue)
  | object (keys : List String) (values : List (Option InoxValue))
  | record (keys : List String) (values : List (Option InoxValue))
  | dictionary (entries : List (InoxValue × InoxValue))
  deriving Repr

/-- The JSON document at the position of the iterator, as the JSON library reads it:
`invalid` is a text that starts no JSON value; the fields of an object are those that
`ReadObjectCB` passes to its callback, in the order of the text. -/
inductive JSONValue where
  | invalid
  | null
  | bool (b : Bool)
  | number (text : String)
  | string (s : String)
  | array (elements : List JSONValue)
  | object (fields : List (String × JSONValue))
  deriving Repr

/-- The kind that `Iterator.WhatIsNext` and `Any.ValueType` report for a document. -/
def JSONValue.ValueType : JSONValue → ValueType
  | .invalid => .InvalidValue
  | .null => .NilValue
  | .bool _ => .BoolValue
  | .number _ => .NumberValue
  | .string _ => .StringValue
  | .array _ => .ArrayValue
  | .object _ => .ObjectValue

/-- Modelled from the spec: the type `IntRangePattern` is not in the sources (only its test
is): a range of integers and the number of which the integers are multiples, which is not
positive when there is no such constraint. -/
structure IntRangePattern where
  intRange : IntRange
  multipleOf : Int
  deriving DecidableEq, Repr

/-- Modelled from the spec: `NewIncludedEndIntRangePattern(start, end, multipleOf)`, as the
test calls it (`-1` for no multiple). -/
def NewIncludedEndIntRangePattern (start stop multipleOf : Int) : IntRangePattern :=
  ⟨⟨start, stop, true⟩, multipleOf⟩

/-- Modelled from the spec: `IntRangePattern.Test` on an integer: the integer is within the
bounds and, if the pattern has a multiple-of constraint, a multiple of that number. -/
def IntRangePattern.Test (patt : IntRangePattern) (i : Int) : Bool :=
  decide (patt.intRange.start ≤ i) &&
    decide (i ≤ patt.intRange.InclusiveEnd) &&
    (decide (patt.multipleOf ≤ 0) || decide (i % patt.multipleOf = 0))

/-- Patterns as far as the type switch of `parseJSONRepresentation` tells them apart: the
pattern kinds that it names, the three type patterns that it names, and the others. An
object or record pattern has its entry patterns and the names of its optional entries. -/
inductive ParsePattern where
  | IntRangePattern (patt : IntRangePattern)
  | ObjectPattern (entryPatterns : List (String × ParsePattern)) (optionalEntries : List String)
  | RecordPattern (entryPatterns : List (String × ParsePattern)) (optionalEntries : List String)
  | ListPattern
  | TuplePattern
  | OBJECT_PATTERN
  | RECORD_PATTERN
  | INT_PATTERN
  | otherTypePattern (name : String)
  | other
  deriving Repr

/-- What `parseJSONRepresentation` consults outside the JSON document; these constants
and functions are not in the sources. -/
structure ParseEnv where
  /-- The constant `JSON_UNTYPED_VALUE_SUFFIX`. -/
  JSON_UNTYPED_VALUE_SUFFIX : String
  /-- Result of `getDefaultNamedPattern(typename)`: `none` is nil. -/
  getDefaultNamedPattern : String → Option ParsePattern
  /-- Error of `obj.addMessageHandlers(ctx)` for the object with these keys. -/
  addMessageHandlers : List String → Option Error
  /-- Error of `obj.instantiateLifetimeJobs(ctx)` for the object with these keys. -/
  instantiateLifetimeJobs : List String → Option Error

/-- Go's `strings.HasSuffix`. -/
def stringsHasSuffix (s suffix : String) : Bool :=
  suffix.toList.isSuffixOf s.toList

/-- Go's `strings.TrimSuffix`. -/
def stringsTrimSuffix (s suffix : String) : String :=
  if stringsHasSuffix s suffix then String.mk (s.toList.take (s.length - suffix.length)) else s

/-- Go's `strconv.ParseInt(s, 10, 64)`: an optional sign and decimal digits, within the
range of `int64`; the errors are `ErrSyntax` and `ErrRange`. -/
def ParseInt (s : String) : Except Error Int :=
  let digitsOf (cs : List Char) : Option Nat :=
    if cs.isEmpty || !cs.all Char.isDigit then none
    else some (cs.foldl (fun n c => 10 * n + (c.toNat - 48)) 0)
  let signed : Option Int :=
    match s.toList with
    | '-' :: cs => (digitsOf cs).map (fun n => - Int.ofNat n)
    | '+' :: cs => (digitsOf cs).map Int.ofNat
    | cs => (digitsOf cs).map Int.ofNat
  match signed with
  | none => .error (.message "invalid syntax")
  | some i =>
    if i < -9223372036854775808 ∨ 9223372036854775807 < i then
      .error (.message "value out of range")
    else .ok i

/-- The function `parseIntergerJSONRepresentation`: `ReadString` reads a string (for
`null` it reads the empty string, for everything else it reports an error), which
`ParseInt` converts. -/
def parseIntergerJSONRepresentation (json : JSONValue) : Except Error (Option InoxValue) :=
  match json with
  | .string s =>
    match ParseInt s with
    | .ok i => .ok (some (.int i))
    | .error err => .error (.wrapped "failed to parse integer" err)
  | .null =>
    match ParseInt "" with
    | .ok i => .ok (some (.int i))
    | .error err => .error (.wrapped "failed to parse integer" err)
  | _ => .error (.wrapped "failed to parse integer" (.message "ReadString: expects \" or n"))

/-- The names that `parseObjectJSONrepresentation` collects from `pattern.ForEachEntry`:
the entries that are not optional and are not among the keys. -/
def missingRequiredProperties (entryPatterns : List (String × ParsePattern))
    (optionalEntries : List String) (keys : List String) : List String :=
  (entryPatterns.filter (fun entry =>
    !decide (entry.1 ∈ optionalEntries) && !decide (entry.1 ∈ keys))).map Prod.fst

/-- The part of `parseObjectJSONrepresentation` after the fields are read without error:
the check of the required properties, `sortProps`, and the initialisation of the object
(`initPartList` returns nothing). The error of a panic of `sortProps` is
`indexOutOfRange`. -/
def finishObject (env : ParseEnv) (entryPatterns : List (String × ParsePattern))
    (optionalEntries : List String) (keys : List String) (values : List (Option InoxValue)) :
    Outcome InoxValue :=
  if (missingRequiredProperties entryPatterns optionalEntries keys).length > 0 then
    .error (.message ("the following properties are missing: " ++
      ", ".intercalate (missingRequiredProperties entryPatterns optionalEntries keys)))
  else
    match sortProps keys values with
    | none => .panic .indexOutOfRange
    | some (sortedKeys, sortedValues, _) =>
      match env.addMessageHandlers sortedKeys with
      | some err => .error err
      | none =>
        match env.instantiateLifetimeJobs sortedKeys with
        | some err => .error err
        | none => .ok (.object sortedKeys sortedValues)

/-- The part of `parseRecordJSONrepresentation` after the fields are read without
error. -/
def finishRecord (entryPatterns : List (String × ParsePattern))
    (optionalEntries : List String) (keys : List String) (values : List (Option InoxValue)) :
    Outcome InoxValue :=
  if (missingRequiredProperties entryPatterns optionalEntries keys).length > 0 then
    .error (.message ("the following properties are missing: " ++
      ", ".intercalate (missingRequiredProperties entryPatterns optionalEntries keys)))
  else
    match sortProps keys values with
    | none => .panic .indexOutOfRange
    | some (sortedKeys, sortedValues, _) => .ok (.record sortedKeys sortedValues)

/-- How `parseJSONRepresentation` ends: it returns a value (`none` is a nil interface
value), returns an error, or panics. -/
abbrev ParseResult := Outcome (Option InoxValue)

/-- The value of a finished object or record as a result of `parseJSONRepresentation`. -/
def ParseResult.ofValue : Outcome InoxValue → ParseResult
  | .ok v => .ok (some v)
  | .error err => .error err
  | .panic err => .panic err

mutual
/-- The function `parseJSONRepresentation(ctx, it, pattern)` on the document at the
iterator. A nil pattern reads a typed value from an object and a boolean, a string or
null otherwise; an object or record pattern (or `OBJECT_PATTERN`, `RECORD_PATTERN`) reads
the fields and finishes the object or record; an integer pattern reads an integer; every
other pattern, and every other kind of document under a nil pattern, ends with
"impossible to determine type". -/
def parseJSONRepresentation (env : ParseEnv) :
    JSONValue → Option ParsePattern → ParseResult
  | json, none =>
    match json with
    | .object fields => parseTypedValue env fields none
    | .bool b => .ok (some (.bool b))
    | .string s => .ok (some (.str s))
    | .null => .ok (some .nil)
    | _ => .error .impossibleToDetermineType
  | json, some (.IntRangePattern _) =>
    match parseIntergerJSONRepresentation json with
    | .ok v => .ok v
    | .error err => .error err
  | json, some .INT_PATTERN =>
    match parseIntergerJSONRepresentation json with
    | .ok v => .ok v
    | .error err => .error err
  | json, some (.ObjectPattern entryPatterns optionalEntries) =>
    match json with
    | .object fields =>
      match parseFields env "object" entryPatterns fields [] [] with
      | .ok (keys, values) =>
        ParseResult.ofValue (finishObject env entryPatterns optionalEntries keys values)
      | .error err => .error err
      | .panic err => .panic err
    | _ => ParseResult.ofValue (finishObject env entryPatterns optionalEntries [] [])
  | json, some .OBJECT_PATTERN =>
    match json with
    | .object fields =>
      match parseFields env "object" [] fields [] [] with
      | .ok (keys, values) => ParseResult.ofValue (finishObject env [] [] keys values)
      | .error err => .error err
      | .panic err => .panic err
    | _ => ParseResult.ofValue (finishObject env [] [] [] [])
  | json, some (.RecordPattern entryPatterns optionalEntries) =>
    match json with
    | .object fields =>
      match parseFields env "record" entryPatterns fields [] [] with
      | .ok (keys, values) =>
        ParseResult.ofValue (finishRecord entryPatterns optionalEntries keys values)
      | .error err => .error err
      | .panic err => .panic err
    | _ => ParseResult.ofValue (finishRecord entryPatterns optionalEntries [] [])
  | json, some .RECORD_PATTERN =>
    match json with
    | .object fields =>
      match parseFields env "record" [] fields [] [] with
      | .ok (keys, values) => ParseResult.ofValue (finishRecord [] [] keys values)
      | .error err => .error err
      | .panic err => .panic err
    | _ => ParseResult.ofValue (finishRecord [] [] [] [])
  | _, some _ => .error .impossibleToDetermineType
/-- The callback that `parseJSONRepresentation` passes to `ReadObjectCB` under a nil
pattern, applied to the fields in order; `value` is the value read so far. A second
field, or a field whose name has not the suffix of typed values or names no pattern,
ends with an error. -/
def parseTypedValue (env : ParseEnv) :
    List (String × JSONValue) → Option InoxValue → ParseResult
  | [], value => .ok value
  | (s, fieldValue) :: rest, value =>
    if value.isSome || !stringsHasSuffix s env.JSON_UNTYPED_VALUE_SUFFIX then
      .error .impossibleToDetermineType
    else
      match env.getDefaultNamedPattern (stringsTrimSuffix s env.JSON_UNTYPED_VALUE_SUFFIX) with
      | none =>
        .error (.message ("unknown typename: " ++
          stringsTrimSuffix s env.JSON_UNTYPED_VALUE_SUFFIX))
      | some pattern =>
        match parseJSONRepresentation env fieldValue (some pattern) with
        | .ok v => parseTypedValue env rest v
        | .error err => .error err
        | .panic err => .panic err
/-- The callback that `parseObjectJSONrepresentation` (`kind` "object") and
`parseRecordJSONrepresentation` (`kind` "record") pass to `ReadObjectCB`, applied to the
fields in order: the key is appended, the value is parsed with the entry pattern of the
key (nil if there is none) and appended; an error ends the reading. -/
def parseFields (env : ParseEnv) (kind : String) (entryPatterns : List (String × ParsePattern)) :
    List (String × JSONValue) → List String → List (Option InoxValue) →
      Outcome (List String × List (Option InoxValue))
  | [], keys, values => .ok (keys, values)
  | (key, fieldValue) :: rest, keys, values =>
    match parseJSONRepresentation env fieldValue (entryPatterns.lookup key) with
    | .ok val => parseFields env kind entryPatterns rest (keys ++ [key]) (values ++ [val])
    | .error err =>
      .error (.wrapped ("failed to parse value of " ++ kind ++ " property " ++ key) err)
    | .panic err => .panic err
end

/-- The function `parseObjectJSONrepresentation(ctx, it, pattern)` for a pattern that is
not nil. -/
def parseObjectJSONrepresentation (env : ParseEnv) (json : JSONValue)
    (entryPatterns : List (String × ParsePattern)) (optionalEntries : List String) :
    Outcome InoxValue :=
  match json with
  | .object fields =>
    match parseFields env "object" entryPatterns fields [] [] with
    | .ok (keys, values) => finishObject env entryPatterns optionalEntries keys values
    | .error err => .error err
    | .panic err => .panic err
  | _ => finishObject env entryPatterns optionalEntries [] []

/-- An environment for examples: the suffix of typed values is `__value`, the names `int`
and `path` are those of the type patterns `INT_PATTERN` and `PATH_PATTERN`, and the
initialisation of objects does not fail. -/
def ParseEnv.example : ParseEnv :=
  { JSON_UNTYPED_VALUE_SUFFIX := "__value"
    getDefaultNamedPattern := fun name =>
      if name = "int" then some .INT_PATTERN
      else if name = "path" then some (.otherTypePattern "path")
      else if name = "object" then some .OBJECT_PATTERN
      else none
    addMessageHandlers := fun _ => none
    instantiateLifetimeJobs := fun _ => none }

/-- The kinds of values that `parseJSONRepresentation` builds: nil, booleans, integers,
strings, objects and records. -/
def InoxValue.builtByParser : InoxValue → Bool
  | .nil => true
  | .bool _ => true
  | .int _ => true
  | .str _ => true
  | .object _ _ => true
  | .record _ _ => true
  | _ => false

/-- The names of the fields that `ReadObjectCB` reads from a document: none if the
document is not an object. -/
def JSONValue.fieldNames : JSONValue → List String
  | .object fields => fields.map Prod.fst
  | _ => []

/-- The reading of the fields in `parseObjectJSONrepresentation`: the keys and values
that the callback of `ReadObjectCB` has appended when the reading ends, or the error of
a value. The callback is not called for a document that is not an object. -/
def readObjectFields (env : ParseEnv) (entryPatterns : List (String × ParsePattern))
    (json : JSONValue) : Outcome (List String × List (Option InoxValue)) :=
  match json with
  | .object fields => parseFields env "object" entryPatterns fields [] []
  | _ => .ok ([], [])

/-! ## The registered parsers -/

/-- What the three parsers call: functions of libraries, functions that are not in the
sources, and the constant `DEFAULT_MAX_TESTED_STRING_BYTE_LENGTH`, which is not in the
sources either. -/
structure ParserLibraries where
  DEFAULT_MAX_TESTED_STRING_BYTE_LENGTH : Nat
  /-- Result of `json.Valid`. -/
  jsonValid : String → Bool
  /-- Result of `json.Unmarshal` followed by `ConvertJSONValToInoxVal`. -/
  jsonUnmarshal : String → Except Error Serializable
  /-- Result of `ParseRepr`. -/
  ParseRepr : String → Except Error Serializable
  /-- Whether `yamlParse.Parse(yamlLex.Tokenize(s), yamlParse.ParseComments)` returns no
  error. -/
  yamlValid : String → Bool
  /-- Result of `yamlParse.Parse(yamlLex.Tokenize(s), 0)` followed by
  `ConvertYamlParsedFileToInoxVal`. -/
  yamlParse : String → Except Error Serializable

/-- The three implementations of `StatelessParser`. -/
inductive StatelessParser where
  | jsonParser
  | inoxReprParser
  | yamlParser
  deriving DecidableEq, Repr

/-- The parsers that `init` registers, for the JSON, Inox representation and YAML content
types. -/
def registeredParsers : List StatelessParser :=
  [.jsonParser, .inoxReprParser, .yamlParser]

/-- The method `Validate` of the three parsers; `len(s)` is the number of bytes. -/
def StatelessParser.Validate (lib : ParserLibraries) (p : StatelessParser) (s : String) :
    Outcome Bool :=
  if s.utf8ByteSize > lib.DEFAULT_MAX_TESTED_STRING_BYTE_LENGTH then
    .panic .ErrTestedStringTooLarge
  else
    match p with
    | .jsonParser => .ok (lib.jsonValid s)
    | .inoxReprParser =>
      match lib.ParseRepr s with
      | .ok _ => .ok true
      | .error _ => .ok false
    | .yamlParser => .ok (lib.yamlValid s)

/-- The method `Parse` of the three parsers: the value, or the error that is returned
with a nil value. -/
def StatelessParser.Parse (lib : ParserLibraries) (p : StatelessParser) (s : String) :
    Outcome Serializable :=
  if s.utf8ByteSize > lib.DEFAULT_MAX_TESTED_STRING_BYTE_LENGTH then
    .error .ErrTestedStringTooLarge
  else
    match p with
    | .jsonParser =>
      match lib.jsonUnmarshal s with
      | .ok v => .ok v
      | .error err => .error err
    | .inoxReprParser =>
      match lib.ParseRepr s with
      | .ok v => .ok v
      | .error err => .error err
    | .yamlParser =>
      match lib.yamlParse s with
      | .ok v => .ok v
      | .error err => .error err

/-- Libraries for examples, with a ceiling of four bytes: every text is valid and parses
to nil. -/
def ParserLibraries.example : ParserLibraries :=
  { DEFAULT_MAX_TESTED_STRING_BYTE_LENGTH := 4
    jsonValid := fun _ => true
    jsonUnmarshal := fun _ => .ok .nil
    ParseRepr := fun _ => .ok .nil
    yamlValid := fun _ => true
    yamlParse := fun _ => .ok .nil }

/-! ## Paths, path patterns and URL patterns -/

/-- The constant `MAX_TESTED_PATH_BYTE_LENGTH`. -/
def MAX_TESTED_PATH_BYTE_LENGTH : Nat := 4095

/-- The constant `MAX_TESTED_URL_BYTE_LENGTH`. -/
def MAX_TESTED_URL_BYTE_LENGTH : Nat := 8000

/-- The constant `PREFIX_PATH_PATTERN_SUFFIX`. -/
def PREFIX_PATH_PATTERN_SUFFIX : String := "/..."

/-- Go's `strings.HasPrefix`. -/
def stringsHasPrefix (s pre : String) : Bool :=
  pre.toList.isPrefixOf s.toList

/-- The values that the type switches of `PathPattern.Includes` and `URLPattern.Test`
tell apart. -/
inductive ResourceValue where
  | path (p : String)
  | pathPattern (patt : String)
  | url (u : String)
  | other
  deriving DecidableEq, Repr

/-- The method `PathPattern.IsPrefixPattern`. -/
def PathPattern.IsPrefixPattern (patt : String) : Bool :=
  stringsHasSuffix patt PREFIX_PATH_PATTERN_SUFFIX

/-- The method `PathPattern.Prefix`: a prefix pattern without its three dots. -/
def PathPattern.Prefix (patt : String) : String :=
  if PathPattern.IsPrefixPattern patt then String.mk (patt.toList.take (patt.length - 3))
  else patt

/-- The method `PathPattern.Includes`; `doublestarMatch` is the result of
`doublestar.Match(pattern, name)`, a match or an error. A prefix pattern returns before
the length of the path is looked at. -/
def PathPattern.Includes (doublestarMatch : String → String → Except Error Bool)
    (patt : String) (v : ResourceValue) : Outcome Bool :=
  match v with
  | .path other =>
    if PathPattern.IsPrefixPattern patt then
      .ok (stringsHasPrefix other (PathPattern.Prefix patt))
    else if other.utf8ByteSize > MAX_TESTED_PATH_BYTE_LENGTH then
      .panic .ErrTestedPathTooLarge
    else
      match doublestarMatch patt other with
      | .ok ok => .ok ok
      | .error _ => .ok false
  | .pathPattern other =>
    if PathPattern.IsPrefixPattern patt then
      .ok (stringsHasPrefix other (PathPattern.Prefix patt))
    else .ok (decide (patt = other))
  | _ => .ok false

/-- The method `PathPattern.Test`. -/
def PathPattern.Test (doublestarMatch : String → String → Except Error Bool)
    (patt : String) (v : ResourceValue) : Outcome Bool :=
  match v with
  | .path p => PathPattern.Includes doublestarMatch patt (.path p)
  | _ => .ok false

/-- The method `URLPattern.Test`; `includes` is the result of `patt.Includes(ctx, u)` on a
URL, which is reached only below the ceiling. -/
def URLPattern.Test (includes : String → String → Bool) (patt : String)
    (v : ResourceValue) : Outcome Bool :=
  match v with
  | .url u =>
    if u.utf8ByteSize > MAX_TESTED_URL_BYTE_LENGTH then .panic .ErrTestedURLTooLarge
    else .ok (includes patt u)
  | _ => .ok false

/-- The path of `n + 1` bytes that is a slash followed by `n` letters. -/
def longPath (n : Nat) : String :=
  String.mk ('/' :: List.replicate n 'a')

/-- The values of the slices of a path expression that the type switch of `NewPath` tells
apart. -/
inductive PathSlice where
  | str (s : String)
  | path (s : String)
  | other
  deriving DecidableEq, Repr

/-- Whether two dots follow each other in a text (`strings.Contains(s, "..")`). -/
def hasDotDot : List Char → Bool
  | [] => false
  | [_] => false
  | c :: d :: rest => (c == '.' && d == '.') || hasDotDot (d :: rest)

/-- The function `checkPathInterpolationResult`. It looks at bytes; in a text in UTF-8 a
byte of a character of several bytes is none of the four bytes looked for, so that the
characters can be looked at instead. -/
def checkPathInterpolationResult.loop : List Char → Bool
  | [] => true
  | c :: rest =>
    if c = '.' then
      match rest with
      | d :: _ => if d = '.' then false else checkPathInterpolationResult.loop rest
      | [] => checkPathInterpolationResult.loop rest
    else if c = '\\' ∨ c = '?' ∨ c = '*' then false
    else checkPathInterpolationResult.loop rest

/-- The function `checkPathInterpolationResult`. -/
def checkPathInterpolationResult (s : String) : Bool :=
  checkPathInterpolationResult.loop s.toList

/-- What `NewPath` uses and is not in the sources: the function `parse.HasPathLikeStart`
and the texts of two constants. -/
structure PathEnv where
  HasPathLikeStart : String → Bool
  S_PATH_INTERP_RESULT_LIMITATION : String
  S_PATH_EXPR_PATH_LIMITATION : String

/-- The text of a path slice that `NewPath` joins to the path: a path that starts with a
slash gets "./" before it. -/
def pathSliceText (path : String) : String :=
  if path.toList.head? = some '/' then "./" ++ path else path

/-- The loop of `NewPath` over the slices; `pth` is the path built so far. A missing
element of `isStaticPathSliceList` and the first byte of an empty path are
index-out-of-range panics. -/
def NewPath.loop (env : PathEnv) : List PathSlice → List Bool → String → Outcome String
  | [], _, pth => .ok pth
  | _ :: _, [], _ => .panic .indexOutOfRange
  | .str str :: slices, isStaticPathSlice :: statics, pth =>
    if !isStaticPathSlice && !checkPathInterpolationResult str then
      .error (.message ("path expression: error: " ++ env.S_PATH_INTERP_RESULT_LIMITATION))
    else NewPath.loop env slices statics (pth ++ str)
  | .path path :: slices, isStaticPathSlice :: statics, pth =>
    if path = "" then .panic .indexOutOfRange
    else if !isStaticPathSlice && !checkPathInterpolationResult (pathSliceText path) then
      .error (.message ("path expression: error: " ++ env.S_PATH_INTERP_RESULT_LIMITATION))
    else NewPath.loop env slices statics (filepathJoin pth (pathSliceText path))
  | .other :: _, _ :: _, _ =>
    .error (.message "path expression: path slices should have a string value")

/-- The statement `if !parse.HasPathLikeStart(pth) { pth = "./" + pth }`. -/
def withPathLikeStart (env : PathEnv) (pth : String) : String :=
  if env.HasPathLikeStart pth then pth else "./" ++ pth

/-- The statement that drops the first of two slashes at the start of the path. -/
def dropDoubleSlash (pth : String) : String :=
  match pth.toList with
  | '/' :: '/' :: rest => String.mk ('/' :: rest)
  | _ => pth

/-- The function `NewPath`: the path, the error, or the panic. -/
def NewPath (env : PathEnv) (slices : List PathSlice) (isStaticPathSliceList : List Bool) :
    Outcome String :=
  match NewPath.loop env slices isStaticPathSliceList "" with
  | .ok pth =>
    if hasDotDot pth.toList then
      .error (.message ("path expression: error: " ++ env.S_PATH_EXPR_PATH_LIMITATION))
    else .ok (dropDoubleSlash (withPathLikeStart env pth))
  | .error err => .error err
  | .panic err => .panic err

/-- An environment for examples: a path starts like a path if it starts with a slash,
"./" or "../". -/
def PathEnv.example : PathEnv :=
  { HasPathLikeStart := fun s =>
      stringsHasPrefix s "/" || stringsHasPrefix s "./" || stringsHasPrefix s "../"
    S_PATH_INTERP_RESULT_LIMITATION := "result of a path interpolation is not allowed"
    S_PATH_EXPR_PATH_LIMITATION := "path should not contain the substring '..'" }

/-- The text of a slice that is a string or a path. -/
def PathSlice.text : PathSlice → Option String
  | .str s => some s
  | .path s => some s
  | .other => none

/-- Whether a text contains "..", a backslash, a question mark or a star. -/
def containsForbidden (s : String) : Bool :=
  hasDotDot s.toList || s.toList.any (fun c => c == '\\' || c == '?' || c == '*')

/-! ## Object: indexed properties, URL and sharing -/

/-- The method `Object.Len`. -/
def Object.Len (obj : Object) : Int := obj.implicitPropCount

/-- The method `Object.IsShared`. -/
def Object.IsShared (obj : Object) : Bool := obj.shared

/-- Go's `strconv.Itoa` on a number that is not negative. -/
def Itoa (i : Nat) : String := toString i

/-- The body of the outer loop of `Indexed` for the index `i`: the inner loop finds the
first position of the key `Itoa(i)`, and the statement `values[i] = obj.values[i]` in the
inner loop uses the position (the variable `i` of the inner loop), not the index. -/
def Object.indexedStep (obj : Object) (values : List (Option Serializable)) (i : Nat) :
    Outcome (List (Option Serializable)) :=
  if Itoa i ∈ obj.keys then
    match obj.values[obj.keys.indexOf (Itoa i)]? with
    | none => .panic .indexOutOfRange
    | some v =>
      if obj.keys.indexOf (Itoa i) < values.length then
        .ok (values.set (obj.keys.indexOf (Itoa i)) v)
      else .panic .indexOutOfRange
  else .panic .ErrUnreachable

/-- The outer loop of `Indexed` over the indexes. -/
def Object.indexedLoop (obj : Object) :
    List Nat → List (Option Serializable) → Outcome (List (Option Serializable))
  | [], values => .ok values
  | i :: rest, values =>
    match obj.indexedStep values i with
    | .ok values1 => Object.indexedLoop obj rest values1
    | .error err => .error err
    | .panic err => .panic err

/-- The method `Object.Indexed`. -/
def Object.Indexed (obj : Object) : Outcome (List (Option Serializable)) :=
  if obj.IsShared then
    .panic (.message "Object.Indexed() can only be called on objects that are not shared")
  else if obj.implicitPropCount < 0 then .panic (.message "makeslice: len out of range")
  else
    obj.indexedLoop (List.range obj.implicitPropCount.toNat)
      (List.replicate obj.implicitPropCount.toNat none)

/-- The method `Object.URL`. -/
def Object.URL (obj : Object) : String × Bool :=
  if obj.url != "" then (obj.url, true) else ("", false)

/-- Result of `SetURLOnce`: the object after the call, the error, what it emitted. -/
structure SetURLResult where
  obj : Object
  err : Option Error
  events : List Event
  deriving DecidableEq, Repr

/-- The method `Object.SetURLOnce`. -/
def Object.SetURLOnce (obj : Object) (u : String) : SetURLResult :=
  if obj.url != "" then ⟨obj, some .ErrURLAlreadySet, [.lock, .unlock]⟩
  else ⟨{ obj with url := u }, none, [.lock, .unlock]⟩

/-- The object after a sequence of `SetURLOnce` calls. -/
def Object.setURLs (obj : Object) : List String → Object
  | [] => obj
  | u :: rest => Object.setURLs (obj.SetURLOnce u).obj rest

/-- Modelled from the spec: `SmartLock.Share(originState, fn)` is not in the sources. If
the value is already shared the call does nothing; otherwise the value becomes shared and
the initializer `fn` runs, once. The result is the flag after the call and whether the
initializer runs. -/
def SmartLock.Share (isValueShared : Bool) : Bool × Bool :=
  (true, !isValueShared)

/-- Result of `Share`: the object after the call, how the call ended, and the values to
which `ShareOrClone` was applied. -/
structure ShareResult where
  obj : Object
  outcome : Outcome Unit
  shareOrCloneCalls : List (Option Serializable)
  deriving DecidableEq, Repr

/-- The initializer that `Object.Share` passes to the lock: the loop
`obj.values[i] = utils.Must(ShareOrClone(v, originState)).(Serializable)` over the values
from the position `done.length` on; `done` are the values already replaced. The result
is the values, the panic if any, and the values to which `ShareOrClone` was applied. A
nil value makes `ShareOrClone` panic. -/
def shareValuesLoop (ctx : Context) :
    List (Option Serializable) → List (Option Serializable) →
      List (Option Serializable) × Option Error × List (Option Serializable)
  | [], done => (done, none, [])
  | none :: rest, done => (done ++ none :: rest, some (.message "nil value"), [none])
  | some v :: rest, done =>
    match ctx.ShareOrClone (.serializable v) with
    | .error err => (done ++ some v :: rest, some err, [some v])
    | .ok (.notSerializable _) => (done ++ some v :: rest, some .typeAssertion, [some v])
    | .ok (.serializable w) =>
      match shareValuesLoop ctx rest (done ++ [some w]) with
      | (values, err, calls) => (values, err, some v :: calls)

/-- The method `Object.Share`. -/
def Object.Share (ctx : Context) (obj : Object) : ShareResult :=
  if (SmartLock.Share obj.shared).2 then
    match shareValuesLoop ctx obj.values [] with
    | (values, none, calls) =>
      ⟨{ obj with shared := (SmartLock.Share obj.shared).1, values := values }, .ok (), calls⟩
    | (values, some err, calls) =>
      ⟨{ obj with shared := (SmartLock.Share obj.shared).1, values := values }, .panic err,
        calls⟩
  else ⟨{ obj with shared := (SmartLock.Share obj.shared).1 }, .ok (), []⟩

/-- The object after a number of `Share` calls. -/
def Object.shareTimes (ctx : Context) (obj : Object) : Nat → Object
  | 0 => obj
  | n + 1 => Object.shareTimes ctx (obj.Share ctx).obj n

/-- The loop of the symbolic `Object.Share` over the entries:
`shared.entries[k] = newVal.(Serializable)` for the result of `ShareOrClone`, whose error
is the value of the panic. -/
def symbolic.shareEntries {V : Type} (shareOrClone : V → Except Error V) :
    List (String × V) → Except Error (List (String × V))
  | [] => .ok []
  | (k, v) :: rest =>
    match shareOrClone v with
    | .error err => .error err
    | .ok newVal =>
      match symbolic.shareEntries shareOrClone rest with
      | .error err => .error err
      | .ok entries => .ok ((k, newVal) :: entries)

/-- The method `Share` of a symbolic object: a shared object is returned as it is;
otherwise a new shared object with the shared or cloned entries is returned (it has no
optional entries and is neither exact nor readonly). The error is the value of the
panic. -/
def symbolic.Object.Share {V : Type} (shareOrClone : V → Except Error V)
    (obj : symbolic.Object V) : Except Error (symbolic.Object V) :=
  if obj.shared then .ok obj
  else
    match obj.entries with
    | none =>
      .ok { entries := none, optionalEntries := [], exact := false, readonly := false,
            shared := true }
    | some entries =>
      match symbolic.shareEntries shareOrClone entries with
      | .error err => .error err
      | .ok shared =>
        .ok { entries := some shared, optionalEntries := [], exact := false,
              readonly := false, shared := true }

/-- The map `{"0": 0, "1": 1, ..., "10": 10}`. -/
def elevenIndexedProps : List (String × Serializable) :=
  [("0", .int 0), ("1", .int 1), ("2", .int 2), ("3", .int 3), ("4", .int 4), ("5", .int 5),
   ("6", .int 6), ("7", .int 7), ("8", .int 8), ("9", .int 9), ("10", .int 10)]

/-! ## Object: reading properties -/

/-- The permission check of `Object.prop`, `if obj.url != "" { ... ctx.CheckHasPermission(perm) }`
for reading the property `name`: the error, if any. -/
def Object.readPermissionError (ctx : Context) (obj : Object) (name : String) : Option Error :=
  if obj.url != "" then ctx.CheckHasPermission ⟨false, obj.url, name⟩ else none

/-- The method `Object.prop(ctx, name, stored)`: the value of the first key equal to
`name`, or the value of the panic (a refused transaction wait, a denied read permission, a
name that is no property). For a stored property a shared object returns the result of
`CheckSharedOrClone`, asserted to be serializable. -/
def Object.prop (ctx : Context) (obj : Object) (name : String) (stored : Bool) :
    Outcome (Option Serializable) :=
  match ctx.WaitIfOtherTransaction (!stored) with
  | some err => .panic err
  | none =>
    match obj.readPermissionError ctx name with
    | some err => .panic err
    | none =>
      if name ∈ obj.keys then
        match obj.values[obj.keys.indexOf name]? with
        | none => .panic .indexOutOfRange
        | some v =>
          if obj.shared && stored then
            match ctx.CheckSharedOrClone v with
            | .ok (some w) => .ok (some w)
            | .ok none => .panic .typeAssertion
            | .error err => .panic err
          else .ok v
      else .panic (.propertyDoesNotExist name)

/-- The method `Object.Prop(ctx, name)`. -/
def Object.Prop (ctx : Context) (obj : Object) (name : String) : Outcome (Option Serializable) :=
  obj.prop ctx name true

/-- The method `Object.HasProp(ctx, name)`; a refused transaction wait is a panic. -/
def Object.HasProp (ctx : Context) (obj : Object) (name : String) : Outcome Bool :=
  match ctx.WaitIfOtherTransaction false with
  | some err => .panic err
  | none => .ok (decide (name ∈ obj.keys))

/-- A context in which every value is watchable and the registration of a mutation
callback returns the handle 9. -/
def Context.watching : Context :=
  { Context.permissive with OnMutation := fun _ => some (.ok 9) }

/-- A context in which `ShareOrClone` returns a clone, told apart from the original by its
text. -/
def Context.cloning : Context :=
  { Context.permissive with
    ShareOrClone := fun _ => .ok (.serializable (.str "clone")) }

/-- The handle slice of an object padded to the number of keys, as the first loop of
`Object.sortProps` leaves it. -/
def Object.paddedHandles (obj : Object) : Option (List CallbackHandle) :=
  obj.propMutationCallbacks.map (fun handles =>
    handles ++ List.replicate (obj.keys.length - handles.length) (FIRST_VALID_CALLBACK_HANDLE - 1))

/-- The steps of `SetProp` that the lock discipline is about: taking the lock, releasing
it, calling the microtasks. -/
def Event.isLockStep : Event → Bool
  | .lock => true
  | .unlock => true
  | .callMicrotasks _ => true
  | _ => false

/-- What the deferred function of `SetProp` relies on at the end of the part that runs under
the lock: either the variable `unlock` is true and no step released the lock or called the
microtasks, or `unlock` is false and the last two steps are the release of the lock and the
call of the microtasks. -/
def LockedResult.disciplined (r : LockedResult) : Prop :=
  (r.unlock = true ∧ ∀ e ∈ r.events, e.isLockStep = false) ∨
  (r.unlock = false ∧ ∃ pre m, r.events = pre ++ [.unlock, .callMicrotasks m] ∧
    ∀ e ∈ pre, e.isLockStep = false)

/-! ## Migration objects with an unexpected property -/

/-- Example: a migration object with an inclusion handler, function 0, for the entity
`users`, followed by the unexpected property `unexpected`. -/
def migrationWithUnexpectedLast : MigrationObject :=
  { entries := [("inclusions", .dictionary [(.pathPattern "/users", .function 0)]),
                ("unexpected", .dictionary [])] }

/-- Example: a migration object with the unexpected property `extra` followed by an
inclusion handler, function 0, for the entity `users` (the properties of an object are
visited in the order of the keys). -/
def migrationWithUnexpectedFirst : MigrationObject :=
  { entries := [("extra", .dictionary []),
                ("inclusions", .dictionary [(.pathPattern "/users", .function 0)])] }

/-- The function `IsDbMigrationPropertyName`. -/
def IsDbMigrationPropertyName (name : String) : Bool :=
  decide (name ∈ ["deletions", "inclusions", "replacements", "initializations"])

/-! ## Paths: parent directory; path patterns: globbing pattern -/

/-- The loop of Go's `strings.LastIndexByte(s, c)` from position `i - 1` down to 0. -/
def LastIndexByte.loop (s : List Char) (c : Char) : Nat → Int
  | 0 => -1
  | i + 1 => if s[i]? = some c then (i : Int) else LastIndexByte.loop s c i

/-- Go's `strings.LastIndexByte(s, c)` for an ASCII character `c`, on the characters of the
string (a byte of value `c` is the character `c`): the last position of `c`, or `-1`. -/
def LastIndexByte (s : List Char) (c : Char) : Int :=
  LastIndexByte.loop s c s.length

/-- The method `Path.IsDirPath`, `pth[len(pth)-1] == '/'`: `none` is the index-out-of-range
panic for the empty path. -/
def Path.IsDirPath (pth : String) : Option Bool :=
  match pth.toList.getLast? with
  | none => none
  | some c => some (c == '/')

/-- The method `Path.DirPath`: the path up to the last slash, after the final slash of a
directory path has been dropped. -/
def Path.DirPath (pth : String) : Outcome String :=
  if pth = "/" then .ok "/"
  else
    match Path.IsDirPath pth with
    | none => .panic .indexOutOfRange
    | some true =>
      if pth.toList.getLast? ≠ some '/' then .panic .ErrInvalidDirPath
      else
        .ok (String.mk (pth.toList.dropLast.take
          (LastIndexByte pth.toList.dropLast '/' + 1).toNat))
    | some false =>
      if pth.toList.getLast? = some '/' then .panic .ErrInvalidNonDirPath
      else .ok (String.mk (pth.toList.take (LastIndexByte pth.toList '/' + 1).toNat))

/-- The method `PathPattern.IsGlobbingPattern`. -/
def PathPattern.IsGlobbingPattern (patt : String) : Bool :=
  !PathPattern.IsPrefixPattern patt

/-- The method `PathPattern.ToGlobbingPattern`. -/
def PathPattern.ToGlobbingPattern (patt : String) : String :=
  if PathPattern.IsGlobbingPattern patt then patt
  else PathPattern.Prefix patt ++ "/**/*"

/-! ## Correctness of the search and of the sort -/

theorem strLE_iff (a b : String) : strLE a b = true ↔ a ≤ b := by
  simp [strLE, String.le_iff_toList_le]

theorem strLT_iff (a b : String) : strLT a b = true ↔ a < b := by
  simp [strLT, String.lt_iff_toList_lt]

theorem keyLE_iff (a b : String) : keyLE a b ↔ a ≤ b := strLE_iff a b

instance keyLE.isTotal : IsTotal String keyLE :=
  ⟨fun a b => by simp only [keyLE_iff]; exact le_total a b⟩

instance keyLE.isTrans : IsTrans String keyLE :=
  ⟨fun a b c => by simp only [keyLE_iff]; exact le_trans⟩

instance keyLE.isAntisymm : IsAntisymm String keyLE :=
  ⟨fun a b => by simp only [keyLE_iff]; exact le_antisymm⟩

theorem sortStrings_sorted (a : List String) : (sortStrings a).Sorted keyLE :=
  List.sorted_insertionSort keyLE a

theorem sortStrings_perm (a : List String) : (sortStrings a).Perm a :=
  List.perm_insertionSort keyLE a

theorem sortStrings_length (a : List String) : (sortStrings a).length = a.length :=
  (sortStrings_perm a).length_eq

theorem sortStrings_of_sorted {a : List String} (h : a.Sorted keyLE) : sortStrings a = a :=
  List.Sorted.insertionSort_eq h

/-- Two sorted arrangements of the same keys are the same list. -/
theorem sortStrings_congr {a b : List String} (h : a.Perm b) : sortStrings a = sortStrings b :=
  List.eq_of_perm_of_sorted
    ((sortStrings_perm a).trans (h.trans (sortStrings_perm b).symm))
    (sortStrings_sorted a) (sortStrings_sorted b)

/-- Invariant of the binary search: everything left of `i` fails the test, `j` passes. -/
theorem searchLoop_spec (f : Nat → Bool) (n : Nat)
    (mono : ∀ a b, a ≤ b → b < n → f a = true → f b = true) :
    ∀ fuel i j, i ≤ j → j ≤ n → j - i ≤ fuel →
      (∀ a, a < i → f a = false) → (j < n → f j = true) →
      (∀ a, a < searchLoop f fuel i j → f a = false) ∧
      (searchLoop f fuel i j < n → f (searchLoop f fuel i j) = true) ∧
      searchLoop f fuel i j ≤ n := by
  intro fuel
  induction fuel with
  | zero =>
    intro i j hij hjn hfuel hlo hhi
    have hEq : i = j := by omega
    subst hEq
    simp only [searchLoop]
    exact ⟨hlo, hhi, hjn⟩
  | succ fuel ih =>
    intro i j hij hjn hfuel hlo hhi
    simp only [searchLoop]
    by_cases hlt : i < j
    · simp only [hlt, if_true]
      have hmid1 : i ≤ (i + j) / 2 := by omega
      have hmid2 : (i + j) / 2 < j := by omega
      cases hf : f ((i + j) / 2) with
      | false =>
        simp only [Bool.not_false, if_true]
        apply ih ((i + j) / 2 + 1) j (by omega) hjn (by omega) _ hhi
        intro a ha
        cases hfa : f a with
        | false => rfl
        | true =>
          have := mono a ((i + j) / 2) (by omega) (by omega) hfa
          rw [hf] at this
          exact absurd this (by simp)
      | true =>
        simp only [Bool.not_true, Bool.false_eq_true, if_false]
        exact ih i ((i + j) / 2) hmid1 (by omega) (by omega) hlo (fun _ => hf)
    · simp only [hlt, if_false]
      have hEq : i = j := by omega
      subst hEq
      exact ⟨hlo, hhi, hjn⟩

theorem Search_spec (f : Nat → Bool) (n : Nat)
    (mono : ∀ a b, a ≤ b → b < n → f a = true → f b = true) :
    (∀ a, a < Search n f → f a = false) ∧ (Search n f < n → f (Search n f) = true) ∧
      Search n f ≤ n :=
  searchLoop_spec f n mono n 0 n (Nat.zero_le n) (Nat.le_refl n) (by omega)
    (fun a ha => absurd ha (Nat.not_lt_zero a)) (fun h => absurd h (Nat.lt_irrefl n))

/-- In a sorted list, an earlier element is below a later one. -/
theorem sorted_getElem_le {a : List String} (hs : a.Sorted keyLE) {p q : Nat}
    (hpq : p ≤ q) (hq : q < a.length) : a.getD p "" ≤ a.getD q "" := by
  have hp : p < a.length := by omega
  rw [List.getD_eq_getElem a "" hp, List.getD_eq_getElem a "" hq]
  rcases Nat.eq_or_lt_of_le hpq with h | h
  · subst h; exact le_refl _
  · exact (keyLE_iff _ _).1 (List.pairwise_iff_getElem.1 hs p q hp hq h)

/-- On a sorted duplicate-free slice, `SearchStrings` finds an element at its position. -/
theorem SearchStrings_sorted_at {a : List String} (hs : a.Sorted keyLE) (hn : a.Nodup)
    {j : Nat} {x : String} (hj : a[j]? = some x) : SearchStrings a x = j := by
  obtain ⟨hjlt, hjx⟩ := List.getElem?_eq_some.1 hj
  have hgetj : a.getD j "" = x := by rw [List.getD_eq_getElem a "" hjlt]; exact hjx
  have mono : ∀ p q, p ≤ q → q < a.length →
      (fun i => strLE x (a.getD i "")) p = true → (fun i => strLE x (a.getD i "")) q = true := by
    intro p q hpq hq hp
    simp only [strLE_iff] at hp ⊢
    exact le_trans hp (sorted_getElem_le hs hpq hq)
  obtain ⟨hlo, hhi, _⟩ := Search_spec (fun i => strLE x (a.getD i "")) a.length mono
  have hfj : strLE x (a.getD j "") = true := by
    simp only [strLE_iff, hgetj]; exact le_refl x
  unfold SearchStrings
  generalize Search a.length (fun i => strLE x (a.getD i "")) = r at hlo hhi ⊢
  have hle : r ≤ j := by
    by_contra hcon
    have := hlo j (by omega)
    simp only [hfj] at this
    exact absurd this (by simp)
  rcases Nat.eq_or_lt_of_le hle with h | h
  · exact h
  · exfalso
    have hrlt : r < a.length := by omega
    have hr := hhi hrlt
    simp only [strLE_iff] at hr
    have h2 := sorted_getElem_le hs (Nat.le_of_lt h) hjlt
    rw [hgetj] at h2
    have heq : a.getD r "" = x := le_antisymm h2 hr
    rw [List.getD_eq_getElem a "" hrlt] at heq
    have := (List.Nodup.getElem_inj_iff hn).1 (heq.trans hjx.symm)
    omega

/-- What the loop of `sortProps` computes when the target positions of the remaining keys
are in range and pairwise different: each remaining value lands at the position of its key,
every other slot is left as it was. -/
theorem sortPropsLoop_spec {V : Type} (newKeys : List String) (values : List V) :
    ∀ (rest : List String) (i : Nat) (nv : List V) (ni : List Nat),
      i + rest.length ≤ values.length → i + rest.length ≤ ni.length →
      (∀ k, k ∈ rest → SearchStrings newKeys k < nv.length) →
      (rest.map (SearchStrings newKeys)).Nodup →
      ∃ nv2 ni2, sortPropsLoop newKeys values rest i nv ni = some (nv2, ni2) ∧
        nv2.length = nv.length ∧ ni2.length = ni.length ∧
        (∀ j, (∀ k, k ∈ rest → SearchStrings newKeys k ≠ j) → nv2[j]? = nv[j]?) ∧
        (∀ m k, rest[m]? = some k → nv2[SearchStrings newKeys k]? = values[i + m]?) ∧
        (∀ p, p < i → ni2[p]? = ni[p]?) ∧
        (∀ m k, rest[m]? = some k → ni2[i + m]? = some (SearchStrings newKeys k)) := by
  intro rest
  induction rest with
  | nil =>
    intro i nv ni _ _ _ _
    exact ⟨nv, ni, rfl, rfl, rfl, fun _ _ => rfl, fun m k h => by simp at h,
      fun _ _ => rfl, fun m k h => by simp at h⟩
  | cons k rest ih =>
    intro i nv ni hv hni hidx hnd
    simp only [List.length_cons] at hv hni
    have hi : i < values.length := by omega
    have hk : SearchStrings newKeys k < nv.length := hidx k (List.mem_cons_self k rest)
    simp only [List.map_cons, List.nodup_cons] at hnd
    obtain ⟨nv2, ni2, hrun, hl1, hl2, hkeep, hput, hikeep, hiput⟩ :=
      ih (i + 1) (nv.set (SearchStrings newKeys k) (values[i]))
        (ni.set i (SearchStrings newKeys k)) (by omega)
        (by rw [List.length_set]; omega)
        (fun k2 hk2 => by rw [List.length_set]; exact hidx k2 (List.mem_cons_of_mem k hk2))
        hnd.2
    refine ⟨nv2, ni2, ?_, ?_, ?_, ?_, ?_, ?_, ?_⟩
    · simp only [sortPropsLoop, List.getElem?_eq_getElem hi]
      rw [if_pos ⟨hk, by omega⟩]
      exact hrun
    · rw [hl1, List.length_set]
    · rw [hl2, List.length_set]
    · intro j hj
      rw [hkeep j (fun k2 hk2 => hj k2 (List.mem_cons_of_mem k hk2))]
      exact List.getElem?_set_ne (hj k (List.mem_cons_self k rest))
    · intro m k2 hm
      cases m with
      | zero =>
        simp only [List.getElem?_cons_zero, Option.some.injEq] at hm
        subst hm
        rw [hkeep (SearchStrings newKeys k) (fun k2 hk2 heq =>
          hnd.1 (List.mem_map.2 ⟨k2, hk2, heq⟩))]
        rw [List.getElem?_set_self hk, Nat.add_zero, List.getElem?_eq_getElem hi]
      | succ m =>
        simp only [List.getElem?_cons_succ] at hm
        rw [hput m k2 hm]
        congr 1
        omega
    · intro p hp
      rw [hikeep p (by omega)]
      exact List.getElem?_set_ne (by omega)
    · intro m k2 hm
      cases m with
      | zero =>
        simp only [List.getElem?_cons_zero, Option.some.injEq] at hm
        subst hm
        rw [Nat.add_zero, hikeep i (by omega)]
        exact List.getElem?_set_self (by omega)
      | succ m =>
        simp only [List.getElem?_cons_succ] at hm
        rw [← hiput m k2 hm]
        congr 1
        omega

theorem sortStrings_nodup {keys : List String} (hn : keys.Nodup) : (sortStrings keys).Nodup :=
  (sortStrings_perm keys).nodup_iff.2 hn

theorem SearchStrings_eq_indexOf {keys : List String} (hn : keys.Nodup) {k : String}
    (hk : k ∈ keys) : SearchStrings (sortStrings keys) k = (sortStrings keys).indexOf k :=
  SearchStrings_sorted_at (sortStrings_sorted keys) (sortStrings_nodup hn)
    (List.getElem?_indexOf ((sortStrings_perm keys).mem_iff.2 hk))

/-- For duplicate-free keys and as many values, `sortProps` does not panic, returns the
sorted keys, keeps the value of every key, and reports where each key went. -/
theorem sortProps_nodup {V : Type} [Inhabited V] {keys : List String} {values : List V}
    (hn : keys.Nodup) (hlen : values.length = keys.length) :
    ∃ nv ni, sortProps keys values = some (sortStrings keys, nv, ni) ∧
      nv.length = keys.length ∧
      (∀ k, propValue (sortStrings keys) nv k = propValue keys values k) ∧
      (∀ (m : Nat) (k : String), keys[m]? = some k →
        ni[m]? = some ((sortStrings keys).indexOf k)) := by
  by_cases h0 : keys.length = 0
  · have hk : keys = [] := List.length_eq_zero.1 h0
    subst hk
    have hv : values = [] := List.length_eq_zero.1 (by simpa using hlen)
    subst hv
    exact ⟨[], [], by simp [sortProps, sortStrings], rfl, fun k => by simp [propValue],
      fun m k h => by simp at h⟩
  · have hidx : ∀ k, k ∈ keys → SearchStrings (sortStrings keys) k < keys.length := by
      intro k hk
      rw [SearchStrings_eq_indexOf hn hk, ← sortStrings_length keys]
      exact List.indexOf_lt_length.2 ((sortStrings_perm keys).mem_iff.2 hk)
    have hinj : (keys.map (SearchStrings (sortStrings keys))).Nodup := by
      refine List.Nodup.map_on ?_ hn
      intro x hx y hy hxy
      rw [SearchStrings_eq_indexOf hn hx, SearchStrings_eq_indexOf hn hy] at hxy
      exact (List.indexOf_inj ((sortStrings_perm keys).mem_iff.2 hx)
        ((sortStrings_perm keys).mem_iff.2 hy)).1 hxy
    obtain ⟨nv, ni, hrun, hl1, _, _, hput, _, hiput⟩ :=
      sortPropsLoop_spec (sortStrings keys) values keys 0
        (List.replicate values.length default) (List.replicate values.length 0)
        (by omega) (by simp [hlen])
        (fun k hk => by rw [List.length_replicate, hlen]; exact hidx k hk) hinj
    rw [List.length_replicate] at hl1
    refine ⟨nv, ni, ?_, by omega, ?_, ?_⟩
    · simp only [sortProps, h0, if_false, hrun]
    · intro k
      unfold propValue
      by_cases hk : k ∈ keys
      · rw [← SearchStrings_eq_indexOf hn hk, hput (keys.indexOf k) k (List.getElem?_indexOf hk),
          Nat.zero_add]
      · rw [List.indexOf_of_not_mem hk,
          List.indexOf_of_not_mem (fun h => hk ((sortStrings_perm keys).mem_iff.1 h)),
          List.getElem?_eq_none (by rw [sortStrings_length]; omega),
          List.getElem?_eq_none (by omega)]
    · intro m k hm
      rw [← SearchStrings_eq_indexOf hn (List.mem_iff_getElem?.2 ⟨m, hm⟩)]
      simpa using hiput m k hm

/-- Writing back the element that is already there changes nothing. -/
theorem set_getElem_same {α : Type} (l : List α) (i : Nat) (h : i < l.length) :
    l.set i (l.get ⟨i, h⟩) = l := by
  apply List.ext_getElem?
  intro n
  rw [List.getElem?_set]
  by_cases hn : i = n
  · subst hn
    simp [h]
  · simp [hn]

/-! ## Objects keep their properties sorted -/

theorem keysAscending_iff {keys : List String} :
    keysAscending keys ↔ keys.Sorted keyLE ∧ keys.Nodup := by
  unfold keysAscending
  constructor
  · intro h
    have hlt : keys.Sorted (fun a b : String => a < b) :=
      List.Pairwise.imp (fun {a b} hab => (strLT_iff a b).1 hab) h
    exact ⟨List.Pairwise.imp (fun {a b} hab => (keyLE_iff a b).2 (le_of_lt hab)) hlt, hlt.nodup⟩
  · rintro ⟨hs, hn⟩
    have hle : keys.Sorted (fun a b : String => a ≤ b) :=
      List.Pairwise.imp (fun {a b} hab => (keyLE_iff a b).1 hab) hs
    exact List.Pairwise.imp (fun {a b} hab => (strLT_iff a b).2 hab) (hle.lt_of_le hn)

theorem sortStrings_ascending {keys : List String} (hn : keys.Nodup) :
    keysAscending (sortStrings keys) :=
  keysAscending_iff.2 ⟨sortStrings_sorted keys, sortStrings_nodup hn⟩

theorem sortStrings_of_ascending {keys : List String} (h : keysAscending keys) :
    sortStrings keys = keys :=
  sortStrings_of_sorted (keysAscending_iff.1 h).1

theorem propValue_of_not_mem {V : Type} {keys : List String} {values : List V} {k : String}
    (hlen : values.length = keys.length) (hk : k ∉ keys) : propValue keys values k = none := by
  unfold propValue
  rw [List.indexOf_of_not_mem hk]
  exact List.getElem?_eq_none (by omega)

theorem propValue_isSome_of_mem {V : Type} {keys : List String} {values : List V} {k : String}
    (hlen : values.length = keys.length) (hk : k ∈ keys) :
    ∃ v, propValue keys values k = some v := by
  unfold propValue
  have h : keys.indexOf k < values.length := by
    rw [hlen]; exact List.indexOf_lt_length.2 hk
  exact ⟨values[keys.indexOf k], List.getElem?_eq_getElem h⟩

/-- Overwriting the slot of a present key changes what the scan finds for that key only. -/
theorem propValue_set {V : Type} {keys : List String} {values : List V} {name : String}
    (hlen : values.length = keys.length) (hname : name ∈ keys) (x : V) (k : String) :
    propValue keys (values.set (keys.indexOf name) x) k =
      if k = name then some x else propValue keys values k := by
  unfold propValue
  by_cases hk : k = name
  · subst hk
    rw [if_pos rfl]
    exact List.getElem?_set_self (by rw [hlen]; exact List.indexOf_lt_length.2 hname)
  · rw [if_neg hk]
    apply List.getElem?_set_ne
    intro heq
    by_cases hmem : k ∈ keys
    · exact hk ((List.indexOf_inj hmem hname).1 heq.symm)
    · have h1 := List.indexOf_lt_length.2 hname
      rw [heq, List.indexOf_of_not_mem hmem] at h1
      exact Nat.lt_irrefl _ h1

/-- Appending a new key with its value adds that binding and keeps the others. -/
theorem propValue_append {V : Type} {keys : List String} {values : List V} {name : String}
    (hlen : values.length = keys.length) (hname : name ∉ keys) (x : V) (k : String) :
    propValue (keys ++ [name]) (values ++ [x]) k =
      if k = name then some x else propValue keys values k := by
  unfold propValue
  by_cases hk : k = name
  · subst hk
    rw [if_pos rfl, List.indexOf_append_of_not_mem hname, List.indexOf_cons_self,
      Nat.add_zero, ← hlen, List.getElem?_append_right (Nat.le_refl _)]
    simp
  · rw [if_neg hk]
    by_cases hmem : k ∈ keys
    · rw [List.indexOf_append_of_mem hmem]
      exact List.getElem?_append_left (by rw [hlen]; exact List.indexOf_lt_length.2 hmem)
    · have hnot : k ∉ [name] := by simpa using hk
      rw [List.indexOf_append_of_not_mem hmem, List.indexOf_of_not_mem hnot,
        List.indexOf_of_not_mem hmem]
      rw [List.getElem?_eq_none (by simp [hlen]), List.getElem?_eq_none (by omega)]

/-- What `Object.sortProps` does to keys and values when it returns: the keys are sorted
and every key keeps its value. -/
theorem Object.sortProps_spec (obj : Object) {obj2 : Object} (hn : obj.keys.Nodup)
    (hlen : obj.values.length = obj.keys.length) (h : obj.sortProps = some obj2) :
    obj2.keys = sortStrings obj.keys ∧ obj2.values.length = obj.keys.length ∧
      (∀ k, propValue obj2.keys obj2.values k = propValue obj.keys obj.values k) := by
  obtain ⟨nv, ni, hrun, hl, hval, _⟩ := sortProps_nodup hn hlen
  unfold Object.sortProps at h
  rw [hrun] at h
  simp only at h
  split at h
  · cases h
    exact ⟨rfl, hl, hval⟩
  · split at h
    · exact absurd h (by simp)
    · cases h
      exact ⟨rfl, hl, hval⟩

/-- Without a handle slice `Object.sortProps` cannot panic (keys duplicate-free, as many
values as keys). -/
theorem Object.sortProps_returns (obj : Object) (hn : obj.keys.Nodup)
    (hlen : obj.values.length = obj.keys.length) (hcb : obj.propMutationCallbacks = none) :
    ∃ obj2, obj.sortProps = some obj2 ∧ obj2.propMutationCallbacks = none ∧
      obj2.constraintId = obj.constraintId ∧ obj2.url = obj.url ∧ obj2.shared = obj.shared ∧
      obj2.hasMutationCallbacks = obj.hasMutationCallbacks ∧
      obj2.implicitPropCount = obj.implicitPropCount := by
  obtain ⟨nv, ni, hrun, _, _, _⟩ := sortProps_nodup hn hlen
  refine ⟨{ obj with keys := sortStrings obj.keys, values := nv }, ?_, hcb, rfl, rfl, rfl, rfl, rfl⟩
  unfold Object.sortProps
  rw [hrun, hcb]
  rfl

/-- The handle bookkeeping and the notification leave keys and values alone. -/
theorem Object.afterUpdate_props (ctx : Context) (obj2 : Object) (name : String)
    (prev : Option Serializable) (v : Serializable) :
    (Object.afterUpdate ctx obj2 name prev v).obj.keys = obj2.keys ∧
      (Object.afterUpdate ctx obj2 name prev v).obj.values = obj2.values := by
  unfold Object.afterUpdate
  repeat' split
  all_goals exact ⟨rfl, rfl⟩

theorem Object.afterAdd_props (ctx : Context) (obj2 : Object) (name : String)
    (v : Serializable) :
    (Object.afterAdd ctx obj2 name v).obj.keys = obj2.keys ∧
      (Object.afterAdd ctx obj2 name v).obj.values = obj2.values := by
  unfold Object.afterAdd
  repeat' split
  all_goals exact ⟨rfl, rfl⟩

/-- A successful update of an existing property passed the constraint, sorted the
properties, and stores the keys and values that `sortProps` produced. -/
theorem Object.updateProp_ok {ctx : Context} {obj : Object} {constraint : Option Constraint}
    {name : String} {i : Nat} {v : Serializable}
    (h : (obj.updateProp ctx constraint name i v).outcome = .ok ()) :
    ∃ obj2, Object.sortProps { obj with values := obj.values.set i (some v) } = some obj2 ∧
      (obj.updateProp ctx constraint name i v).obj.keys = obj2.keys ∧
      (obj.updateProp ctx constraint name i v).obj.values = obj2.values := by
  unfold Object.updateProp at h ⊢
  cases hv : obj.values[i]? with
  | none => simp [hv] at h
  | some prev =>
    simp only [hv] at h ⊢
    cases hc : constraintViolated constraint obj.keys (obj.values.set i (some v)) with
    | none => simp [hc] at h
    | some b =>
      cases b with
      | true => simp [hc] at h
      | false =>
        simp only [hc] at h ⊢
        cases hs : Object.sortProps { obj with values := obj.values.set i (some v) } with
        | none => simp [hs] at h
        | some obj2 =>
          simp only [hs] at h ⊢
          exact ⟨obj2, rfl, Object.afterUpdate_props ctx obj2 name prev v⟩

/-- A successful addition of a property passed the constraint, sorted the properties, and
stores the keys and values that `sortProps` produced. -/
theorem Object.addProp_ok {ctx : Context} {obj : Object} {constraint : Option Constraint}
    {name : String} {v : Serializable}
    (h : (obj.addProp ctx constraint name v).outcome = .ok ()) :
    ∃ obj2, Object.sortProps
        { obj with keys := obj.keys ++ [name], values := obj.values ++ [some v] } = some obj2 ∧
      (obj.addProp ctx constraint name v).obj.keys = obj2.keys ∧
      (obj.addProp ctx constraint name v).obj.values = obj2.values := by
  unfold Object.addProp at h ⊢
  cases hc : constraintViolated constraint (obj.keys ++ [name]) (obj.values ++ [some v]) with
  | none => simp [hc] at h
  | some b =>
    cases b with
    | true => simp [hc] at h
    | false =>
      simp only [hc] at h ⊢
      cases hs : Object.sortProps
          { obj with keys := obj.keys ++ [name], values := obj.values ++ [some v] } with
      | none => simp [hs] at h
      | some obj2 =>
        simp only [hs] at h ⊢
        exact ⟨obj2, rfl, Object.afterAdd_props ctx obj2 name v⟩

/-- A successful `SetProp` went through one of the two branches. -/
theorem Object.SetProp_ok_cases {ctx : Context} {obj : Object} {name : String}
    {v : Serializable} (h : (obj.SetProp ctx name (.serializable v)).outcome = .ok ()) :
    (name ∈ obj.keys ∧
      (obj.updateProp ctx (obj.constraint ctx) name (obj.keys.indexOf name) v).outcome = .ok () ∧
      (obj.SetProp ctx name (.serializable v)).obj =
        (obj.updateProp ctx (obj.constraint ctx) name (obj.keys.indexOf name) v).obj) ∨
    (name ∉ obj.keys ∧ (obj.addProp ctx (obj.constraint ctx) name v).outcome = .ok () ∧
      (obj.SetProp ctx name (.serializable v)).obj =
        (obj.addProp ctx (obj.constraint ctx) name v).obj) := by
  unfold Object.SetProp at h ⊢
  simp only at h ⊢
  cases htx : ctx.WaitIfOtherTransaction false with
  | some err => simp [htx] at h
  | none =>
    simp only [htx] at h ⊢
    cases hsh : obj.shareValue ctx (.serializable v) with
    | error err => simp [hsh] at h
    | ok w =>
      simp only [hsh] at h ⊢
      unfold Object.setPropLocked at h ⊢
      by_cases hidx : IsIndexKey name = true
      · simp [hidx] at h
      · simp only [hidx] at h ⊢
        cases hperm : obj.writePermissionError ctx name with
        | some err => simp [hperm] at h
        | none =>
          simp only [hperm] at h ⊢
          by_cases hmem : name ∈ obj.keys
          · left
            simp only [hmem, if_true] at h ⊢
            exact ⟨trivial, h, rfl⟩
          · right
            simp only [hmem, if_false] at h ⊢
            exact ⟨not_false, h, rfl⟩

/-- One successful `SetProp` keeps the object in step with the bindings. -/
theorem Object.SetProp_holds {ctx : Context} {obj : Object}
    {bound : String → Option Serializable} {name : String} {v : Serializable}
    (hinv : obj.Holds bound) (h : (obj.SetProp ctx name (.serializable v)).outcome = .ok ()) :
    (obj.SetProp ctx name (.serializable v)).obj.Holds (Function.update bound name (some v)) := by
  obtain ⟨hlen, hasc, hval⟩ := hinv
  have hnd : obj.keys.Nodup := (keysAscending_iff.1 hasc).2
  obtain hcase | hcase := Object.SetProp_ok_cases h
  · obtain ⟨hmem, hok, hobj⟩ := hcase
    obtain ⟨obj2, hsort, hk, hv⟩ := Object.updateProp_ok hok
    obtain ⟨hk2, hl2, hv2⟩ := Object.sortProps_spec ({ obj with
      values := obj.values.set (obj.keys.indexOf name) (some v) }) hnd
      (by simp [hlen]) hsort
    simp only at hk2 hl2 hv2
    rw [hobj]
    refine ⟨by rw [hk, hv, hl2, hk2, sortStrings_length], ?_, ?_⟩
    · rw [hk, hk2, sortStrings_of_ascending hasc]; exact hasc
    · intro k
      rw [hk, hv, hv2 k, propValue_set hlen hmem, Function.update_apply]
      by_cases hkn : k = name
      · simp [hkn]
      · simp only [hkn, if_false]; exact hval k
  · obtain ⟨hmem, hok, hobj⟩ := hcase
    obtain ⟨obj2, hsort, hk, hv⟩ := Object.addProp_ok hok
    have hnd2 : (obj.keys ++ [name]).Nodup :=
      List.Nodup.append hnd (List.nodup_singleton name)
        (by intro x hx hx2; simp at hx2; subst hx2; exact hmem hx)
    obtain ⟨hk2, hl2, hv2⟩ := Object.sortProps_spec ({ obj with
      keys := obj.keys ++ [name], values := obj.values ++ [some v] }) hnd2
      (by simp [hlen]) hsort
    simp only at hk2 hl2 hv2
    rw [hobj]
    refine ⟨by rw [hk, hv, hl2, hk2, sortStrings_length], ?_, ?_⟩
    · rw [hk, hk2]; exact sortStrings_ascending hnd2
    · intro k
      rw [hk, hv, hv2 k, propValue_append hlen hmem, Function.update_apply]
      by_cases hkn : k = name
      · simp [hkn]
      · simp only [hkn, if_false]; exact hval k

theorem propValue_cons {V : Type} (k0 : String) (ks : List String) (v0 : V) (vs : List V)
    (k : String) :
    propValue (k0 :: ks) (v0 :: vs) k = if k = k0 then some v0 else propValue ks vs k := by
  unfold propValue
  by_cases h : k = k0
  · subst h; simp
  · rw [if_neg h, List.indexOf_cons_ne _ (fun h2 => h h2.symm)]
    simp

/-- The parallel slices filled by the loop of `objFrom` hold the entries of the map. -/
theorem propValue_entries (entryMap : List (String × Serializable)) (k : String) :
    propValue (entryMap.map Prod.fst) (entryMap.map (fun kv => some kv.2)) k =
      (entryMap.lookup k).map some := by
  induction entryMap with
  | nil => simp [propValue]
  | cons kv rest ih =>
    obtain ⟨k0, v0⟩ := kv
    simp only [List.map_cons, propValue_cons, ih, List.lookup_cons]
    by_cases h : k = k0
    · subst h; simp
    · have hb : (k == k0) = false := by simpa using h
      simp [h, hb]

/-- The function `objFrom` returns an object for every map. -/
theorem objFrom_returns {entryMap : List (String × Serializable)}
    (hn : (entryMap.map Prod.fst).Nodup) :
    ∃ obj, objFrom entryMap = some obj ∧ obj.propMutationCallbacks = none ∧
      obj.constraintId = 0 ∧ obj.url = "" ∧ obj.shared = false := by
  obtain ⟨obj, h, h1, h2, h3, h4, _⟩ := Object.sortProps_returns
    ({ keys := entryMap.map Prod.fst, values := entryMap.map (fun kv => some kv.2),
              implicitPropCount := maxKeyIndex entryMap + 1 }) hn (by simp) rfl
  exact ⟨obj, h, h1, h2, h3, h4⟩

/-- The object made by `objFrom` stores exactly the entries of the map. -/
theorem objFrom_holds {entryMap : List (String × Serializable)} {obj : Object}
    (hn : (entryMap.map Prod.fst).Nodup) (h : objFrom entryMap = some obj) :
    obj.Holds (fun k => entryMap.lookup k) := by
  obtain ⟨hk, hl, hv⟩ := Object.sortProps_spec
    ({ keys := entryMap.map Prod.fst, values := entryMap.map (fun kv => some kv.2),
              implicitPropCount := maxKeyIndex entryMap + 1 }) hn (by simp) h
  simp only at hk hl hv
  refine ⟨by rw [hl, hk, sortStrings_length], by rw [hk]; exact sortStrings_ascending hn, ?_⟩
  intro k
  rw [hv k, propValue_entries]

theorem Object.Built.holds {obj : Object} {bound : String → Option Serializable}
    (h : Object.Built obj bound) : obj.Holds bound := by
  induction h with
  | objFrom entryMap obj hn hobj => exact objFrom_holds hn hobj
  | SetProp ctx name v _ hok ih => exact Object.SetProp_holds ih hok

/-- Index-wise reading of `Holds`: slot `i` holds the value bound to `keys[i]`, and every
bound name is a key. -/
theorem Object.Holds.slots {obj : Object} {bound : String → Option Serializable}
    (h : obj.Holds bound) :
    (∀ (i : Nat) (k : String), obj.keys[i]? = some k →
        ∃ v, bound k = some v ∧ obj.values[i]? = some (some v)) ∧
      (∀ k v, bound k = some v → k ∈ obj.keys) := by
  obtain ⟨hlen, hasc, hval⟩ := h
  have hnd : obj.keys.Nodup := (keysAscending_iff.1 hasc).2
  constructor
  · intro i k hik
    obtain ⟨hi, hk⟩ := List.getElem?_eq_some.1 hik
    have hidx : obj.keys.indexOf k = i := by rw [← hk]; exact List.indexOf_getElem hnd i hi
    have hp := hval k
    unfold propValue at hp
    rw [hidx, List.getElem?_eq_getElem (by omega : i < obj.values.length)] at hp
    cases hb : bound k with
    | none => rw [hb] at hp; simp at hp
    | some v =>
      rw [hb] at hp
      refine ⟨v, rfl, ?_⟩
      rw [List.getElem?_eq_getElem (by omega : i < obj.values.length)]
      exact hp
  · intro k v hb
    by_contra hk
    have hp := hval k
    rw [propValue_of_not_mem hlen hk, hb] at hp
    simp at hp

/-! ## Insertion order does not matter -/

theorem lookup_eq_none_of_not_mem {bindings : List (String × Serializable)} {k : String}
    (h : k ∉ bindings.map Prod.fst) : bindings.lookup k = none := by
  induction bindings with
  | nil => rfl
  | cons kv rest ih =>
    obtain ⟨k0, v0⟩ := kv
    simp only [List.map_cons, List.mem_cons, not_or] at h
    have hb : (k == k0) = false := by simpa using h.1
    rw [List.lookup_cons, hb]
    exact ih h.2

/-- With pairwise distinct names, looking a name up finds exactly the pairs of the list. -/
theorem lookup_eq_some_iff_mem {bindings : List (String × Serializable)}
    (hn : (bindings.map Prod.fst).Nodup) (k : String) (v : Serializable) :
    bindings.lookup k = some v ↔ (k, v) ∈ bindings := by
  induction bindings with
  | nil => simp
  | cons kv rest ih =>
    obtain ⟨k0, v0⟩ := kv
    simp only [List.map_cons, List.nodup_cons] at hn
    rw [List.lookup_cons]
    by_cases h : k = k0
    · subst h
      simp only [beq_self_eq_true, Option.some.injEq, List.mem_cons, Prod.mk.injEq, true_and]
      constructor
      · intro h; exact Or.inl h.symm
      · rintro (h | h)
        · exact h.symm
        · exact absurd (List.mem_map_of_mem Prod.fst h) hn.1
    · have hb : (k == k0) = false := by simpa using h
      simp only [hb, List.mem_cons, Prod.mk.injEq, h, false_and, false_or]
      exact ih hn.2

theorem lookup_perm {b1 b2 : List (String × Serializable)} (hp : b1.Perm b2)
    (hn : (b1.map Prod.fst).Nodup) (k : String) : b1.lookup k = b2.lookup k := by
  have hn2 : (b2.map Prod.fst).Nodup := (hp.map Prod.fst).nodup_iff.1 hn
  apply Option.ext
  intro v
  simp only [Option.mem_def]
  rw [lookup_eq_some_iff_mem hn, lookup_eq_some_iff_mem hn2]
  exact hp.mem_iff

/-- Binding pairwise distinct names one after the other gives the lookup table of the
list, on top of what was bound before. -/
theorem bindAll_eq {bindings : List (String × Serializable)}
    (hn : (bindings.map Prod.fst).Nodup) (bound : String → Option Serializable) (k : String) :
    bindAll bound bindings k = ((bindings.lookup k).orElse fun _ => bound k) := by
  induction bindings generalizing bound with
  | nil => simp [bindAll]
  | cons kv rest ih =>
    obtain ⟨k0, v0⟩ := kv
    simp only [List.map_cons, List.nodup_cons] at hn
    have hstep : bindAll bound ((k0, v0) :: rest) = bindAll (Function.update bound k0 (some v0)) rest :=
      rfl
    rw [hstep, ih hn.2, List.lookup_cons, Function.update_apply]
    by_cases h : k = k0
    · subst h
      simp [lookup_eq_none_of_not_mem hn.1]
    · have hb : (k == k0) = false := by simpa using h
      simp [h, hb]

/-- Two objects that store the same bindings have the same keys and the same values. -/
theorem Object.Holds.ext {o1 o2 : Object} {b1 b2 : String → Option Serializable}
    (h1 : o1.Holds b1) (h2 : o2.Holds b2) (hb : ∀ k, b1 k = b2 k) :
    o1.keys = o2.keys ∧ o1.values = o2.values := by
  obtain ⟨hl1, ha1, hv1⟩ := h1
  obtain ⟨hl2, ha2, hv2⟩ := h2
  have hmem : ∀ k, k ∈ o1.keys ↔ k ∈ o2.keys := by
    intro k
    constructor
    · intro hk
      by_contra hk2
      obtain ⟨v, hv⟩ := propValue_isSome_of_mem hl1 hk
      have := hv1 k
      rw [hv, hb k, ← hv2 k, propValue_of_not_mem hl2 hk2] at this
      exact absurd this (by simp)
    · intro hk
      by_contra hk1
      obtain ⟨v, hv⟩ := propValue_isSome_of_mem hl2 hk
      have := hv2 k
      rw [hv, ← hb k, ← hv1 k, propValue_of_not_mem hl1 hk1] at this
      exact absurd this (by simp)
  have hkeys : o1.keys = o2.keys :=
    List.eq_of_perm_of_sorted
      ((List.perm_ext_iff_of_nodup (keysAscending_iff.1 ha1).2 (keysAscending_iff.1 ha2).2).2 hmem)
      (keysAscending_iff.1 ha1).1 (keysAscending_iff.1 ha2).1
  refine ⟨hkeys, ?_⟩
  apply List.ext_getElem?
  intro i
  by_cases hi : i < o1.keys.length
  · have hidx : o1.keys.indexOf (o1.keys.get ⟨i, hi⟩) = i :=
      List.indexOf_getElem (keysAscending_iff.1 ha1).2 i hi
    have e1 := hv1 (o1.keys.get ⟨i, hi⟩)
    have e2 := hv2 (o1.keys.get ⟨i, hi⟩)
    unfold propValue at e1 e2
    rw [← hkeys, hidx] at e2
    rw [hidx] at e1
    rw [e1, e2, hb]
  · rw [List.getElem?_eq_none (by omega), List.getElem?_eq_none (by rw [hl2, ← hkeys]; omega)]

theorem NewObject_holds : NewObject.Holds (fun _ => none) :=
  ⟨rfl, List.Pairwise.nil, fun k => by simp [propValue, NewObject]⟩

/-- On a plain object, in a context that does not refuse the transaction wait, `SetProp`
with a non-index name returns nil and the object stays plain. -/
theorem Object.SetProp_succeeds {ctx : Context} {obj : Object}
    {bound : String → Option Serializable} {name : String} (v : Serializable)
    (hplain : obj.Plain) (hinv : obj.Holds bound) (hidx : IsIndexKey name = false)
    (htx : ctx.WaitIfOtherTransaction false = none) :
    (obj.SetProp ctx name (.serializable v)).outcome = .ok () ∧
      (obj.SetProp ctx name (.serializable v)).obj.Plain := by
  obtain ⟨hcb, hcid, hurl, hsh⟩ := hplain
  obtain ⟨hlen, hasc, _⟩ := hinv
  have hnd : obj.keys.Nodup := (keysAscending_iff.1 hasc).2
  have hperm : obj.writePermissionError ctx name = none := by
    simp [Object.writePermissionError, hurl]
  have hcon : obj.constraint ctx = none := by
    simp [Object.constraint, hcid, ConstraintId.HasConstraint]
  unfold Object.SetProp
  simp only [htx, Object.shareValue, hsh, Bool.false_eq_true, if_false]
  unfold Object.setPropLocked
  simp only [hidx, hperm, hcon, Bool.false_eq_true, if_false]
  by_cases hmem : name ∈ obj.keys
  · simp only [hmem, if_true]
    have hi : obj.keys.indexOf name < obj.values.length := by
      rw [hlen]; exact List.indexOf_lt_length.2 hmem
    obtain ⟨obj2, hs, h1, h2, h3, h4, _⟩ := Object.sortProps_returns
      { obj with values := obj.values.set (obj.keys.indexOf name) (some v) } hnd
      (by simp [hlen]) hcb
    unfold Object.updateProp
    simp only [List.getElem?_eq_getElem hi, constraintViolated, hs, Object.afterUpdate, h1]
    exact ⟨by simp [Object.informAboutMutation], h1, h2.trans hcid, h3.trans hurl, h4.trans hsh⟩
  · simp only [hmem, if_false]
    have hnd2 : (obj.keys ++ [name]).Nodup :=
      List.Nodup.append hnd (List.nodup_singleton name)
        (by intro x hx hx2; simp at hx2; subst hx2; exact hmem hx)
    obtain ⟨obj2, hs, h1, h2, h3, h4, _⟩ := Object.sortProps_returns
      { obj with keys := obj.keys ++ [name], values := obj.values ++ [some v] } hnd2
      (by simp [hlen]) hcb
    unfold Object.addProp
    simp only [constraintViolated, hs, Object.afterAdd, h1]
    exact ⟨by simp [Object.informAboutMutation], h1, h2.trans hcid, h3.trans hurl, h4.trans hsh⟩

/-- A run of `SetProp` calls on a plain object succeeds and stores the bindings made. -/
theorem Object.setProps_holds {ctx : Context} (htx : ctx.WaitIfOtherTransaction false = none) :
    ∀ (bindings : List (String × Serializable)) (obj : Object)
      (bound : String → Option Serializable),
      obj.Plain → obj.Holds bound → (∀ kv, kv ∈ bindings → IsIndexKey kv.1 = false) →
      ∃ obj2, Object.setProps ctx obj bindings = some obj2 ∧ obj2.Holds (bindAll bound bindings) := by
  intro bindings
  induction bindings with
  | nil => intro obj bound _ hinv _; exact ⟨obj, rfl, hinv⟩
  | cons kv rest ih =>
    intro obj bound hplain hinv hidx
    obtain ⟨hok, hplain2⟩ := Object.SetProp_succeeds kv.2 hplain hinv
      (hidx kv (List.mem_cons_self kv rest)) htx
    obtain ⟨obj2, hrun, hholds⟩ := ih _ _ hplain2 (Object.SetProp_holds hinv hok)
      (fun kv2 h2 => hidx kv2 (List.mem_cons_of_mem kv h2))
    refine ⟨obj2, ?_, hholds⟩
    simp only [Object.setProps, hok, if_true]
    exact hrun

/-! ## Dictionary lookups -/

theorem lookup_map_replace {β : Type} (m : List (String × β)) (k : String) (v : β) (r : String) :
    (m.map (fun kv => if kv.1 = k then (k, v) else kv)).lookup r =
      if r = k then (m.lookup k).map (fun _ => v) else m.lookup r := by
  induction m with
  | nil => simp
  | cons kv rest ih =>
    obtain ⟨k0, v0⟩ := kv
    simp only [List.map_cons]
    by_cases h0 : k0 = k
    · subst h0
      simp only [if_true, List.lookup_cons]
      by_cases hr : r = k0
      · subst hr; simp
      · have hb : (r == k0) = false := by simpa using hr
        simp only [hb, hr, if_false] at ih ⊢
        exact ih
    · simp only [h0, if_false, List.lookup_cons]
      by_cases hr : r = k
      · subst hr
        have hb : (r == k0) = false := by simpa using (fun h => h0 h.symm)
        have hb2 : (r == k0) = false := hb
        simp only [hb, if_true] at ih ⊢
        exact ih
      · simp only [hr, if_false] at ih ⊢
        rw [ih]

/-- Reading a map after a write: the written key has the new value, the others are as
before. -/
theorem mapGet_mapSet {β : Type} (m : List (String × β)) (k : String) (v : β) (r : String) :
    mapGet (mapSet m k v) r = if r = k then some v else mapGet m r := by
  unfold mapGet mapSet
  cases hk : m.lookup k with
  | some old =>
    simp only [Option.isSome_some, if_true, lookup_map_replace, hk, Option.map_some']
  | none =>
    simp only [Option.isSome_none, Bool.false_eq_true, if_false, List.lookup_append]
    by_cases hr : r = k
    · subst hr; simp [hk]
    · have hb : (r == k) = false := by simpa using hr
      simp [hr, hb, List.lookup_cons]

theorem NewDictionaryLoop_entries (ctx : Context) :
    ∀ (entries : List (String × Serializable)) (dict d : Dictionary),
      NewDictionaryLoop ctx entries dict = .ok d →
      ∀ r, mapGet d.entries r = bindAll (mapGet dict.entries) entries r := by
  intro entries
  induction entries with
  | nil =>
    intro dict d h r
    simp only [NewDictionaryLoop, Except.ok.injEq] at h
    subst h; rfl
  | cons kv rest ih =>
    intro dict d h r
    obtain ⟨k0, v0⟩ := kv
    simp only [NewDictionaryLoop] at h
    split at h
    · exact absurd h (by simp)
    · rw [ih _ _ h r]
      have hstep : bindAll (mapGet dict.entries) ((k0, v0) :: rest) =
          bindAll (Function.update (mapGet dict.entries) k0 (some v0)) rest := rfl
      rw [hstep]
      congr 1
      funext r2
      simp only [mapGet_mapSet, Function.update_apply]

theorem NewDictionaryFromKeyValueListsLoop_entries (ctx : Context) (values : List Serializable) :
    ∀ (keys : List Serializable) (i : Nat) (dict d : Dictionary),
      NewDictionaryFromKeyValueListsLoop ctx values keys i dict = some d →
      ∀ r, mapGet d.entries r =
        bindAll (mapGet dict.entries) (reprPairs ctx keys (values.drop i)) r := by
  intro keys
  induction keys with
  | nil =>
    intro i dict d h r
    simp only [NewDictionaryFromKeyValueListsLoop, Option.some.injEq] at h
    subst h
    simp [reprPairs, bindAll]
  | cons key rest ih =>
    intro i dict d h r
    simp only [NewDictionaryFromKeyValueListsLoop] at h
    cases hv : values[i]? with
    | none => simp [hv] at h
    | some v =>
      simp only [hv] at h
      rw [ih _ _ _ h r]
      obtain ⟨hi, hvi⟩ := List.getElem?_eq_some.1 hv
      have hdrop : values.drop i = v :: values.drop (i + 1) := by
        rw [← hvi]; exact List.drop_eq_getElem_cons hi
      rw [hdrop]
      have hstep : bindAll (mapGet dict.entries) (reprPairs ctx (key :: rest) (v :: values.drop (i + 1))) =
          bindAll (Function.update (mapGet dict.entries) (Dictionary.getKeyRepr ctx key) (some v))
            (reprPairs ctx rest (values.drop (i + 1))) := rfl
      rw [hstep]
      congr 1
      funext r2
      simp only [mapGet_mapSet, Function.update_apply]

/-- Whatever way `SetValue` ends, the map `entries` has been written. -/
theorem Dictionary.SetValue_entries (ctx : Context) (d : Dictionary) (key value : Serializable) :
    (d.SetValue ctx key value).dict.entries =
      mapSet d.entries (Dictionary.getKeyRepr ctx key) value := by
  unfold Dictionary.SetValue
  simp only
  repeat' split
  all_goals rfl

/-- In a dictionary made by a constructor and `SetValue` calls, the map `entries` holds
under each representation the value stored last. -/
theorem Dictionary.Built.entries_eq {ctx : Context} {d : Dictionary}
    {stored : String → Option Serializable} (h : Dictionary.Built ctx d stored) :
    ∀ r, mapGet d.entries r = stored r := by
  induction h with
  | NewDictionary entries d hn hd =>
    intro r
    rw [NewDictionaryLoop_entries ctx entries {} d hd r, bindAll_eq hn]
    simp [mapGet]
  | NewDictionaryFromKeyValueLists keys values d hd =>
    intro r
    unfold Inox.NewDictionaryFromKeyValueLists at hd
    split at hd
    · exact absurd hd (by simp)
    · split at hd
      · exact absurd hd (by simp)
      · rename_i dict hloop
        simp only [Except.ok.injEq] at hd
        subst hd
        rw [NewDictionaryFromKeyValueListsLoop_entries ctx values keys 0 {} _ hloop r]
        simp only [List.drop_zero]
        rfl
  | SetValue key value _ ih =>
    intro r
    rw [Dictionary.SetValue_entries, mapGet_mapSet, Function.update_apply, ih r]

/-! ## One mutation per successful write -/

theorem quiet_nil : quiet [] := ⟨rfl, rfl, rfl⟩

theorem quiet_append {a b : List Event} (ha : quiet a) (hb : quiet b) : quiet (a ++ b) := by
  obtain ⟨a1, a2, a3⟩ := ha
  obtain ⟨b1, b2, b3⟩ := hb
  unfold quiet mutationsBuilt watchersInformed microtasksCalled at *
  simp only [List.filterMap_append, a1, a2, a3, b1, b2, b3, List.append_nil, and_self]

theorem emitsOneMutation_wrap {before core after : List Event} (hb : quiet before)
    (hc : emitsOneMutation core) (ha : quiet after) : emitsOneMutation (before ++ core ++ after) := by
  obtain ⟨b1, b2, b3⟩ := hb
  obtain ⟨a1, a2, a3⟩ := ha
  obtain ⟨m, c1, c2, c3⟩ := hc
  unfold mutationsBuilt watchersInformed microtasksCalled at *
  refine ⟨m, ?_, ?_, ?_⟩
  · unfold mutationsBuilt
    simp only [List.filterMap_append, a1, b1, c1, List.append_nil, List.nil_append]
  · unfold watchersInformed
    simp only [List.filterMap_append, a2, b2, c2, List.append_nil, List.nil_append]
  · unfold microtasksCalled
    simp only [List.filterMap_append, a3, b3, List.append_nil, List.nil_append]
    exact c3

theorem emitsOneMutation_after {before core : List Event} (hb : quiet before)
    (hc : emitsOneMutation core) : emitsOneMutation (before ++ core) := by
  have := emitsOneMutation_wrap hb hc quiet_nil
  simpa using this

theorem quiet_removeMutationCallbackNoLock {ctx : Context} {handles h2 : List CallbackHandle}
    {i : Nat} {prev : Option Serializable} {ev : List Event}
    (h : removeMutationCallbackNoLock ctx handles i prev = some (h2, ev)) : quiet ev := by
  unfold removeMutationCallbackNoLock at h
  repeat' split at h
  all_goals first
    | (simp only [Option.some.injEq, Prod.mk.injEq] at h
       obtain ⟨_, rfl⟩ := h
       exact ⟨rfl, rfl, rfl⟩)
    | exact absurd h (by simp)

theorem quiet_addMutationCallbackNoLock {ctx : Context} {handles h2 : List CallbackHandle}
    {i : Nat} {v : Serializable} {ev : List Event}
    (h : addMutationCallbackNoLock ctx handles i v = .ok (h2, ev)) : quiet ev := by
  unfold addMutationCallbackNoLock at h
  repeat' split at h
  all_goals first
    | (simp only [Outcome.ok.injEq, Prod.mk.injEq] at h
       obtain ⟨_, rfl⟩ := h
       exact ⟨rfl, rfl, rfl⟩)
    | exact absurd h (by simp)

theorem quiet_addElementMutationCallbackNoLock {ctx : Context}
    {handles h2 : List CallbackHandle} {i : Int} {v : Serializable} {ev : List Event}
    (h : addElementMutationCallbackNoLock ctx handles i v = .ok (h2, ev)) : quiet ev := by
  unfold addElementMutationCallbackNoLock at h
  split at h
  · rename_i r hr
    simp only [Except.ok.injEq] at h
    subst h
    exact quiet_addMutationCallbackNoLock hr
  · exact absurd h (by simp)
  · exact absurd h (by simp)

theorem quiet_removeCallbacksLoop (ctx : Context) (elements : List Serializable) :
    ∀ (positions : List Int) (handles h2 : List CallbackHandle) (events ev : List Event),
      quiet events → removeCallbacksLoop ctx elements positions handles events = some (h2, ev) →
      quiet ev := by
  intro positions
  induction positions with
  | nil =>
    intro handles h2 events ev hq h
    simp only [removeCallbacksLoop, Option.some.injEq, Prod.mk.injEq] at h
    obtain ⟨_, rfl⟩ := h
    exact hq
  | cons i rest ih =>
    intro handles h2 events ev hq h
    simp only [removeCallbacksLoop] at h
    split at h
    · exact absurd h (by simp)
    · split at h
      · exact absurd h (by simp)
      · rename_i hrem
        exact ih _ _ _ _ (quiet_append hq (quiet_removeMutationCallbackNoLock hrem)) h

theorem quiet_addCallbacksLoop (ctx : Context) (valueAt : Int → Option Serializable) :
    ∀ (positions : List Int) (handles h2 : List CallbackHandle) (events ev : List Event),
      quiet events → addCallbacksLoop ctx valueAt positions handles events = .ok (h2, ev) →
      quiet ev := by
  intro positions
  induction positions with
  | nil =>
    intro handles h2 events ev hq h
    simp only [addCallbacksLoop, Except.ok.injEq, Prod.mk.injEq] at h
    obtain ⟨_, rfl⟩ := h
    exact hq
  | cons i rest ih =>
    intro handles h2 events ev hq h
    simp only [addCallbacksLoop] at h
    split at h
    · exact absurd h (by simp)
    · split at h
      · exact absurd h (by simp)
      · rename_i hadd
        exact ih _ _ _ _ (quiet_append hq (quiet_addElementMutationCallbackNoLock hadd)) h

theorem Object.propNotification_emits (obj : Object) (m : Mutation) (text : String) :
    emitsOneMutation (obj.informAboutMutation m text).events := by
  unfold Object.informAboutMutation
  cases obj.hasMutationCallbacks
  · exact ⟨m, rfl, rfl, Or.inl rfl⟩
  · exact ⟨m, rfl, rfl, Or.inr rfl⟩

theorem Dictionary.entryNotification_emits (d : Dictionary) (m : Mutation)
    {before : List Event} (hq : quiet before) :
    emitsOneMutation (d.informAboutMutation m before).events := by
  unfold Dictionary.informAboutMutation
  simp only [List.append_assoc]
  apply emitsOneMutation_after hq
  cases d.hasMutationCallbacks
  · exact ⟨m, rfl, rfl, Or.inl rfl⟩
  · exact ⟨m, rfl, rfl, Or.inr rfl⟩

theorem InoxList.elementNotification_emits (l : InoxList) (m : Mutation)
    {before : List Event} (hq : quiet before) (microtasksFirst : Bool) :
    emitsOneMutation (l.informAboutMutation m before microtasksFirst).events := by
  unfold InoxList.informAboutMutation
  simp only [List.append_assoc]
  apply emitsOneMutation_after hq
  cases microtasksFirst
  · exact ⟨m, rfl, rfl, Or.inr rfl⟩
  · exact ⟨m, rfl, rfl, Or.inr rfl⟩

theorem Object.afterUpdate_emits {ctx : Context} {obj2 : Object} {name : String}
    {prev : Option Serializable} {v : Serializable}
    (h : (Object.afterUpdate ctx obj2 name prev v).outcome = .ok ()) :
    emitsOneMutation (Object.afterUpdate ctx obj2 name prev v).events := by
  unfold Object.afterUpdate at h ⊢
  split
  · exact Object.propNotification_emits _ _ _
  · rename_i handles hcb
    simp only [hcb] at h
    split
    · rename_i hlt
      simp only [hlt, if_true] at h
      split
      · rename_i hrem; simp [hrem] at h
      · rename_i handles1 ev1 hrem
        simp only [hrem] at h
        split
        · rename_i hadd; simp [hadd] at h
        · rename_i hadd; simp [hadd] at h
        · rename_i handles2 ev2 hadd
          simp only [List.append_assoc]
          exact emitsOneMutation_after (quiet_removeMutationCallbackNoLock hrem)
            (emitsOneMutation_after (quiet_addMutationCallbackNoLock hadd)
              (Object.propNotification_emits _ _ _))
    · rename_i hlt
      simp [hlt] at h

theorem Object.afterAdd_emits {ctx : Context} {obj2 : Object} {name : String}
    {v : Serializable} (h : (Object.afterAdd ctx obj2 name v).outcome = .ok ()) :
    emitsOneMutation (Object.afterAdd ctx obj2 name v).events := by
  unfold Object.afterAdd at h ⊢
  split
  · exact Object.propNotification_emits _ _ _
  · rename_i handles hcb
    simp only [hcb] at h
    split
    · rename_i hadd; simp [hadd] at h
    · rename_i hadd; simp [hadd] at h
    · rename_i handles2 ev2 hadd
      exact emitsOneMutation_after (quiet_addMutationCallbackNoLock hadd)
        (Object.propNotification_emits _ _ _)

theorem Object.updateProp_emits {ctx : Context} {obj : Object}
    {constraint : Option Constraint} {name : String} {i : Nat} {v : Serializable}
    (h : (obj.updateProp ctx constraint name i v).outcome = .ok ()) :
    emitsOneMutation (obj.updateProp ctx constraint name i v).events := by
  unfold Object.updateProp at h ⊢
  cases hv : obj.values[i]? with
  | none => simp [hv] at h
  | some prev =>
    simp only [hv] at h ⊢
    cases hc : constraintViolated constraint obj.keys (obj.values.set i (some v)) with
    | none => simp [hc] at h
    | some b =>
      cases b with
      | true => simp [hc] at h
      | false =>
        simp only [hc] at h ⊢
        cases hs : Object.sortProps { obj with values := obj.values.set i (some v) } with
        | none => simp [hs] at h
        | some obj2 =>
          simp only [hs] at h ⊢
          exact Object.afterUpdate_emits h

theorem Object.addProp_emits {ctx : Context} {obj : Object}
    {constraint : Option Constraint} {name : String} {v : Serializable}
    (h : (obj.addProp ctx constraint name v).outcome = .ok ()) :
    emitsOneMutation (obj.addProp ctx constraint name v).events := by
  unfold Object.addProp at h ⊢
  cases hc : constraintViolated constraint (obj.keys ++ [name]) (obj.values ++ [some v]) with
  | none => simp [hc] at h
  | some b =>
    cases b with
    | true => simp [hc] at h
    | false =>
      simp only [hc] at h ⊢
      cases hs : Object.sortProps
          { obj with keys := obj.keys ++ [name], values := obj.values ++ [some v] } with
      | none => simp [hs] at h
      | some obj2 =>
        simp only [hs] at h ⊢
        exact Object.afterAdd_emits h

theorem Object.setPropLocked_emits {ctx : Context} {obj : Object} {name : String}
    {v : Serializable} (h : (obj.setPropLocked ctx name v).outcome = .ok ()) :
    emitsOneMutation (obj.setPropLocked ctx name v).events := by
  unfold Object.setPropLocked at h ⊢
  by_cases hidx : IsIndexKey name = true
  · simp [hidx] at h
  · simp only [hidx] at h ⊢
    cases hperm : obj.writePermissionError ctx name with
    | some err => simp [hperm] at h
    | none =>
      simp only [hperm] at h ⊢
      by_cases hmem : name ∈ obj.keys
      · simp only [hmem, if_true, Bool.false_eq_true, if_false] at h ⊢
        exact Object.updateProp_emits h
      · simp only [hmem, if_false, Bool.false_eq_true] at h ⊢
        exact Object.addProp_emits h

theorem Object.SetProp_emits {ctx : Context} {obj : Object} {name : String} {value : Value}
    (h : (obj.SetProp ctx name value).outcome = .ok ()) :
    emitsOneMutation (obj.SetProp ctx name value).events := by
  unfold Object.SetProp at h ⊢
  cases value with
  | notSerializable tag => simp at h
  | serializable v =>
    simp only at h ⊢
    cases htx : ctx.WaitIfOtherTransaction false with
    | some err => simp [htx] at h
    | none =>
      simp only [htx] at h ⊢
      cases hsh : obj.shareValue ctx (.serializable v) with
      | error err => simp [hsh] at h
      | ok w =>
        simp only [hsh] at h ⊢
        apply emitsOneMutation_wrap (show quiet [Event.lock] from ⟨rfl, rfl, rfl⟩)
          (Object.setPropLocked_emits h)
        split
        · exact ⟨rfl, rfl, rfl⟩
        · exact quiet_nil

theorem quiet_addEntryMutationCallbackNoLock {ctx : Context}
    {handles h2 : Option (List (String × CallbackHandle))} {keyRepr : String} {v : Serializable}
    {ev : List Event} (h : addEntryMutationCallbackNoLock ctx handles keyRepr v = .ok (h2, ev)) :
    quiet ev := by
  unfold addEntryMutationCallbackNoLock at h
  repeat' split at h
  all_goals first
    | (simp only [Outcome.ok.injEq, Prod.mk.injEq] at h
       obtain ⟨_, rfl⟩ := h
       exact ⟨rfl, rfl, rfl⟩)
    | exact absurd h (by simp)

theorem quiet_removeEntryMutationCallbackNoLock (ctx : Context)
    (handles : List (String × CallbackHandle)) (keyRepr : String) (prev : Serializable) :
    quiet (removeEntryMutationCallbackNoLock ctx handles keyRepr prev).2 := by
  unfold removeEntryMutationCallbackNoLock
  split
  · exact ⟨rfl, rfl, rfl⟩
  · exact quiet_nil

theorem Dictionary.SetValue_emits {ctx : Context} {d : Dictionary} {key value : Serializable}
    (h : (d.SetValue ctx key value).outcome = .ok ()) :
    emitsOneMutation (d.SetValue ctx key value).events := by
  unfold Dictionary.SetValue at h ⊢
  simp only at h ⊢
  cases hprev : mapGet d.entries (Dictionary.getKeyRepr ctx key) with
  | some prevValue =>
    simp only [hprev] at h ⊢
    cases hcb : d.entryMutationCallbacks with
    | none =>
      simp only [hcb] at h ⊢
      exact Dictionary.entryNotification_emits _ _ quiet_nil
    | some handles =>
      simp only [hcb] at h ⊢
      have hq1 := quiet_removeEntryMutationCallbackNoLock ctx handles
        (Dictionary.getKeyRepr ctx key) prevValue
      cases hadd : addEntryMutationCallbackNoLock ctx
          (some (removeEntryMutationCallbackNoLock ctx handles
            (Dictionary.getKeyRepr ctx key) prevValue).1)
          (Dictionary.getKeyRepr ctx key) value with
      | panic e => simp [hadd] at h
      | error e => simp [hadd] at h
      | ok r =>
        obtain ⟨handles2, ev2⟩ := r
        simp only [hadd] at h ⊢
        exact Dictionary.entryNotification_emits _ _
          (quiet_append hq1 (quiet_addEntryMutationCallbackNoLock hadd))
  | none =>
    simp only [hprev] at h ⊢
    cases hadd : addEntryMutationCallbackNoLock ctx d.entryMutationCallbacks
        (Dictionary.getKeyRepr ctx key) value with
    | panic e => simp [hadd] at h
    | error e => simp [hadd] at h
    | ok r =>
      obtain ⟨handles2, ev2⟩ := r
      simp only [hadd] at h ⊢
      exact Dictionary.entryNotification_emits _ _ (quiet_addEntryMutationCallbackNoLock hadd)

theorem InoxList.set_emits {ctx : Context} {l : InoxList} {i : Int} {v : Serializable}
    (h : (l.set ctx i v).outcome = .ok ()) : emitsOneMutation (l.set ctx i v).events := by
  unfold InoxList.set at h ⊢
  cases hat : underlyingList.At l.elements i with
  | none => simp [hat] at h
  | some prev =>
    simp only [hat] at h ⊢
    cases hset : underlyingList.set l.elements i v with
    | none => simp [hset] at h
    | some elements =>
      simp only [hset] at h ⊢
      cases hcb : l.elementMutationCallbacks with
      | none =>
        simp only [hcb] at h ⊢
        exact InoxList.elementNotification_emits _ _ quiet_nil _
      | some handles =>
        simp only [hcb] at h ⊢
        cases hrem : removeMutationCallbackNoLock ctx handles i.toNat (some prev) with
        | none => simp [hrem] at h
        | some r1 =>
          obtain ⟨handles1, ev1⟩ := r1
          simp only [hrem] at h ⊢
          cases hadd : addElementMutationCallbackNoLock ctx handles1 i v with
          | error e => simp [hadd] at h
          | ok r2 =>
            obtain ⟨handles2, ev2⟩ := r2
            simp only [hadd] at h ⊢
            exact InoxList.elementNotification_emits _ _
              (quiet_append (quiet_removeMutationCallbackNoLock hrem)
                (quiet_addElementMutationCallbackNoLock hadd)) _

theorem InoxList.SetSlice_emits {ctx : Context} {l : InoxList} {start stop : Int}
    {seq : List Serializable} (h : (l.SetSlice ctx start stop seq).outcome = .ok ()) :
    emitsOneMutation (l.SetSlice ctx start stop seq).events := by
  unfold InoxList.SetSlice at h ⊢
  cases hcb : l.elementMutationCallbacks with
  | none =>
    simp only [hcb] at h ⊢
    cases hset : underlyingList.SetSlice l.elements start stop seq with
    | none => simp [hset] at h
    | some elements =>
      simp only [hset] at h ⊢
      exact InoxList.elementNotification_emits _ _ quiet_nil _
  | some handles =>
    simp only [hcb] at h ⊢
    cases hrem : removeCallbacksLoop ctx l.elements (intRange start stop) handles [] with
    | none => simp [hrem] at h
    | some r1 =>
      obtain ⟨handles1, ev1⟩ := r1
      simp only [hrem] at h ⊢
      cases hset : underlyingList.SetSlice l.elements start stop seq with
      | none => simp [hset] at h
      | some elements =>
        simp only [hset] at h ⊢
        cases hadd : addCallbacksLoop ctx (underlyingList.At elements) (intRange start stop)
            handles1 ev1 with
        | error e => simp [hadd] at h
        | ok r2 =>
          obtain ⟨handles2, ev2⟩ := r2
          simp only [hadd] at h ⊢
          exact InoxList.elementNotification_emits _ _
            (quiet_addCallbacksLoop ctx _ _ _ _ _ _
              (quiet_removeCallbacksLoop ctx _ _ _ _ _ _ quiet_nil hrem) hadd) _

theorem InoxList.insertWithHandles_emits {ctx : Context} {l : InoxList}
    {elements seq : List Serializable} {i : Int} {m : Mutation}
    (h : (l.insertWithHandles ctx elements seq i m).outcome = .ok ()) :
    emitsOneMutation (l.insertWithHandles ctx elements seq i m).events := by
  unfold InoxList.insertWithHandles at h ⊢
  cases hcb : l.elementMutationCallbacks with
  | none =>
    simp only [hcb] at h ⊢
    exact InoxList.elementNotification_emits _ _ quiet_nil _
  | some handles =>
    simp only [hcb] at h ⊢
    cases hins : slicesInsert handles i (makeMutationCallbackHandles seq.length) with
    | none => simp [hins] at h
    | some handles1 =>
      simp only [hins] at h ⊢
      cases hadd : addCallbacksLoop ctx (fun index => underlyingList.At seq (index - i))
          (intRange i (i + seq.length)) handles1 [] with
      | error e => simp [hadd] at h
      | ok r2 =>
        obtain ⟨handles2, ev2⟩ := r2
        simp only [hadd] at h ⊢
        exact InoxList.elementNotification_emits _ _
          (quiet_addCallbacksLoop ctx _ _ _ _ _ _ quiet_nil hadd) _

theorem InoxList.insertElement_emits {ctx : Context} {l : InoxList} {v : Serializable} {i : Int}
    (h : (l.insertElement ctx v i).outcome = .ok ()) :
    emitsOneMutation (l.insertElement ctx v i).events := by
  unfold InoxList.insertElement at h ⊢
  cases hins : underlyingList.insertElement l.elements v i with
  | none => simp [hins] at h
  | some elements =>
    simp only [hins] at h ⊢
    exact InoxList.insertWithHandles_emits h

theorem InoxList.insertSequence_emits {ctx : Context} {l : InoxList}
    {seq : List Serializable} {i : Int} (h : (l.insertSequence ctx seq i).outcome = .ok ()) :
    emitsOneMutation (l.insertSequence ctx seq i).events := by
  unfold InoxList.insertSequence at h ⊢
  cases hins : underlyingList.insertSequence l.elements seq i with
  | none => simp [hins] at h
  | some elements =>
    simp only [hins] at h ⊢
    exact InoxList.insertWithHandles_emits h

theorem InoxList.removePosition_emits {ctx : Context} {l : InoxList} {i : Int}
    (h : (l.removePosition ctx i).outcome = .ok ()) :
    emitsOneMutation (l.removePosition ctx i).events := by
  unfold InoxList.removePosition at h ⊢
  cases hrm : underlyingList.removePosition l.elements i with
  | none => simp [hrm] at h
  | some elements =>
    simp only [hrm] at h ⊢
    cases hcb : l.elementMutationCallbacks with
    | none =>
      simp only [hcb] at h ⊢
      exact InoxList.elementNotification_emits _ _ quiet_nil _
    | some handles =>
      simp only [hcb] at h ⊢
      cases hrem : removeCallbacksLoop ctx elements [i] handles [] with
      | none => simp [hrem] at h
      | some r1 =>
        obtain ⟨handles1, ev1⟩ := r1
        simp only [hrem] at h ⊢
        cases hrep : slicesReplace handles1 i (i + 1) with
        | none => simp [hrep] at h
        | some handles2 =>
          simp only [hrep] at h ⊢
          exact InoxList.elementNotification_emits _ _
            (quiet_removeCallbacksLoop ctx _ _ _ _ _ _ quiet_nil hrem) _

theorem InoxList.removePositionRange_emits {ctx : Context} {l : InoxList} {r : IntRange}
    (h : (l.removePositionRange ctx r).outcome = .ok ()) :
    emitsOneMutation (l.removePositionRange ctx r).events := by
  unfold InoxList.removePositionRange at h ⊢
  cases hrm : underlyingList.removePositionRange l.elements r with
  | none => simp [hrm] at h
  | some elements =>
    simp only [hrm] at h ⊢
    cases hcb : l.elementMutationCallbacks with
    | none =>
      simp only [hcb] at h ⊢
      exact InoxList.elementNotification_emits _ _ quiet_nil _
    | some handles =>
      simp only [hcb] at h ⊢
      cases hrem : removeCallbacksLoop ctx elements (intRange r.start r.end) handles [] with
      | none => simp [hrem] at h
      | some r1 =>
        obtain ⟨handles1, ev1⟩ := r1
        simp only [hrem] at h ⊢
        cases hrep : slicesReplace handles1 r.start r.end with
        | none => simp [hrep] at h
        | some handles2 =>
          simp only [hrep] at h ⊢
          exact InoxList.elementNotification_emits _ _
            (quiet_removeCallbacksLoop ctx _ _ _ _ _ _ quiet_nil hrem) _

/-! ## Error returns of SetProp -/

theorem Object.sortProps_keeps_nil_handles {obj obj2 : Object}
    (hcb : obj.propMutationCallbacks = none) (h : obj.sortProps = some obj2) :
    obj2.propMutationCallbacks = none := by
  unfold Object.sortProps at h
  rw [hcb] at h
  cases hsp : Inox.sortProps obj.keys obj.values with
  | none => simp [hsp] at h
  | some r =>
    obtain ⟨keys, values, newIndexes⟩ := r
    simp only [hsp, Option.map_none', Option.some.injEq] at h
    rw [← h]

/-- Without a handle slice no callback is registered, so every non-nil error returned by
`SetProp` (non-serializable value, refused transaction wait, share/clone failure, denied
permission, constraint violation) leaves keys and values as they were. -/
theorem Object.SetProp_error_keeps_props (ctx : Context) (obj : Object) (name : String)
    (value : Value) (e : Error) (hcb : obj.propMutationCallbacks = none)
    (h : (obj.SetProp ctx name value).outcome = .error e) :
    (obj.SetProp ctx name value).obj.keys = obj.keys ∧
      (obj.SetProp ctx name value).obj.values = obj.values := by
  unfold Object.SetProp at h ⊢
  cases value with
  | notSerializable tag => exact ⟨rfl, rfl⟩
  | serializable v =>
    simp only at h ⊢
    cases htx : ctx.WaitIfOtherTransaction false with
    | some err => simp [htx]
    | none =>
      simp only [htx] at h ⊢
      cases hsh : obj.shareValue ctx (.serializable v) with
      | error err => simp [hsh]
      | ok w =>
        simp only [hsh] at h ⊢
        unfold Object.setPropLocked at h ⊢
        by_cases hidx : IsIndexKey name = true
        · simp [hidx] at h
        · simp only [hidx] at h ⊢
          cases hperm : obj.writePermissionError ctx name with
          | some err => simp [hperm]
          | none =>
            simp only [hperm] at h ⊢
            by_cases hmem : name ∈ obj.keys
            · simp only [hmem, if_true, Bool.false_eq_true, if_false] at h ⊢
              unfold Object.updateProp at h ⊢
              cases hv : obj.values[obj.keys.indexOf name]? with
              | none => simp [hv] at h
              | some prev =>
                simp only [hv] at h ⊢
                cases hc : constraintViolated (obj.constraint ctx) obj.keys
                    (obj.values.set (obj.keys.indexOf name) (some v)) with
                | none => simp [hc] at h
                | some b =>
                  cases b with
                  | true =>
                    simp only [hc, List.set_set, true_and]
                    obtain ⟨hi, hprev⟩ := List.getElem?_eq_some.1 hv
                    rw [← hprev]
                    exact set_getElem_same obj.values _ hi
                  | false =>
                    simp only [hc] at h ⊢
                    cases hs : Object.sortProps
                        { obj with values := obj.values.set (obj.keys.indexOf name) (some v) } with
                    | none => simp [hs] at h
                    | some obj2 =>
                      simp only [hs] at h ⊢
                      have hcb1 : Object.propMutationCallbacks
                          { obj with values := obj.values.set (obj.keys.indexOf name) (some v) } =
                          none := hcb
                      have hcb2 := Object.sortProps_keeps_nil_handles hcb1 hs
                      simp [Object.afterUpdate, hcb2, Object.informAboutMutation] at h
            · simp only [hmem, if_true, if_false, Bool.false_eq_true] at h ⊢
              unfold Object.addProp at h ⊢
              cases hc : constraintViolated (obj.constraint ctx) (obj.keys ++ [name])
                  (obj.values ++ [some v]) with
              | none => simp [hc] at h
              | some b =>
                cases b with
                | true => simp [hc]
                | false =>
                  simp only [hc] at h ⊢
                  cases hs : Object.sortProps
                      { obj with keys := obj.keys ++ [name], values := obj.values ++ [some v] } with
                  | none => simp [hs] at h
                  | some obj2 =>
                    simp only [hs] at h ⊢
                    have hcb1 : Object.propMutationCallbacks
                        { obj with keys := obj.keys ++ [name], values := obj.values ++ [some v] } =
                        none := hcb
                    have hcb2 := Object.sortProps_keeps_nil_handles hcb1 hs
                    simp [Object.afterAdd, hcb2, Object.informAboutMutation] at h

/-! ## Claims -/

/-- C1: in every Object built by `objFrom` from a map and then modified by any sequence of
successful `SetProp` calls, keys and values have the same length, the keys are strictly
ascending in lexicographic order, `values[i]` is the value last bound to `keys[i]`, and
every bound name is among the keys. -/
theorem Object.built_sorted_and_bound {obj : Object} {bound : String → Option Serializable}
    (h : Object.Built obj bound) :
    obj.keys.length = obj.values.length ∧ keysAscending obj.keys ∧
      (∀ (i : Nat) (k : String), obj.keys[i]? = some k →
        ∃ v, bound k = some v ∧ obj.values[i]? = some (some v)) ∧
      (∀ k v, bound k = some v → k ∈ obj.keys) :=
  ⟨h.holds.1.symm, h.holds.2.1, h.holds.slots.1, h.holds.slots.2⟩

/-- Witness for C1: the object made from the map b ↦ 2, a ↦ 1 after `SetProp("a", 7)`. -/
theorem Object.built_sorted_and_bound_witness :
    (Object.SetProp Context.permissive
        { keys := ["a", "b"], values := [some (.int 1), some (.int 2)] } "a"
        (.serializable (.int 7))).obj.keys.length =
      (Object.SetProp Context.permissive
        { keys := ["a", "b"], values := [some (.int 1), some (.int 2)] } "a"
        (.serializable (.int 7))).obj.values.length ∧
    keysAscending (Object.SetProp Context.permissive
        { keys := ["a", "b"], values := [some (.int 1), some (.int 2)] } "a"
        (.serializable (.int 7))).obj.keys :=
  have hb := Object.built_sorted_and_bound
    (Object.Built.SetProp Context.permissive "a" (.int 7)
      (Object.Built.objFrom [("b", .int 2), ("a", .int 1)]
        { keys := ["a", "b"], values := [some (.int 1), some (.int 2)] }
        (by decide) (by decide))
      (by decide))
  ⟨hb.1, hb.2.1⟩

/-- C2: if an Object has a registered constraint pattern and `SetProp(name, v)` reaches the
constraint check (serializable value, no refused transaction wait, no share/clone failure,
non-index name, write permission) with a property change that makes the object fail the
constraint, whether it updates or adds a property, then `SetProp` returns
`ErrConstraintViolation` and keys and values are exactly as before the call. -/
theorem Object.SetProp_constraint_violation (ctx : Context) (obj : Object) (name : String)
    (v : Serializable) (patt : ObjectPattern)
    (hconstraint : obj.constraint ctx = some (.object patt))
    (hlen : obj.values.length = obj.keys.length)
    (htx : ctx.WaitIfOtherTransaction false = none)
    (hshare : ∃ w, obj.shareValue ctx (.serializable v) = .ok w)
    (hidx : IsIndexKey name = false)
    (hperm : obj.writePermissionError ctx name = none)
    (hfail : patt.Test (obj.withProp name v).1 (obj.withProp name v).2 = false) :
    (obj.SetProp ctx name (.serializable v)).outcome = .error .ErrConstraintViolation ∧
      (obj.SetProp ctx name (.serializable v)).obj.keys = obj.keys ∧
      (obj.SetProp ctx name (.serializable v)).obj.values = obj.values := by
  obtain ⟨w, hw⟩ := hshare
  unfold Object.SetProp
  simp only [htx, hw]
  unfold Object.setPropLocked
  simp only [hidx, hperm, hconstraint]
  unfold Object.withProp at hfail
  by_cases hmem : name ∈ obj.keys
  · simp only [hmem, if_true] at hfail ⊢
    have hi : obj.keys.indexOf name < obj.values.length := by
      rw [hlen]; exact List.indexOf_lt_length.2 hmem
    unfold Object.updateProp
    simp only [List.getElem?_eq_getElem hi, constraintViolated, hfail]
    simp only [Bool.not_false, List.set_set, Bool.false_eq_true, if_false, true_and]
    exact set_getElem_same obj.values _ hi
  · simp only [hmem, if_false] at hfail ⊢
    unfold Object.addProp
    simp only [constraintViolated, hfail]
    simp

/-- Witness for C2: the object `{a: 1}` constrained by `{a: int}` keeps `a = 1` after
`SetProp("a", "x")`, which returns `ErrConstraintViolation`. -/
theorem Object.SetProp_constraint_violation_witness :
    (Object.SetProp Context.withIntConstraint
        { constraintId := 1, keys := ["a"], values := [some (.int 1)] } "a"
        (.serializable (.str "x"))).outcome = .error .ErrConstraintViolation ∧
      (Object.SetProp Context.withIntConstraint
        { constraintId := 1, keys := ["a"], values := [some (.int 1)] } "a"
        (.serializable (.str "x"))).obj.keys = ["a"] ∧
      (Object.SetProp Context.withIntConstraint
        { constraintId := 1, keys := ["a"], values := [some (.int 1)] } "a"
        (.serializable (.str "x"))).obj.values = [some (.int 1)] :=
  Object.SetProp_constraint_violation Context.withIntConstraint
    { constraintId := 1, keys := ["a"], values := [some (.int 1)] } "a" (.str "x")
    ⟨[("a", .INT_PATTERN)], [], false⟩ (by decide) (by decide) (by decide)
    ⟨.serializable (.str "x"), rfl⟩ (by decide) (by decide) (by decide)

/-- Evaluation for C3: on the object `{a: 1}` with a handle slice, `SetProp("a", 2)` whose
callback registration fails returns a non-nil error although the stored value is already
2 (the write is not rolled back). -/
theorem Object.SetProp_registration_error_keeps_write :
    (Object.SetProp Context.failingRegistration
        { propMutationCallbacks := some [0], keys := ["a"], values := [some (.int 1)] } "a"
        (.serializable (.int 2))).outcome =
      .error (.wrapped "failed to add mutation callback for updated object property a"
        (.message "cannot register callback")) ∧
    (Object.SetProp Context.failingRegistration
        { propMutationCallbacks := some [0], keys := ["a"], values := [some (.int 1)] } "a"
        (.serializable (.int 2))).obj.values = [some (.int 2)] ∧
    (Object.SetProp Context.failingRegistration
        { propMutationCallbacks := some [0], keys := ["a"], values := [some (.int 1)] } "b"
        (.serializable (.int 2))).outcome =
      .error (.wrapped "failed to add mutation callback for new object property b"
        (.message "cannot register callback")) ∧
    (Object.SetProp Context.failingRegistration
        { propMutationCallbacks := some [0], keys := ["a"], values := [some (.int 1)] } "b"
        (.serializable (.int 2))).obj.keys = ["a", "b"] := by
  decide

/-- C4: for bindings with pairwise distinct non-index names, applying `SetProp` for them to
an empty unshared Object succeeds in every order (in a context that does not refuse the
transaction wait), any two orders give identical keys slices and identical values slices,
and these are the slices of `objFrom` applied to the map, whatever its iteration order. -/
theorem Object.setProps_order_independent (ctx : Context)
    (b1 b2 b3 : List (String × Serializable)) (h12 : b1.Perm b2) (h13 : b1.Perm b3)
    (hn : (b1.map Prod.fst).Nodup) (hidx : ∀ kv, kv ∈ b1 → IsIndexKey kv.1 = false)
    (htx : ctx.WaitIfOtherTransaction false = none) :
    (Object.setProps ctx NewObject b1).isSome = true ∧
      slicesOf (Object.setProps ctx NewObject b1) = slicesOf (Object.setProps ctx NewObject b2) ∧
      slicesOf (Object.setProps ctx NewObject b1) = slicesOf (objFrom b3) := by
  have hplain : NewObject.Plain := ⟨rfl, rfl, rfl, rfl⟩
  have hn2 : (b2.map Prod.fst).Nodup := (h12.map Prod.fst).nodup_iff.1 hn
  have hn3 : (b3.map Prod.fst).Nodup := (h13.map Prod.fst).nodup_iff.1 hn
  obtain ⟨o1, hr1, hh1⟩ := Object.setProps_holds htx b1 NewObject _ hplain NewObject_holds hidx
  obtain ⟨o2, hr2, hh2⟩ := Object.setProps_holds htx b2 NewObject _ hplain NewObject_holds
    (fun kv h => hidx kv (h12.mem_iff.2 h))
  obtain ⟨o3, hr3, _⟩ := objFrom_returns hn3
  have hh3 := objFrom_holds hn3 hr3
  have e12 := Object.Holds.ext hh1 hh2 (fun k => by
    rw [bindAll_eq hn, bindAll_eq hn2, lookup_perm h12 hn k])
  have e13 := Object.Holds.ext hh1 hh3 (fun k => by
    rw [bindAll_eq hn, lookup_perm h13 hn k]; simp)
  rw [hr1, hr2, hr3]
  simp only [slicesOf, Option.isSome_some, Option.map_some', Option.some.injEq, Prod.mk.injEq,
    true_and]
  exact ⟨e12, e13⟩

/-- Witness for C4: the bindings b ↦ 2 and a ↦ 1 set in both orders, and `objFrom`. -/
theorem Object.setProps_order_independent_witness :
    (Object.setProps Context.permissive NewObject [("b", .int 2), ("a", .int 1)]).isSome = true ∧
      slicesOf (Object.setProps Context.permissive NewObject [("b", .int 2), ("a", .int 1)]) =
        slicesOf (Object.setProps Context.permissive NewObject [("a", .int 1), ("b", .int 2)]) ∧
      slicesOf (Object.setProps Context.permissive NewObject [("b", .int 2), ("a", .int 1)]) =
        slicesOf (objFrom [("b", .int 2), ("a", .int 1)]) :=
  Object.setProps_order_independent Context.permissive [("b", .int 2), ("a", .int 1)]
    [("a", .int 1), ("b", .int 2)] [("b", .int 2), ("a", .int 1)]
    (List.Perm.swap _ _ _) (List.Perm.refl _) (by decide) (by decide) rfl

/-- Evaluation for C5: on the keys `["a", "a"]` with the values `[1, 2]` the generic
`sortProps` returns the keys `["a", "a"]` and the values `[2, nil]`: the value 1 is lost
and the second slot is left unset. -/
theorem sortProps_duplicate_keys :
    sortProps ["a", "a"] [some (Serializable.int 1), some (Serializable.int 2)] =
      some (["a", "a"], [some (Serializable.int 2), none], [0, 0]) := by
  decide

/-- Evaluation for C6: on the empty dictionary (what `NewDictionary(nil)` returns),
`SetValue(Str("a"), 1)` returns normally, records the value in `entries` under the
representation of the key and records nothing in `keys`: the two maps no longer have the
same representations. -/
theorem Dictionary.SetValue_leaves_keys_unwritten :
    NewDictionary Context.permissive [] = .ok {} ∧
    (Dictionary.SetValue Context.permissive {} (.str "a") (.int 1)).outcome = .ok () ∧
    (Dictionary.SetValue Context.permissive {} (.str "a") (.int 1)).dict.entries =
      [("\"a\"", .int 1)] ∧
    (Dictionary.SetValue Context.permissive {} (.str "a") (.int 1)).dict.keys = [] ∧
    (Dictionary.SetValue Context.permissive {} (.str "a") (.int 1)).dict.sameReprs = false :=
  ⟨rfl, by decide, by decide, by decide, by decide⟩

/-- Evaluation for C7: `NewDictionary` applied to the map with the single entry "/a" ↦ 0
(the example of the claim, also used by the tests of the repository) panics, because
`ParseJSONRepresentation` rejects the key representation "/a"; no dictionary is returned
on which `Value(Path("/a"))` could yield `(0, true)`. -/
theorem NewDictionary_path_text_panics :
    NewDictionary Context.permissive [("/a", .int 0)] =
      .error (.invalidKeyRepresentation "/a") :=
  rfl

/-- For every Dictionary made by `NewDictionary` or `NewDictionaryFromKeyValueLists` and
changed by `SetValue` calls, and for every key, `Value(ctx, key)` returns `(v, true)` where
`v` is the value most recently stored under the representation of the key, and
`(nil, false)` when nothing was stored under it. -/
theorem Dictionary.Value_last_stored {ctx : Context} {d : Dictionary}
    {stored : String → Option Serializable} (h : Dictionary.Built ctx d stored)
    (key : Serializable) :
    d.Value ctx key =
      (stored (Dictionary.getKeyRepr ctx key), (stored (Dictionary.getKeyRepr ctx key)).isSome) := by
  unfold Dictionary.Value
  rw [h.entries_eq]
  cases stored (Dictionary.getKeyRepr ctx key) <;> rfl

/-- With a key representation that is JSON, the lookups of the scenario work: for
`NewDictionary` of the map with the single entry `"a"` (a JSON string) ↦ 0,
`Value(Str("a"))` is `(0, true)` and `Value(Str("b"))` is `(nil, false)`. -/
theorem Dictionary.Value_string_key :
    NewDictionary Context.permissive [("\"a\"", .int 0)] =
        .ok { entries := [("\"a\"", .int 0)], keys := [("\"a\"", .str "a")] } ∧
      Dictionary.Value Context.permissive
        { entries := [("\"a\"", .int 0)], keys := [("\"a\"", .str "a")] } (.str "a") =
        (some (.int 0), true) ∧
      Dictionary.Value Context.permissive
        { entries := [("\"a\"", .int 0)], keys := [("\"a\"", .str "a")] } (.str "b") =
        (none, false) :=
  have hb : Dictionary.Built Context.permissive
      { entries := [("\"a\"", .int 0)], keys := [("\"a\"", .str "a")] }
      (fun r => [("\"a\"", Serializable.int 0)].lookup r) :=
    Dictionary.Built.NewDictionary [("\"a\"", .int 0)]
      { entries := [("\"a\"", .int 0)], keys := [("\"a\"", .str "a")] } (by decide) rfl
  ⟨rfl, (Dictionary.Value_last_stored hb (.str "a")).trans (by decide),
    (Dictionary.Value_last_stored hb (.str "b")).trans (by decide)⟩

/-- C8: each successful call of `Object.SetProp`, `Dictionary.SetValue`, `List.set`,
`List.SetSlice`, `List.insertElement`, `List.insertSequence`, `List.append`,
`List.removePosition` and `List.removePositionRange` constructs exactly one Mutation and
passes that mutation to the watchers exactly once and to the microtask callbacks at most
once. -/
theorem successful_write_emits_one_mutation (ctx : Context) :
    (∀ (obj : Object) (name : String) (value : Value),
      (obj.SetProp ctx name value).outcome = .ok () →
      emitsOneMutation (obj.SetProp ctx name value).events) ∧
    (∀ (d : Dictionary) (key value : Serializable),
      (d.SetValue ctx key value).outcome = .ok () →
      emitsOneMutation (d.SetValue ctx key value).events) ∧
    (∀ (l : InoxList) (i : Int) (v : Serializable),
      (l.set ctx i v).outcome = .ok () → emitsOneMutation (l.set ctx i v).events) ∧
    (∀ (l : InoxList) (start stop : Int) (seq : List Serializable),
      (l.SetSlice ctx start stop seq).outcome = .ok () →
      emitsOneMutation (l.SetSlice ctx start stop seq).events) ∧
    (∀ (l : InoxList) (v : Serializable) (i : Int),
      (l.insertElement ctx v i).outcome = .ok () →
      emitsOneMutation (l.insertElement ctx v i).events) ∧
    (∀ (l : InoxList) (seq : List Serializable) (i : Int),
      (l.insertSequence ctx seq i).outcome = .ok () →
      emitsOneMutation (l.insertSequence ctx seq i).events) ∧
    (∀ (l : InoxList) (elements : List Serializable),
      (l.append ctx elements).outcome = .ok () →
      emitsOneMutation (l.append ctx elements).events) ∧
    (∀ (l : InoxList) (i : Int),
      (l.removePosition ctx i).outcome = .ok () →
      emitsOneMutation (l.removePosition ctx i).events) ∧
    (∀ (l : InoxList) (r : IntRange),
      (l.removePositionRange ctx r).outcome = .ok () →
      emitsOneMutation (l.removePositionRange ctx r).events) :=
  ⟨fun _ _ _ h => Object.SetProp_emits h,
    fun _ _ _ h => Dictionary.SetValue_emits h,
    fun _ _ _ h => InoxList.set_emits h,
    fun _ _ _ _ h => InoxList.SetSlice_emits h,
    fun _ _ _ h => InoxList.insertElement_emits h,
    fun _ _ _ h => InoxList.insertSequence_emits h,
    fun _ _ h => InoxList.insertWithHandles_emits h,
    fun _ _ h => InoxList.removePosition_emits h,
    fun _ _ h => InoxList.removePositionRange_emits h⟩

/-- Witness for C8: `SetProp("a", 1)` on the empty object and `append(1, 2)` on the empty
list succeed and emit one mutation each. -/
theorem successful_write_emits_one_mutation_witness :
    (Object.SetProp Context.permissive NewObject "a" (.serializable (.int 1))).outcome = .ok () ∧
      emitsOneMutation
        (Object.SetProp Context.permissive NewObject "a" (.serializable (.int 1))).events ∧
      (InoxList.append Context.permissive {} [.int 1, .int 2]).outcome = .ok () ∧
      emitsOneMutation (InoxList.append Context.permissive {} [.int 1, .int 2]).events :=
  ⟨by decide,
    (successful_write_emits_one_mutation Context.permissive).1 NewObject "a"
      (.serializable (.int 1)) (by decide),
    by decide,
    (successful_write_emits_one_mutation Context.permissive).2.2.2.2.2.2.1 {}
      [.int 1, .int 2] (by decide)⟩

/-- Evaluation for C9: on the list `[7]` whose handle slice has length 1,
`removePosition(0)` (hence `Pop` and `Dequeue`) removes the element from the underlying
list and then panics with an index out of range when it reads position 0 again: the handle
slice still has length 1 while the list has length 0. -/
theorem InoxList.removePosition_last_breaks_lockstep :
    (InoxList.removePosition Context.permissive ⟨[.int 7], some [5]⟩ 0).outcome =
      .panic .indexOutOfRange ∧
    (InoxList.removePosition Context.permissive ⟨[.int 7], some [5]⟩ 0).list =
      ⟨[], some [5]⟩ ∧
    (InoxList.Pop Context.permissive ⟨[.int 7], some [5]⟩).outcome = .panic .indexOutOfRange ∧
    (InoxList.Pop Context.permissive ⟨[.int 7], some [5]⟩).list = ⟨[], some [5]⟩ := by
  decide

/-- C10: on a list without element callbacks, `Pop` panics with
`ErrCannotPopFromEmptyList` and `Dequeue` with `ErrCannotDequeueFromEmptyList` when the
list is empty (which is left as it is); on a non-empty list `Pop` returns the last element
and `Dequeue` the first, and the list afterwards holds the other elements in their
original order. -/
theorem InoxList.Pop_Dequeue (ctx : Context) (l : InoxList)
    (hcb : l.elementMutationCallbacks = none) :
    (l.elements = [] →
      (l.Pop ctx).outcome = .panic .ErrCannotPopFromEmptyList ∧ (l.Pop ctx).list = l ∧
      (l.Dequeue ctx).outcome = .panic .ErrCannotDequeueFromEmptyList ∧
      (l.Dequeue ctx).list = l) ∧
    (∀ (x : Serializable) (rest : List Serializable), l.elements = rest ++ [x] →
      (l.Pop ctx).outcome = .ok x ∧ (l.Pop ctx).list.elements = rest) ∧
    (∀ (x : Serializable) (rest : List Serializable), l.elements = x :: rest →
      (l.Dequeue ctx).outcome = .ok x ∧ (l.Dequeue ctx).list.elements = rest) := by
  refine ⟨?_, ?_, ?_⟩
  · intro hnil
    simp [InoxList.Pop, InoxList.Dequeue, InoxList.Len, hnil]
  · intro x rest hel
    have hlen : l.Len - 1 = (rest.length : Int) := by
      simp [InoxList.Len, hel]
    have hat : underlyingList.At l.elements (rest.length : Int) = some x := by
      simp [underlyingList.At, hel]
    have hrm : underlyingList.removePosition l.elements (rest.length : Int) = some rest := by
      simp [underlyingList.removePosition, hel, List.eraseIdx_append_of_length_le]
    have hnot : ¬ ((rest.length : Int) < 0) := by omega
    simp only [InoxList.Pop, hlen, hnot, if_false, InoxList.takeAt, hat,
      InoxList.removePosition, hrm, hcb, InoxList.informAboutMutation]
    exact ⟨trivial, trivial⟩
  · intro x rest hel
    have hlen : ¬ (l.Len = 0) := by
      simp [InoxList.Len, hel]; omega
    have hat : underlyingList.At l.elements 0 = some x := by
      simp [underlyingList.At, hel]
    have hrm : underlyingList.removePosition l.elements 0 = some rest := by
      simp [underlyingList.removePosition, hel]
    simp only [InoxList.Dequeue, hlen, if_false, InoxList.takeAt, hat,
      InoxList.removePosition, hrm, hcb, InoxList.informAboutMutation]
    exact ⟨trivial, trivial⟩

/-- Witness for C10: on `[1, 2, 3]` `Pop` returns 3 and leaves `[1, 2]`, `Dequeue` returns
1 and leaves `[2, 3]`. -/
theorem InoxList.Pop_Dequeue_witness :
    ((InoxList.Pop Context.permissive ⟨[.int 1, .int 2, .int 3], none⟩).outcome = .ok (.int 3) ∧
      (InoxList.Pop Context.permissive ⟨[.int 1, .int 2, .int 3], none⟩).list.elements =
        [.int 1, .int 2]) ∧
    ((InoxList.Dequeue Context.permissive ⟨[.int 1, .int 2, .int 3], none⟩).outcome =
        .ok (.int 1) ∧
      (InoxList.Dequeue Context.permissive ⟨[.int 1, .int 2, .int 3], none⟩).list.elements =
        [.int 2, .int 3]) :=
  ⟨(InoxList.Pop_Dequeue Context.permissive ⟨[.int 1, .int 2, .int 3], none⟩ rfl).2.1
      (.int 3) [.int 1, .int 2] rfl,
    (InoxList.Pop_Dequeue Context.permissive ⟨[.int 1, .int 2, .int 3], none⟩ rfl).2.2
      (.int 1) [.int 2, .int 3] rfl⟩

/-! ## Set: one element per unique key -/

theorem Set.addNoPersist_of_key (world : ElementWorld) (set : Set)
    (urls urls1 : List (SetElem × String)) (id : String) (elem : SetElem) (key : String)
    (hkey : set.uniqueKey world urls id elem = (urls1, .ok key)) :
    set.addNoPersist world urls id elem =
      match mapGet set.elements key with
      | some curr =>
        if elem ≠ curr then
          { set := set, urls := urls1, outcome := .panic .ErrValueWithSameKeyAlreadyPresent }
        else
          { set := { set with elements := mapSet set.elements key elem }, urls := urls1,
            outcome := .ok () }
      | none =>
        { set := { set with elements := mapSet set.elements key elem }, urls := urls1,
          outcome := .ok () } := by
  unfold Set.addNoPersist
  rw [hkey]

theorem Set.Add_set (world : ElementWorld) (set : Set) (urls : List (SetElem × String))
    (id : String) (elem : SetElem) :
    (set.Add world urls id elem).set = (set.addNoPersist world urls id elem).set ∧
      (set.Add world urls id elem).outcome = (set.addNoPersist world urls id elem).outcome := by
  unfold Set.Add
  cases h : (set.addNoPersist world urls id elem).outcome with
  | ok a =>
    by_cases hs : (set.addNoPersist world urls id elem).set.storage = true
    · simp [hs, h]
    · simp [hs, h]
  | error e => simp [h]
  | panic e => simp [h]

/-- C11: when `Add` reaches the lookup of the unique key `key` of the element (the
element pattern accepts it, and a URL could be given where one is needed), then: if an
element that is not identical to it is stored under the key, `Add` panics with
`ErrValueWithSameKeyAlreadyPresent` and the Set is unchanged; if the element itself is
stored under the key, `Add` returns and every lookup in the element map gives what it
gave before; if the key is absent, `Add` returns, the element is stored under the key and
the lookup of every other key is unchanged. Hence, if `Add` returns, an element that was
stored under the key before is the added element: two different elements are never
stored under one key. -/
theorem Set.Add_unique_key (world : ElementWorld) (set : Set)
    (urls urls1 : List (SetElem × String)) (id : String) (elem : SetElem) (key : String)
    (hkey : set.uniqueKey world urls id elem = (urls1, .ok key)) :
    (∀ curr, mapGet set.elements key = some curr → curr ≠ elem →
      (set.Add world urls id elem).outcome = .panic .ErrValueWithSameKeyAlreadyPresent ∧
      (set.Add world urls id elem).set = set) ∧
    (mapGet set.elements key = some elem →
      (set.Add world urls id elem).outcome = .ok () ∧
      ∀ k, mapGet (set.Add world urls id elem).set.elements k = mapGet set.elements k) ∧
    (mapGet set.elements key = none →
      (set.Add world urls id elem).outcome = .ok () ∧
      mapGet (set.Add world urls id elem).set.elements key = some elem ∧
      ∀ k, k ≠ key →
        mapGet (set.Add world urls id elem).set.elements k = mapGet set.elements k) ∧
    ((set.Add world urls id elem).outcome = .ok () →
      ∀ curr, mapGet set.elements key = some curr → curr = elem) := by
  have hadd := Set.addNoPersist_of_key world set urls urls1 id elem key hkey
  obtain ⟨hset, hout⟩ := Set.Add_set world set urls id elem
  rw [hset, hout, hadd]
  refine ⟨?_, ?_, ?_, ?_⟩
  · intro curr hcurr hne
    have hne1 : elem ≠ curr := fun h => hne h.symm
    simp [hcurr, hne1]
  · intro hcurr
    simp only [hcurr, ne_eq, not_true_eq_false, if_false, true_and]
    intro k
    rw [mapGet_mapSet]
    by_cases hk : k = key
    · simp [hk, hcurr]
    · simp [hk]
  · intro hcurr
    simp only [hcurr, true_and]
    refine ⟨?_, ?_⟩
    · rw [mapGet_mapSet]; simp
    · intro k hk
      rw [mapGet_mapSet]; simp [hk]
  · intro hok curr hcurr
    by_contra hne
    have hne1 : elem ≠ curr := fun h => hne h.symm
    simp [hcurr, hne1] at hok

/-- Witness for C11: in a Set of containers whose unique key is "k" for the containers 1
and 2, where container 1 is stored, `Add` of container 2 panics and leaves the Set as it
is, `Add` of container 1 returns, and `Add` to the empty Set stores container 1. -/
theorem Set.Add_unique_key_witness :
    ((Set.Add (ElementWorld.keyed (fun _ => "k"))
        { elements := [("k", .ref 1)], config := ⟨none, ⟨.UniqueRepr, ""⟩⟩ } [] "id"
        (.ref 2)).outcome = .panic .ErrValueWithSameKeyAlreadyPresent ∧
      (Set.Add (ElementWorld.keyed (fun _ => "k"))
        { elements := [("k", .ref 1)], config := ⟨none, ⟨.UniqueRepr, ""⟩⟩ } [] "id"
        (.ref 2)).set.elements = [("k", .ref 1)]) ∧
    (Set.Add (ElementWorld.keyed (fun _ => "k"))
        { elements := [("k", .ref 1)], config := ⟨none, ⟨.UniqueRepr, ""⟩⟩ } [] "id"
        (.ref 1)).outcome = .ok () ∧
    mapGet (Set.Add (ElementWorld.keyed (fun _ => "k"))
        (Set.empty ⟨none, ⟨.UniqueRepr, ""⟩⟩) [] "id" (.ref 1)).set.elements "k" =
      some (.ref 1) :=
  ⟨(fun h => ⟨h.1, congrArg Set.elements h.2⟩)
      ((Set.Add_unique_key (ElementWorld.keyed (fun _ => "k"))
        { elements := [("k", .ref 1)], config := ⟨none, ⟨.UniqueRepr, ""⟩⟩ } [] [] "id"
        (.ref 2) "k" rfl).1 (.ref 1) rfl (by decide)),
    ((Set.Add_unique_key (ElementWorld.keyed (fun _ => "k"))
        { elements := [("k", .ref 1)], config := ⟨none, ⟨.UniqueRepr, ""⟩⟩ } [] [] "id"
        (.ref 1) "k" rfl).2.1 rfl).1,
    ((Set.Add_unique_key (ElementWorld.keyed (fun _ => "k"))
        (Set.empty ⟨none, ⟨.UniqueRepr, ""⟩⟩) [] [] "id" (.ref 1) "k" rfl).2.2.1 rfl).2.1⟩


/-! ## DatabaseIL: the schema update gate -/

theorem DatabaseIL.updateSchemaBody_fields {σ : Type} (impl : Database σ) (ctx : Context)
    (db : DatabaseIL σ) (nextSchema : SchemaObjectPattern)
    (migrations : List MigrationObject) :
    (db.updateSchemaBody impl ctx nextSchema migrations).db.ownerState = db.ownerState ∧
    (db.updateSchemaBody impl ctx nextSchema migrations).db.schemaUpdateExpected =
      db.schemaUpdateExpected ∧
    (db.updateSchemaBody impl ctx nextSchema migrations).db.initialSchema =
      db.initialSchema ∧
    (db.updateSchemaBody impl ctx nextSchema migrations).db.schemaUpdated =
      db.schemaUpdated := by
  unfold DatabaseIL.updateSchemaBody
  repeat' split
  all_goals exact ⟨rfl, rfl, rfl, rfl⟩

theorem DatabaseIL.UpdateSchema_fields {σ : Type} (impl : Database σ) (ctx : Context)
    (db : DatabaseIL σ) (nextSchema : SchemaObjectPattern)
    (migrations : List MigrationObject) :
    (db.UpdateSchema impl ctx nextSchema migrations).db.ownerState = db.ownerState ∧
    (db.UpdateSchema impl ctx nextSchema migrations).db.schemaUpdateExpected =
      db.schemaUpdateExpected ∧
    (db.UpdateSchema impl ctx nextSchema migrations).db.initialSchema =
      db.initialSchema := by
  obtain ⟨h1, h2, h3, _⟩ := DatabaseIL.updateSchemaBody_fields impl ctx db nextSchema migrations
  unfold DatabaseIL.UpdateSchema
  repeat' split
  all_goals first
    | exact ⟨rfl, rfl, rfl⟩
    | exact ⟨h1, h2, h3⟩

/-- When the four checks pass, `UpdateSchema` runs its body between the lock and the
deferred calls. -/
theorem DatabaseIL.UpdateSchema_of_checks {σ : Type} (impl : Database σ) (ctx : Context)
    (db : DatabaseIL σ) (nextSchema : SchemaObjectPattern)
    (migrations : List MigrationObject)
    (howner : db.ownerState ≠ none) (hexpected : db.schemaUpdateExpected = true)
    (hcaller : ctx.GetClosestState = db.ownerState)
    (hupdated : db.schemaUpdated = false) :
    db.UpdateSchema impl ctx nextSchema migrations =
      { db := { (db.updateSchemaBody impl ctx nextSchema migrations).db with
          schemaUpdated := true }
        outcome := (db.updateSchemaBody impl ctx nextSchema migrations).outcome
        trace := [.lockSchemaUpdate] ++
          (db.updateSchemaBody impl ctx nextSchema migrations).trace ++
          [.storeSchemaUpdated, .unlockSchemaUpdate] } := by
  unfold DatabaseIL.UpdateSchema
  simp [howner, hexpected, hcaller, hupdated]

/-- A call of `UpdateSchema` on a wrapper whose flag `schemaUpdated` is set panics
without a call on the inner database and leaves the wrapper as it is. -/
theorem DatabaseIL.UpdateSchema_of_updated {σ : Type} (impl : Database σ) (ctx : Context)
    (db : DatabaseIL σ) (nextSchema : SchemaObjectPattern)
    (migrations : List MigrationObject) (hupdated : db.schemaUpdated = true) :
    (∃ err, (db.UpdateSchema impl ctx nextSchema migrations).outcome = .panic err) ∧
    (db.ownerState ≠ none → ctx.GetClosestState = db.ownerState →
      db.schemaUpdateExpected = true →
      (db.UpdateSchema impl ctx nextSchema migrations).outcome =
        .panic .ErrDatabaseSchemaAlreadyUpdatedOrNotAllowed) ∧
    (db.UpdateSchema impl ctx nextSchema migrations).db = db ∧
    innerCalls (db.UpdateSchema impl ctx nextSchema migrations).trace = [] := by
  unfold DatabaseIL.UpdateSchema
  by_cases h1 : db.ownerState = none
  · refine ⟨⟨.ErrOwnerStateNotSet, by simp [h1]⟩, ?_, by simp [h1], by simp [h1, innerCalls]⟩
    intro ho; exact absurd h1 ho
  · by_cases h2 : db.schemaUpdateExpected = true
    · by_cases h3 : ctx.GetClosestState = db.ownerState
      · refine ⟨⟨.ErrDatabaseSchemaAlreadyUpdatedOrNotAllowed, ?_⟩, ?_, ?_, ?_⟩ <;>
          simp [h1, h2, h3, hupdated, innerCalls, DbEvent.isInnerCall]
      · refine ⟨⟨.ErrDatabaseSchemaOnlyUpdatableByOwnerState, ?_⟩, ?_, ?_, ?_⟩ <;>
          simp [h1, h2, h3, innerCalls]
    · refine ⟨⟨.ErrNoneDatabaseSchemaUpdateExpected, ?_⟩, ?_, ?_, ?_⟩ <;>
        simp [h1, h2, innerCalls]

/-- C12: `UpdateSchema` panics with `ErrOwnerStateNotSet` if the owner state is unset,
otherwise with `ErrNoneDatabaseSchemaUpdateExpected` if no schema update was expected,
otherwise with `ErrDatabaseSchemaOnlyUpdatableByOwnerState` if the closest state of the
caller is not the owner, otherwise with `ErrDatabaseSchemaAlreadyUpdatedOrNotAllowed` if
the schema was already updated; in each of the four cases the wrapper is left as it was
(inner database, flag `schemaUpdated`, cached top-level entities) and there is no call
on the inner database. -/
theorem DatabaseIL.UpdateSchema_precondition_panics {σ : Type} (impl : Database σ)
    (ctx : Context) (db : DatabaseIL σ) (nextSchema : SchemaObjectPattern)
    (migrations : List MigrationObject) :
    (db.ownerState = none →
      (db.UpdateSchema impl ctx nextSchema migrations).outcome =
        .panic .ErrOwnerStateNotSet) ∧
    (db.ownerState ≠ none → db.schemaUpdateExpected = false →
      (db.UpdateSchema impl ctx nextSchema migrations).outcome =
        .panic .ErrNoneDatabaseSchemaUpdateExpected) ∧
    (db.ownerState ≠ none → db.schemaUpdateExpected = true →
      ctx.GetClosestState ≠ db.ownerState →
      (db.UpdateSchema impl ctx nextSchema migrations).outcome =
        .panic .ErrDatabaseSchemaOnlyUpdatableByOwnerState) ∧
    (db.ownerState ≠ none → db.schemaUpdateExpected = true →
      ctx.GetClosestState = db.ownerState → db.schemaUpdated = true →
      (db.UpdateSchema impl ctx nextSchema migrations).outcome =
        .panic .ErrDatabaseSchemaAlreadyUpdatedOrNotAllowed) ∧
    (db.ownerState = none ∨ db.schemaUpdateExpected = false ∨
        ctx.GetClosestState ≠ db.ownerState ∨ db.schemaUpdated = true →
      (db.UpdateSchema impl ctx nextSchema migrations).db = db ∧
      (db.UpdateSchema impl ctx nextSchema migrations).db.inner = db.inner ∧
      (db.UpdateSchema impl ctx nextSchema migrations).db.schemaUpdated = db.schemaUpdated ∧
      (db.UpdateSchema impl ctx nextSchema migrations).db.topLevelEntities =
        db.topLevelEntities ∧
      innerCalls (db.UpdateSchema impl ctx nextSchema migrations).trace = []) := by
  refine ⟨?_, ?_, ?_, ?_, ?_⟩
  · intro h1
    unfold DatabaseIL.UpdateSchema; simp [h1]
  · intro h1 h2
    unfold DatabaseIL.UpdateSchema; simp [h1, h2]
  · intro h1 h2 h3
    unfold DatabaseIL.UpdateSchema; simp [h1, h2, h3]
  · intro h1 h2 h3 h4
    unfold DatabaseIL.UpdateSchema; simp [h1, h2, h3, h4]
  · intro h
    have hdb : (db.UpdateSchema impl ctx nextSchema migrations).db = db ∧
        innerCalls (db.UpdateSchema impl ctx nextSchema migrations).trace = [] := by
      unfold DatabaseIL.UpdateSchema
      by_cases h1 : db.ownerState = none
      · simp [h1, innerCalls]
      · by_cases h2 : db.schemaUpdateExpected = true
        · by_cases h3 : ctx.GetClosestState = db.ownerState
          · have h4 : db.schemaUpdated = true := by
              rcases h with h | h | h | h
              · exact absurd h h1
              · rw [h2] at h; cases h
              · exact absurd h3 h
              · exact h
            simp [h1, h2, h3, h4, innerCalls, DbEvent.isInnerCall]
          · simp [h1, h2, h3, innerCalls]
        · simp [h1, h2, innerCalls]
    refine ⟨hdb.1, ?_, ?_, ?_, hdb.2⟩ <;> rw [hdb.1]

/-- Witness for C12: the four panics on wrappers of a `dummyDatabase`: without owner,
without expected update, called from the state 2 that is not the owner, and after the
flag was set. -/
theorem DatabaseIL.UpdateSchema_precondition_panics_witness :
    (DatabaseIL.UpdateSchema (dummyDatabase.impl exampleCall) Context.permissive
        { dummyDatabase.wrapped with ownerState := none } EMPTY_INEXACT_OBJECT_PATTERN
        []).outcome = .panic .ErrOwnerStateNotSet ∧
    (DatabaseIL.UpdateSchema (dummyDatabase.impl exampleCall) Context.permissive
        { dummyDatabase.wrapped with schemaUpdateExpected := false }
        EMPTY_INEXACT_OBJECT_PATTERN []).outcome =
      .panic .ErrNoneDatabaseSchemaUpdateExpected ∧
    (DatabaseIL.UpdateSchema (dummyDatabase.impl exampleCall)
        { Context.permissive with GetClosestState := some 2 } dummyDatabase.wrapped
        EMPTY_INEXACT_OBJECT_PATTERN []).outcome =
      .panic .ErrDatabaseSchemaOnlyUpdatableByOwnerState ∧
    (DatabaseIL.UpdateSchema (dummyDatabase.impl exampleCall) Context.permissive
        { dummyDatabase.wrapped with schemaUpdated := true } EMPTY_INEXACT_OBJECT_PATTERN
        []).outcome = .panic .ErrDatabaseSchemaAlreadyUpdatedOrNotAllowed ∧
    innerCalls (DatabaseIL.UpdateSchema (dummyDatabase.impl exampleCall) Context.permissive
        { dummyDatabase.wrapped with schemaUpdated := true } EMPTY_INEXACT_OBJECT_PATTERN
        []).trace = [] :=
  ⟨(DatabaseIL.UpdateSchema_precondition_panics (dummyDatabase.impl exampleCall)
      Context.permissive { dummyDatabase.wrapped with ownerState := none }
      EMPTY_INEXACT_OBJECT_PATTERN []).1 rfl,
   (DatabaseIL.UpdateSchema_precondition_panics (dummyDatabase.impl exampleCall)
      Context.permissive { dummyDatabase.wrapped with schemaUpdateExpected := false }
      EMPTY_INEXACT_OBJECT_PATTERN []).2.1 (by decide) rfl,
   (DatabaseIL.UpdateSchema_precondition_panics (dummyDatabase.impl exampleCall)
      { Context.permissive with GetClosestState := some 2 } dummyDatabase.wrapped
      EMPTY_INEXACT_OBJECT_PATTERN []).2.2.1 (by decide) rfl (by decide),
   (DatabaseIL.UpdateSchema_precondition_panics (dummyDatabase.impl exampleCall)
      Context.permissive { dummyDatabase.wrapped with schemaUpdated := true }
      EMPTY_INEXACT_OBJECT_PATTERN []).2.2.2.1 (by decide) rfl (by decide) rfl,
   ((DatabaseIL.UpdateSchema_precondition_panics (dummyDatabase.impl exampleCall)
      Context.permissive { dummyDatabase.wrapped with schemaUpdated := true }
      EMPTY_INEXACT_OBJECT_PATTERN []).2.2.2.2 (Or.inr (Or.inr (Or.inr rfl)))).2.2.2.2⟩


theorem DatabaseIL.UpdateSchema_ok_checks {σ : Type} (impl : Database σ) (ctx : Context)
    (db : DatabaseIL σ) (nextSchema : SchemaObjectPattern)
    (migrations : List MigrationObject)
    (hok : (db.UpdateSchema impl ctx nextSchema migrations).outcome = .ok ()) :
    db.ownerState ≠ none ∧ db.schemaUpdateExpected = true ∧
      ctx.GetClosestState = db.ownerState ∧ db.schemaUpdated = false := by
  unfold DatabaseIL.UpdateSchema at hok
  by_cases h1 : db.ownerState = none
  · simp [h1] at hok
  · by_cases h2 : db.schemaUpdateExpected = true
    · by_cases h3 : ctx.GetClosestState = db.ownerState
      · by_cases h4 : db.schemaUpdated = true
        · simp [h1, h2, h3, h4] at hok
        · exact ⟨h1, h2, h3, by simpa using h4⟩
      · simp [h1, h2, h3] at hok
    · simp [h1, h2] at hok

/-- A body of `UpdateSchema` that returns has called the inner database for the update
and for the top-level entities, and has cached the map that the inner database
returned. -/
theorem DatabaseIL.updateSchemaBody_ok {σ : Type} (impl : Database σ) (ctx : Context)
    (db : DatabaseIL σ) (nextSchema : SchemaObjectPattern)
    (migrations : List MigrationObject)
    (hok : (db.updateSchemaBody impl ctx nextSchema migrations).outcome = .ok ()) :
    ∃ handlers inner1 inner2 entities,
      impl.UpdateSchema ctx db.inner nextSchema handlers = (inner1, none) ∧
      impl.TopLevelEntities ctx inner1 = (inner2, .ok entities) ∧
      (db.updateSchemaBody impl ctx nextSchema migrations).db =
        { db with inner := inner2, topLevelEntities := entities } := by
  unfold DatabaseIL.updateSchemaBody at hok ⊢
  cases h1 : loadingFunctionError ctx nextSchema with
  | some err => simp [h1] at hok
  | none =>
    simp only [h1] at hok ⊢
    cases h2 : ctx.GetMigrationOperations db.initialSchema.toPattern nextSchema.toPattern
        "/" with
    | error err => simp [h2] at hok
    | ok ops =>
      simp only [h2] at hok ⊢
      cases h3 : migrationHandlersOf ops migrations with
      | error err => simp [h3] at hok
      | ok handlers =>
        simp only [h3] at hok ⊢
        cases h4 : impl.UpdateSchema ctx db.inner nextSchema handlers with
        | mk inner e =>
          cases e with
          | some err => simp [h4] at hok
          | none =>
            simp only [h4] at hok ⊢
            cases h5 : impl.TopLevelEntities ctx inner with
            | mk inner1 t =>
              cases t with
              | error err => simp [h5] at hok
              | ok entities =>
                exact ⟨handlers, inner, inner1, entities, h4, h5, rfl⟩

theorem DatabaseIL.Prop_entity {σ : Type} (db : DatabaseIL σ)
    (entities : List (String × Serializable)) (name : String) (v : Serializable)
    (howner : db.ownerState ≠ none)
    (hgate : db.schemaUpdateExpected = true → db.schemaUpdated = true)
    (hentities : db.topLevelEntities = some entities)
    (hv : mapGet entities name = some v) (hname : name ∉ DATABASE_PROPNAMES) :
    db.Prop name = .ok (.entity v) := by
  have hn : name ≠ "update_schema" ∧ name ≠ "close" ∧ name ≠ "schema" := by
    simpa [DATABASE_PROPNAMES] using hname
  have hg : (db.schemaUpdateExpected && !db.schemaUpdated) = false := by
    cases he : db.schemaUpdateExpected with
    | false => rfl
    | true => simp [hgate he]
  unfold DatabaseIL.Prop
  simp [howner, hn.1, hn.2.1, hn.2.2, hg, hentities, hv]

/-- After an `UpdateSchema` call that returned, every further `UpdateSchema` call by the
owner panics with `ErrDatabaseSchemaAlreadyUpdatedOrNotAllowed`, does not call the inner
database and leaves the wrapper as it is; the cached top-level entities are the map that
the inner database returned in the first call, and `Prop(name)` returns the cached value
for each top-level entity name other than `update_schema`, `close` and `schema`, also
after the further call. -/
theorem DatabaseIL.UpdateSchema_only_once {σ : Type} (impl : Database σ) (ctx : Context)
    (db db1 : DatabaseIL σ) (nextSchema : SchemaObjectPattern)
    (migrations : List MigrationObject)
    (hfirst : (db.UpdateSchema impl ctx nextSchema migrations).outcome = .ok ())
    (hdb1 : (db.UpdateSchema impl ctx nextSchema migrations).db = db1) :
    (∀ (ctx2 : Context) (nextSchema2 : SchemaObjectPattern)
        (migrations2 : List MigrationObject),
      ctx2.GetClosestState = db1.ownerState →
        (db1.UpdateSchema impl ctx2 nextSchema2 migrations2).outcome =
          .panic .ErrDatabaseSchemaAlreadyUpdatedOrNotAllowed ∧
        innerCalls (db1.UpdateSchema impl ctx2 nextSchema2 migrations2).trace = [] ∧
        (db1.UpdateSchema impl ctx2 nextSchema2 migrations2).db = db1) ∧
    (∃ inner1 inner2, impl.TopLevelEntities ctx inner1 = (inner2, .ok db1.topLevelEntities)) ∧
    (∀ (entities : List (String × Serializable)) (name : String) (v : Serializable),
      db1.topLevelEntities = some entities → mapGet entities name = some v →
        name ∉ DATABASE_PROPNAMES →
        db1.Prop name = .ok (.entity v) ∧
        ∀ (ctx2 : Context) (nextSchema2 : SchemaObjectPattern)
          (migrations2 : List MigrationObject),
          ctx2.GetClosestState = db1.ownerState →
          (db1.UpdateSchema impl ctx2 nextSchema2 migrations2).db.Prop name =
            .ok (.entity v)) := by
  obtain ⟨h1, h2, h3, h4⟩ :=
    DatabaseIL.UpdateSchema_ok_checks impl ctx db nextSchema migrations hfirst
  have heq := DatabaseIL.UpdateSchema_of_checks impl ctx db nextSchema migrations h1 h2 h3 h4
  obtain ⟨f1, f2, _⟩ := DatabaseIL.UpdateSchema_fields impl ctx db nextSchema migrations
  rw [hdb1] at f1 f2
  have hflag : db1.schemaUpdated = true := by rw [← hdb1, heq]
  have howner1 : db1.ownerState ≠ none := by rw [f1]; exact h1
  have hexp1 : db1.schemaUpdateExpected = true := by rw [f2]; exact h2
  have hbody : (db.updateSchemaBody impl ctx nextSchema migrations).outcome = .ok () := by
    rw [heq] at hfirst; exact hfirst
  have hsecond : ∀ (ctx2 : Context) (nextSchema2 : SchemaObjectPattern)
      (migrations2 : List MigrationObject),
      ctx2.GetClosestState = db1.ownerState →
        (db1.UpdateSchema impl ctx2 nextSchema2 migrations2).outcome =
          .panic .ErrDatabaseSchemaAlreadyUpdatedOrNotAllowed ∧
        innerCalls (db1.UpdateSchema impl ctx2 nextSchema2 migrations2).trace = [] ∧
        (db1.UpdateSchema impl ctx2 nextSchema2 migrations2).db = db1 := by
    intro ctx2 nextSchema2 migrations2 hcaller
    obtain ⟨_, a, b, c⟩ :=
      DatabaseIL.UpdateSchema_of_updated impl ctx2 db1 nextSchema2 migrations2 hflag
    exact ⟨a howner1 hcaller hexp1, c, b⟩
  refine ⟨hsecond, ?_, ?_⟩
  · obtain ⟨handlers, inner1, inner2, entities, _, ht, hdb⟩ :=
      DatabaseIL.updateSchemaBody_ok impl ctx db nextSchema migrations hbody
    refine ⟨inner1, inner2, ?_⟩
    rw [ht, ← hdb1, heq, hdb]
  · intro entities name v hentities hv hname
    have hprop := DatabaseIL.Prop_entity db1 entities name v howner1 (fun _ => hflag)
      hentities hv hname
    refine ⟨hprop, ?_⟩
    intro ctx2 nextSchema2 migrations2 hcaller
    rw [(hsecond ctx2 nextSchema2 migrations2 hcaller).2.2]
    exact hprop

/-- Example: after the schema of a wrapped `dummyDatabase` was updated to a schema with
the entity `users`, `Prop("users")` returns the cached value 1. -/
theorem DatabaseIL.UpdateSchema_only_once_witness :
    (DatabaseIL.UpdateSchema (dummyDatabase.impl exampleCall) Context.permissive
      dummyDatabase.wrapped { entryPatterns := [("users", .type .INT_PATTERN)] }
      [inclusionMigration "users"]).db.Prop "users" = .ok (.entity (.int 1)) :=
  ((DatabaseIL.UpdateSchema_only_once (dummyDatabase.impl exampleCall) Context.permissive
      dummyDatabase.wrapped _ { entryPatterns := [("users", .type .INT_PATTERN)] }
      [inclusionMigration "users"] (by decide) rfl).2.2
    [("users", .int 1)] "users" (.int 1) (by decide) (by decide) (by decide)).1

/-- With the owner set, `Prop` serves the three names of `DATABASE_PROPNAMES` before it
looks at the cached entities: the initial schema and the two bound methods are returned
whatever the cache holds. -/
theorem DatabaseIL.Prop_reserved {σ : Type} (db : DatabaseIL σ) (howner : db.ownerState ≠ none) :
    db.Prop "schema" = .ok (.schema db.initialSchema) ∧
    db.Prop "update_schema" = .ok (.method "update_schema") ∧
    db.Prop "close" = .ok (.method "close") := by
  refine ⟨?_, ?_, ?_⟩
  · unfold DatabaseIL.Prop
    rw [if_neg (by simpa using howner)]
    rfl
  · unfold DatabaseIL.Prop
    rw [if_neg (by simpa using howner)]
    rfl
  · unfold DatabaseIL.Prop
    rw [if_neg (by simpa using howner)]
    rfl

/-- Evaluation for C13: a `dummyDatabase` is wrapped and its schema is updated to a schema
with the entity `close`, included by a migration handler that returns 1. `UpdateSchema`
does not check the names of the next schema against `DATABASE_PROPNAMES`: the call returns
and caches the entity `close = 1`, but `Prop("close")` returns the method `close` and not
the cached entity, also after a second `UpdateSchema` call has panicked. `WrapDatabase`
does refuse a schema with the entity `close`, with
`ErrNameCollisionWithInitialDatabasePropertyName`. In general `Prop` returns the initial
schema and the two methods for the three reserved names whatever the cache holds; and
after an `UpdateSchema` call that returned, every further call by the owner panics with
`ErrDatabaseSchemaAlreadyUpdatedOrNotAllowed` without a call of the inner database, and
`Prop(name)` returns the cached value for every other top-level entity name. -/
theorem DatabaseIL.Prop_method_hides_entity :
    WrapDatabase (dummyDatabase.impl exampleCall) Context.permissive
      dummyDatabase.wrappingArgs = .ok dummyDatabase.wrapped ∧
    (DatabaseIL.UpdateSchema (dummyDatabase.impl exampleCall) Context.permissive
      dummyDatabase.wrapped { entryPatterns := [("close", .type .INT_PATTERN)] }
      [inclusionMigration "close"]).outcome = .ok () ∧
    (DatabaseIL.UpdateSchema (dummyDatabase.impl exampleCall) Context.permissive
      dummyDatabase.wrapped { entryPatterns := [("close", .type .INT_PATTERN)] }
      [inclusionMigration "close"]).db.topLevelEntities = some [("close", .int 1)] ∧
    (DatabaseIL.UpdateSchema (dummyDatabase.impl exampleCall) Context.permissive
      dummyDatabase.wrapped { entryPatterns := [("close", .type .INT_PATTERN)] }
      [inclusionMigration "close"]).db.Prop "close" = .ok (.method "close") ∧
    (DatabaseIL.UpdateSchema (dummyDatabase.impl exampleCall) Context.permissive
      dummyDatabase.wrapped { entryPatterns := [("close", .type .INT_PATTERN)] }
      [inclusionMigration "close"]).db.Prop "close" ≠ .ok (.entity (.int 1)) ∧
    (DatabaseIL.UpdateSchema (dummyDatabase.impl exampleCall) Context.permissive
      (DatabaseIL.UpdateSchema (dummyDatabase.impl exampleCall) Context.permissive
        dummyDatabase.wrapped { entryPatterns := [("close", .type .INT_PATTERN)] }
        [inclusionMigration "close"]).db
      { entryPatterns := [("close", .type .INT_PATTERN)] }
      [inclusionMigration "close"]).db.Prop "close" = .ok (.method "close") ∧
    nameCollisionError { entryPatterns := [("close", .type .INT_PATTERN)] } =
      some (.wrapped "close" .ErrNameCollisionWithInitialDatabasePropertyName) ∧
    WrapDatabase
      { dummyDatabase.impl exampleCall with
        Schema := fun _ => { entryPatterns := [("close", .type .INT_PATTERN)] } }
      Context.permissive dummyDatabase.wrappingArgs =
      .error (.wrapped "close" .ErrNameCollisionWithInitialDatabasePropertyName) ∧
    (∀ (σ : Type) (db : DatabaseIL σ), db.ownerState ≠ none →
      db.Prop "schema" = .ok (.schema db.initialSchema) ∧
      db.Prop "update_schema" = .ok (.method "update_schema") ∧
      db.Prop "close" = .ok (.method "close")) ∧
    (∀ (σ : Type) (impl : Database σ) (ctx : Context) (db : DatabaseIL σ)
        (nextSchema : SchemaObjectPattern) (migrations : List MigrationObject),
      (db.UpdateSchema impl ctx nextSchema migrations).outcome = .ok () →
      (∀ (ctx2 : Context) (nextSchema2 : SchemaObjectPattern)
          (migrations2 : List MigrationObject),
        ctx2.GetClosestState = (db.UpdateSchema impl ctx nextSchema migrations).db.ownerState →
          ((db.UpdateSchema impl ctx nextSchema migrations).db.UpdateSchema impl ctx2
            nextSchema2 migrations2).outcome =
            .panic .ErrDatabaseSchemaAlreadyUpdatedOrNotAllowed ∧
          innerCalls ((db.UpdateSchema impl ctx nextSchema migrations).db.UpdateSchema impl ctx2
            nextSchema2 migrations2).trace = []) ∧
      (∀ (entities : List (String × Serializable)) (name : String) (v : Serializable),
        (db.UpdateSchema impl ctx nextSchema migrations).db.topLevelEntities = some entities →
        mapGet entities name = some v → name ∉ DATABASE_PROPNAMES →
        (db.UpdateSchema impl ctx nextSchema migrations).db.Prop name = .ok (.entity v))) := by
  refine ⟨rfl, by decide, by decide, rfl, ?_, rfl, by decide, rfl, ?_, ?_⟩
  · intro h
    have h2 : (Except.ok (DbPropValue.method "close") : Except Error DbPropValue) =
        .ok (.entity (.int 1)) := h
    cases h2
  · intro σ db howner
    exact DatabaseIL.Prop_reserved db howner
  · intro σ impl ctx db nextSchema migrations hfirst
    obtain ⟨h1, _, h3⟩ :=
      DatabaseIL.UpdateSchema_only_once impl ctx db _ nextSchema migrations hfirst rfl
    refine ⟨fun ctx2 nextSchema2 migrations2 hc => ?_, fun entities name v he hv hn => ?_⟩
    · obtain ⟨a, b, _⟩ := h1 ctx2 nextSchema2 migrations2 hc
      exact ⟨a, b⟩
    · exact (h3 entities name v he hv hn).1


theorem WrapDatabase_fields {σ : Type} (impl : Database σ) (ctx : Context)
    (args : DatabaseWrappingArgs σ) (db : DatabaseIL σ)
    (hwrap : WrapDatabase impl ctx args = .ok db) :
    db.initialSchema = impl.Schema args.Inner ∧
    db.schemaUpdateExpected = args.ExpectedSchemaUpdate ∧
    db.schemaUpdated = false ∧ db.ownerState = args.OwnerState := by
  unfold WrapDatabase at hwrap
  cases h1 : nameCollisionError (impl.Schema args.Inner) with
  | some err => simp [h1] at hwrap
  | none =>
    simp only [h1] at hwrap
    by_cases h2 : args.ExpectedSchemaUpdate = true
    · simp only [h2, if_true] at hwrap
      cases hwrap
      exact ⟨rfl, h2.symm, rfl, rfl⟩
    · simp only [h2, if_false] at hwrap
      cases h3 : impl.TopLevelEntities ctx args.Inner with
      | mk inner t =>
        cases t with
        | error err => simp [h3] at hwrap
        | ok entities =>
          simp only [h3] at hwrap
          cases hwrap
          exact ⟨rfl, by simpa using h2, rfl, rfl⟩

theorem DatabaseIL.SetOwnerStateOnce_fields {σ : Type} (db : DatabaseIL σ)
    (state : Option StateId) :
    (db.SetOwnerStateOnce state).db.initialSchema = db.initialSchema ∧
    (db.SetOwnerStateOnce state).db.schemaUpdateExpected = db.schemaUpdateExpected ∧
    (db.SetOwnerStateOnce state).db.schemaUpdated = db.schemaUpdated ∧
    (db.ownerState ≠ none → (db.SetOwnerStateOnce state).db = db) := by
  unfold DatabaseIL.SetOwnerStateOnce
  by_cases h : db.ownerState = none
  · simp [h]
  · simp [h]

theorem DatabaseIL.setOwnerStates_fields {σ : Type} (states : List (Option StateId)) :
    ∀ db : DatabaseIL σ,
      (db.setOwnerStates states).initialSchema = db.initialSchema ∧
      (db.setOwnerStates states).schemaUpdateExpected = db.schemaUpdateExpected ∧
      (db.setOwnerStates states).schemaUpdated = db.schemaUpdated ∧
      (db.ownerState ≠ none → db.setOwnerStates states = db) := by
  induction states with
  | nil => intro db; exact ⟨rfl, rfl, rfl, fun _ => rfl⟩
  | cons state rest ih =>
    intro db
    obtain ⟨a, b, c, d⟩ := DatabaseIL.SetOwnerStateOnce_fields db state
    obtain ⟨a1, b1, c1, d1⟩ := ih (db.SetOwnerStateOnce state).db
    unfold DatabaseIL.setOwnerStates
    refine ⟨a1.trans a, b1.trans b, c1.trans c, ?_⟩
    intro h
    have hd := d h
    rw [d1 (by rw [hd]; exact h), hd]

theorem DatabaseIL.Close_fields {σ : Type} (impl : Database σ) (ctx : Context)
    (db : DatabaseIL σ) :
    (db.Close impl ctx).db.initialSchema = db.initialSchema ∧
    (db.Close impl ctx).db.ownerState = db.ownerState := by
  unfold DatabaseIL.Close
  split <;> exact ⟨rfl, rfl⟩

/-- The initial schema never changes, and an owner that is set stays. -/
theorem DatabaseIL.Reachable_fields {σ : Type} (impl : Database σ) (db0 db : DatabaseIL σ)
    (hreach : DatabaseIL.Reachable impl db0 db) :
    db.initialSchema = db0.initialSchema ∧
      (db0.ownerState ≠ none → db.ownerState = db0.ownerState) := by
  induction hreach with
  | start => exact ⟨rfl, fun _ => rfl⟩
  | setOwnerStateOnce db state _ ih =>
    obtain ⟨a, _, _, d⟩ := DatabaseIL.SetOwnerStateOnce_fields db state
    refine ⟨a.trans ih.1, fun h => ?_⟩
    have ho := ih.2 h
    rw [d (by rw [ho]; exact h)]; exact ho
  | updateSchema db ctx nextSchema migrations _ ih =>
    obtain ⟨a, _, c⟩ := DatabaseIL.UpdateSchema_fields impl ctx db nextSchema migrations
    exact ⟨c.trans ih.1, fun h => a.trans (ih.2 h)⟩
  | close db ctx _ ih =>
    obtain ⟨a, b⟩ := DatabaseIL.Close_fields impl ctx db
    exact ⟨a.trans ih.1, fun h => b.trans (ih.2 h)⟩

/-- C14: for a `DatabaseIL` wrapped with `ExpectedSchemaUpdate = true` and with an owner
set (by `WrapDatabase` or by `SetOwnerStateOnce` calls), before any `UpdateSchema` call
`Prop(name)` panics with `ErrInvalidAccessSchemaNotUpdatedYet` for every name other than
`schema`, `update_schema` and `close`, and these three names are served without panic:
the initial schema and the two methods. -/
theorem DatabaseIL.Prop_before_schema_update {σ : Type} (impl : Database σ) (ctx : Context)
    (args : DatabaseWrappingArgs σ) (db0 : DatabaseIL σ) (states : List (Option StateId))
    (hwrap : WrapDatabase impl ctx args = .ok db0)
    (hexpected : args.ExpectedSchemaUpdate = true)
    (howner : (db0.setOwnerStates states).ownerState ≠ none) :
    (∀ name : String, name ≠ "schema" → name ≠ "update_schema" → name ≠ "close" →
      (db0.setOwnerStates states).Prop name =
        .error .ErrInvalidAccessSchemaNotUpdatedYet) ∧
    (db0.setOwnerStates states).Prop "schema" = .ok (.schema (impl.Schema args.Inner)) ∧
    (db0.setOwnerStates states).Prop "update_schema" = .ok (.method "update_schema") ∧
    (db0.setOwnerStates states).Prop "close" = .ok (.method "close") := by
  obtain ⟨w1, w2, w3, _⟩ := WrapDatabase_fields impl ctx args db0 hwrap
  obtain ⟨s1, s2, s3, _⟩ := DatabaseIL.setOwnerStates_fields states db0
  have hexp : (db0.setOwnerStates states).schemaUpdateExpected = true := by
    rw [s2, w2, hexpected]
  have hupd : (db0.setOwnerStates states).schemaUpdated = false := by rw [s3, w3]
  have hschema : (db0.setOwnerStates states).initialSchema = impl.Schema args.Inner := by
    rw [s1, w1]
  refine ⟨?_, ?_, ?_, ?_⟩
  · intro name n1 n2 n3
    unfold DatabaseIL.Prop
    simp [howner, n1, n2, n3, hexp, hupd]
  · unfold DatabaseIL.Prop
    simp [howner, hschema]
  · unfold DatabaseIL.Prop
    simp [howner, DatabaseIL.GetGoMethod]
  · unfold DatabaseIL.Prop
    simp [howner, DatabaseIL.GetGoMethod]

/-- Witness for C14: on a `dummyDatabase` wrapped without owner and with an expected
schema update, after `SetOwnerStateOnce` for the state 1, `Prop("users")` panics with
`ErrInvalidAccessSchemaNotUpdatedYet` and `Prop("close")` returns the method. -/
theorem DatabaseIL.Prop_before_schema_update_witness :
    (DatabaseIL.setOwnerStates { dummyDatabase.wrapped with ownerState := none }
        [some 1]).Prop "users" = .error .ErrInvalidAccessSchemaNotUpdatedYet ∧
    (DatabaseIL.setOwnerStates { dummyDatabase.wrapped with ownerState := none }
        [some 1]).Prop "close" = .ok (.method "close") :=
  ⟨(DatabaseIL.Prop_before_schema_update (dummyDatabase.impl exampleCall)
      Context.permissive { dummyDatabase.wrappingArgs with OwnerState := none }
      { dummyDatabase.wrapped with ownerState := none } [some 1] rfl rfl (by decide)).1
      "users" (by decide) (by decide) (by decide),
   (DatabaseIL.Prop_before_schema_update (dummyDatabase.impl exampleCall)
      Context.permissive { dummyDatabase.wrappingArgs with OwnerState := none }
      { dummyDatabase.wrapped with ownerState := none } [some 1] rfl rfl
      (by decide)).2.2.2⟩

theorem loadingFunctionError_of_missing (ctx : Context) (nextSchema : SchemaObjectPattern)
    (hmissing : ∃ entry ∈ nextSchema.entryPatterns,
      ctx.hasTypeLoadingFunction entry.2 = false) :
    ∃ text, loadingFunctionError ctx nextSchema =
      some (.wrapped text .ErrNoLoadInstanceFnRegistered) := by
  unfold loadingFunctionError SchemaObjectPattern.ForEachEntry
  generalize nextSchema.entryPatterns = entries at hmissing
  induction entries with
  | nil => obtain ⟨entry, hmem, _⟩ := hmissing; cases hmem
  | cons first rest ih =>
    by_cases hfirst : ctx.hasTypeLoadingFunction first.2 = false
    · exact ⟨"failed to update schema: pattern of ." ++ first.1 ++
        " has no loading function", by simp [List.findSome?, hfirst]⟩
    · have hrest : ∃ entry ∈ rest, ctx.hasTypeLoadingFunction entry.2 = false := by
        obtain ⟨entry, hmem, hentry⟩ := hmissing
        rcases List.mem_cons.1 hmem with h | h
        · rw [h] at hentry; exact absurd hentry hfirst
        · exact ⟨entry, h, hentry⟩
      obtain ⟨text, htext⟩ := ih hrest
      refine ⟨text, ?_⟩
      have hf : ctx.hasTypeLoadingFunction first.2 = true := by simpa using hfirst
      simp only [List.findSome?, hf, Bool.not_true, Bool.false_eq_true, if_false]
      exact htext

/-- C15: when `UpdateSchema` passes its four checks and some entry pattern of the next
schema has no registered loading function, the call panics with an error that wraps
`ErrNoLoadInstanceFnRegistered`; `GetMigrationOperations` is not computed, the inner
database is not called and keeps its state, and the cached top-level entities are
unchanged. -/
theorem DatabaseIL.UpdateSchema_missing_loading_function {σ : Type} (impl : Database σ)
    (ctx : Context) (db : DatabaseIL σ) (nextSchema : SchemaObjectPattern)
    (migrations : List MigrationObject)
    (howner : db.ownerState ≠ none) (hexpected : db.schemaUpdateExpected = true)
    (hcaller : ctx.GetClosestState = db.ownerState)
    (hupdated : db.schemaUpdated = false)
    (hmissing : ∃ entry ∈ nextSchema.entryPatterns,
      ctx.hasTypeLoadingFunction entry.2 = false) :
    (∃ text, (db.UpdateSchema impl ctx nextSchema migrations).outcome =
      .panic (.wrapped text .ErrNoLoadInstanceFnRegistered)) ∧
    DbEvent.GetMigrationOperations ∉ (db.UpdateSchema impl ctx nextSchema migrations).trace ∧
    innerCalls (db.UpdateSchema impl ctx nextSchema migrations).trace = [] ∧
    (db.UpdateSchema impl ctx nextSchema migrations).db.inner = db.inner ∧
    (db.UpdateSchema impl ctx nextSchema migrations).db.topLevelEntities =
      db.topLevelEntities := by
  obtain ⟨text, htext⟩ := loadingFunctionError_of_missing ctx nextSchema hmissing
  rw [DatabaseIL.UpdateSchema_of_checks impl ctx db nextSchema migrations howner hexpected
    hcaller hupdated]
  unfold DatabaseIL.updateSchemaBody
  simp only [htext]
  refine ⟨⟨text, rfl⟩, ?_, ?_, ?_, ?_⟩ <;> simp [innerCalls, DbEvent.isInnerCall]

/-- Witness for C15: in a context without loading function for any pattern, the update
of a wrapped `dummyDatabase` to a schema with the entity `users` panics with the wrapped
`ErrNoLoadInstanceFnRegistered`. -/
theorem DatabaseIL.UpdateSchema_missing_loading_function_witness :
    ∃ text, (DatabaseIL.UpdateSchema (dummyDatabase.impl exampleCall)
        { Context.permissive with hasTypeLoadingFunction := fun _ => false }
        dummyDatabase.wrapped { entryPatterns := [("users", .type .INT_PATTERN)] }
        [inclusionMigration "users"]).outcome =
      .panic (.wrapped text .ErrNoLoadInstanceFnRegistered) :=
  (DatabaseIL.UpdateSchema_missing_loading_function (dummyDatabase.impl exampleCall)
    { Context.permissive with hasTypeLoadingFunction := fun _ => false }
    dummyDatabase.wrapped { entryPatterns := [("users", .type .INT_PATTERN)] }
    [inclusionMigration "users"] (by decide) rfl rfl rfl
    ⟨("users", .type .INT_PATTERN), by simp, rfl⟩).1

/-- C16: every `UpdateSchema` call that passes the four checks leaves the flag
`schemaUpdated` set, however the call ends (return, or panic in the validation of the
loading functions, in the computation of the migration operations, in the extraction of
the handlers or in the inner update). Hence every later `UpdateSchema` call panics
without a call on the inner database and leaves the wrapper as it is; the panic of a
later call by the owner is `ErrDatabaseSchemaAlreadyUpdatedOrNotAllowed`. -/
theorem DatabaseIL.UpdateSchema_sets_flag {σ : Type} (impl : Database σ) (ctx : Context)
    (db : DatabaseIL σ) (nextSchema : SchemaObjectPattern)
    (migrations : List MigrationObject)
    (howner : db.ownerState ≠ none) (hexpected : db.schemaUpdateExpected = true)
    (hcaller : ctx.GetClosestState = db.ownerState)
    (hupdated : db.schemaUpdated = false) :
    (db.UpdateSchema impl ctx nextSchema migrations).db.schemaUpdated = true ∧
    ∀ (ctx2 : Context) (nextSchema2 : SchemaObjectPattern)
      (migrations2 : List MigrationObject),
      (∃ err, ((db.UpdateSchema impl ctx nextSchema migrations).db.UpdateSchema impl ctx2
        nextSchema2 migrations2).outcome = .panic err) ∧
      (ctx2.GetClosestState = db.ownerState →
        ((db.UpdateSchema impl ctx nextSchema migrations).db.UpdateSchema impl ctx2
          nextSchema2 migrations2).outcome =
          .panic .ErrDatabaseSchemaAlreadyUpdatedOrNotAllowed) ∧
      ((db.UpdateSchema impl ctx nextSchema migrations).db.UpdateSchema impl ctx2
        nextSchema2 migrations2).db = (db.UpdateSchema impl ctx nextSchema migrations).db ∧
      innerCalls ((db.UpdateSchema impl ctx nextSchema migrations).db.UpdateSchema impl
        ctx2 nextSchema2 migrations2).trace = [] := by
  have hflag : (db.UpdateSchema impl ctx nextSchema migrations).db.schemaUpdated = true := by
    rw [DatabaseIL.UpdateSchema_of_checks impl ctx db nextSchema migrations howner hexpected
      hcaller hupdated]
  obtain ⟨f1, f2, _⟩ := DatabaseIL.UpdateSchema_fields impl ctx db nextSchema migrations
  refine ⟨hflag, ?_⟩
  intro ctx2 nextSchema2 migrations2
  obtain ⟨a, b, c, d⟩ := DatabaseIL.UpdateSchema_of_updated impl ctx2
    (db.UpdateSchema impl ctx nextSchema migrations).db nextSchema2 migrations2 hflag
  refine ⟨a, ?_, c, d⟩
  intro hc
  exact b (by rw [f1]; exact howner) (by rw [f1]; exact hc) (by rw [f2]; exact hexpected)

/-- Witness for C16: the update of a wrapped `dummyDatabase` to a schema with the entity
`users` without a migration object panics with `ErrUnreachable` in the extraction of the
handlers, and the flag is set. -/
theorem DatabaseIL.UpdateSchema_sets_flag_witness :
    (DatabaseIL.UpdateSchema (dummyDatabase.impl exampleCall) Context.permissive
      dummyDatabase.wrapped { entryPatterns := [("users", .type .INT_PATTERN)] }
      []).outcome = .panic .ErrUnreachable ∧
    (DatabaseIL.UpdateSchema (dummyDatabase.impl exampleCall) Context.permissive
      dummyDatabase.wrapped { entryPatterns := [("users", .type .INT_PATTERN)] }
      []).db.schemaUpdated = true :=
  ⟨by decide,
   (DatabaseIL.UpdateSchema_sets_flag (dummyDatabase.impl exampleCall) Context.permissive
    dummyDatabase.wrapped { entryPatterns := [("users", .type .INT_PATTERN)] } []
    (by decide) rfl rfl rfl).1⟩

/-- C17: `SetOwnerStateOnce` returns exactly when no owner is set, and then the owner is
the given state; `WrapDatabase` sets the owner of its arguments; once an owner is set,
every call panics with `ErrOwnerStateAlreadySet` and leaves the wrapper as it is, and the
owner is the same after every sequence of `SetOwnerStateOnce`, `UpdateSchema` and `Close`
calls. -/
theorem DatabaseIL.SetOwnerStateOnce_once {σ : Type} (impl : Database σ)
    (db : DatabaseIL σ) :
    (∀ state, (db.SetOwnerStateOnce state).outcome = .ok () ↔ db.ownerState = none) ∧
    (∀ state, db.ownerState = none → (db.SetOwnerStateOnce state).db.ownerState = state) ∧
    (∀ (ctx : Context) (args : DatabaseWrappingArgs σ),
      WrapDatabase impl ctx args = .ok db → db.ownerState = args.OwnerState) ∧
    (db.ownerState ≠ none → ∀ state,
      (db.SetOwnerStateOnce state).outcome = .panic .ErrOwnerStateAlreadySet ∧
      (db.SetOwnerStateOnce state).db = db) ∧
    (db.ownerState ≠ none → ∀ db1, DatabaseIL.Reachable impl db db1 →
      db1.ownerState = db.ownerState) := by
  refine ⟨?_, ?_, ?_, ?_, ?_⟩
  · intro state
    unfold DatabaseIL.SetOwnerStateOnce
    by_cases h : db.ownerState = none
    · simp [h]
    · simp [h]
  · intro state h
    unfold DatabaseIL.SetOwnerStateOnce
    simp [h]
  · intro ctx args hwrap
    exact (WrapDatabase_fields impl ctx args db hwrap).2.2.2
  · intro h state
    unfold DatabaseIL.SetOwnerStateOnce
    simp [h]
  · intro h db1 hreach
    exact (DatabaseIL.Reachable_fields impl db db1 hreach).2 h

/-- Witness for C17: on the wrapped `dummyDatabase`, whose owner is the state 1,
`SetOwnerStateOnce` for the state 2 panics and the owner is still 1; after a schema
update and a further call the owner is still 1. -/
theorem DatabaseIL.SetOwnerStateOnce_once_witness :
    ((DatabaseIL.SetOwnerStateOnce dummyDatabase.wrapped (some 2)).outcome =
        .panic .ErrOwnerStateAlreadySet ∧
      (DatabaseIL.SetOwnerStateOnce dummyDatabase.wrapped (some 2)).db =
        dummyDatabase.wrapped) ∧
    (DatabaseIL.SetOwnerStateOnce
      (DatabaseIL.UpdateSchema (dummyDatabase.impl exampleCall) Context.permissive
        dummyDatabase.wrapped EMPTY_INEXACT_OBJECT_PATTERN []).db (some 2)).db.ownerState =
      some 1 :=
  ⟨(DatabaseIL.SetOwnerStateOnce_once (dummyDatabase.impl exampleCall)
      dummyDatabase.wrapped).2.2.2.1 (by decide) (some 2),
   (DatabaseIL.SetOwnerStateOnce_once (dummyDatabase.impl exampleCall)
      dummyDatabase.wrapped).2.2.2.2 (by decide) _
      (.setOwnerStateOnce _ (some 2)
        (.updateSchema _ Context.permissive EMPTY_INEXACT_OBJECT_PATTERN [] .start))⟩

/-- C18: for a wrapper made by `WrapDatabase`, after every sequence of
`SetOwnerStateOnce`, `UpdateSchema` and `Close` calls that leaves an owner set,
`Prop("schema")` returns the schema that the inner database reported at wrapping time:
before a schema update and after it, whatever the next schema was. -/
theorem DatabaseIL.Prop_schema_is_initial {σ : Type} (impl : Database σ) (ctx : Context)
    (args : DatabaseWrappingArgs σ) (db0 db : DatabaseIL σ)
    (hwrap : WrapDatabase impl ctx args = .ok db0)
    (hreach : DatabaseIL.Reachable impl db0 db) (howner : db.ownerState ≠ none) :
    db.Prop "schema" = .ok (.schema (impl.Schema args.Inner)) := by
  have h1 := (DatabaseIL.Reachable_fields impl db0 db hreach).1
  have h2 := (WrapDatabase_fields impl ctx args db0 hwrap).1
  unfold DatabaseIL.Prop
  simp [howner, h1, h2]

/-- Witness for C18: the wrapped `dummyDatabase` reports the empty inexact schema before
the update and after the update to a schema with the entity `users`, which returned. -/
theorem DatabaseIL.Prop_schema_is_initial_witness :
    dummyDatabase.wrapped.Prop "schema" = .ok (.schema EMPTY_INEXACT_OBJECT_PATTERN) ∧
    (DatabaseIL.UpdateSchema (dummyDatabase.impl exampleCall) Context.permissive
      dummyDatabase.wrapped { entryPatterns := [("users", .type .INT_PATTERN)] }
      [inclusionMigration "users"]).outcome = .ok () ∧
    (DatabaseIL.UpdateSchema (dummyDatabase.impl exampleCall) Context.permissive
      dummyDatabase.wrapped { entryPatterns := [("users", .type .INT_PATTERN)] }
      [inclusionMigration "users"]).db.Prop "schema" =
      .ok (.schema EMPTY_INEXACT_OBJECT_PATTERN) :=
  ⟨DatabaseIL.Prop_schema_is_initial (dummyDatabase.impl exampleCall) Context.permissive
      dummyDatabase.wrappingArgs dummyDatabase.wrapped dummyDatabase.wrapped rfl .start
      (by decide),
   by decide,
   DatabaseIL.Prop_schema_is_initial (dummyDatabase.impl exampleCall) Context.permissive
      dummyDatabase.wrappingArgs dummyDatabase.wrapped _ rfl
      (.updateSchema _ Context.permissive { entryPatterns := [("users", .type .INT_PATTERN)] }
        [inclusionMigration "users"] .start)
      (by decide)⟩


theorem mapGet_isSome_iff_mem {β : Type} (m : List (String × β)) (k : String) :
    (mapGet m k).isSome = true ↔ k ∈ m.map Prod.fst := by
  unfold mapGet
  induction m with
  | nil => simp [List.lookup]
  | cons kv rest ih =>
    obtain ⟨k1, v1⟩ := kv
    by_cases h : k = k1
    · subst h; simp [List.lookup]
    · have hb : (k == k1) = false := by simpa using h
      simp only [List.lookup, hb, List.map_cons, List.mem_cons, h, false_or]
      exact ih

/-- Two maps with the same names have the same number of entries. -/
theorem length_eq_of_same_names {α β : Type} (m : List (String × α)) (n : List (String × β))
    (hm : (m.map Prod.fst).Nodup) (hn : (n.map Prod.fst).Nodup)
    (hmn : ∀ k ∈ m.map Prod.fst, k ∈ n.map Prod.fst)
    (hnm : ∀ k ∈ n.map Prod.fst, k ∈ m.map Prod.fst) : m.length = n.length := by
  have h1 := (List.subperm_of_subset hm hmn).length_le
  have h2 := (List.subperm_of_subset hn hnm).length_le
  simp only [List.length_map] at h1 h2
  omega

/-- The method `Test` of a symbolic object (`symbolic.Object.test` with the exactness of
the receiver), on an object value with entries and without optional entries, which is
exact if the receiver is, when the names in both maps are distinct as the keys of a Go
map are: the value is accepted iff every entry of the receiver that is not optional is
present, every entry that is present passes the test of the entry value, and, when the
receiver is exact, the value has no entry that the receiver does not have. -/
theorem symbolic.Object.Test_accepts_iff {V : Type} (testValue : V → V → Bool)
    (obj other : symbolic.Object V) (entries otherEntries : List (String × V))
    (hentries : obj.entries = some entries) (hother : other.entries = some otherEntries)
    (hreadonly : obj.readonly = other.readonly)
    (hexact : obj.exact = true → other.exact = true)
    (hoptional : other.optionalEntries = [])
    (hnames : (entries.map Prod.fst).Nodup)
    (hotherNames : (otherEntries.map Prod.fst).Nodup) :
    obj.Test testValue (some other) = true ↔
      (∀ entry ∈ entries, entry.1 ∉ obj.optionalEntries →
        entry.1 ∈ otherEntries.map Prod.fst) ∧
      (∀ entry ∈ entries, ∀ o, mapGet otherEntries entry.1 = some o →
        testValue entry.2 o = true) ∧
      (obj.exact = true → ∀ k ∈ otherEntries.map Prod.fst, k ∈ entries.map Prod.fst) := by
  have hguard1 : (obj.exact && other.IsInexact) = false := by
    unfold symbolic.Object.IsInexact
    cases he : obj.exact with
    | false => rfl
    | true => simp [hexact he]
  unfold symbolic.Object.Test symbolic.Object.test
  simp only [hentries, hother, hreadonly, bne_self_eq_false, Bool.false_eq_true, if_false,
    hguard1, hoptional, List.not_mem_nil, decide_False, Bool.and_false]
  have hloop : (entries.all (fun entry =>
        match mapGet otherEntries entry.1 with
        | some o => testValue entry.2 o
        | none => decide (entry.1 ∈ obj.optionalEntries)) = true) ↔
      ((∀ entry ∈ entries, entry.1 ∉ obj.optionalEntries →
        entry.1 ∈ otherEntries.map Prod.fst) ∧
      (∀ entry ∈ entries, ∀ o, mapGet otherEntries entry.1 = some o →
        testValue entry.2 o = true)) := by
    rw [List.all_eq_true]
    constructor
    · intro h
      refine ⟨?_, ?_⟩
      · intro entry hmem hopt
        have he := h entry hmem
        rw [← mapGet_isSome_iff_mem]
        cases hg : mapGet otherEntries entry.1 with
        | some o => rfl
        | none => simp [hg, hopt] at he
      · intro entry hmem o ho
        have he := h entry hmem
        simpa [ho] using he
    · rintro ⟨h1, h2⟩ entry hmem
      cases hg : mapGet otherEntries entry.1 with
      | some o => simpa using h2 entry hmem o hg
      | none =>
        by_cases hopt : entry.1 ∈ obj.optionalEntries
        · simpa using hopt
        · have := (mapGet_isSome_iff_mem otherEntries entry.1).2 (h1 entry hmem hopt)
          simp [hg] at this
  have hextra : (otherEntries.all (fun o => (mapGet entries o.1).isSome) = true) ↔
      ∀ k ∈ otherEntries.map Prod.fst, k ∈ entries.map Prod.fst := by
    rw [List.all_eq_true]
    constructor
    · intro h k hk
      obtain ⟨o, ho, rfl⟩ := List.mem_map.1 hk
      exact (mapGet_isSome_iff_mem entries o.1).1 (h o ho)
    · intro h o ho
      exact (mapGet_isSome_iff_mem entries o.1).2 (h o.1 (List.mem_map.2 ⟨o, ho, rfl⟩))
  cases he : obj.exact with
  | false =>
    simp only [Bool.false_and, Bool.false_eq_true, if_false, Bool.not_false, Bool.true_or,
      Bool.and_true, false_implies, and_true]
    exact hloop
  | true =>
    simp only [Bool.true_and, Bool.not_true, Bool.false_or, true_implies]
    by_cases hlen : (obj.optionalEntries.length == 0 &&
        entries.length != otherEntries.length) = true
    · simp only [hlen, if_true, Bool.false_eq_true, false_iff]
      rintro ⟨h1, _, h3⟩
      rw [Bool.and_eq_true] at hlen
      have hno : obj.optionalEntries = [] := by
        have := hlen.1
        simpa using this
      have hsame := length_eq_of_same_names entries otherEntries hnames hotherNames
        (fun k hk => by
          obtain ⟨entry, hentry, rfl⟩ := List.mem_map.1 hk
          exact h1 entry hentry (by rw [hno]; simp))
        h3
      have := hlen.2
      simp [hsame] at this
    · simp only [hlen, Bool.false_eq_true, if_false, Bool.and_eq_true]
      exact (and_congr hloop hextra).trans and_assoc


/-! ## Object patterns -/

/-- The assertions of `TestObjectPattern` hold of `ObjectPattern.Test`: the patterns
`noProps`, `inexactNoProps`, `singleProp`, `inexactSingleProp` and `singleOptionalProp`
on the objects of the test, in the order of the test. -/
theorem ObjectPattern.Test_assertions :
    ObjectPattern.Test ⟨[], [], false⟩ [] [] = true ∧
    ObjectPattern.Test ⟨[], [], false⟩ ["a"] [some (.int 1)] = false ∧
    ObjectPattern.Test ⟨[], [], true⟩ [] [] = true ∧
    ObjectPattern.Test ⟨[], [], true⟩ ["a"] [some (.int 1)] = true ∧
    ObjectPattern.Test ⟨[], [], true⟩ ["a", "b"] [some (.int 1), some (.int 2)] = true ∧
    ObjectPattern.Test ⟨[("a", .INT_PATTERN)], [], false⟩ [] [] = false ∧
    ObjectPattern.Test ⟨[("a", .INT_PATTERN)], [], false⟩ ["a"] [some (.int 1)] = true ∧
    ObjectPattern.Test ⟨[("a", .INT_PATTERN)], [], false⟩ ["a", "b"]
      [some (.int 1), some (.int 2)] = false ∧
    ObjectPattern.Test ⟨[("a", .INT_PATTERN)], [], true⟩ [] [] = false ∧
    ObjectPattern.Test ⟨[("a", .INT_PATTERN)], [], true⟩ ["a"] [some (.int 1)] = true ∧
    ObjectPattern.Test ⟨[("a", .INT_PATTERN)], [], true⟩ ["a", "b"]
      [some (.int 1), some (.int 2)] = true ∧
    ObjectPattern.Test ⟨[("a", .INT_PATTERN)], ["a"], false⟩ [] [] = true ∧
    ObjectPattern.Test ⟨[("a", .INT_PATTERN)], ["a"], false⟩ ["a"] [some (.int 1)] = true ∧
    ObjectPattern.Test ⟨[("a", .INT_PATTERN)], ["a"], false⟩ ["a"] [some (.str "")] =
      false ∧
    ObjectPattern.Test ⟨[("a", .INT_PATTERN)], ["a"], false⟩ ["a", "b"]
      [some (.int 1), some (.int 2)] = false := by
  decide

/-- C19: `ObjectPattern.Test` accepts an object iff every declared entry that is not
optional is present, every declared entry that is present has a value that matches its
pattern, and, when the pattern is exact, every property of the object is declared; an
inexact pattern tolerates undeclared properties: the exact pattern `{a: int}` rejects
`{a: 1, b: 2}` and the inexact one accepts it. -/
theorem ObjectPattern.Test_iff (patt : ObjectPattern) (keys : List String)
    (values : List (Option Serializable)) :
    (patt.Test keys values = true ↔
      (∀ entry ∈ patt.entryPatterns, entry.1 ∉ patt.optionalEntries → entry.1 ∈ keys) ∧
      (∀ entry ∈ patt.entryPatterns, entry.1 ∈ keys →
        ∃ v, propValue keys values entry.1 = some (some v) ∧ entry.2.Test v = true) ∧
      (patt.inexact = false → ∀ k ∈ keys, k ∈ patt.entryPatterns.map Prod.fst)) ∧
    ObjectPattern.Test ⟨[("a", .INT_PATTERN)], [], false⟩ ["a", "b"]
      [some (.int 1), some (.int 2)] = false ∧
    ObjectPattern.Test ⟨[("a", .INT_PATTERN)], [], true⟩ ["a", "b"]
      [some (.int 1), some (.int 2)] = true := by
  refine ⟨?_, by decide, by decide⟩
  unfold ObjectPattern.Test
  rw [Bool.and_eq_true, List.all_eq_true, Bool.or_eq_true, List.all_eq_true]
  constructor
  · rintro ⟨hentries, hexact⟩
    refine ⟨?_, ?_, ?_⟩
    · intro entry hmem hopt
      by_contra hk
      have h := hentries entry hmem
      simp [hk, hopt] at h
    · intro entry hmem hk
      have h := hentries entry hmem
      simp only [hk, if_true] at h
      cases hv : propValue keys values entry.1 with
      | none => simp [hv] at h
      | some o =>
        cases o with
        | none => simp [hv] at h
        | some v => exact ⟨v, rfl, by simpa [hv] using h⟩
    · intro hin k hk
      rcases hexact with h | h
      · rw [hin] at h; cases h
      · simpa using h k hk
  · rintro ⟨hpresent, hmatch, hexact⟩
    refine ⟨?_, ?_⟩
    · intro entry hmem
      by_cases hk : entry.1 ∈ keys
      · obtain ⟨v, hv, htest⟩ := hmatch entry hmem hk
        simp [hk, hv, htest]
      · have hopt : entry.1 ∈ patt.optionalEntries := by
          by_contra hopt
          exact hk (hpresent entry hmem hopt)
        simp [hk, hopt]
    · cases hin : patt.inexact with
      | true => exact Or.inl rfl
      | false =>
        right
        intro k hk
        simpa using hexact hin k hk


/-! ## Migration operations of a pattern against itself -/

theorem lookup_self_of_wellFormed :
    ∀ entries : List (String × SchemaPattern), entriesWellFormed entries = true →
      ∀ name patt, (name, patt) ∈ entries → entries.lookup name = some patt
  | [], _, _, _, hmem => by cases hmem
  | (first, firstPatt) :: rest, hwf, name, patt, hmem => by
    simp only [entriesWellFormed, Bool.and_eq_true] at hwf
    obtain ⟨⟨hnone, _⟩, hrest⟩ := hwf
    by_cases h : name = first
    · subst h
      rcases List.mem_cons.1 hmem with h1 | h1
      · cases h1; simp [List.lookup]
      · have := lookup_self_of_wellFormed rest hrest name patt h1
        rw [this] at hnone; cases hnone
    · have hb : (name == first) = false := by simpa using h
      rcases List.mem_cons.1 hmem with h1 | h1
      · cases h1; exact absurd rfl h
      · simp only [List.lookup, hb]
        exact lookup_self_of_wellFormed rest hrest name patt h1

theorem filter_lookup_isNone_self (entries : List (String × SchemaPattern))
    (hwf : entriesWellFormed entries = true) :
    entries.filter (fun entry => (entries.lookup entry.1).isNone) = [] := by
  rw [List.filter_eq_nil_iff]
  intro entry hmem
  have := lookup_self_of_wellFormed entries hwf entry.1 entry.2 hmem
  simp [this]

mutual
/-- A well-formed pattern has no migration operation against itself. -/
theorem GetMigrationOperations_same :
    ∀ (A : SchemaPattern) (pseudoPath : String), A.WellFormed = true →
      GetMigrationOperations A A pseudoPath = .ok []
  | .type patt, pseudoPath, _ => by simp [GetMigrationOperations]
  | .object entries optionalEntries inexact, pseudoPath, hwf => by
    have hwf1 : entriesWellFormed entries = true := by
      simpa [SchemaPattern.WellFormed] using hwf
    have h := entryMigrationOperations_same entries entries pseudoPath hwf1
      (lookup_self_of_wellFormed entries hwf1)
    simp [GetMigrationOperations, h, filter_lookup_isNone_self entries hwf1]
  | .set element uniqueness, pseudoPath, hwf => by
    have hwf1 : element.WellFormed = true := by
      simpa [SchemaPattern.WellFormed] using hwf
    simp [GetMigrationOperations,
      GetMigrationOperations_same element (filepathJoin pseudoPath "*") hwf1]
/-- The walk over well-formed entries that the next pattern declares with the same
patterns gives no migration operation. -/
theorem entryMigrationOperations_same :
    ∀ (entries nextEntries : List (String × SchemaPattern)) (pseudoPath : String),
      entriesWellFormed entries = true →
      (∀ name patt, (name, patt) ∈ entries → nextEntries.lookup name = some patt) →
      entryMigrationOperations entries nextEntries pseudoPath = .ok []
  | [], _, _, _, _ => by simp [entryMigrationOperations]
  | (name, patt) :: rest, nextEntries, pseudoPath, hwf, hnext => by
    simp only [entriesWellFormed, Bool.and_eq_true] at hwf
    obtain ⟨⟨_, hpatt⟩, hrest⟩ := hwf
    have h1 := hnext name patt (List.mem_cons_self _ _)
    have h2 := GetMigrationOperations_same patt (filepathJoin pseudoPath name) hpatt
    have h3 := entryMigrationOperations_same rest nextEntries pseudoPath hrest
      (fun n p hmem => hnext n p (List.mem_cons_of_mem _ hmem))
    simp [entryMigrationOperations, h1, h2, h3]
end

/-- C20: for every schema pattern (with distinct entry names in each object pattern, as in
the Go maps), `GetMigrationOperations` of the pattern against itself returns the empty
list of operations and no error, at every pseudo-path. In particular the method of a Set
pattern with this element pattern, compared with itself, returns no replacement but the
operations of the element pattern against itself at the pseudo-path joined with "*",
which are none. -/
theorem GetMigrationOperations_self (A : SchemaPattern) (pseudoPath : String)
    (hwf : A.WellFormed = true) :
    GetMigrationOperations A A pseudoPath = .ok [] ∧
    ∀ uniqueness : UniquenessConstraint,
      SetPattern.GetMigrationOperations GetMigrationOperations ⟨A, uniqueness⟩
          (SetPattern.toPattern ⟨A, uniqueness⟩) pseudoPath =
        GetMigrationOperations A A (filepathJoin pseudoPath "*") ∧
      SetPattern.GetMigrationOperations GetMigrationOperations ⟨A, uniqueness⟩
          (SetPattern.toPattern ⟨A, uniqueness⟩) pseudoPath = .ok [] ∧
      GetMigrationOperations (.set A uniqueness) (.set A uniqueness) pseudoPath =
        SetPattern.GetMigrationOperations GetMigrationOperations ⟨A, uniqueness⟩
          (SetPattern.toPattern ⟨A, uniqueness⟩) pseudoPath := by
  have hA := GetMigrationOperations_same A
  refine ⟨hA pseudoPath hwf, ?_⟩
  intro uniqueness
  have hset : SetPattern.GetMigrationOperations GetMigrationOperations ⟨A, uniqueness⟩
      (SetPattern.toPattern ⟨A, uniqueness⟩) pseudoPath =
        GetMigrationOperations A A (filepathJoin pseudoPath "*") := by
    simp [SetPattern.GetMigrationOperations, SetPattern.toPattern,
      SchemaPattern.asSetPattern]
  refine ⟨hset, ?_, ?_⟩
  · rw [hset]; exact hA _ hwf
  · rw [hset]
    simp [GetMigrationOperations]

/-- Witness for C20: the schema with a Set of objects `{name: str}` under `users` has no
migration operation against itself. -/
theorem GetMigrationOperations_self_witness :
    GetMigrationOperations
      (.object [("users", .set (.object [("name", .type .STR_PATTERN)] [] false)
        ⟨.UniqueRepr, ""⟩)] [] false)
      (.object [("users", .set (.object [("name", .type .STR_PATTERN)] [] false)
        ⟨.UniqueRepr, ""⟩)] [] false) "/" = .ok [] :=
  (GetMigrationOperations_self
    (.object [("users", .set (.object [("name", .type .STR_PATTERN)] [] false)
      ⟨.UniqueRepr, ""⟩)] [] false) "/" (by decide)).1


/-! ## The migration operations of a Set pattern -/

/-- C21: `SetPattern.GetMigrationOperations(next, pseudoPath)` returns exactly one
`ReplacementMigrationOp` at `pseudoPath`, with the receiver as `Current` and `next` as
`Next`, when `next` is not a Set pattern or its uniqueness constraint differs from the one
of the receiver; otherwise it returns exactly what `GetMigrationOperations` returns for the
two element patterns at `pseudoPath` joined with "*" (list or error), whatever that
function is. -/
theorem SetPattern.GetMigrationOperations_cases
    (coreGetMigrationOperations :
      SchemaPattern → SchemaPattern → String → Except Error (List MigrationOp))
    (p : SetPattern) (next : SchemaPattern) (pseudoPath : String) :
    (next.asSetPattern = none →
      SetPattern.GetMigrationOperations coreGetMigrationOperations p next pseudoPath =
        .ok [.ReplacementMigrationOp p.toPattern next pseudoPath]) ∧
    (∀ nextSet, next.asSetPattern = some nextSet → nextSet.Uniqueness ≠ p.Uniqueness →
      SetPattern.GetMigrationOperations coreGetMigrationOperations p next pseudoPath =
        .ok [.ReplacementMigrationOp p.toPattern next pseudoPath]) ∧
    (∀ nextSet, next.asSetPattern = some nextSet → nextSet.Uniqueness = p.Uniqueness →
      SetPattern.GetMigrationOperations coreGetMigrationOperations p next pseudoPath =
        coreGetMigrationOperations p.Element nextSet.Element
          (filepathJoin pseudoPath "*")) := by
  refine ⟨?_, ?_, ?_⟩
  · intro h
    unfold SetPattern.GetMigrationOperations
    rw [h]
  · intro nextSet h hne
    unfold SetPattern.GetMigrationOperations
    rw [h]
    simp [hne]
  · intro nextSet h heq
    unfold SetPattern.GetMigrationOperations
    rw [h]
    simp [heq]

/-- Witness for C21: the pattern of Sets of integers that are unique by representation,
at the pseudo-path `/users`: against the integer pattern and against the Set pattern that
is unique by URL there is one replacement at `/users`; against the pattern of Sets of
strings that are unique by representation the result is that of the element patterns at
`/users/*`, here one replacement of the integer pattern by the string pattern. -/
theorem SetPattern.GetMigrationOperations_cases_witness :
    SetPattern.GetMigrationOperations Inox.GetMigrationOperations
        ⟨.type .INT_PATTERN, ⟨.UniqueRepr, ""⟩⟩ (.type .INT_PATTERN) "/users" =
      .ok [.ReplacementMigrationOp (.set (.type .INT_PATTERN) ⟨.UniqueRepr, ""⟩)
        (.type .INT_PATTERN) "/users"] ∧
    SetPattern.GetMigrationOperations Inox.GetMigrationOperations
        ⟨.type .INT_PATTERN, ⟨.UniqueRepr, ""⟩⟩
        (.set (.type .INT_PATTERN) ⟨.UniqueURL, ""⟩) "/users" =
      .ok [.ReplacementMigrationOp (.set (.type .INT_PATTERN) ⟨.UniqueRepr, ""⟩)
        (.set (.type .INT_PATTERN) ⟨.UniqueURL, ""⟩) "/users"] ∧
    SetPattern.GetMigrationOperations Inox.GetMigrationOperations
        ⟨.type .INT_PATTERN, ⟨.UniqueRepr, ""⟩⟩
        (.set (.type .STR_PATTERN) ⟨.UniqueRepr, ""⟩) "/users" =
      .ok [.ReplacementMigrationOp (.type .INT_PATTERN) (.type .STR_PATTERN) "/users/*"] :=
  ⟨(SetPattern.GetMigrationOperations_cases Inox.GetMigrationOperations
      ⟨.type .INT_PATTERN, ⟨.UniqueRepr, ""⟩⟩ (.type .INT_PATTERN) "/users").1 rfl,
   (SetPattern.GetMigrationOperations_cases Inox.GetMigrationOperations
      ⟨.type .INT_PATTERN, ⟨.UniqueRepr, ""⟩⟩
      (.set (.type .INT_PATTERN) ⟨.UniqueURL, ""⟩) "/users").2.1
      ⟨.type .INT_PATTERN, ⟨.UniqueURL, ""⟩⟩ rfl (by decide),
   ((SetPattern.GetMigrationOperations_cases Inox.GetMigrationOperations
      ⟨.type .INT_PATTERN, ⟨.UniqueRepr, ""⟩⟩
      (.set (.type .STR_PATTERN) ⟨.UniqueRepr, ""⟩) "/users").2.2
      ⟨.type .STR_PATTERN, ⟨.UniqueRepr, ""⟩⟩ rfl rfl).trans rfl⟩


/-! ## What the parser of JSON representations returns -/

theorem finishObject_ok (env : ParseEnv) (entryPatterns : List (String × ParsePattern))
    (optionalEntries : List String) (keys : List String) (values : List (Option InoxValue))
    (v : InoxValue)
    (h : finishObject env entryPatterns optionalEntries keys values = .ok v) :
    missingRequiredProperties entryPatterns optionalEntries keys = [] ∧
      ∃ sortedKeys sortedValues indexes,
        sortProps keys values = some (sortedKeys, sortedValues, indexes) ∧
        v = .object sortedKeys sortedValues := by
  unfold finishObject at h
  by_cases hm : (missingRequiredProperties entryPatterns optionalEntries keys).length > 0
  · simp [hm] at h
  · simp only [hm, if_false] at h
    have hnil : missingRequiredProperties entryPatterns optionalEntries keys = [] :=
      List.length_eq_zero.1 (by omega)
    cases hs : sortProps keys values with
    | none => simp [hs] at h
    | some r =>
      obtain ⟨sortedKeys, sortedValues, indexes⟩ := r
      simp only [hs] at h
      cases h1 : env.addMessageHandlers sortedKeys with
      | some err => simp [h1] at h
      | none =>
        simp only [h1] at h
        cases h2 : env.instantiateLifetimeJobs sortedKeys with
        | some err => simp [h2] at h
        | none =>
          simp only [h2] at h
          cases h
          exact ⟨hnil, sortedKeys, sortedValues, indexes, rfl, rfl⟩

theorem finishRecord_ok (entryPatterns : List (String × ParsePattern))
    (optionalEntries : List String) (keys : List String) (values : List (Option InoxValue))
    (v : InoxValue)
    (h : finishRecord entryPatterns optionalEntries keys values = .ok v) :
    ∃ sortedKeys sortedValues, v = .record sortedKeys sortedValues := by
  unfold finishRecord at h
  by_cases hm : (missingRequiredProperties entryPatterns optionalEntries keys).length > 0
  · simp [hm] at h
  · simp only [hm, if_false] at h
    cases hs : sortProps keys values with
    | none => simp [hs] at h
    | some r =>
      obtain ⟨sortedKeys, sortedValues, indexes⟩ := r
      simp only [hs] at h
      cases h
      exact ⟨sortedKeys, sortedValues, rfl⟩

theorem ParseResult.ofValue_ok (r : Outcome InoxValue) (v : Option InoxValue)
    (h : ParseResult.ofValue r = .ok v) : ∃ w, r = .ok w ∧ v = some w := by
  cases r with
  | ok w => simp only [ParseResult.ofValue] at h; cases h; exact ⟨w, rfl, rfl⟩
  | error err => simp [ParseResult.ofValue] at h
  | panic err => simp [ParseResult.ofValue] at h

theorem parseIntergerJSONRepresentation_ok (json : JSONValue) (v : Option InoxValue)
    (h : parseIntergerJSONRepresentation json = .ok v) : ∃ i, v = some (.int i) := by
  unfold parseIntergerJSONRepresentation at h
  split at h
  · split at h
    · cases h; exact ⟨_, rfl⟩
    · cases h
  · split at h
    · cases h; exact ⟨_, rfl⟩
    · cases h
  · cases h

/-- With a pattern that is not nil, `parseJSONRepresentation` returns an integer, an
object or a record, or no value. -/
theorem parseJSONRepresentation_with_pattern (env : ParseEnv) (json : JSONValue)
    (pattern : ParsePattern) (v : Option InoxValue)
    (h : parseJSONRepresentation env json (some pattern) = .ok v) :
    (∃ i, v = some (.int i)) ∨ (∃ keys values, v = some (.object keys values)) ∨
      (∃ keys values, v = some (.record keys values)) := by
  have hobj : ∀ (r : Outcome InoxValue) (entryPatterns : List (String × ParsePattern))
      (optionalEntries : List String) (keys : List String) (values : List (Option InoxValue)),
      r = finishObject env entryPatterns optionalEntries keys values →
      ParseResult.ofValue r = .ok v → ∃ keys values, v = some (.object keys values) := by
    intro r entryPatterns optionalEntries keys values hr hv
    obtain ⟨w, hw, hvw⟩ := ParseResult.ofValue_ok r v hv
    rw [hr] at hw
    obtain ⟨_, sk, sv, _, _, hobj⟩ := finishObject_ok env _ _ _ _ w hw
    exact ⟨sk, sv, by rw [hvw, hobj]⟩
  have hrec : ∀ (r : Outcome InoxValue) (entryPatterns : List (String × ParsePattern))
      (optionalEntries : List String) (keys : List String) (values : List (Option InoxValue)),
      r = finishRecord entryPatterns optionalEntries keys values →
      ParseResult.ofValue r = .ok v → ∃ keys values, v = some (.record keys values) := by
    intro r entryPatterns optionalEntries keys values hr hv
    obtain ⟨w, hw, hvw⟩ := ParseResult.ofValue_ok r v hv
    rw [hr] at hw
    obtain ⟨sk, sv, hrec⟩ := finishRecord_ok _ _ _ _ w hw
    exact ⟨sk, sv, by rw [hvw, hrec]⟩
  cases pattern with
  | IntRangePattern patt =>
    left
    unfold parseJSONRepresentation at h
    cases hi : parseIntergerJSONRepresentation json with
    | ok w => simp only [hi] at h; cases h; exact parseIntergerJSONRepresentation_ok json _ hi
    | error err => simp [hi] at h
  | INT_PATTERN =>
    left
    unfold parseJSONRepresentation at h
    cases hi : parseIntergerJSONRepresentation json with
    | ok w => simp only [hi] at h; cases h; exact parseIntergerJSONRepresentation_ok json _ hi
    | error err => simp [hi] at h
  | ObjectPattern entryPatterns optionalEntries =>
    right; left
    cases json with
    | object fields =>
      unfold parseJSONRepresentation at h
      cases hf : parseFields env "object" entryPatterns fields [] [] with
      | ok r => simp only [hf] at h; exact hobj _ _ _ _ _ rfl h
      | error err => simp [hf] at h
      | panic err => simp [hf] at h
    | _ => unfold parseJSONRepresentation at h; exact hobj _ _ _ _ _ rfl h
  | OBJECT_PATTERN =>
    right; left
    cases json with
    | object fields =>
      unfold parseJSONRepresentation at h
      cases hf : parseFields env "object" [] fields [] [] with
      | ok r => simp only [hf] at h; exact hobj _ _ _ _ _ rfl h
      | error err => simp [hf] at h
      | panic err => simp [hf] at h
    | _ => unfold parseJSONRepresentation at h; exact hobj _ _ _ _ _ rfl h
  | RecordPattern entryPatterns optionalEntries =>
    right; right
    cases json with
    | object fields =>
      unfold parseJSONRepresentation at h
      cases hf : parseFields env "record" entryPatterns fields [] [] with
      | ok r => simp only [hf] at h; exact hrec _ _ _ _ _ rfl h
      | error err => simp [hf] at h
      | panic err => simp [hf] at h
    | _ => unfold parseJSONRepresentation at h; exact hrec _ _ _ _ _ rfl h
  | RECORD_PATTERN =>
    right; right
    cases json with
    | object fields =>
      unfold parseJSONRepresentation at h
      cases hf : parseFields env "record" [] fields [] [] with
      | ok r => simp only [hf] at h; exact hrec _ _ _ _ _ rfl h
      | error err => simp [hf] at h
      | panic err => simp [hf] at h
    | _ => unfold parseJSONRepresentation at h; exact hrec _ _ _ _ _ rfl h
  | ListPattern => unfold parseJSONRepresentation at h; cases h
  | TuplePattern => unfold parseJSONRepresentation at h; cases h
  | otherTypePattern name => unfold parseJSONRepresentation at h; cases h
  | other => unfold parseJSONRepresentation at h; cases h

/-- The typed value that `parseJSONRepresentation` reads from an object under a nil
pattern is an integer, an object or a record. -/
theorem parseTypedValue_ok (env : ParseEnv) (fields : List (String × JSONValue))
    (v : InoxValue) (h : parseTypedValue env fields none = .ok (some v)) :
    v.builtByParser = true := by
  cases fields with
  | nil => unfold parseTypedValue at h; cases h
  | cons field rest =>
    obtain ⟨s, fieldValue⟩ := field
    unfold parseTypedValue at h
    by_cases hs : stringsHasSuffix s env.JSON_UNTYPED_VALUE_SUFFIX = true
    · simp only [Option.isSome_none, hs, Bool.not_true, Bool.or_self, Bool.false_eq_true,
        if_false] at h
      cases hp : env.getDefaultNamedPattern
          (stringsTrimSuffix s env.JSON_UNTYPED_VALUE_SUFFIX) with
      | none => simp [hp] at h
      | some pattern =>
        simp only [hp] at h
        cases hv : parseJSONRepresentation env fieldValue (some pattern) with
        | error err => simp [hv] at h
        | panic err => simp [hv] at h
        | ok w =>
          simp only [hv] at h
          have hw := parseJSONRepresentation_with_pattern env fieldValue pattern w hv
          cases rest with
          | nil =>
            unfold parseTypedValue at h
            cases h
            rcases hw with ⟨i, hi⟩ | ⟨k, vs, hi⟩ | ⟨k, vs, hi⟩ <;> cases hi <;> rfl
          | cons next rest2 =>
            obtain ⟨s2, fv2⟩ := next
            unfold parseTypedValue at h
            rcases hw with ⟨i, hi⟩ | ⟨k, vs, hi⟩ | ⟨k, vs, hi⟩ <;> rw [hi] at h <;>
              simp at h
    · simp [hs] at h

/-- The values that `parseJSONRepresentation` returns are nil, booleans, integers,
strings, objects and records, whatever the document and the pattern are. -/
theorem parseJSONRepresentation_builds (env : ParseEnv) (json : JSONValue)
    (pattern : Option ParsePattern) (v : InoxValue)
    (h : parseJSONRepresentation env json pattern = .ok (some v)) :
    v.builtByParser = true := by
  cases pattern with
  | some p =>
    rcases parseJSONRepresentation_with_pattern env json p _ h with
      ⟨i, hi⟩ | ⟨k, vs, hi⟩ | ⟨k, vs, hi⟩ <;> cases hi <;> rfl
  | none =>
    cases json with
    | object fields =>
      unfold parseJSONRepresentation at h
      exact parseTypedValue_ok env fields v h
    | bool b => unfold parseJSONRepresentation at h; cases h; rfl
    | string s => unfold parseJSONRepresentation at h; cases h; rfl
    | null => unfold parseJSONRepresentation at h; cases h; rfl
    | invalid => unfold parseJSONRepresentation at h; cases h
    | number text => unfold parseJSONRepresentation at h; cases h
    | array elements => unfold parseJSONRepresentation at h; cases h

/-- Evaluation for C22: `parseJSONRepresentation` never returns a path, a list, a tuple or
a dictionary, whatever the document and the pattern are, so that no representation of
such a value is parsed back to it. In an environment where `int__value` and `path__value`
name the type patterns, the typed integer 42 and the string "a" are parsed back, the
typed path `/a` and an object with a list under `a` end with "impossible to determine
type". -/
theorem parseJSONRepresentation_never_path_or_list :
    (∀ (env : ParseEnv) (json : JSONValue) (pattern : Option ParsePattern) (v : InoxValue),
      parseJSONRepresentation env json pattern = .ok (some v) →
        (∀ p, v ≠ .path p) ∧ (∀ elements, v ≠ .list elements) ∧
        (∀ elements, v ≠ .tuple elements) ∧ (∀ entries, v ≠ .dictionary entries)) ∧
    parseJSONRepresentation ParseEnv.example (.object [("int__value", .string "42")]) none =
      .ok (some (.int 42)) ∧
    parseJSONRepresentation ParseEnv.example (.string "a") none = .ok (some (.str "a")) ∧
    parseJSONRepresentation ParseEnv.example (.object [("path__value", .string "/a")]) none =
      .error .impossibleToDetermineType ∧
    parseJSONRepresentation ParseEnv.example (.string "/a")
      (some (.otherTypePattern "path")) = .error .impossibleToDetermineType ∧
    parseJSONRepresentation ParseEnv.example
      (.object [("a", .array [.object [("int__value", .string "1")]])])
      (some .OBJECT_PATTERN) =
      .error (.wrapped "failed to parse value of object property a"
        .impossibleToDetermineType) ∧
    parseJSONRepresentation ParseEnv.example (.array [.string "a"]) (some .ListPattern) =
      .error .impossibleToDetermineType ∧
    parseJSONRepresentation ParseEnv.example (.array [.string "a"]) (some .TuplePattern) =
      .error .impossibleToDetermineType := by
  refine ⟨?_, rfl, rfl, rfl, rfl, rfl, rfl, rfl⟩
  intro env json pattern v h
  have hb := parseJSONRepresentation_builds env json pattern v h
  refine ⟨?_, ?_, ?_, ?_⟩ <;> intro x hx <;> rw [hx] at hb <;> cases hb


/-! ## The parser of JSON representations does not panic -/

theorem SearchStrings_lt_of_mem {a : List String} (hs : a.Sorted keyLE) {x : String}
    (hx : x ∈ a) : SearchStrings a x < a.length := by
  obtain ⟨j, hj⟩ := List.mem_iff_getElem?.1 hx
  obtain ⟨hjlt, hjx⟩ := List.getElem?_eq_some.1 hj
  have hgetj : a.getD j "" = x := by rw [List.getD_eq_getElem a "" hjlt]; exact hjx
  have mono : ∀ p q, p ≤ q → q < a.length →
      (fun i => strLE x (a.getD i "")) p = true → (fun i => strLE x (a.getD i "")) q = true := by
    intro p q hpq hq hp
    simp only [strLE_iff] at hp ⊢
    exact le_trans hp (sorted_getElem_le hs hpq hq)
  obtain ⟨hlo, _, _⟩ := Search_spec (fun i => strLE x (a.getD i "")) a.length mono
  have hfj : strLE x (a.getD j "") = true := by
    simp only [strLE_iff, hgetj]; exact le_refl x
  unfold SearchStrings
  by_contra hge
  have hlt : j < Search a.length (fun i => strLE x (a.getD i "")) := by omega
  have := hlo j hlt
  simp only at this
  rw [hfj] at this
  cases this

theorem sortPropsLoop_total {V : Type} (newKeys : List String) (values : List V)
    (hs : newKeys.Sorted keyLE) :
    ∀ (rest : List String) (i : Nat) (nv : List V) (ni : List Nat),
      i + rest.length ≤ values.length → i + rest.length ≤ ni.length →
      newKeys.length ≤ nv.length → (∀ k, k ∈ rest → k ∈ newKeys) →
      ∃ r, sortPropsLoop newKeys values rest i nv ni = some r := by
  intro rest
  induction rest with
  | nil => intro i nv ni _ _ _ _; exact ⟨_, rfl⟩
  | cons k rest ih =>
    intro i nv ni hv hni hnv hmem
    simp only [List.length_cons] at hv hni
    have hi : i < values.length := by omega
    have hidx : SearchStrings newKeys k < nv.length :=
      lt_of_lt_of_le (SearchStrings_lt_of_mem hs (hmem k (List.mem_cons_self _ _))) hnv
    have hi2 : i < ni.length := by omega
    unfold sortPropsLoop
    simp only [List.getElem?_eq_getElem hi, hidx, hi2, and_self, if_true]
    exact ih (i + 1) _ _ (by omega) (by simp; omega) (by simpa using hnv)
      (fun k2 hk2 => hmem k2 (List.mem_cons_of_mem _ hk2))

/-- For as many values as keys, `sortProps` does not panic, whether the keys are distinct
or not, and returns the sorted keys. -/
theorem sortProps_total {V : Type} [Inhabited V] (keys : List String) (values : List V)
    (hlen : values.length = keys.length) :
    ∃ nv ni, sortProps keys values = some (sortStrings keys, nv, ni) := by
  unfold sortProps
  by_cases h0 : keys.length = 0
  · have hk : keys = [] := List.length_eq_zero.1 h0
    subst hk
    exact ⟨[], [], by simp [sortStrings]⟩
  · simp only [h0, if_false]
    obtain ⟨r, hr⟩ := sortPropsLoop_total (sortStrings keys) values (sortStrings_sorted keys)
      keys 0 (List.replicate values.length default) (List.replicate values.length 0)
      (by omega) (by simp; omega) (by simp [sortStrings_length]; omega)
      (fun k hk => (sortStrings_perm keys).mem_iff.2 hk)
    rw [hr]
    exact ⟨r.1, r.2, rfl⟩

theorem finishObject_no_panic (env : ParseEnv) (entryPatterns : List (String × ParsePattern))
    (optionalEntries : List String) (keys : List String) (values : List (Option InoxValue))
    (hlen : values.length = keys.length) (err : Error) :
    finishObject env entryPatterns optionalEntries keys values ≠ .panic err := by
  obtain ⟨nv, ni, hs⟩ := sortProps_total keys values hlen
  unfold finishObject
  rw [hs]
  split
  · intro h; cases h
  · simp only
    split
    · intro h; cases h
    · split
      · intro h; cases h
      · intro h; cases h

theorem finishRecord_no_panic (entryPatterns : List (String × ParsePattern))
    (optionalEntries : List String) (keys : List String) (values : List (Option InoxValue))
    (hlen : values.length = keys.length) (err : Error) :
    finishRecord entryPatterns optionalEntries keys values ≠ .panic err := by
  obtain ⟨nv, ni, hs⟩ := sortProps_total keys values hlen
  unfold finishRecord
  rw [hs]
  split
  · intro h; cases h
  · intro h; cases h

theorem ParseResult.ofValue_no_panic (r : Outcome InoxValue)
    (h : ∀ err, r ≠ .panic err) (err : Error) : ParseResult.ofValue r ≠ .panic err := by
  cases r with
  | ok w => intro h2; cases h2
  | error e => intro h2; cases h2
  | panic e => exact absurd rfl (h e)

/-- The keys that the reading of the fields returns are the keys before it followed by
the names of the fields, and there are as many values as before plus one for each
field. -/
theorem parseFields_ok (env : ParseEnv) (kind : String)
    (entryPatterns : List (String × ParsePattern)) :
    ∀ (fields : List (String × JSONValue)) (keys : List String)
      (values : List (Option InoxValue)) (rk : List String) (rv : List (Option InoxValue)),
      parseFields env kind entryPatterns fields keys values = .ok (rk, rv) →
      rk = keys ++ fields.map Prod.fst ∧ rv.length = values.length + fields.length := by
  intro fields
  induction fields with
  | nil =>
    intro keys values rk rv h
    unfold parseFields at h
    cases h
    exact ⟨by simp, by simp⟩
  | cons field rest ih =>
    intro keys values rk rv h
    obtain ⟨key, fieldValue⟩ := field
    unfold parseFields at h
    cases hv : parseJSONRepresentation env fieldValue (entryPatterns.lookup key) with
    | error err => simp [hv] at h
    | panic err => simp [hv] at h
    | ok val =>
      simp only [hv] at h
      obtain ⟨h1, h2⟩ := ih _ _ rk rv h
      exact ⟨by rw [h1]; simp, by rw [h2]; simp; omega⟩

theorem parseJSONRepresentation_leaf_no_panic (env : ParseEnv) (json : JSONValue)
    (hleaf : ∀ fields, json ≠ .object fields) (pattern : Option ParsePattern) (err : Error) :
    parseJSONRepresentation env json pattern ≠ .panic err := by
  have hobj : ∀ entryPatterns optionalEntries,
      ParseResult.ofValue (finishObject env entryPatterns optionalEntries [] []) ≠
        .panic err :=
    fun ep oe => ParseResult.ofValue_no_panic _
      (finishObject_no_panic env ep oe [] [] rfl) err
  have hrec : ∀ entryPatterns optionalEntries,
      ParseResult.ofValue (finishRecord entryPatterns optionalEntries [] []) ≠ .panic err :=
    fun ep oe => ParseResult.ofValue_no_panic _ (finishRecord_no_panic ep oe [] [] rfl) err
  have hint : (match parseIntergerJSONRepresentation json with
      | .ok v => (Outcome.ok v : ParseResult)
      | .error e => .error e) ≠ .panic err := by
    split <;> (intro h; cases h)
  cases json with
  | object fields => exact absurd rfl (hleaf fields)
  | invalid =>
    cases pattern with
    | none => unfold parseJSONRepresentation; intro h; cases h
    | some p =>
      cases p <;> unfold parseJSONRepresentation <;>
        first
          | exact hint
          | exact hobj _ _
          | exact hrec _ _
          | (intro h; cases h)
  | null =>
    cases pattern with
    | none => unfold parseJSONRepresentation; intro h; cases h
    | some p =>
      cases p <;> unfold parseJSONRepresentation <;>
        first
          | exact hint
          | exact hobj _ _
          | exact hrec _ _
          | (intro h; cases h)
  | bool b =>
    cases pattern with
    | none => unfold parseJSONRepresentation; intro h; cases h
    | some p =>
      cases p <;> unfold parseJSONRepresentation <;>
        first
          | exact hint
          | exact hobj _ _
          | exact hrec _ _
          | (intro h; cases h)
  | number text =>
    cases pattern with
    | none => unfold parseJSONRepresentation; intro h; cases h
    | some p =>
      cases p <;> unfold parseJSONRepresentation <;>
        first
          | exact hint
          | exact hobj _ _
          | exact hrec _ _
          | (intro h; cases h)
  | string s =>
    cases pattern with
    | none => unfold parseJSONRepresentation; intro h; cases h
    | some p =>
      cases p <;> unfold parseJSONRepresentation <;>
        first
          | exact hint
          | exact hobj _ _
          | exact hrec _ _
          | (intro h; cases h)
  | array elements =>
    cases pattern with
    | none => unfold parseJSONRepresentation; intro h; cases h
    | some p =>
      cases p <;> unfold parseJSONRepresentation <;>
        first
          | exact hint
          | exact hobj _ _
          | exact hrec _ _
          | (intro h; cases h)


theorem parseFields_result_no_panic (env : ParseEnv) (kind : String)
    (entryPatterns : List (String × ParsePattern)) (fields : List (String × JSONValue))
    (finish : List String → List (Option InoxValue) → Outcome InoxValue)
    (hfinish : ∀ keys values err, values.length = keys.length →
      finish keys values ≠ .panic err)
    (hfields : ∀ err, parseFields env kind entryPatterns fields [] [] ≠ .panic err)
    (err : Error) :
    (match parseFields env kind entryPatterns fields [] [] with
      | .ok (keys, values) => ParseResult.ofValue (finish keys values)
      | .error e => .error e
      | .panic e => .panic e) ≠ .panic err := by
  cases hf : parseFields env kind entryPatterns fields [] [] with
  | ok r =>
    obtain ⟨keys, values⟩ := r
    obtain ⟨h1, h2⟩ := parseFields_ok env kind entryPatterns fields [] [] keys values hf
    simp only
    exact ParseResult.ofValue_no_panic _
      (fun e => hfinish keys values e (by rw [h2, h1]; simp)) err
  | error e => intro h; cases h
  | panic e => exact absurd hf (hfields e)

mutual
/-- The function `parseJSONRepresentation` does not panic: it returns a value or an
error, whatever the document and the pattern are. -/
theorem parseJSONRepresentation_no_panic (env : ParseEnv) :
    ∀ (json : JSONValue) (pattern : Option ParsePattern) (err : Error),
      parseJSONRepresentation env json pattern ≠ .panic err
  | .invalid, pattern, err =>
    parseJSONRepresentation_leaf_no_panic env _ (fun _ h => by cases h) pattern err
  | .null, pattern, err =>
    parseJSONRepresentation_leaf_no_panic env _ (fun _ h => by cases h) pattern err
  | .bool _, pattern, err =>
    parseJSONRepresentation_leaf_no_panic env _ (fun _ h => by cases h) pattern err
  | .number _, pattern, err =>
    parseJSONRepresentation_leaf_no_panic env _ (fun _ h => by cases h) pattern err
  | .string _, pattern, err =>
    parseJSONRepresentation_leaf_no_panic env _ (fun _ h => by cases h) pattern err
  | .array _, pattern, err =>
    parseJSONRepresentation_leaf_no_panic env _ (fun _ h => by cases h) pattern err
  | .object fields, pattern, err => by
    have htyped := parseTypedValue_no_panic env fields
    have hfields := parseFields_no_panic env fields
    have hobj := fun ep oe => parseFields_result_no_panic env "object" ep fields
      (finishObject env ep oe)
      (fun keys values e hl => finishObject_no_panic env ep oe keys values hl e)
      (fun e => hfields "object" ep [] [] e) err
    have hrec := fun ep oe => parseFields_result_no_panic env "record" ep fields
      (finishRecord ep oe)
      (fun keys values e hl => finishRecord_no_panic ep oe keys values hl e)
      (fun e => hfields "record" ep [] [] e) err
    have hint : (match parseIntergerJSONRepresentation (.object fields) with
        | .ok v => (Outcome.ok v : ParseResult)
        | .error e => .error e) ≠ .panic err := by
      split <;> (intro h; cases h)
    cases pattern with
    | none => unfold parseJSONRepresentation; exact htyped none err
    | some p =>
      cases p <;> unfold parseJSONRepresentation <;>
        first
          | exact hint
          | exact hobj _ _
          | exact hrec _ _
          | (intro h; cases h)
/-- The reading of a typed value does not panic. -/
theorem parseTypedValue_no_panic (env : ParseEnv) :
    ∀ (fields : List (String × JSONValue)) (value : Option InoxValue) (err : Error),
      parseTypedValue env fields value ≠ .panic err
  | [], value, err => by unfold parseTypedValue; intro h; cases h
  | (s, fieldValue) :: rest, value, err => by
    have hvalue := parseJSONRepresentation_no_panic env fieldValue
    have hrest := parseTypedValue_no_panic env rest
    unfold parseTypedValue
    split
    · intro h; cases h
    · split
      · intro h; cases h
      · rename_i pattern hp
        cases hv : parseJSONRepresentation env fieldValue (some pattern) with
        | ok v => exact hrest v err
        | error e => intro h; cases h
        | panic e => exact absurd hv (hvalue _ e)
/-- The reading of the fields of an object or record does not panic. -/
theorem parseFields_no_panic (env : ParseEnv) :
    ∀ (fields : List (String × JSONValue)) (kind : String)
      (entryPatterns : List (String × ParsePattern)) (keys : List String)
      (values : List (Option InoxValue)) (err : Error),
      parseFields env kind entryPatterns fields keys values ≠ .panic err
  | [], kind, entryPatterns, keys, values, err => by
    unfold parseFields; intro h; cases h
  | (key, fieldValue) :: rest, kind, entryPatterns, keys, values, err => by
    have hvalue := parseJSONRepresentation_no_panic env fieldValue
    have hrest := parseFields_no_panic env rest
    unfold parseFields
    cases hv : parseJSONRepresentation env fieldValue (entryPatterns.lookup key) with
    | ok v => exact hrest kind entryPatterns _ _ err
    | error e => intro h; cases h
    | panic e => exact absurd hv (hvalue _ e)
end

theorem parseObjectJSONrepresentation_eq (env : ParseEnv) (json : JSONValue)
    (entryPatterns : List (String × ParsePattern)) (optionalEntries : List String) :
    parseObjectJSONrepresentation env json entryPatterns optionalEntries =
      match readObjectFields env entryPatterns json with
      | .ok (keys, values) => finishObject env entryPatterns optionalEntries keys values
      | .error err => .error err
      | .panic err => .panic err := by
  cases json <;> rfl

/-- The fields of a document are read without panic, and the keys read are the names of
the fields. -/
theorem readObjectFields_ok (env : ParseEnv) (entryPatterns : List (String × ParsePattern))
    (json : JSONValue) :
    (∀ err, readObjectFields env entryPatterns json ≠ .panic err) ∧
    ∀ keys values, readObjectFields env entryPatterns json = .ok (keys, values) →
      keys = json.fieldNames ∧ values.length = keys.length := by
  cases json with
  | object fields =>
    refine ⟨fun err => parseFields_no_panic env fields "object" entryPatterns [] [] err, ?_⟩
    intro keys values h
    obtain ⟨h1, h2⟩ := parseFields_ok env "object" entryPatterns fields [] [] keys values h
    exact ⟨by simpa [JSONValue.fieldNames] using h1, by rw [h2, h1]; simp⟩
  | _ =>
    refine ⟨fun err h => (by cases h), ?_⟩
    intro keys values h
    cases h
    exact ⟨rfl, rfl⟩

theorem mem_missingRequiredProperties (entryPatterns : List (String × ParsePattern))
    (optionalEntries : List String) (keys : List String) (name : String) :
    name ∈ missingRequiredProperties entryPatterns optionalEntries keys ↔
      name ∈ entryPatterns.map Prod.fst ∧ name ∉ optionalEntries ∧ name ∉ keys := by
  unfold missingRequiredProperties
  simp only [List.mem_map, List.mem_filter, Bool.and_eq_true, Bool.not_eq_true',
    decide_eq_false_iff_not]
  constructor
  · rintro ⟨entry, ⟨hmem, ho, hk⟩, rfl⟩
    exact ⟨⟨entry, hmem, rfl⟩, ho, hk⟩
  · rintro ⟨⟨entry, hmem, rfl⟩, ho, hk⟩
    exact ⟨entry, ⟨hmem, ho, hk⟩, rfl⟩

/-- C23: when the JSON object lacks an entry of the object pattern that is not optional,
`parseObjectJSONrepresentation` returns an error; when the fields are read without
error, this error is "the following properties are missing: " followed by the missing
properties, which are the names of the entries of the pattern that are not optional and
are no field of the object. Every object that is returned without error has a key for
every entry of the pattern that is not optional. -/
theorem parseObjectJSONrepresentation_required (env : ParseEnv) (json : JSONValue)
    (entryPatterns : List (String × ParsePattern)) (optionalEntries : List String) :
    ((∃ entry ∈ entryPatterns, entry.1 ∉ optionalEntries ∧ entry.1 ∉ json.fieldNames) →
      (∃ err, parseObjectJSONrepresentation env json entryPatterns optionalEntries =
        .error err) ∧
      (∀ keys values, readObjectFields env entryPatterns json = .ok (keys, values) →
        parseObjectJSONrepresentation env json entryPatterns optionalEntries =
          .error (.message ("the following properties are missing: " ++
            ", ".intercalate
              (missingRequiredProperties entryPatterns optionalEntries json.fieldNames))))) ∧
    (∀ name, name ∈ missingRequiredProperties entryPatterns optionalEntries json.fieldNames ↔
      name ∈ entryPatterns.map Prod.fst ∧ name ∉ optionalEntries ∧
        name ∉ json.fieldNames) ∧
    (∀ v, parseObjectJSONrepresentation env json entryPatterns optionalEntries = .ok v →
      ∃ keys values, v = .object keys values ∧
        ∀ entry ∈ entryPatterns, entry.1 ∉ optionalEntries → entry.1 ∈ keys) := by
  obtain ⟨hnopanic, hkeys⟩ := readObjectFields_ok env entryPatterns json
  have heq := parseObjectJSONrepresentation_eq env json entryPatterns optionalEntries
  refine ⟨?_, mem_missingRequiredProperties _ _ _, ?_⟩
  · rintro ⟨entry, hmem, hopt, hlack⟩
    have hmissing : (missingRequiredProperties entryPatterns optionalEntries
        json.fieldNames).length > 0 := by
      apply List.length_pos_of_mem
      exact (mem_missingRequiredProperties _ _ _ entry.1).2
        ⟨List.mem_map.2 ⟨entry, hmem, rfl⟩, hopt, hlack⟩
    have hread : ∀ keys values, readObjectFields env entryPatterns json = .ok (keys, values) →
        parseObjectJSONrepresentation env json entryPatterns optionalEntries =
          .error (.message ("the following properties are missing: " ++
            ", ".intercalate
              (missingRequiredProperties entryPatterns optionalEntries json.fieldNames))) := by
      intro keys values h
      rw [heq, h]
      obtain ⟨hk, _⟩ := hkeys keys values h
      subst hk
      simp only [finishObject, hmissing, if_true]
    refine ⟨?_, hread⟩
    cases hr : readObjectFields env entryPatterns json with
    | ok r => exact ⟨_, hread r.1 r.2 hr⟩
    | error err => exact ⟨err, by rw [heq, hr]⟩
    | panic err => exact absurd hr (hnopanic err)
  · intro v hv
    rw [heq] at hv
    cases hr : readObjectFields env entryPatterns json with
    | error err => rw [hr] at hv; cases hv
    | panic err => rw [hr] at hv; cases hv
    | ok r =>
      obtain ⟨keys, values⟩ := r
      rw [hr] at hv
      simp only at hv
      obtain ⟨hnil, sk, sv, idx, hsort, hobj⟩ := finishObject_ok env _ _ _ _ v hv
      obtain ⟨hlenk, hlen⟩ := hkeys keys values hr
      obtain ⟨nv, ni, hs⟩ := sortProps_total keys values hlen
      rw [hs] at hsort
      cases hsort
      refine ⟨_, _, hobj, ?_⟩
      intro entry hmem hopt
      by_contra hk
      have hk2 : entry.1 ∉ keys := fun h => hk ((sortStrings_perm keys).mem_iff.2 h)
      have : entry.1 ∈ missingRequiredProperties entryPatterns optionalEntries keys :=
        (mem_missingRequiredProperties _ _ _ entry.1).2
          ⟨List.mem_map.2 ⟨entry, hmem, rfl⟩, hopt, hk2⟩
      rw [hnil] at this
      cases this

/-- Witness for C23: the JSON object with the only field `b` lacks the entries `a` and `d`
of a pattern with the entries `a`, `c` and `d` of which `c` is optional; the error names
`a` and `d`. -/
theorem parseObjectJSONrepresentation_required_witness :
    parseObjectJSONrepresentation ParseEnv.example (.object [("b", .bool true)])
      [("a", .INT_PATTERN), ("c", .INT_PATTERN), ("d", .INT_PATTERN)] ["c"] =
      .error (.message "the following properties are missing: a, d") :=
  (((parseObjectJSONrepresentation_required ParseEnv.example (.object [("b", .bool true)])
      [("a", .INT_PATTERN), ("c", .INT_PATTERN), ("d", .INT_PATTERN)] ["c"]).1
      ⟨("a", .INT_PATTERN), by simp, by decide, by decide⟩).2
      ["b"] [some (.bool true)] rfl).trans rfl


/-! ## Byte-length ceilings -/

/-- C24: every parser is one of the three registered parsers (JSON, Inox representation,
YAML), and for every text of more than `DEFAULT_MAX_TESTED_STRING_BYTE_LENGTH` bytes its
`Validate` panics with `ErrTestedStringTooLarge` and its `Parse` returns the error
`ErrTestedStringTooLarge` (with a nil value) and does not panic. -/
theorem StatelessParser.too_large (lib : ParserLibraries) (p : StatelessParser) (s : String)
    (hs : s.utf8ByteSize > lib.DEFAULT_MAX_TESTED_STRING_BYTE_LENGTH) :
    p ∈ registeredParsers ∧
      p.Validate lib s = .panic .ErrTestedStringTooLarge ∧
      p.Parse lib s = .error .ErrTestedStringTooLarge := by
  refine ⟨by cases p <;> decide, ?_⟩
  unfold StatelessParser.Validate StatelessParser.Parse
  simp [hs]

/-- Witness for C24: with a ceiling of four bytes, the YAML parser refuses the text
"hello" of five bytes. -/
theorem StatelessParser.too_large_witness :
    StatelessParser.Validate ParserLibraries.example .yamlParser "hello" =
        .panic .ErrTestedStringTooLarge ∧
      StatelessParser.Parse ParserLibraries.example .yamlParser "hello" =
        .error .ErrTestedStringTooLarge :=
  (StatelessParser.too_large ParserLibraries.example .yamlParser "hello" (by decide)).2

theorem utf8ByteSize_go_replicate (n : Nat) :
    String.utf8ByteSize.go (List.replicate n 'a') = n := by
  induction n with
  | zero => rfl
  | succ n ih =>
    simp only [List.replicate_succ, String.utf8ByteSize.go, ih]
    rfl

/-- The path `longPath n` has `n + 1` bytes. -/
theorem longPath_utf8ByteSize (n : Nat) : (longPath n).utf8ByteSize = n + 1 := by
  unfold longPath
  show String.utf8ByteSize.go ('/' :: List.replicate n 'a') = n + 1
  simp only [String.utf8ByteSize.go, utf8ByteSize_go_replicate]
  rfl

/-- A globbing path pattern panics with `ErrTestedPathTooLarge` on every path of more
than `MAX_TESTED_PATH_BYTE_LENGTH` bytes. -/
theorem PathPattern.Test_globbing_too_large
    (doublestarMatch : String → String → Except Error Bool) (patt p : String)
    (hpatt : PathPattern.IsPrefixPattern patt = false)
    (hp : p.utf8ByteSize > MAX_TESTED_PATH_BYTE_LENGTH) :
    PathPattern.Test doublestarMatch patt (.path p) = .panic .ErrTestedPathTooLarge := by
  unfold PathPattern.Test PathPattern.Includes
  simp [hpatt, hp]

/-- A URL pattern panics with `ErrTestedURLTooLarge` on every URL of more than
`MAX_TESTED_URL_BYTE_LENGTH` bytes, whatever the pattern is. -/
theorem URLPattern.Test_too_large (includes : String → String → Bool) (patt u : String)
    (hu : u.utf8ByteSize > MAX_TESTED_URL_BYTE_LENGTH) :
    URLPattern.Test includes patt (.url u) = .panic .ErrTestedURLTooLarge := by
  unfold URLPattern.Test
  simp [hu]

/-- Evaluation for C25: the prefix pattern `/...` (`ROOT_PREFIX_PATH_PATTERN`) accepts
every path `longPath n`, a slash followed by `n` letters, without panic, also the path of
4096 bytes, which is longer than `MAX_TESTED_PATH_BYTE_LENGTH`: a prefix pattern returns
before the length is looked at. -/
theorem PathPattern.Test_prefix_pattern_skips_ceiling :
    (∀ (doublestarMatch : String → String → Except Error Bool) (n : Nat),
      PathPattern.Test doublestarMatch "/..." (.path (longPath n)) = .ok true) ∧
    (longPath 4095).utf8ByteSize = 4096 ∧
    MAX_TESTED_PATH_BYTE_LENGTH = 4095 ∧
    (∀ (doublestarMatch : String → String → Except Error Bool) (patt p : String),
      PathPattern.IsPrefixPattern patt = true →
        PathPattern.Test doublestarMatch patt (.path p) =
          .ok (stringsHasPrefix p (PathPattern.Prefix patt))) := by
  refine ⟨?_, longPath_utf8ByteSize 4095, rfl, ?_⟩
  · intro m n
    have h1 : PathPattern.IsPrefixPattern "/..." = true := by decide
    have h2 : PathPattern.Prefix "/..." = "/" := by decide
    unfold PathPattern.Test PathPattern.Includes
    simp only [h1, if_true, h2]
    simp [stringsHasPrefix, longPath]
  · intro m patt p h
    unfold PathPattern.Test PathPattern.Includes
    simp [h]

/-! ## Indexed properties -/

/-- Evaluation for C26: for the map `{"5": 1}`, with one property whose name is an index
key, `objFrom` returns an object whose `Len()` is 6; `Indexed()` on it panics with
`ErrUnreachable`. For the map `{"0": 0, "1": 1, "name": "x"}` the count is 2. -/
theorem objFrom_sparse_index_key :
    objFrom [("5", .int 1)] =
      some { implicitPropCount := 6, keys := ["5"], values := [some (.int 1)] } ∧
    ((objFrom [("5", .int 1)]).map Object.Len) = some 6 ∧
    ([("5", Serializable.int 1)].filter (fun kv => IsIndexKey kv.1)).length = 1 ∧
    ((objFrom [("5", .int 1)]).map Object.Indexed) = some (.panic .ErrUnreachable) ∧
    ((objFrom [("0", .int 0), ("1", .int 1), ("name", .str "x")]).map Object.Len) =
      some 2 := by
  decide

/-- Evaluation for C27: the unshared object that `objFrom` makes of the map
`{"0": 0, "1": 1, ..., "10": 10}` has the index keys "0" to "10" and `Len()` 11; its keys
are sorted as strings, so that "10" is at position 2. `Indexed()` returns the values in
the order of the keys: the element 2 is the value of the property "10", not of "2". With
a property whose name sorts before the index keys, `Indexed()` panics. -/
theorem Object.Indexed_follows_key_order :
    (objFrom elevenIndexedProps).map Object.keys =
      some ["0", "1", "10", "2", "3", "4", "5", "6", "7", "8", "9"] ∧
    (objFrom elevenIndexedProps).map Object.Len = some 11 ∧
    (objFrom elevenIndexedProps).map Object.IsShared = some false ∧
    (objFrom elevenIndexedProps).map Object.Indexed =
      some (.ok [some (.int 0), some (.int 1), some (.int 10), some (.int 2), some (.int 3),
        some (.int 4), some (.int 5), some (.int 6), some (.int 7), some (.int 8),
        some (.int 9)]) ∧
    (objFrom [("0", .int 0), ("-", .str "x")]).map Object.Indexed =
      some (.panic .indexOutOfRange) ∧
    (objFrom [("0", .int 0), ("1", .int 1), ("name", .str "x")]).map Object.Indexed =
      some (.ok [some (.int 0), some (.int 1)]) := by
  decide


/-! ## The URL of an object is set once -/

theorem Object.SetURLOnce_of_set (obj : Object) (u : String) (h : obj.url ≠ "") :
    (obj.SetURLOnce u).err = some .ErrURLAlreadySet ∧ (obj.SetURLOnce u).obj = obj := by
  unfold Object.SetURLOnce
  simp [h]

theorem Object.setURLs_of_set (us : List String) :
    ∀ obj : Object, obj.url ≠ "" → obj.setURLs us = obj := by
  induction us with
  | nil => intro obj _; rfl
  | cons u rest ih =>
    intro obj h
    unfold Object.setURLs
    rw [(Object.SetURLOnce_of_set obj u h).2]
    exact ih obj h

/-- C28: on an object without URL, the first `SetURLOnce` call with a URL `u` (a URL is
not the empty text, which stands for "no URL") returns no error, stores `u` and makes
`URL()` return `(u, true)`; after it, and after any further calls, every `SetURLOnce`
call returns `ErrURLAlreadySet` and leaves the object as it is, so that `URL()` still
returns `(u, true)`. -/
theorem Object.SetURLOnce_once (obj : Object) (u : String) (hunset : obj.url = "")
    (hu : u ≠ "") :
    (obj.SetURLOnce u).err = none ∧
    (obj.SetURLOnce u).obj.url = u ∧
    (obj.SetURLOnce u).obj.URL = (u, true) ∧
    ∀ (later : List String) (u2 : String),
      (((obj.SetURLOnce u).obj.setURLs later).SetURLOnce u2).err =
        some .ErrURLAlreadySet ∧
      (((obj.SetURLOnce u).obj.setURLs later).SetURLOnce u2).obj = (obj.SetURLOnce u).obj ∧
      (((obj.SetURLOnce u).obj.setURLs later).SetURLOnce u2).obj.URL = (u, true) := by
  have h1 : (obj.SetURLOnce u).obj.url = u := by
    unfold Object.SetURLOnce; simp [hunset]
  have h2 : (obj.SetURLOnce u).obj.URL = (u, true) := by
    unfold Object.URL; rw [h1]; simp [hu]
  refine ⟨by unfold Object.SetURLOnce; simp [hunset], h1, h2, ?_⟩
  intro later u2
  have hset : (obj.SetURLOnce u).obj.url ≠ "" := by rw [h1]; exact hu
  rw [Object.setURLs_of_set later _ hset]
  obtain ⟨a, b⟩ := Object.SetURLOnce_of_set (obj.SetURLOnce u).obj u2 hset
  exact ⟨a, b, by rw [b]; exact h2⟩

/-- Witness for C28: on a new object, `SetURLOnce("ldb://main/users/1")` succeeds and a
second call with another URL returns `ErrURLAlreadySet`; the URL is still the first
one. -/
theorem Object.SetURLOnce_once_witness :
    (NewObject.SetURLOnce "ldb://main/users/1").err = none ∧
    (Object.SetURLOnce (NewObject.SetURLOnce "ldb://main/users/1").obj
      "ldb://main/users/2").err = some .ErrURLAlreadySet ∧
    (Object.SetURLOnce (NewObject.SetURLOnce "ldb://main/users/1").obj
      "ldb://main/users/2").obj.URL = ("ldb://main/users/1", true) :=
  ⟨(Object.SetURLOnce_once NewObject "ldb://main/users/1" rfl (by decide)).1,
   ((Object.SetURLOnce_once NewObject "ldb://main/users/1" rfl (by decide)).2.2.2 []
      "ldb://main/users/2").1,
   ((Object.SetURLOnce_once NewObject "ldb://main/users/1" rfl (by decide)).2.2.2 []
      "ldb://main/users/2").2.2⟩

/-! ## Sharing an object twice -/

theorem Object.Share_of_shared (ctx : Context) (obj : Object) (h : obj.shared = true) :
    obj.Share ctx = ⟨obj, .ok (), []⟩ := by
  unfold Object.Share SmartLock.Share
  simp only [h, Bool.not_true, Bool.false_eq_true, if_false]
  cases obj
  simp_all

theorem Object.Share_shared (ctx : Context) (obj : Object) :
    (obj.Share ctx).obj.shared = true ∧ (obj.Share ctx).obj.keys = obj.keys := by
  unfold Object.Share SmartLock.Share
  split
  · split <;> exact ⟨rfl, rfl⟩
  · exact ⟨rfl, rfl⟩

theorem Object.shareTimes_of_shared (ctx : Context) (n : Nat) :
    ∀ obj : Object, obj.shared = true → obj.shareTimes ctx n = obj := by
  induction n with
  | zero => intro obj _; rfl
  | succ n ih =>
    intro obj h
    unfold Object.shareTimes
    rw [Object.Share_of_shared ctx obj h]
    exact ih obj h

theorem symbolic.Object.Share_again {V : Type} (shareOrClone : V → Except Error V)
    (obj : symbolic.Object V) (h : obj.shared = true) : obj.Share shareOrClone = .ok obj := by
  unfold symbolic.Object.Share
  simp [h]

theorem symbolic.Object.Share_result_shared {V : Type} (shareOrClone : V → Except Error V)
    (obj shared : symbolic.Object V) (h : obj.Share shareOrClone = .ok shared) :
    shared.shared = true := by
  unfold symbolic.Object.Share at h
  by_cases hs : obj.shared = true
  · simp only [hs, if_true] at h
    cases h
    exact hs
  · simp only [hs, if_false] at h
    cases he : obj.entries with
    | none => simp only [he] at h; cases h; rfl
    | some entries =>
      simp only [he] at h
      cases hl : symbolic.shareEntries shareOrClone entries with
      | error err => simp [hl] at h
      | ok r => simp only [hl] at h; cases h; rfl

/-- When the loop of `Share` ends without panic, `ShareOrClone` was applied once to each
value, none of which is nil, and each value is replaced by its result. -/
theorem shareValuesLoop_ok (ctx : Context) :
    ∀ (vals done values calls : List (Option Serializable)),
      shareValuesLoop ctx vals done = (values, none, calls) →
      calls = vals ∧ ∃ shared, values = done ++ shared ∧
        List.Forall₂ (fun v w => ∃ a b, v = some a ∧ w = some b ∧
          ctx.ShareOrClone (.serializable a) = .ok (.serializable b)) vals shared := by
  intro vals
  induction vals with
  | nil =>
    intro done values calls h
    unfold shareValuesLoop at h
    cases h
    exact ⟨rfl, [], by simp, List.Forall₂.nil⟩
  | cons v rest ih =>
    intro done values calls h
    cases v with
    | none => unfold shareValuesLoop at h; cases h
    | some a =>
      unfold shareValuesLoop at h
      cases hs : ctx.ShareOrClone (.serializable a) with
      | error err => rw [hs] at h; cases h
      | ok r =>
        cases r with
        | notSerializable tag => rw [hs] at h; cases h
        | serializable b =>
          rw [hs] at h
          simp only at h
          cases hr : shareValuesLoop ctx rest (done ++ [some b]) with
          | mk values1 r2 =>
            obtain ⟨err1, calls1⟩ := r2
            rw [hr] at h
            simp only [Prod.mk.injEq] at h
            obtain ⟨hv, he, hc⟩ := h
            subst hv he hc
            obtain ⟨hcalls, shared, hvalues, hrel⟩ := ih _ _ _ hr
            refine ⟨by rw [hcalls], some b :: shared, by rw [hvalues]; simp, ?_⟩
            exact List.Forall₂.cons ⟨a, b, rfl, rfl, hs⟩ hrel

/-- C29: after a first `Share` call that returns, `IsShared()` is true and the keys are
unchanged; if the object was not shared before, `ShareOrClone` was applied once to each
value, which is replaced by the result. A second call, and every further call, returns
the same object: `IsShared()` stays true, `ShareOrClone` is applied to no value, and keys
and values are those after the first call. The same holds for the symbolic object: the
object that `Share` returns is shared, and `Share` on it returns it as it is. -/
theorem Object.Share_twice (ctx : Context) (obj : Object)
    (hfirst : (obj.Share ctx).outcome = .ok ()) :
    (obj.Share ctx).obj.IsShared = true ∧
    (obj.Share ctx).obj.keys = obj.keys ∧
    (obj.shared = false →
      (obj.Share ctx).shareOrCloneCalls = obj.values ∧
      List.Forall₂ (fun v w => ∃ a b, v = some a ∧ w = some b ∧
        ctx.ShareOrClone (.serializable a) = .ok (.serializable b))
        obj.values (obj.Share ctx).obj.values) ∧
    (obj.Share ctx).obj.Share ctx = ⟨(obj.Share ctx).obj, .ok (), []⟩ ∧
    (∀ n, (obj.Share ctx).obj.shareTimes ctx n = (obj.Share ctx).obj) ∧
    (∀ (V : Type) (shareOrClone : V → Except Error V) (sym shared : symbolic.Object V),
      sym.Share shareOrClone = .ok shared →
        shared.shared = true ∧ shared.Share shareOrClone = .ok shared) := by
  obtain ⟨h1, h2⟩ := Object.Share_shared ctx obj
  refine ⟨h1, h2, ?_, Object.Share_of_shared ctx _ h1,
    fun n => Object.shareTimes_of_shared ctx n _ h1, ?_⟩
  · intro hunshared
    unfold Object.Share SmartLock.Share at hfirst ⊢
    simp only [hunshared, Bool.not_false, if_true] at hfirst ⊢
    cases hl : shareValuesLoop ctx obj.values [] with
    | mk values r =>
      obtain ⟨err, calls⟩ := r
      cases err with
      | some e => rw [hl] at hfirst; cases hfirst
      | none =>
        obtain ⟨hcalls, shared, hvalues, hrel⟩ := shareValuesLoop_ok ctx _ _ _ _ hl
        simp only [List.nil_append] at hvalues
        subst hvalues
        exact ⟨hcalls, hrel⟩
  · intro V shareOrClone sym shared h
    have hs := symbolic.Object.Share_result_shared shareOrClone sym shared h
    exact ⟨hs, symbolic.Object.Share_again shareOrClone shared hs⟩

/-- Witness for C29: the object `{a: 1}` is shared by a first call, which applies
`ShareOrClone` to the value 1; a second call applies it to no value and returns the same
object. -/
theorem Object.Share_twice_witness :
    (Object.Share Context.permissive
      { keys := ["a"], values := [some (.int 1)] }).shareOrCloneCalls = [some (.int 1)] ∧
    Object.Share Context.permissive
      (Object.Share Context.permissive { keys := ["a"], values := [some (.int 1)] }).obj =
      ⟨{ shared := true, keys := ["a"], values := [some (.int 1)] }, .ok (), []⟩ :=
  ⟨((Object.Share_twice Context.permissive { keys := ["a"], values := [some (.int 1)] }
      (by decide)).2.2.1 rfl).1,
   (Object.Share_twice Context.permissive { keys := ["a"], values := [some (.int 1)] }
      (by decide)).2.2.2.1⟩


/-! ## Paths made by NewPath -/

theorem hasDotDot_iff_infix (l : List Char) :
    hasDotDot l = true ↔ ['.', '.'] <:+: l := by
  induction l with
  | nil =>
    simp only [hasDotDot, Bool.false_eq_true, false_iff]
    rintro ⟨s, t, h⟩
    simp at h
  | cons c rest ih =>
    cases rest with
    | nil =>
      simp only [hasDotDot, Bool.false_eq_true, false_iff]
      rintro ⟨s, t, h⟩
      have := congrArg List.length h
      simp at this
      omega
    | cons d rest2 =>
      simp only [hasDotDot, Bool.or_eq_true, Bool.and_eq_true, beq_iff_eq, ih]
      constructor
      · rintro (⟨rfl, rfl⟩ | h)
        · exact ⟨[], rest2, rfl⟩
        · exact List.IsInfix.trans h (List.infix_cons (List.infix_refl _))
      · rintro ⟨s, t, h⟩
        cases s with
        | nil =>
          left
          simp only [List.nil_append, List.cons_append, List.cons.injEq] at h
          exact ⟨h.1.symm, h.2.1.symm⟩
        | cons s0 s1 =>
          right
          simp only [List.cons_append, List.cons.injEq] at h
          exact ⟨s1, t, by simpa using h.2⟩

theorem hasDotDot_tail (c : Char) (l : List Char) (h : hasDotDot (c :: l) = false) :
    hasDotDot l = false := by
  cases l with
  | nil => rfl
  | cons d rest =>
    simp only [hasDotDot, Bool.or_eq_false_iff] at h
    exact h.2

theorem hasDotDot_dot_slash (l : List Char) :
    hasDotDot ('.' :: '/' :: l) = hasDotDot l := by
  cases l with
  | nil => rfl
  | cons d rest => simp [hasDotDot]

/-- The loop of `checkPathInterpolationResult` accepts the texts without "..", backslash,
question mark and star. -/
theorem checkPathInterpolationResult_loop_iff (l : List Char) :
    checkPathInterpolationResult.loop l = true ↔
      hasDotDot l = false ∧ l.any (fun c => c == '\\' || c == '?' || c == '*') = false := by
  induction l with
  | nil => simp [checkPathInterpolationResult.loop, hasDotDot]
  | cons c rest ih =>
    unfold checkPathInterpolationResult.loop
    by_cases hc : c = '.'
    · subst hc
      cases rest with
      | nil => simp [checkPathInterpolationResult.loop, hasDotDot]
      | cons d rest2 =>
        by_cases hd : d = '.'
        · subst hd
          simp [hasDotDot]
        · have hdb : (d == '.') = false := by simpa using hd
          have hdd : hasDotDot ('.' :: d :: rest2) = hasDotDot (d :: rest2) := by
            simp [hasDotDot, hdb]
          have hany : ('.' :: d :: rest2).any (fun c => c == '\\' || c == '?' || c == '*') =
              (d :: rest2).any (fun c => c == '\\' || c == '?' || c == '*') := by
            rw [List.any_cons]
            rfl
          simp only [if_true, hd, if_false]
          rw [ih, hdd, hany]
    · simp only [hc, if_false]
      by_cases hs : c = '\\' ∨ c = '?' ∨ c = '*'
      · simp only [hs, if_true, Bool.false_eq_true, false_iff, not_and]
        intro _
        rcases hs with h | h | h <;> simp [h]
      · simp only [hs, if_false, ih]
        have hs2 : (c == '\\' || c == '?' || c == '*') = false := by
          simp only [not_or] at hs
          simp [hs.1, hs.2.1, hs.2.2]
        have hdd : hasDotDot (c :: rest) = hasDotDot rest := by
          cases rest with
          | nil => rfl
          | cons d rest2 =>
            have : (c == '.') = false := by simpa using hc
            simp [hasDotDot, this]
        rw [hdd, List.any_cons, hs2, Bool.false_or]

theorem checkPathInterpolationResult_of_forbidden (s : String)
    (h : containsForbidden s = true) : checkPathInterpolationResult s = false := by
  unfold containsForbidden at h
  unfold checkPathInterpolationResult
  by_contra hne
  have ht : checkPathInterpolationResult.loop s.toList = true := by
    simpa using hne
  obtain ⟨h1, h2⟩ := (checkPathInterpolationResult_loop_iff _).1 ht
  rw [h1, h2] at h
  cases h

theorem toList_dot_slash (s : String) : ("./" ++ s).toList = '.' :: '/' :: s.toList := by
  show ("./" ++ s).data = '.' :: '/' :: s.data
  rw [String.data_append]
  rfl

theorem containsForbidden_pathSliceText (s : String) (h : containsForbidden s = true) :
    containsForbidden (pathSliceText s) = true := by
  unfold pathSliceText
  split
  · unfold containsForbidden at h ⊢
    rw [toList_dot_slash, hasDotDot_dot_slash, List.any_cons, List.any_cons]
    rw [Bool.or_eq_true] at h
    rcases h with h | h
    · rw [h]; rfl
    · rw [h]; simp
  · exact h

/-- The loop of `NewPath` returns an error when a slice that is not static contains "..",
a backslash, a question mark or a star, if there is a flag for each slice and no path
slice is empty. -/
theorem NewPath.loop_error (env : PathEnv) :
    ∀ (slices : List PathSlice) (statics : List Bool) (pth : String) (i : Nat)
      (text : String),
      slices.length ≤ statics.length → (∀ slice ∈ slices, slice ≠ .path "") →
      (slices[i]?).bind PathSlice.text = some text → statics[i]? = some false →
      containsForbidden text = true →
      ∃ err, NewPath.loop env slices statics pth = .error err := by
  intro slices
  induction slices with
  | nil => intro statics pth i text _ _ h; simp at h
  | cons slice rest ih =>
    intro statics pth i text hlen hne hslice hstatic hbad
    cases statics with
    | nil => simp at hlen
    | cons isStatic statics2 =>
      have hlen2 : rest.length ≤ statics2.length := by simpa using hlen
      have hne2 : ∀ s ∈ rest, s ≠ .path "" := fun s hs => hne s (List.mem_cons_of_mem _ hs)
      cases i with
      | zero =>
        simp only [List.getElem?_cons_zero, Option.some.injEq] at hstatic
        subst hstatic
        simp only [List.getElem?_cons_zero, Option.some_bind] at hslice
        cases slice with
        | str s =>
          simp only [PathSlice.text, Option.some.injEq] at hslice
          subst hslice
          unfold NewPath.loop
          simp [checkPathInterpolationResult_of_forbidden _ hbad]
        | path s =>
          simp only [PathSlice.text, Option.some.injEq] at hslice
          subst hslice
          have hs : s ≠ "" := fun h0 =>
            hne (.path s) (List.mem_cons_self _ _) (by rw [h0])
          unfold NewPath.loop
          simp [hs, checkPathInterpolationResult_of_forbidden _
            (containsForbidden_pathSliceText _ hbad)]
        | other => simp [PathSlice.text] at hslice
      | succ j =>
        simp only [List.getElem?_cons_succ] at hslice hstatic
        cases slice with
        | str s =>
          unfold NewPath.loop
          by_cases hc : (!isStatic && !checkPathInterpolationResult s) = true
          · exact ⟨_, by rw [if_pos hc]⟩
          · rw [if_neg hc]
            exact ih statics2 _ j text hlen2 hne2 hslice hstatic hbad
        | path s =>
          have hs : s ≠ "" := fun h0 =>
            hne (.path s) (List.mem_cons_self _ _) (by rw [h0])
          unfold NewPath.loop
          rw [if_neg hs]
          by_cases hc : (!isStatic && !checkPathInterpolationResult (pathSliceText s)) = true
          · exact ⟨_, by rw [if_pos hc]⟩
          · rw [if_neg hc]
            exact ih statics2 _ j text hlen2 hne2 hslice hstatic hbad
        | other => unfold NewPath.loop; exact ⟨_, rfl⟩

theorem hasDotDot_withPathLikeStart (env : PathEnv) (pth : String) :
    hasDotDot (withPathLikeStart env pth).toList = hasDotDot pth.toList := by
  unfold withPathLikeStart
  split
  · rfl
  · rw [toList_dot_slash, hasDotDot_dot_slash]

theorem hasDotDot_dropDoubleSlash (pth : String) (h : hasDotDot pth.toList = false) :
    hasDotDot (dropDoubleSlash pth).toList = false := by
  unfold dropDoubleSlash
  split
  · rename_i rest hr
    rw [hr] at h
    exact hasDotDot_tail _ _ h
  · exact h

/-- C30: every path that `NewPath` returns without error contains no "..", whatever the
slices and their flags are; and `NewPath` returns an error whenever a slice that is not
static contains "..", a backslash, a question mark or a star (for slices with a flag each
and without empty path). -/
theorem NewPath_no_dot_dot (env : PathEnv) (slices : List PathSlice) (statics : List Bool) :
    (∀ p, NewPath env slices statics = .ok p → ¬ (['.', '.'] <:+: p.toList)) ∧
    (slices.length ≤ statics.length → (∀ slice ∈ slices, slice ≠ .path "") →
      ∀ (i : Nat) (text : String),
        (slices[i]?).bind PathSlice.text = some text → statics[i]? = some false →
        containsForbidden text = true →
        ∃ err, NewPath env slices statics = .error err) := by
  refine ⟨?_, ?_⟩
  · intro p h
    rw [← hasDotDot_iff_infix]
    unfold NewPath at h
    cases hl : NewPath.loop env slices statics "" with
    | error err => rw [hl] at h; cases h
    | panic err => rw [hl] at h; cases h
    | ok pth =>
      rw [hl] at h
      cases hdd : hasDotDot pth.toList with
      | true => simp only [hdd, if_true] at h; cases h
      | false =>
        simp only [hdd, Bool.false_eq_true, if_false] at h
        cases h
        rw [hasDotDot_dropDoubleSlash _ (by rw [hasDotDot_withPathLikeStart]; exact hdd)]
        exact Bool.false_ne_true
  · intro hlen hne i text hslice hstatic hbad
    obtain ⟨err, herr⟩ := NewPath.loop_error env slices statics "" i text hlen hne hslice
      hstatic hbad
    exact ⟨err, by unfold NewPath; rw [herr]⟩

/-- Witness for C30: the static slice `/home/` followed by the interpolated slice `..`
gives an error; followed by the interpolated slice `user` it gives `/home/user`, which
contains no "..". -/
theorem NewPath_no_dot_dot_witness :
    (∃ err, NewPath PathEnv.example [.str "/home/", .str ".."] [true, false] = .error err) ∧
    NewPath PathEnv.example [.str "/home/", .str "user"] [true, false] = .ok "/home/user" ∧
    ¬ (['.', '.'] <:+: "/home/user".toList) :=
  ⟨(NewPath_no_dot_dot PathEnv.example [.str "/home/", .str ".."] [true, false]).2
      (by decide) (by decide) 1 ".." rfl rfl (by decide),
   by decide,
   (NewPath_no_dot_dot PathEnv.example [.str "/home/", .str "user"] [true, false]).1
      "/home/user" (by decide)⟩


/-! ## The handle slice of an object -/


/-- The method `Object.sortProps` leaves the handle slice as it is, padded to the number
of keys: the permuted copy is not stored. -/
theorem Object.sortProps_handles (obj obj2 : Object) (h : obj.sortProps = some obj2) :
    obj2.propMutationCallbacks = obj.paddedHandles := by
  unfold Object.sortProps at h
  unfold Object.paddedHandles
  cases hsp : Inox.sortProps obj.keys obj.values with
  | none => simp [hsp] at h
  | some r =>
    obtain ⟨keys, values, newIndexes⟩ := r
    simp only [hsp] at h
    cases hcb : obj.propMutationCallbacks with
    | none =>
      simp only [hcb, Option.map_none', Option.some.injEq] at h
      rw [← h]
      rfl
    | some handles =>
      simp only [hcb, Option.map_some'] at h
      split at h
      · cases h
      · cases h
        rfl

/-- Evaluation for C31: `Object.sortProps` never stores the permuted handle slice, so the
handles stay where they were while keys and values move: after sorting the keys `b, a`
with handles `5, 6` the keys are `a, b` and the handles still `5, 6`. When `SetProp` adds
the property `a` to the object `{b: 1}`, whose handle slice is `[5]`, the keys become
`a, b` and the handle slice `[5, 9]`: the handle 5 of `b` sits at the index of `a`, and the
new handle 9 is stored at the last index, which is the index of `b`. -/
theorem Object.sortProps_drops_handle_permutation :
    (∀ obj obj2 : Object, obj.sortProps = some obj2 →
      obj2.propMutationCallbacks = obj.paddedHandles) ∧
    Object.sortProps
      { keys := ["b", "a"], values := [some (.int 1), some (.int 2)],
        propMutationCallbacks := some [5, 6] } =
      some { keys := ["a", "b"], values := [some (.int 2), some (.int 1)],
             propMutationCallbacks := some [5, 6] } ∧
    (Object.SetProp Context.watching
      { keys := ["b"], values := [some (.int 1)], propMutationCallbacks := some [5] }
      "a" (.serializable (.int 2))).outcome = .ok () ∧
    (Object.SetProp Context.watching
      { keys := ["b"], values := [some (.int 1)], propMutationCallbacks := some [5] }
      "a" (.serializable (.int 2))).obj =
      { keys := ["a", "b"], values := [some (.int 2), some (.int 1)],
        propMutationCallbacks := some [5, 9] } := by
  refine ⟨Object.sortProps_handles, by decide, by decide, by decide⟩

/-- Evaluation for C34: the object that `SetProp` leaves does not depend on the value
that `ShareOrClone` returns; on a shared object, with a `ShareOrClone` that returns a
clone, `SetProp("a", original)` returns nil and the property slot holds the original
value of the caller, not the clone. -/
theorem Object.SetProp_stores_original :
    (∀ (ctx : Context) (f : Value → Except Error Value) (obj : Object) (name : String)
        (v : Serializable) (w1 w2 : Value),
      ctx.ShareOrClone (.serializable v) = .ok w1 → f (.serializable v) = .ok w2 →
      obj.SetProp { ctx with ShareOrClone := f } name (.serializable v) =
        obj.SetProp ctx name (.serializable v)) ∧
    Context.cloning.ShareOrClone (.serializable (.str "original")) =
      .ok (.serializable (.str "clone")) ∧
    (Object.SetProp Context.cloning { shared := true } "a"
      (.serializable (.str "original"))).outcome = .ok () ∧
    (Object.SetProp Context.cloning { shared := true } "a"
      (.serializable (.str "original"))).obj =
      { shared := true, keys := ["a"], values := [some (.str "original")] } := by
  refine ⟨?_, rfl, by decide, by decide⟩
  intro ctx f obj name v w1 w2 h1 h2
  unfold Object.SetProp
  simp only
  cases htx : ctx.WaitIfOtherTransaction false with
  | some err => rfl
  | none =>
    simp only [htx]
    unfold Object.shareValue
    cases hs : obj.shared with
    | false => rfl
    | true =>
      simp only [if_true, h1, h2]
      rfl

/-! ## The frame of SetProp -/

/-- The method `Object.sortProps` leaves the URL and the sharing of the object. -/
theorem Object.sortProps_frame (obj obj2 : Object) (h : obj.sortProps = some obj2) :
    obj2.url = obj.url ∧ obj2.shared = obj.shared := by
  unfold Object.sortProps at h
  cases hsp : Inox.sortProps obj.keys obj.values with
  | none => simp [hsp] at h
  | some r =>
    obtain ⟨keys, values, newIndexes⟩ := r
    simp only [hsp] at h
    split at h
    · cases h; exact ⟨rfl, rfl⟩
    · split at h
      · cases h
      · cases h; exact ⟨rfl, rfl⟩

theorem Object.afterUpdate_frame (ctx : Context) (obj2 : Object) (name : String)
    (prev : Option Serializable) (v : Serializable) :
    (Object.afterUpdate ctx obj2 name prev v).obj.url = obj2.url ∧
      (Object.afterUpdate ctx obj2 name prev v).obj.shared = obj2.shared := by
  unfold Object.afterUpdate
  repeat' split
  all_goals exact ⟨rfl, rfl⟩

theorem Object.afterAdd_frame (ctx : Context) (obj2 : Object) (name : String)
    (v : Serializable) :
    (Object.afterAdd ctx obj2 name v).obj.url = obj2.url ∧
      (Object.afterAdd ctx obj2 name v).obj.shared = obj2.shared := by
  unfold Object.afterAdd
  repeat' split
  all_goals exact ⟨rfl, rfl⟩

/-- Whatever the outcome, `SetProp` leaves the URL and the sharing of the object. -/
theorem Object.SetProp_frame_fields (ctx : Context) (obj : Object) (name : String)
    (value : Value) :
    (obj.SetProp ctx name value).obj.url = obj.url ∧
      (obj.SetProp ctx name value).obj.shared = obj.shared := by
  have hupd : ∀ (constraint : Option Constraint) (i : Nat) (v : Serializable),
      (obj.updateProp ctx constraint name i v).obj.url = obj.url ∧
      (obj.updateProp ctx constraint name i v).obj.shared = obj.shared := by
    intro constraint i v
    unfold Object.updateProp
    cases hv : obj.values[i]? with
    | none => exact ⟨rfl, rfl⟩
    | some prev =>
      simp only
      cases hc : constraintViolated constraint obj.keys (obj.values.set i (some v)) with
      | none => exact ⟨rfl, rfl⟩
      | some b =>
        cases b with
        | true => exact ⟨rfl, rfl⟩
        | false =>
          simp only
          cases hs : Object.sortProps { obj with values := obj.values.set i (some v) } with
          | none => exact ⟨rfl, rfl⟩
          | some obj2 =>
            simp only
            obtain ⟨h1, h2⟩ := Object.sortProps_frame _ _ hs
            obtain ⟨h3, h4⟩ := Object.afterUpdate_frame ctx obj2 name prev v
            exact ⟨h3.trans h1, h4.trans h2⟩
  have hadd : ∀ (constraint : Option Constraint) (v : Serializable),
      (obj.addProp ctx constraint name v).obj.url = obj.url ∧
      (obj.addProp ctx constraint name v).obj.shared = obj.shared := by
    intro constraint v
    unfold Object.addProp
    simp only
    cases hc : constraintViolated constraint (obj.keys ++ [name]) (obj.values ++ [some v]) with
    | none => exact ⟨rfl, rfl⟩
    | some b =>
      cases b with
      | true => exact ⟨rfl, rfl⟩
      | false =>
        simp only
        cases hs : Object.sortProps
            { obj with keys := obj.keys ++ [name], values := obj.values ++ [some v] } with
        | none => exact ⟨rfl, rfl⟩
        | some obj2 =>
          simp only
          obtain ⟨h1, h2⟩ := Object.sortProps_frame _ _ hs
          obtain ⟨h3, h4⟩ := Object.afterAdd_frame ctx obj2 name v
          exact ⟨h3.trans h1, h4.trans h2⟩
  unfold Object.SetProp
  cases value with
  | notSerializable tag => exact ⟨rfl, rfl⟩
  | serializable v =>
    simp only
    cases htx : ctx.WaitIfOtherTransaction false with
    | some err => exact ⟨rfl, rfl⟩
    | none =>
      simp only
      cases hsh : obj.shareValue ctx (.serializable v) with
      | error err => exact ⟨rfl, rfl⟩
      | ok w =>
        simp only
        unfold Object.setPropLocked
        split
        · exact ⟨rfl, rfl⟩
        · split
          · exact ⟨rfl, rfl⟩
          · split
            · exact hupd _ _ _
            · exact hadd _ _

/-- A successful `SetProp` did not have to wait for another transaction. -/
theorem Object.SetProp_ok_wait {ctx : Context} {obj : Object} {name : String} {value : Value}
    (h : (obj.SetProp ctx name value).outcome = .ok ()) :
    ctx.WaitIfOtherTransaction false = none := by
  unfold Object.SetProp at h
  cases value with
  | notSerializable tag => cases h
  | serializable v =>
    simp only at h
    cases htx : ctx.WaitIfOtherTransaction false with
    | some err => simp [htx] at h
    | none => rfl

/-- What a successful `SetProp` does to the properties of an object with duplicate-free
keys and as many values: the name is a key and holds the value, and the other names are
keys, and hold their value, as before. -/
theorem Object.SetProp_props {ctx : Context} {obj : Object} {name : String} {v : Serializable}
    (hnd : obj.keys.Nodup) (hlen : obj.values.length = obj.keys.length)
    (h : (obj.SetProp ctx name (.serializable v)).outcome = .ok ()) :
    (∀ k, k ∈ (obj.SetProp ctx name (.serializable v)).obj.keys ↔ k = name ∨ k ∈ obj.keys) ∧
    (∀ k, propValue (obj.SetProp ctx name (.serializable v)).obj.keys
        (obj.SetProp ctx name (.serializable v)).obj.values k =
      if k = name then some (some v) else propValue obj.keys obj.values k) := by
  obtain hcase | hcase := Object.SetProp_ok_cases h
  · obtain ⟨hmem, hok, hobj⟩ := hcase
    obtain ⟨obj2, hsort, hk, hv⟩ := Object.updateProp_ok hok
    obtain ⟨hk2, _, hv2⟩ := Object.sortProps_spec ({ obj with
      values := obj.values.set (obj.keys.indexOf name) (some v) }) hnd
      (by simp [hlen]) hsort
    simp only at hk2 hv2
    rw [hobj, hk, hv]
    constructor
    · intro k
      rw [hk2, (sortStrings_perm obj.keys).mem_iff]
      constructor
      · exact Or.inr
      · rintro (rfl | hk3)
        · exact hmem
        · exact hk3
    · intro k
      rw [hv2 k, propValue_set hlen hmem]
  · obtain ⟨hmem, hok, hobj⟩ := hcase
    obtain ⟨obj2, hsort, hk, hv⟩ := Object.addProp_ok hok
    have hnd2 : (obj.keys ++ [name]).Nodup :=
      List.Nodup.append hnd (List.nodup_singleton name)
        (by intro x hx hx2; simp at hx2; subst hx2; exact hmem hx)
    obtain ⟨hk2, _, hv2⟩ := Object.sortProps_spec ({ obj with
      keys := obj.keys ++ [name], values := obj.values ++ [some v] }) hnd2
      (by simp [hlen]) hsort
    simp only at hk2 hv2
    rw [hobj, hk, hv]
    constructor
    · intro k
      rw [hk2, (sortStrings_perm _).mem_iff]
      simp only [List.mem_append, List.mem_singleton]
      exact Or.comm
    · intro k
      rw [hv2 k, propValue_append hlen hmem]

/-- The results of `Prop` and `HasProp` for a name depend on the URL and the sharing of
the object, on whether the name is a key, and on the value that the scan finds. -/
theorem Object.Prop_congr (ctx : Context) (a b : Object) (n : String)
    (hurl : a.url = b.url) (hsh : a.shared = b.shared) (hmem : n ∈ a.keys ↔ n ∈ b.keys)
    (hval : propValue a.keys a.values n = propValue b.keys b.values n) :
    a.Prop ctx n = b.Prop ctx n ∧ a.HasProp ctx n = b.HasProp ctx n := by
  unfold Object.Prop Object.prop Object.HasProp Object.readPermissionError
  unfold propValue at hval
  rw [hurl, hsh, hval]
  have hd : decide (n ∈ a.keys) = decide (n ∈ b.keys) := decide_eq_decide.2 hmem
  rw [hd]
  by_cases h : n ∈ a.keys
  · simp only [h, hmem.1 h, if_true, and_self]
  · have h2 : n ∉ b.keys := fun h2 => h (hmem.2 h2)
    simp only [h, h2, if_false, and_self]

/-- C33: on an unshared object without URL (with or without constraint; the keys are
pairwise distinct and there are as many values as keys), after a `SetProp(name, v)` that
returned nil, `Prop(name)` returns `v` and `HasProp(name)` is true, and for every other
name `HasProp` and `Prop` give, in every context, the same result as before the call. -/
theorem Object.SetProp_frame (ctx ctx2 : Context) (obj : Object) (name : String)
    (v : Serializable) (hshared : obj.shared = false) (hurl : obj.url = "")
    (hnd : obj.keys.Nodup) (hlen : obj.values.length = obj.keys.length)
    (hok : (obj.SetProp ctx name (.serializable v)).outcome = .ok ()) :
    (obj.SetProp ctx name (.serializable v)).obj.Prop ctx name = .ok (some v) ∧
    (obj.SetProp ctx name (.serializable v)).obj.HasProp ctx name = .ok true ∧
    ∀ n, n ≠ name →
      (obj.SetProp ctx name (.serializable v)).obj.HasProp ctx2 n = obj.HasProp ctx2 n ∧
      (obj.SetProp ctx name (.serializable v)).obj.Prop ctx2 n = obj.Prop ctx2 n := by
  obtain ⟨hu2, hs2⟩ := Object.SetProp_frame_fields ctx obj name (.serializable v)
  obtain ⟨hkeys, hvals⟩ := Object.SetProp_props hnd hlen hok
  have hw := Object.SetProp_ok_wait hok
  have hin : name ∈ (obj.SetProp ctx name (.serializable v)).obj.keys := (hkeys name).2 (Or.inl rfl)
  have hvn := hvals name
  rw [if_pos rfl] at hvn
  unfold propValue at hvn
  refine ⟨?_, ?_, ?_⟩
  · unfold Object.Prop Object.prop Object.readPermissionError
    rw [hu2, hurl, hs2, hshared]
    simp only [Bool.not_true, hw, if_pos hin, hvn]
    rfl
  · unfold Object.HasProp
    rw [hw]
    simp only [hin, decide_True]
  · intro n hn
    have hmem : n ∈ (obj.SetProp ctx name (.serializable v)).obj.keys ↔ n ∈ obj.keys := by
      rw [hkeys n]
      constructor
      · rintro (h | h)
        · exact absurd h hn
        · exact h
      · exact Or.inr
    have hval := hvals n
    rw [if_neg hn] at hval
    obtain ⟨h1, h2⟩ := Object.Prop_congr ctx2 _ obj n (hu2.trans rfl) hs2 hmem hval
    exact ⟨h2, h1⟩

theorem Object.SetProp_frame_witness :
    (Object.SetProp Context.permissive
      { keys := ["a", "c"], values := [some (.int 1), some (.int 3)] } "b"
      (.serializable (.int 2))).obj.Prop Context.permissive "b" = .ok (some (.int 2)) ∧
    (Object.SetProp Context.permissive
      { keys := ["a", "c"], values := [some (.int 1), some (.int 3)] } "b"
      (.serializable (.int 2))).obj.HasProp Context.permissive "b" = .ok true ∧
    ∀ n, n ≠ "b" →
      (Object.SetProp Context.permissive
        { keys := ["a", "c"], values := [some (.int 1), some (.int 3)] } "b"
        (.serializable (.int 2))).obj.HasProp Context.permissive n =
        Object.HasProp Context.permissive
          { keys := ["a", "c"], values := [some (.int 1), some (.int 3)] } n ∧
      (Object.SetProp Context.permissive
        { keys := ["a", "c"], values := [some (.int 1), some (.int 3)] } "b"
        (.serializable (.int 2))).obj.Prop Context.permissive n =
        Object.Prop Context.permissive
          { keys := ["a", "c"], values := [some (.int 1), some (.int 3)] } n :=
  Object.SetProp_frame Context.permissive Context.permissive
    { keys := ["a", "c"], values := [some (.int 1), some (.int 3)] } "b" (.int 2)
    rfl rfl (by decide) rfl (by decide)

/-! ## The lock of SetProp -/

theorem Object.informAboutMutation_disciplined (obj : Object) (mutation : Mutation)
    (text : String) : (obj.informAboutMutation mutation text).disciplined := by
  unfold Object.informAboutMutation LockedResult.disciplined
  cases h : obj.hasMutationCallbacks with
  | false =>
    left
    refine ⟨rfl, ?_⟩
    intro e he
    simp at he
    rcases he with rfl | rfl | rfl <;> rfl
  | true =>
    right
    refine ⟨rfl, [.newMutation mutation, .sysgraphEvent text, .informWatchers mutation],
      mutation, rfl, ?_⟩
    intro e he
    simp at he
    rcases he with rfl | rfl | rfl <;> rfl

/-- Steps before the part that ends a branch do not change the discipline when they are
no steps on the lock. -/
theorem LockedResult.disciplined_prepend (r : LockedResult) (ev : List Event)
    (hev : ∀ e ∈ ev, e.isLockStep = false) (h : r.disciplined) :
    LockedResult.disciplined { r with events := ev ++ r.events } := by
  rcases h with ⟨hu, hall⟩ | ⟨hu, pre, m, hpre, hall⟩
  · left
    refine ⟨hu, ?_⟩
    intro e he
    rcases List.mem_append.1 he with h1 | h1
    · exact hev e h1
    · exact hall e h1
  · right
    refine ⟨hu, ev ++ pre, m, ?_, ?_⟩
    · show ev ++ r.events = _
      rw [hpre, List.append_assoc]
    · intro e he
      rcases List.mem_append.1 he with h1 | h1
      · exact hev e h1
      · exact hall e h1

/-- A branch that ends before the notification holds the lock and has made no step on
it. -/
theorem LockedResult.disciplined_early (obj : Object) (outcome : Outcome Unit)
    (ev : List Event) (hev : ∀ e ∈ ev, e.isLockStep = false) :
    LockedResult.disciplined ⟨obj, outcome, ev, true⟩ :=
  Or.inl ⟨rfl, hev⟩

theorem removeMutationCallbackNoLock_steps (ctx : Context) (handles : List CallbackHandle)
    (index : Nat) (prev : Option Serializable) (handles1 : List CallbackHandle)
    (ev : List Event) (h : removeMutationCallbackNoLock ctx handles index prev = some (handles1, ev)) :
    ∀ e ∈ ev, e.isLockStep = false := by
  unfold removeMutationCallbackNoLock at h
  split at h
  · cases h; intro e he; cases he
  · split at h
    · cases h; intro e he; cases he
    · split at h
      · cases h
      · cases h
        intro e he
        simp at he
        rw [he]; rfl

theorem addMutationCallbackNoLock_steps (ctx : Context) (handles : List CallbackHandle)
    (index : Nat) (value : Serializable) (handles1 : List CallbackHandle)
    (ev : List Event) (h : addMutationCallbackNoLock ctx handles index value = .ok (handles1, ev)) :
    ∀ e ∈ ev, e.isLockStep = false := by
  unfold addMutationCallbackNoLock at h
  split at h
  · cases h; intro e he; cases he
  · cases h
  · split at h
    · cases h
      intro e he
      simp at he
      rw [he]; rfl
    · cases h

theorem Object.afterUpdate_disciplined (ctx : Context) (obj2 : Object) (name : String)
    (prev : Option Serializable) (v : Serializable) :
    (Object.afterUpdate ctx obj2 name prev v).disciplined := by
  unfold Object.afterUpdate
  cases hcb : obj2.propMutationCallbacks with
  | none => exact Object.informAboutMutation_disciplined _ _ _
  | some handles =>
    simp only
    by_cases hi : obj2.keys.indexOf name < obj2.keys.length
    · rw [if_pos hi]
      cases hr : removeMutationCallbackNoLock ctx handles (obj2.keys.indexOf name) prev with
      | none => exact LockedResult.disciplined_early _ _ [] (fun e he => by cases he)
      | some r =>
        obtain ⟨handles1, ev1⟩ := r
        have h1 := removeMutationCallbackNoLock_steps ctx handles _ prev handles1 ev1 hr
        simp only
        cases ha : addMutationCallbackNoLock ctx handles1 (obj2.keys.indexOf name) v with
        | panic e => exact LockedResult.disciplined_early _ _ ev1 h1
        | error e => exact LockedResult.disciplined_early _ _ ev1 h1
        | ok r2 =>
          obtain ⟨handles2, ev2⟩ := r2
          have h2 := addMutationCallbackNoLock_steps ctx handles1 _ v handles2 ev2 ha
          simp only
          exact LockedResult.disciplined_prepend _ (ev1 ++ ev2)
            (fun e he => (List.mem_append.1 he).elim (h1 e) (h2 e))
            (Object.informAboutMutation_disciplined _ _ _)
    · rw [if_neg hi]
      exact LockedResult.disciplined_early _ _ [] (fun e he => by cases he)

theorem Object.afterAdd_disciplined (ctx : Context) (obj2 : Object) (name : String)
    (v : Serializable) : (Object.afterAdd ctx obj2 name v).disciplined := by
  unfold Object.afterAdd
  cases hcb : obj2.propMutationCallbacks with
  | none => exact Object.informAboutMutation_disciplined _ _ _
  | some handles =>
    simp only
    cases ha : addMutationCallbackNoLock ctx handles (obj2.keys.length - 1) v with
    | panic e => exact LockedResult.disciplined_early _ _ [] (fun e he => by cases he)
    | error e => exact LockedResult.disciplined_early _ _ [] (fun e he => by cases he)
    | ok r2 =>
      obtain ⟨handles2, ev2⟩ := r2
      have h2 := addMutationCallbackNoLock_steps ctx handles _ v handles2 ev2 ha
      simp only
      exact LockedResult.disciplined_prepend _ ev2 h2
        (Object.informAboutMutation_disciplined _ _ _)

/-- Every path through the part of `SetProp` that runs under the lock keeps the
discipline. -/
theorem Object.setPropLocked_disciplined (ctx : Context) (obj : Object) (name : String)
    (v : Serializable) : (obj.setPropLocked ctx name v).disciplined := by
  have hearly : ∀ (o : Object) (outcome : Outcome Unit),
      LockedResult.disciplined ⟨o, outcome, [], true⟩ :=
    fun o outcome => LockedResult.disciplined_early o outcome [] (fun e he => by cases he)
  unfold Object.setPropLocked
  split
  · exact hearly _ _
  · split
    · exact hearly _ _
    · split
      · unfold Object.updateProp
        cases hv : obj.values[obj.keys.indexOf name]? with
        | none => exact hearly _ _
        | some prev =>
          simp only
          cases hc : constraintViolated (obj.constraint ctx) obj.keys
              (obj.values.set (obj.keys.indexOf name) (some v)) with
          | none => exact hearly _ _
          | some b =>
            cases b with
            | true => exact hearly _ _
            | false =>
              simp only
              cases hs : Object.sortProps
                  { obj with values := obj.values.set (obj.keys.indexOf name) (some v) } with
              | none => exact hearly _ _
              | some obj2 => exact Object.afterUpdate_disciplined ctx obj2 name prev v
      · unfold Object.addProp
        simp only
        cases hc : constraintViolated (obj.constraint ctx) (obj.keys ++ [name])
            (obj.values ++ [some v]) with
        | none => exact hearly _ _
        | some b =>
          cases b with
          | true => exact hearly _ _
          | false =>
            simp only
            cases hs : Object.sortProps
                { obj with keys := obj.keys ++ [name], values := obj.values ++ [some v] } with
            | none => exact hearly _ _
            | some obj2 => exact Object.afterAdd_disciplined ctx obj2 name v

theorem count_unlock_of_no_lock_step (ev : List Event)
    (h : ∀ e ∈ ev, e.isLockStep = false) : ev.count .unlock = 0 :=
  List.count_eq_zero.2 (fun hmem => by have := h _ hmem; cases this)

/-- C32: every call of `SetProp` either ends before the lock is taken, or takes the lock
once and releases it exactly once, whether it returns nil, returns an error or panics, and
each call of `CallMicrotasks` comes after the release. With registered mutation callbacks a
successful call releases the lock and then calls the microtasks; a call that panics or
returns an error under the lock releases it in the deferred function. -/
theorem Object.SetProp_unlocks_once (ctx : Context) (obj : Object) (name : String)
    (value : Value) :
    ((obj.SetProp ctx name value).events = [] ∨
      ∃ rest, (obj.SetProp ctx name value).events = .lock :: rest ∧ Event.lock ∉ rest ∧
        rest.count .unlock = 1 ∧
        ∀ pre post m, rest = pre ++ .callMicrotasks m :: post → Event.unlock ∈ pre) ∧
    (Object.SetProp Context.permissive { hasMutationCallbacks := true } "a"
      (.serializable (.int 1))).events =
      [.lock, .newMutation (.AddProp "a" (.int 1)), .sysgraphEvent "new prop: a",
        .informWatchers (.AddProp "a" (.int 1)), .unlock,
        .callMicrotasks (.AddProp "a" (.int 1))] ∧
    (Object.SetProp Context.permissive { hasMutationCallbacks := true } "0"
      (.serializable (.int 1))).outcome = .panic .ErrCannotSetValOfIndexKeyProp ∧
    (Object.SetProp Context.permissive { hasMutationCallbacks := true } "0"
      (.serializable (.int 1))).events = [.lock, .unlock] ∧
    (Object.SetProp Context.withIntConstraint { constraintId := 1, hasMutationCallbacks := true }
      "a" (.serializable (.str "x"))).outcome = .error .ErrConstraintViolation ∧
    (Object.SetProp Context.withIntConstraint { constraintId := 1, hasMutationCallbacks := true }
      "a" (.serializable (.str "x"))).events = [.lock, .unlock] := by
  refine ⟨?_, by decide, by decide, by decide, by decide, by decide⟩
  unfold Object.SetProp
  cases value with
  | notSerializable tag => left; rfl
  | serializable v =>
    simp only
    cases htx : ctx.WaitIfOtherTransaction false with
    | some err => left; rfl
    | none =>
      simp only
      cases hsh : obj.shareValue ctx (.serializable v) with
      | error err => left; rfl
      | ok w =>
        right
        simp only
        rcases Object.setPropLocked_disciplined ctx obj name v with
          ⟨hu, hall⟩ | ⟨hu, pre0, m0, hpre, hall⟩
        · refine ⟨(obj.setPropLocked ctx name v).events ++ [.unlock], ?_, ?_, ?_, ?_⟩
          · rw [hu]; rfl
          · intro hmem
            rcases List.mem_append.1 hmem with h1 | h1
            · have := hall _ h1; cases this
            · simp at h1
          · rw [List.count_append, count_unlock_of_no_lock_step _ hall]
            rfl
          · intro pre post m heq
            have hmem : Event.callMicrotasks m ∈
                (obj.setPropLocked ctx name v).events ++ [.unlock] := by
              rw [heq]; simp
            rcases List.mem_append.1 hmem with h1 | h1
            · have := hall _ h1; cases this
            · simp at h1
        · refine ⟨pre0 ++ [.unlock, .callMicrotasks m0], ?_, ?_, ?_, ?_⟩
          · rw [hu, hpre]; simp
          · intro hmem
            rcases List.mem_append.1 hmem with h1 | h1
            · have := hall _ h1; cases this
            · simp at h1
          · rw [List.count_append, count_unlock_of_no_lock_step _ hall]
            rfl
          · intro pre post m heq
            rcases List.append_eq_append_iff.1 heq with ⟨a, h1, h2⟩ | ⟨c, h1, h2⟩
            · cases a with
              | nil =>
                simp only [List.nil_append, List.cons.injEq] at h2
                exact absurd h2.1 (by intro h; cases h)
              | cons a0 a1 =>
                simp only [List.cons_append, List.cons.injEq] at h2
                rw [h1, ← h2.1]
                simp
            · exfalso
              cases c with
              | nil =>
                simp only [List.nil_append, List.cons.injEq] at h2
                exact absurd h2.1 (by intro h; cases h)
              | cons c0 c1 =>
                simp only [List.cons_append, List.cons.injEq] at h2
                have hmem : Event.callMicrotasks m ∈ pre0 := by
                  rw [h1, ← h2.1]; simp
                have := hall _ hmem
                cases this

/-! ## Migration objects with an unexpected property -/

/-- The error that the callback of `UpdateSchema` returns for an unexpected property does
not reach the caller: the handlers read before it are the handlers of the migration. -/
theorem migrationHandlersOf_drops_error (migrationOps : List MigrationOp)
    (migrationObject : MigrationObject) (handlers : MigrationHandlers) (err : Option Error)
    (hops : migrationOps ≠ []) (hshared : migrationObject.shared = false)
    (h : extractHandlers migrationObject.entries {} = .ok (handlers, err)) :
    migrationHandlersOf migrationOps [migrationObject] = .ok handlers := by
  unfold migrationHandlersOf
  have hl : migrationOps.length > 0 := List.length_pos.2 hops
  rw [if_pos hl]
  simp only [hshared, h, Bool.false_eq_true, if_false]

/-- Evaluation for C35: on a migration object with the unexpected property `unexpected`
after the inclusion handlers, the callback of `UpdateSchema` returns the error "unexpected
property", but `UpdateSchema` drops it: the call returns and has called `UpdateSchema` of
the inner database with the inclusion handlers. When the unexpected property `extra` comes
before the inclusion handlers, the iteration stops at it: the inner database is called
with no handler at all and the entity is not included. In general the handlers read before
the error are passed on whatever the error is. -/
theorem DatabaseIL.UpdateSchema_unexpected_property_ignored :
    IsDbMigrationPropertyName "unexpected" = false ∧
    extractHandlers migrationWithUnexpectedLast.entries {} =
      .ok ({ inclusions := [("/users", 0)] },
        some (.message "unexpected property 'unexpected' in migration object")) ∧
    (DatabaseIL.UpdateSchema (dummyDatabase.impl exampleCall) Context.permissive
      dummyDatabase.wrapped { entryPatterns := [("users", .type .INT_PATTERN)] }
      [migrationWithUnexpectedLast]).outcome = .ok () ∧
    innerCalls (DatabaseIL.UpdateSchema (dummyDatabase.impl exampleCall) Context.permissive
      dummyDatabase.wrapped { entryPatterns := [("users", .type .INT_PATTERN)] }
      [migrationWithUnexpectedLast]).trace =
      [.innerUpdateSchema { inclusions := [("/users", 0)] }, .innerTopLevelEntities] ∧
    (DatabaseIL.UpdateSchema (dummyDatabase.impl exampleCall) Context.permissive
      dummyDatabase.wrapped { entryPatterns := [("users", .type .INT_PATTERN)] }
      [migrationWithUnexpectedFirst]).outcome = .ok () ∧
    innerCalls (DatabaseIL.UpdateSchema (dummyDatabase.impl exampleCall) Context.permissive
      dummyDatabase.wrapped { entryPatterns := [("users", .type .INT_PATTERN)] }
      [migrationWithUnexpectedFirst]).trace =
      [.innerUpdateSchema {}, .innerTopLevelEntities] ∧
    (DatabaseIL.UpdateSchema (dummyDatabase.impl exampleCall) Context.permissive
      dummyDatabase.wrapped { entryPatterns := [("users", .type .INT_PATTERN)] }
      [migrationWithUnexpectedFirst]).db.topLevelEntities = some [] ∧
    (∀ (migrationOps : List MigrationOp) (migrationObject : MigrationObject)
        (handlers : MigrationHandlers) (err : Option Error),
      migrationOps ≠ [] → migrationObject.shared = false →
      extractHandlers migrationObject.entries {} = .ok (handlers, err) →
      migrationHandlersOf migrationOps [migrationObject] = .ok handlers) := by
  refine ⟨by decide, rfl, by decide, by decide, by decide, by decide, by decide,
    migrationHandlersOf_drops_error⟩

/-! ## Removing a position of a list with element callbacks -/

theorem eraseIdx_last_eq_dropLast {α : Type} (l : List α) :
    l.eraseIdx (l.length - 1) = l.dropLast := by
  cases l with
  | nil => rfl
  | cons x xs =>
    rw [List.eraseIdx_eq_take_drop_succ, List.dropLast_eq_take]
    have h : (x :: xs).length - 1 + 1 = (x :: xs).length := by simp
    rw [h, List.drop_length, List.append_nil]

/-- With a handle slice, `removePosition` of the last position panics: the element is
removed first and the position is read afterwards. -/
theorem InoxList.removePosition_last_panics (ctx : Context) (elements : List Serializable)
    (handles : List CallbackHandle) (hne : elements ≠ []) :
    InoxList.removePosition ctx ⟨elements, some handles⟩ ((elements.length : Int) - 1) =
      ⟨⟨elements.dropLast, some handles⟩, .panic .indexOutOfRange, []⟩ := by
  have hlen : 0 < elements.length := List.length_pos.2 hne
  have h0 : 0 ≤ (elements.length : Int) - 1 := by omega
  have hn : ((elements.length : Int) - 1).toNat = elements.length - 1 := by omega
  have h1 : 0 ≤ (elements.length : Int) - 1 ∧
      ((elements.length : Int) - 1).toNat < elements.length := by omega
  have h2 : elements.dropLast[elements.length - 1]? = none := by
    apply List.getElem?_eq_none
    rw [List.length_dropLast]
  unfold InoxList.removePosition underlyingList.removePosition
  rw [if_pos h1, hn, eraseIdx_last_eq_dropLast]
  simp only
  unfold removeCallbacksLoop underlyingList.At
  rw [if_pos h0, hn, h2]

/-- Evaluation for C36: on every non-empty list with a handle slice `Pop` panics with an
index out of range, because `removePosition` reads the position after the element has been
removed from the underlying list; on the list `[1, 2]` `Dequeue` removes the callback with
the handle of the element 1 from the element 2, which has moved to position 0, and
`removePosition(1)` on `[1, 2, 3]` removes the callback from the element 3. -/
theorem InoxList.removePosition_reads_after_removal :
    (∀ (ctx : Context) (elements : List Serializable) (handles : List CallbackHandle),
      elements ≠ [] →
      (InoxList.Pop ctx ⟨elements, some handles⟩).outcome = .panic .indexOutOfRange) ∧
    (InoxList.Pop Context.watching ⟨[.int 1, .int 2], some [5, 6]⟩).outcome =
      .panic .indexOutOfRange ∧
    (InoxList.Pop Context.watching ⟨[.int 1, .int 2], some [5, 6]⟩).list =
      ⟨[.int 1], some [5, 6]⟩ ∧
    (InoxList.Dequeue Context.watching ⟨[.int 1, .int 2], some [5, 6]⟩).outcome =
      .ok (.int 1) ∧
    (InoxList.Dequeue Context.watching ⟨[.int 1, .int 2], some [5, 6]⟩).events =
      [.removeMutationCallback 5 (.int 2), .newMutation (.RemovePosition 0),
        .informWatchers (.RemovePosition 0), .callMicrotasks (.RemovePosition 0)] ∧
    (InoxList.removePosition Context.watching ⟨[.int 1, .int 2, .int 3], some [5, 6, 7]⟩
      1).events =
      [.removeMutationCallback 6 (.int 3), .newMutation (.RemovePosition 1),
        .informWatchers (.RemovePosition 1), .callMicrotasks (.RemovePosition 1)] := by
  refine ⟨?_, by decide, by decide, by decide, by decide, by decide⟩
  intro ctx elements handles hne
  have hlen : 0 < elements.length := List.length_pos.2 hne
  have h1 := InoxList.removePosition_last_panics ctx elements handles hne
  unfold InoxList.Pop InoxList.Len
  have hnot : ¬ ((elements.length : Int) - 1 < 0) := by omega
  simp only [hnot, if_false]
  unfold InoxList.takeAt underlyingList.At
  have h0 : 0 ≤ (elements.length : Int) - 1 := by omega
  have hn : ((elements.length : Int) - 1).toNat = elements.length - 1 := by omega
  have hget : elements[elements.length - 1]? = some (elements[elements.length - 1]) :=
    List.getElem?_eq_getElem (by omega)
  simp only [h0, if_true, hn, hget, h1]

/-! ## Integers read with an integer range pattern -/

/-- Evaluation for C37: `parseJSONRepresentation` reads an integer under an integer range
pattern exactly as under `INT_PATTERN`, whatever the range is: with the pattern `0..100`
the representations of 102 and of -1 are parsed to `Int(102)` and `Int(-1)`, which the
pattern rejects, and with the multiples of 3 in `0..100` the representation of 4 is parsed
to `Int(4)`; an accepted integer such as 99 is parsed as well. -/
theorem parseJSONRepresentation_ignores_int_range :
    (∀ (env : ParseEnv) (patt : IntRangePattern) (json : JSONValue),
      parseJSONRepresentation env json (some (.IntRangePattern patt)) =
        parseJSONRepresentation env json (some .INT_PATTERN)) ∧
    (NewIncludedEndIntRangePattern 0 100 (-1)).Test 102 = false ∧
    parseJSONRepresentation ParseEnv.example (.string "102")
      (some (.IntRangePattern (NewIncludedEndIntRangePattern 0 100 (-1)))) =
      .ok (some (.int 102)) ∧
    (NewIncludedEndIntRangePattern 0 100 (-1)).Test (-1) = false ∧
    parseJSONRepresentation ParseEnv.example (.string "-1")
      (some (.IntRangePattern (NewIncludedEndIntRangePattern 0 100 (-1)))) =
      .ok (some (.int (-1))) ∧
    (NewIncludedEndIntRangePattern 0 100 3).Test 4 = false ∧
    parseJSONRepresentation ParseEnv.example (.string "4")
      (some (.IntRangePattern (NewIncludedEndIntRangePattern 0 100 3))) =
      .ok (some (.int 4)) ∧
    (NewIncludedEndIntRangePattern 0 100 3).Test 99 = true ∧
    parseJSONRepresentation ParseEnv.example (.string "99")
      (some (.IntRangePattern (NewIncludedEndIntRangePattern 0 100 3))) =
      .ok (some (.int 99)) := by
  refine ⟨?_, by decide, rfl, by decide, rfl, by decide, rfl, by decide, rfl⟩
  intro env patt json
  unfold parseJSONRepresentation
  rfl

/-! ## Parent directories -/

theorem toList_append_eq (s t : String) : (s ++ t).toList = s.toList ++ t.toList :=
  String.data_append s t



/-- The loop of `LastIndexByte` returns `-1` when the character is at none of the positions
below `i`, and otherwise a position below `i` that holds the character. -/
theorem LastIndexByte.loop_spec (s : List Char) (c : Char) (i : Nat) :
    (LastIndexByte.loop s c i = -1 ∧ ∀ j, j < i → s[j]? ≠ some c) ∨
      (∃ k : Nat, LastIndexByte.loop s c i = (k : Int) ∧ k < i ∧ s[k]? = some c) := by
  induction i with
  | zero => left; exact ⟨rfl, fun j hj => absurd hj (Nat.not_lt_zero j)⟩
  | succ i ih =>
    unfold LastIndexByte.loop
    by_cases h : s[i]? = some c
    · right; rw [if_pos h]; exact ⟨i, rfl, Nat.lt_succ_self i, h⟩
    · rw [if_neg h]
      rcases ih with ⟨h1, h2⟩ | ⟨k, h1, h2, h3⟩
      · left
        refine ⟨h1, fun j hj => ?_⟩
        rcases Nat.lt_succ_iff_lt_or_eq.1 hj with hlt | heq
        · exact h2 j hlt
        · rw [heq]; exact h
      · right; exact ⟨k, h1, Nat.lt_succ_of_lt h2, h3⟩

/-- The text up to the last occurrence of a character is a prefix, and it is empty or ends
with the character. -/
theorem take_LastIndexByte (s : List Char) (c : Char) :
    s.take (LastIndexByte s c + 1).toNat <+: s ∧
      (s.take (LastIndexByte s c + 1).toNat = [] ∨
        (s.take (LastIndexByte s c + 1).toNat).getLast? = some c) := by
  refine ⟨List.take_prefix _ _, ?_⟩
  unfold LastIndexByte
  rcases LastIndexByte.loop_spec s c s.length with ⟨h1, _⟩ | ⟨k, h1, h2, h3⟩
  · left; rw [h1]; rfl
  · right
    rw [h1]
    have hk : ((k : Int) + 1).toNat = k + 1 := by omega
    rw [hk, List.getLast?_eq_getElem?]
    simp only [List.length_take]
    have hmin : min (k + 1) s.length = k + 1 := by omega
    rw [hmin, Nat.add_sub_cancel, List.getElem?_take_of_lt (Nat.lt_succ_self k)]
    exact h3

/-- When the text starts with the character, the text up to its last occurrence is not
empty. -/
theorem take_LastIndexByte_ne_nil (c : Char) (rest : List Char) :
    (c :: rest).take (LastIndexByte (c :: rest) c + 1).toNat ≠ [] := by
  unfold LastIndexByte
  rcases LastIndexByte.loop_spec (c :: rest) c (c :: rest).length with ⟨_, h2⟩ | ⟨k, h1, _, _⟩
  · exact absurd (List.getElem?_cons_zero) (h2 0 (by simp))
  · rw [h1]
    have hk : ((k : Int) + 1).toNat = k + 1 := by omega
    rw [hk]
    simp

/-- What `DirPath` returns is a prefix of the path, and it is empty or ends with a
slash. -/
theorem Path.DirPath_ok (pth r : String) (h : Path.DirPath pth = .ok r) :
    r.toList <+: pth.toList ∧ (r.toList = [] ∨ r.toList.getLast? = some '/') := by
  unfold Path.DirPath at h
  by_cases hroot : pth = "/"
  · rw [if_pos hroot] at h
    cases h
    rw [hroot]
    exact ⟨List.prefix_refl _, Or.inr rfl⟩
  · rw [if_neg hroot] at h
    cases hd : Path.IsDirPath pth with
    | none => rw [hd] at h; cases h
    | some b =>
      rw [hd] at h
      cases b with
      | true =>
        simp only at h
        split at h
        · cases h
        · cases h
          obtain ⟨h1, h2⟩ := take_LastIndexByte pth.toList.dropLast '/'
          exact ⟨h1.trans (List.dropLast_prefix _), h2⟩
      | false =>
        simp only at h
        split at h
        · cases h
        · cases h
          exact take_LastIndexByte pth.toList '/'

/-- For an absolute path `DirPath` returns a non-empty directory path that is a prefix of
the path. -/
theorem Path.DirPath_absolute (rest : List Char) :
    ∃ r, Path.DirPath (String.mk ('/' :: rest)) = .ok r ∧ r.toList ≠ [] ∧
      r.toList.getLast? = some '/' ∧ r.toList <+: '/' :: rest := by
  cases rest with
  | nil => exact ⟨"/", rfl, by decide, rfl, List.prefix_refl _⟩
  | cons c rest2 =>
    have hne : String.mk ('/' :: c :: rest2) ≠ "/" := by
      intro h
      have h2 : ('/' :: c :: rest2) = ['/'] := congrArg String.toList h
      simp at h2
    have htl : (String.mk ('/' :: c :: rest2)).toList = '/' :: c :: rest2 := rfl
    have hfin : ∀ s : List Char, s <+: '/' :: c :: rest2 → (∃ t, s = '/' :: t) →
        (String.mk (s.take (LastIndexByte s '/' + 1).toNat)).toList ≠ [] ∧
        (String.mk (s.take (LastIndexByte s '/' + 1).toNat)).toList.getLast? = some '/' ∧
        (String.mk (s.take (LastIndexByte s '/' + 1).toNat)).toList <+: '/' :: c :: rest2 := by
      rintro s hs ⟨t, rfl⟩
      have hnn := take_LastIndexByte_ne_nil '/' t
      obtain ⟨h1, h2⟩ := take_LastIndexByte ('/' :: t) '/'
      exact ⟨hnn, h2.resolve_left hnn, h1.trans hs⟩
    unfold Path.DirPath
    rw [if_neg hne]
    unfold Path.IsDirPath
    rw [htl]
    cases hl : ('/' :: c :: rest2).getLast? with
    | none => simp at hl
    | some last =>
      by_cases hs : last = '/'
      · subst hs
        simp only [beq_self_eq_true, ne_eq, not_true_eq_false, if_false]
        exact ⟨_, rfl, hfin _ (List.dropLast_prefix _) ⟨(c :: rest2).dropLast, rfl⟩⟩
      · have hb : (last == '/') = false := by simpa using hs
        simp only [hb, Option.some.injEq, hs, if_false]
        exact ⟨_, rfl, hfin _ (List.prefix_refl _) ⟨c :: rest2, rfl⟩⟩

/-- Evaluation for C38: `DirPath` returns the empty path for the relative roots `./` and
`../` (after the final slash is dropped no slash is left), which is no directory path. For
every absolute path the result is a non-empty prefix of the path that ends with a slash,
and whatever `DirPath` returns is a prefix of the path that is empty or ends with a
slash. -/
theorem Path.DirPath_relative_root :
    Path.DirPath "./" = .ok "" ∧ Path.DirPath "../" = .ok "" ∧
    Path.DirPath "/" = .ok "/" ∧ Path.DirPath "/a/b" = .ok "/a/" ∧
    Path.DirPath "/a/" = .ok "/" ∧ Path.DirPath "./a/b/" = .ok "./a/" ∧
    Path.DirPath "../a" = .ok "../" ∧
    (∀ rest : List Char, ∃ r, Path.DirPath (String.mk ('/' :: rest)) = .ok r ∧
      r.toList ≠ [] ∧ r.toList.getLast? = some '/' ∧ r.toList <+: '/' :: rest) ∧
    (∀ pth r : String, Path.DirPath pth = .ok r →
      r.toList <+: pth.toList ∧ (r.toList = [] ∨ r.toList.getLast? = some '/')) := by
  refine ⟨by decide, by decide, by decide, by decide, by decide, by decide, by decide,
    Path.DirPath_absolute, Path.DirPath_ok⟩


/-! ## Prefix patterns and globbing patterns -/

/-- A prefix pattern is a text that ends with `/...`. -/
theorem PathPattern.IsPrefixPattern_iff (patt : String) :
    PathPattern.IsPrefixPattern patt = true ↔ ∃ d, patt.toList = d ++ ['/', '.', '.', '.'] := by
  unfold PathPattern.IsPrefixPattern stringsHasSuffix
  rw [List.isSuffixOf_iff_suffix]
  constructor
  · rintro ⟨d, hd⟩; exact ⟨d, hd.symm⟩
  · rintro ⟨d, hd⟩; exact ⟨d, hd.symm⟩

/-- The prefix of a prefix pattern `d ++ "/..."` is `d ++ "/"`: it keeps the slash. -/
theorem PathPattern.Prefix_toList (patt : String) (d : List Char)
    (h : patt.toList = d ++ ['/', '.', '.', '.']) :
    (PathPattern.Prefix patt).toList = d ++ ['/'] := by
  have hp : PathPattern.IsPrefixPattern patt = true :=
    (PathPattern.IsPrefixPattern_iff patt).2 ⟨d, h⟩
  unfold PathPattern.Prefix
  rw [if_pos hp]
  show patt.toList.take (patt.toList.length - 3) = d ++ ['/']
  rw [h]
  have hl : (d ++ ['/', '.', '.', '.']).length - 3 = (d ++ ['/']).length := by simp
  rw [hl]
  have hs : d ++ ['/', '.', '.', '.'] = (d ++ ['/']) ++ ['.', '.', '.'] := by simp
  rw [hs, List.take_left]

/-- A text that ends with `/**/*` is no prefix pattern. -/
theorem PathPattern.IsPrefixPattern_glob (s : String) :
    PathPattern.IsPrefixPattern (s ++ "/**/*") = false := by
  cases hp : PathPattern.IsPrefixPattern (s ++ "/**/*") with
  | false => rfl
  | true =>
    obtain ⟨d, hd⟩ := (PathPattern.IsPrefixPattern_iff _).1 hp
    rw [toList_append_eq] at hd
    have h2 := congrArg List.reverse hd
    simp only [List.reverse_append] at h2
    have h3 : "/**/*".toList.reverse = ['*', '/', '*', '*', '/'] := by decide
    rw [h3] at h2
    simp at h2

/-- The result of `ToGlobbingPattern` for a prefix pattern `d ++ "/..."`. -/
theorem PathPattern.ToGlobbingPattern_toList (patt : String) (d : List Char)
    (h : patt.toList = d ++ ['/', '.', '.', '.']) :
    (PathPattern.ToGlobbingPattern patt).toList = d ++ ['/', '/', '*', '*', '/', '*'] := by
  have hp : PathPattern.IsPrefixPattern patt = true :=
    (PathPattern.IsPrefixPattern_iff patt).2 ⟨d, h⟩
  unfold PathPattern.ToGlobbingPattern PathPattern.IsGlobbingPattern
  rw [hp]
  simp only [Bool.not_true, Bool.false_eq_true, if_false]
  rw [toList_append_eq, PathPattern.Prefix_toList patt d h]
  have h3 : "/**/*".toList = ['/', '*', '*', '/', '*'] := by decide
  rw [h3]
  simp

/-- Evaluation for C39: `ToGlobbingPattern` always returns a globbing pattern and is
idempotent, but for a prefix pattern `d/...` the prefix `d/` keeps its slash and the result
is `d//**/*`, with two slashes at the junction, and not `d/**/*`: `/...` gives `//**/*` and
`/a/...` gives `/a//**/*`. A globbing pattern is returned as it is. -/
theorem PathPattern.ToGlobbingPattern_doubles_slash :
    (∀ patt, PathPattern.IsGlobbingPattern (PathPattern.ToGlobbingPattern patt) = true) ∧
    (∀ patt, PathPattern.ToGlobbingPattern (PathPattern.ToGlobbingPattern patt) =
      PathPattern.ToGlobbingPattern patt) ∧
    (∀ (patt : String) (d : List Char), patt.toList = d ++ ['/', '.', '.', '.'] →
      (PathPattern.Prefix patt).toList = d ++ ['/'] ∧
      (PathPattern.ToGlobbingPattern patt).toList = d ++ ['/', '/', '*', '*', '/', '*'] ∧
      (PathPattern.ToGlobbingPattern patt).toList ≠ d ++ ['/', '*', '*', '/', '*']) ∧
    PathPattern.ToGlobbingPattern "/..." = "//**/*" ∧
    PathPattern.ToGlobbingPattern "/a/..." = "/a//**/*" ∧
    PathPattern.ToGlobbingPattern "/a/*.go" = "/a/*.go" := by
  have hglob : ∀ patt, PathPattern.IsGlobbingPattern (PathPattern.ToGlobbingPattern patt) = true := by
    intro patt
    unfold PathPattern.ToGlobbingPattern
    by_cases hg : PathPattern.IsGlobbingPattern patt = true
    · rw [if_pos hg]; exact hg
    · rw [if_neg hg]
      unfold PathPattern.IsGlobbingPattern
      rw [PathPattern.IsPrefixPattern_glob]
      rfl
  refine ⟨hglob, ?_, ?_, by decide, by decide, by decide⟩
  · intro patt
    have h := hglob patt
    generalize PathPattern.ToGlobbingPattern patt = g at h
    unfold PathPattern.ToGlobbingPattern
    rw [if_pos h]
  · intro patt d h
    refine ⟨PathPattern.Prefix_toList patt d h, PathPattern.ToGlobbingPattern_toList patt d h, ?_⟩
    rw [PathPattern.ToGlobbingPattern_toList patt d h]
    intro h2
    have h3 := congrArg List.length h2
    simp at h3

/-! ## Inclusion of path patterns -/

/-- When a path pattern includes a path pattern: a prefix pattern when its prefix is a
prefix of the other pattern, a globbing pattern when the other pattern is the same. -/
theorem PathPattern.Includes_pattern_iff (dm : String → String → Except Error Bool)
    (p q : String) :
    PathPattern.Includes dm p (.pathPattern q) = .ok true ↔
      (PathPattern.IsPrefixPattern p = true ∧ (PathPattern.Prefix p).toList <+: q.toList) ∨
      (PathPattern.IsPrefixPattern p = false ∧ p = q) := by
  unfold PathPattern.Includes
  simp only
  cases hp : PathPattern.IsPrefixPattern p with
  | true =>
    simp only [if_true, Outcome.ok.injEq, true_and, Bool.true_eq_false, false_and, or_false]
    unfold stringsHasPrefix
    exact List.isPrefixOf_iff_prefix
  | false =>
    simp only [Bool.false_eq_true, if_false, Outcome.ok.injEq, decide_eq_true_eq, false_and,
      true_and, false_or]

/-- A prefix pattern includes the paths of which its prefix is a prefix. -/
theorem PathPattern.Includes_path_iff (dm : String → String → Except Error Bool)
    (p path : String) (hp : PathPattern.IsPrefixPattern p = true) :
    PathPattern.Includes dm p (.path path) = .ok true ↔
      (PathPattern.Prefix p).toList <+: path.toList := by
  unfold PathPattern.Includes
  simp only [hp, if_true, Outcome.ok.injEq]
  unfold stringsHasPrefix
  exact List.isPrefixOf_iff_prefix

/-- The prefix of a prefix pattern that includes another prefix pattern is a prefix of the
prefix of that pattern: it cannot end among the three dots, since it ends with a slash. -/
theorem PathPattern.Prefix_of_includes (p q : String)
    (hp : PathPattern.IsPrefixPattern p = true) (hq : PathPattern.IsPrefixPattern q = true)
    (h : (PathPattern.Prefix p).toList <+: q.toList) :
    (PathPattern.Prefix p).toList <+: (PathPattern.Prefix q).toList := by
  obtain ⟨dp, hdp⟩ := (PathPattern.IsPrefixPattern_iff p).1 hp
  obtain ⟨dq, hdq⟩ := (PathPattern.IsPrefixPattern_iff q).1 hq
  rw [PathPattern.Prefix_toList p dp hdp] at h ⊢
  rw [PathPattern.Prefix_toList q dq hdq]
  rw [hdq] at h
  have hq2 : dq ++ ['/'] <+: dq ++ ['/', '.', '.', '.'] := ⟨['.', '.', '.'], by simp⟩
  rcases List.prefix_or_prefix_of_prefix h hq2 with h1 | h1
  · exact h1
  · obtain ⟨t, ht⟩ := h1
    obtain ⟨u, hu⟩ := h
    have htu : t ++ u = ['.', '.', '.'] := by
      have h4 : (dq ++ ['/']) ++ (t ++ u) = (dq ++ ['/']) ++ ['.', '.', '.'] := by
        rw [← List.append_assoc, ht, hu]; simp
      exact List.append_cancel_left h4
    cases t with
    | nil => rw [List.append_nil] at ht; rw [ht]
    | cons t0 t1 =>
      exfalso
      have hlast : (dq ++ ['/'] ++ t0 :: t1).getLast? = some '/' := by rw [ht]; simp
      have hmem : ∀ c ∈ t0 :: t1, c = '.' := by
        intro c hc
        have : c ∈ t0 :: t1 ++ u := List.mem_append_left u hc
        rw [htu] at this
        simpa using this
      rw [List.getLast?_append_of_ne_nil _ (List.cons_ne_nil t0 t1)] at hlast
      have := hmem '/' (List.mem_of_mem_getLast? (Option.mem_def.2 hlast))
      exact absurd this (by decide)

/-- C40: on path patterns `PathPattern.Includes` is reflexive and transitive, and when a
prefix pattern includes a prefix pattern it includes every path that the latter includes;
for instance `/...` includes `/a/...`, which includes `/a/*.go` and the path `/a/b.go`,
while `/a/...` does not include `/...` and a globbing pattern includes no other
pattern. -/
theorem PathPattern.Includes_preorder (dm : String → String → Except Error Bool) :
    (∀ p, PathPattern.Includes dm p (.pathPattern p) = .ok true) ∧
    (∀ p q r, PathPattern.Includes dm p (.pathPattern q) = .ok true →
      PathPattern.Includes dm q (.pathPattern r) = .ok true →
      PathPattern.Includes dm p (.pathPattern r) = .ok true) ∧
    (∀ p q path, PathPattern.IsPrefixPattern p = true → PathPattern.IsPrefixPattern q = true →
      PathPattern.Includes dm p (.pathPattern q) = .ok true →
      PathPattern.Includes dm q (.path path) = .ok true →
      PathPattern.Includes dm p (.path path) = .ok true) ∧
    PathPattern.Includes dm "/..." (.pathPattern "/a/...") = .ok true ∧
    PathPattern.Includes dm "/a/..." (.pathPattern "/...") = .ok false ∧
    PathPattern.Includes dm "/a/..." (.pathPattern "/a/*.go") = .ok true ∧
    PathPattern.Includes dm "/a/*.go" (.pathPattern "/a/b.go") = .ok false ∧
    PathPattern.Includes dm "/a/..." (.path "/a/b.go") = .ok true ∧
    PathPattern.Includes dm "/..." (.path "/a/b.go") = .ok true := by
  refine ⟨?_, ?_, ?_, rfl, rfl, rfl, rfl, rfl, rfl⟩
  · intro p
    rw [PathPattern.Includes_pattern_iff]
    cases hp : PathPattern.IsPrefixPattern p with
    | false => right; exact ⟨rfl, rfl⟩
    | true =>
      left
      obtain ⟨d, hd⟩ := (PathPattern.IsPrefixPattern_iff p).1 hp
      rw [PathPattern.Prefix_toList p d hd, hd]
      exact ⟨rfl, ['.', '.', '.'], by simp⟩
  · intro p q r hpq hqr
    rw [PathPattern.Includes_pattern_iff] at hpq hqr ⊢
    rcases hpq with ⟨hp, hpq⟩ | ⟨hp, rfl⟩
    · left
      refine ⟨hp, ?_⟩
      rcases hqr with ⟨hq, hqr⟩ | ⟨_, rfl⟩
      · exact (PathPattern.Prefix_of_includes p q hp hq hpq).trans hqr
      · exact hpq
    · exact hqr
  · intro p q path hp hq hpq hqpath
    rw [PathPattern.Includes_pattern_iff] at hpq
    rw [PathPattern.Includes_path_iff dm _ _ hq] at hqpath
    rw [PathPattern.Includes_path_iff dm _ _ hp]
    rcases hpq with ⟨_, hpq⟩ | ⟨hp2, _⟩
    · exact (PathPattern.Prefix_of_includes p q hp hq hpq).trans hqpath
    · rw [hp] at hp2; cases hp2

end Inox
